import Mathlib

/-!
HCE laboratory: card-emulation core

A shallow embedding of the crypto primitives (`CipherAES`, `CipherDES`, `CMAC`),
of the device links and drivers (`HSU`, `MPSSE`, `PCSC`, `ACR122U`, `PN532`, `PN7160`),
of the targets, of the listener task (`TargetListenerTask`) and of the frame list of the
stream view (`StreamModel`), followed by the properties proved about them.

Bytes are natural numbers; `put(value)` stores its value modulo 256.
Operations that the C++ code guards with `assert`, or that would leave the bounds of a
buffer or divide by zero, end in a `Fault`.
-/

/-- Ways in which an operation can leave its contract. -/
inductive Fault where
  | assertion
  | overflow
  | underflow
  | bounds
  | diverged
  | arithmetic
  deriving DecidableEq, Repr

namespace rt

/-- Modelled from the spec: `rt::ByteBuffer` (lib-rt) is not among the sources. It is the
position/limit byte cursor of §3: `store` is the backing array (its length is the capacity),
`position` the cursor and `limit` the read boundary. -/
structure ByteBuffer where
  store : List Nat
  position : Nat
  limit : Nat
  deriving DecidableEq, Repr

namespace ByteBuffer

/-- The buffer built by `ByteBuffer(capacity)`: cursor at 0, limit at the capacity. -/
def alloc (capacity : Nat) : ByteBuffer := ⟨List.replicate capacity 0, 0, capacity⟩

/-- The buffer built by `ByteBuffer::zero(capacity)`: as `alloc`, every byte 0. -/
def zero (capacity : Nat) : ByteBuffer := ⟨List.replicate capacity 0, 0, capacity⟩

/-- The buffer built from an initializer list (or from pointer and length): the bytes, ready to
be read from position 0. -/
def ofList (bytes : List Nat) : ByteBuffer := ⟨bytes, 0, bytes.length⟩

def capacity (b : ByteBuffer) : Nat := b.store.length

def remaining (b : ByteBuffer) : Nat := b.limit - b.position

/-- Number of bytes up to the limit, the result of `size()` and of `elements()`. -/
def size (b : ByteBuffer) : Nat := b.limit

def elements (b : ByteBuffer) : Nat := b.limit

/-- The bytes from the start of the array up to the limit, what `data()` and `size()` hand to a
consumer. -/
def content (b : ByteBuffer) : List Nat := b.store.take b.limit

/-- The bytes between position and limit, what `ptr()` and `remaining()` hand to a consumer. -/
def readable (b : ByteBuffer) : List Nat := (b.store.take b.limit).drop b.position

/-- Switch from writing to reading: limit = position, position = 0. -/
def flip (b : ByteBuffer) : ByteBuffer := ⟨b.store, 0, b.position⟩

/-- Reset both cursors. -/
def clear (b : ByteBuffer) : ByteBuffer := ⟨b.store, 0, b.store.length⟩

/-- Store `bytes` at the cursor and move it past them; fails when they do not fit below the
limit. This is `put(ptr, length)` and `put({...})`. -/
def putBytes (b : ByteBuffer) (bytes : List Nat) : Except Fault ByteBuffer :=
  if b.position + bytes.length ≤ b.limit then
    .ok ⟨b.store.take b.position ++ bytes ++ b.store.drop (b.position + bytes.length),
         b.position + bytes.length, b.limit⟩
  else .error .overflow

/-- Store one value, truncated to a byte, at the cursor: `put(value)`. -/
def put (b : ByteBuffer) (value : Nat) : Except Fault ByteBuffer := b.putBytes [value % 256]

/-- Store the readable bytes of another buffer: `put(const ByteBuffer &)`. -/
def putBuffer (b : ByteBuffer) (other : ByteBuffer) : Except Fault ByteBuffer :=
  b.putBytes other.readable

/-- Move the cursor forward over `n` bytes, zeroing them when `fill` is set: `push(n, fill)`. -/
def push (b : ByteBuffer) (n : Nat) (fill : Bool) : Except Fault ByteBuffer :=
  if b.position + n ≤ b.limit then
    .ok ⟨if fill then b.store.take b.position ++ List.replicate n 0 ++ b.store.drop (b.position + n)
         else b.store, b.position + n, b.limit⟩
  else .error .overflow

/-- Extend the limit so that `n` more bytes can be stored from the cursor: `room(n)`. -/
def room (b : ByteBuffer) (n : Nat) : Except Fault ByteBuffer :=
  if b.position + n ≤ b.store.length then .ok ⟨b.store, b.position, b.position + n⟩
  else .error .overflow

/-- Read access `buffer[index]`, an absolute index below the limit. -/
def getAt (b : ByteBuffer) (index : Nat) : Except Fault Nat :=
  if index < b.limit then .ok (b.store.getD index 0) else .error .bounds

/-- Write access `buffer[index] = value` with a byte value, an absolute index below the
limit. -/
def setAt (b : ByteBuffer) (index : Nat) (value : Nat) : Except Fault ByteBuffer :=
  if index < b.limit then .ok ⟨b.store.set index value, b.position, b.limit⟩
  else .error .bounds

/-- Read `n` bytes at the cursor and move it past them: `get(block)`, `getBuffer(n)`. -/
def getBytes (b : ByteBuffer) (n : Nat) : Except Fault (List Nat × ByteBuffer) :=
  if n ≤ b.remaining then .ok (b.readable.take n, ⟨b.store, b.position + n, b.limit⟩)
  else .error .underflow

/-- Big-endian value of a byte sequence. -/
def beValue (bytes : List Nat) : Nat := bytes.foldl (fun acc d => acc * 256 + d) 0

/-- Big-endian bytes of the low `8 * n` bits of a value, most significant first. -/
def beBytes : Nat → Nat → List Nat
  | 0, _ => []
  | n + 1, value => (value / 256 ^ n) % 256 :: beBytes n value

/-- Read an `n`-byte big-endian integer at the cursor: `getLong(n, BigEndian)`. -/
def getLong (b : ByteBuffer) (n : Nat) : Except Fault (Nat × ByteBuffer) :=
  match b.getBytes n with
  | .ok (bytes, b1) => .ok (beValue bytes, b1)
  | .error e => .error e

/-- Store an `n`-byte big-endian integer at the cursor: `putLong(value, n, BigEndian)`. -/
def putLong (b : ByteBuffer) (value : Nat) (n : Nat) : Except Fault ByteBuffer :=
  b.putBytes (beBytes n value)

/-- The sub-buffer of `length` bytes that starts `offset` bytes after the cursor:
`slice(offset, length)`. -/
def slice (b : ByteBuffer) (offset length : Nat) : Except Fault ByteBuffer :=
  if offset + length ≤ b.remaining then .ok (ofList ((b.readable.drop offset).take length))
  else .error .bounds

/-- An independent copy: `copy()`. -/
def copy (b : ByteBuffer) : ByteBuffer := b

/-- Bitwise XOR of two buffers of equal length: `a ^ b`. -/
def xor (a b : ByteBuffer) : ByteBuffer := ofList (List.zipWith (· ^^^ ·) a.readable b.readable)

/-- Fold over the readable bytes with an `unsigned char` accumulator that adds: the
`reduce<unsigned char>(0, a + d)` used for checksums. -/
def reduceSum (b : ByteBuffer) : Nat := b.readable.foldl (fun a d => (a + d) % 256) 0

/-- Content equality `a == b`. -/
def contentEq (a b : ByteBuffer) : Bool := decide (a.readable = b.readable)

end ByteBuffer

end rt

namespace hw

open rt

namespace HSU

/-- Power mode of the PN532 as tracked by the link. -/
inductive Mode where
  | Normal
  | LowPower
  | PowerDown
  deriving DecidableEq, Repr

/-- A call made on the serial handle, with what it carried and what it answered. -/
inductive SysCall where
  | SetCommTimeouts (readTotal writeTotal : Int) (ok : Bool)
  | ReadFile (requested : Nat) (ok : Bool) (delivered : List Nat)
  | WriteFile (bytes : List Nat) (ok : Bool) (written : Nat)
  | PurgeComm
  deriving DecidableEq, Repr

/-- The serial port behind the handle: what its next calls will answer (a list that has run out
answers "success", "no byte arrived", "every byte written") and the record of the calls made. -/
structure Serial where
  timeoutResults : List Bool
  readResults : List (Bool × List Nat)
  writeResults : List (Bool × Nat)
  calls : List SysCall
  deriving DecidableEq, Repr

namespace Serial

def setCommTimeouts (p : Serial) (readTotal writeTotal : Int) : Bool × Serial :=
  match p.timeoutResults with
  | [] => (true, { p with calls := p.calls ++ [.SetCommTimeouts readTotal writeTotal true] })
  | ok :: rest =>
    (ok, { p with timeoutResults := rest,
                  calls := p.calls ++ [.SetCommTimeouts readTotal writeTotal ok] })

/-- One `ReadFile` of at most `requested` bytes: success flag and the bytes delivered. -/
def readFile (p : Serial) (requested : Nat) : Bool × List Nat × Serial :=
  match p.readResults with
  | [] => (true, [], { p with calls := p.calls ++ [.ReadFile requested true []] })
  | (ok, bytes) :: rest =>
    let delivered := if ok then bytes.take requested else []
    (ok, delivered, { p with readResults := rest,
                             calls := p.calls ++ [.ReadFile requested ok delivered] })

/-- One `WriteFile` of `bytes`: success flag and the number of bytes written. -/
def writeFile (p : Serial) (bytes : List Nat) : Bool × Nat × Serial :=
  match p.writeResults with
  | [] =>
    (true, bytes.length, { p with calls := p.calls ++ [.WriteFile bytes true (bytes.length)] })
  | (ok, n) :: rest =>
    let k := min n bytes.length
    (ok, k, { p with writeResults := rest, calls := p.calls ++ [.WriteFile bytes ok k] })

def purgeComm (p : Serial) : Serial := { p with calls := p.calls ++ [.PurgeComm] }

/-- From now on the port accepts every timeout setting and every write takes at least one
byte. -/
def Accepts (p : Serial) : Prop :=
  (∀ ok ∈ p.timeoutResults, ok = true) ∧ (∀ w ∈ p.writeResults, w.1 = true ∧ 0 < w.2)

end Serial

/-- The bytes that the `ReadFile` calls of a record delivered, in order. -/
def received : List SysCall → List Nat
  | [] => []
  | .ReadFile _ _ delivered :: rest => delivered ++ received rest
  | _ :: rest => received rest

/-- The byte strings that the `WriteFile` calls of a record carried, in order. -/
def written : List SysCall → List (List Nat)
  | [] => []
  | .WriteFile bytes _ _ :: rest => bytes :: written rest
  | _ :: rest => written rest

/-- A call that reported an error. -/
def SysCall.failed : SysCall → Bool
  | .SetCommTimeouts _ _ ok => !ok
  | .ReadFile _ ok _ => !ok
  | .WriteFile _ ok _ => !ok
  | .PurgeComm => false

/-- A call of the reading side: a timeout setting or a `ReadFile`. -/
def SysCall.reads : SysCall → Bool
  | .SetCommTimeouts _ _ _ => true
  | .ReadFile _ _ _ => true
  | _ => false

/-- State of `HSU::Impl`: whether the handle is open, the tracked power mode, and the port. -/
structure Impl where
  handleValid : Bool
  powerMode : Mode
  port : Serial
  deriving DecidableEq, Repr

def ackFrame : ByteBuffer := ByteBuffer.ofList [0x00, 0x00, 0xff, 0x00, 0xff, 0x00]

def wakeUpFrame : ByteBuffer :=
  ByteBuffer.ofList [0x55, 0x55, 0x00, 0x00, 0x00, 0x00, 0x00, 0x00, 0x00, 0x00, 0x00, 0x00,
    0x00, 0x00, 0x00, 0x00]

namespace Impl

/-- The `do ... while` of `read`: one `ReadFile` into the free part of `data` per turn. -/
def readLoop : Nat → Impl → ByteBuffer → Nat → Except Fault (Int × ByteBuffer × Impl)
  | 0, _, _, _ => .error .diverged
  | fuel + 1, s, data, totalReaded =>
    let (ok, bytes, port) := s.port.readFile data.remaining
    let s1 : Impl := { s with port := port }
    if !ok then .ok (-1, data, s1)
    else
      let total := totalReaded + bytes.length
      if total = 0 then .ok (-2, data, s1)
      else
        match data.putBytes bytes with
        | .error e => .error e
        | .ok data1 =>
          if 0 < bytes.length ∧ 0 < data1.remaining then readLoop fuel s1 data1 total
          else .ok ((total : Int), data1.flip, s1)

/-- `read(data, timeout)`: -1 on a port error, -2 when no byte arrived in time, else the number
of bytes read, with `data` flipped. -/
def read (s : Impl) (data : ByteBuffer) (timeout : Int) : Except Fault (Int × ByteBuffer × Impl) :=
  let (ok, port) := s.port.setCommTimeouts timeout timeout
  let s1 : Impl := { s with port := port }
  if !ok then .ok (-1, data, s1)
  else readLoop (data.remaining + 1) s1 data 0

/-- `write(data, timeout)`: -1 or -2 on a port error, else the number of bytes written. -/
def write (s : Impl) (data : ByteBuffer) (timeout : Int) : Int × Impl :=
  let (ok, port) := s.port.setCommTimeouts timeout timeout
  if !ok then (-1, { s with port := port })
  else
    let (ok2, written, port2) := port.writeFile data.content
    if !ok2 then (-2, { s with port := port2 })
    else ((written : Int), { s with port := port2 })

def purge (s : Impl) : Impl := { s with port := s.port.purgeComm }

/-- The frame `send` builds in its 255-byte buffer `tx`. -/
def buildFrame (cmd : ByteBuffer) : Except Fault ByteBuffer := do
  let tx := ByteBuffer.alloc 255
  let dcs := cmd.reduceSum
  let tx ← tx.putBytes [0x00, 0x00, 0xff]
  let tx ← tx.put cmd.remaining
  let tx ← tx.put ((4294967296 + 256 - cmd.remaining) % 4294967296)
  let tx ← tx.putBytes cmd.readable
  let tx ← tx.put (256 - dcs)
  let tx ← tx.putBytes [0x00]
  pure tx.flip

/-- The part of `send` after the wake-up: build and write the frame, track the power mode, read
and check the ACK. -/
def sendFrame (s : Impl) (cmd : ByteBuffer) (timeout : Int) : Except Fault (Int × Impl) := do
  let ack := ByteBuffer.alloc 6
  let tx ← buildFrame cmd
  let (w, s1) := s.write tx 100
  if w ≤ 0 then return (-1, s1)
  let op ← cmd.getAt 1
  let s2 : Impl := if op = 0x16 then { s1 with powerMode := .PowerDown }
    else if op = 0x8c then { s1 with powerMode := .PowerDown } else s1
  let (r, ack1, s3) ← s2.read ack timeout
  if r ≤ 0 then return (r, s3)
  let s4 : Impl := if op = 0x8c then { s3 with powerMode := .Normal } else s3
  if ack1.limit < 6 then return (-1, s4)
  return (if ack1.contentEq ackFrame then 0 else -1, s4)

/-- `send(cmd, timeout)`: wake the PN532 up when it is not in normal mode, then `sendFrame`. -/
def send (s : Impl) (cmd : ByteBuffer) (timeout : Int) : Except Fault (Int × Impl) :=
  if s.powerMode ≠ Mode.Normal then
    let (w, s1) := s.write wakeUpFrame 100
    if w ≤ 0 then .ok (-1, s1)
    else sendFrame { s1 with powerMode := .Normal } cmd (timeout + 1000)
  else sendFrame s cmd timeout

/-- The tail of `recv` once the body length is known: body, checksum, postamble. -/
def recvBody (s : Impl) (res : ByteBuffer) (length : Nat) :
    Except Fault (Int × ByteBuffer × Impl) := do
  let postamble := ByteBuffer.alloc 1
  let body := ByteBuffer.alloc (length + 1)
  let (r, body1, s1) ← s.read body 100
  if r ≤ 0 then return (-1, res, s1)
  if body1.reduceSum ≠ 0 then return (-1, res, s1.purge)
  let res1 ← res.putBytes (body1.readable.take (body1.remaining - 1))
  let res2 := res1.flip
  let (r2, postamble1, s2) ← s1.read postamble 100
  if r2 ≤ 0 then return (-1, res2, s2)
  let p0 ← postamble1.getAt 0
  if p0 ≠ 0x00 then return (-1, res2, s2.purge)
  return (0, res2, s2)

/-- `recv(res, timeout)`: read one response frame, normal or extended, into `res`. -/
def recv (s : Impl) (res : ByteBuffer) (timeout : Int) :
    Except Fault (Int × ByteBuffer × Impl) := do
  let header := ByteBuffer.alloc 5
  let (r, header1, s1) ← s.read header timeout
  if r ≤ 0 then return (r, res, s1)
  let h0 ← header1.getAt 0
  if h0 ≠ 0x00 then return (-1, res, s1)
  let h1 ← header1.getAt 1
  if h1 ≠ 0x00 then return (-1, res, s1)
  let h2 ← header1.getAt 2
  if h2 ≠ 0xff then return (-1, res, s1)
  let h3 ← header1.getAt 3
  let h4 ← header1.getAt 4
  if h3 = 0xff ∧ h4 = 0xff then
    let header2 ← header1.flip.room 3
    let (r2, header3, s2) ← s1.read header2 100
    if r2 ≤ 0 then return (r2, res, s2)
    let e0 ← header3.getAt 0
    let e1 ← header3.getAt 1
    let e2 ← header3.getAt 2
    if e0 + e1 + e2 ≠ 256 then return (-1, res, s2.purge)
    recvBody s2 res (e0 * 256 + e1)
  else
    if h3 + h4 ≠ 256 then return (-1, res, s1.purge)
    recvBody s1 res h3

/-- `transmit(cmd, res, timeout)`: purge, send the command and wait for its ACK, then read the
response. -/
def transmit (s : Impl) (cmd : ByteBuffer) (res : ByteBuffer) (timeout : Int) :
    Except Fault (Int × ByteBuffer × Impl) := do
  if s.handleValid = false then return (-1, res, s)
  let s0 := s.purge
  let (r, s1) ← s0.send cmd timeout
  if r ≠ 0 then return (r, res, s1)
  let (r2, res1, s2) ← s1.recv res timeout
  if r2 ≠ 0 then return (r2, res1, s2)
  return (0, res1, s2)

end Impl

end HSU

end hw

namespace hce

open rt

/-- The primitives the crypto code calls without defining them: the block functions of the AES
library (`aes_128/192/256_encrypt` and `_decrypt`, working in place on one block under the key
given to `aes_*_init`), of the DES library (`DES3::encrypt` and `DES3::decrypt` on 64-bit
words under three 64-bit keys) and `rt::ByteBuffer::shiftBits(·, Left)`. -/
structure Primitives where
  aesEncrypt : Nat → List Nat → List Nat → List Nat
  aesDecrypt : Nat → List Nat → List Nat → List Nat
  des3Encrypt : Nat → Nat → Nat → Nat → Nat
  des3Decrypt : Nat → Nat → Nat → Nat → Nat
  shiftBitsLeft : List Nat → List Nat

/-- The primitives that work on a buffer leave its length as it is. -/
def Primitives.InPlace (P : Primitives) : Prop :=
  (∀ mode key block, (P.aesEncrypt mode key block).length = block.length) ∧
  (∀ mode key block, (P.aesDecrypt mode key block).length = block.length) ∧
  (∀ bytes, (P.shiftBitsLeft bytes).length = bytes.length)

/-- State of a `CipherAES` after `init`: the key size as `mode` and the key held by the AES
context. -/
structure CipherAES where
  mode : Nat
  key : List Nat
  deriving DecidableEq, Repr

namespace CipherAES

def init (key : ByteBuffer) : Except Fault CipherAES :=
  if key.size = 16 ∨ key.size = 24 ∨ key.size = 32 then .ok ⟨key.size, key.content⟩
  else .error .assertion

/-- The `while` of `encrypt(input, iv)`; returns the output buffer, flipped, and the IV. -/
def encryptLoop (P : Primitives) (c : CipherAES) :
    Nat → ByteBuffer → ByteBuffer → ByteBuffer → Except Fault (ByteBuffer × ByteBuffer)
  | 0, _, _, _ => .error .diverged
  | fuel + 1, tmp, iv, output =>
    if 16 ≤ tmp.remaining then
      match tmp.getBytes 16 with
      | .error e => .error e
      | .ok (bytes, tmp1) =>
        let block := (ByteBuffer.ofList bytes).xor iv
        let block1 := ByteBuffer.ofList (P.aesEncrypt c.mode c.key block.content)
        match output.putBuffer block1 with
        | .error e => .error e
        | .ok output1 => encryptLoop P c fuel tmp1 block1.copy output1
    else .ok (output.flip, iv)

/-- `encrypt(input, iv)`: CBC encryption; returns the output and the updated `iv`. -/
def encrypt (P : Primitives) (c : CipherAES) (input iv : ByteBuffer) :
    Except Fault (ByteBuffer × ByteBuffer) :=
  if input.remaining % 16 ≠ 0 then .error .assertion
  else if iv.size ≠ 16 then .error .assertion
  else encryptLoop P c (input.remaining + 1) input iv (ByteBuffer.alloc input.remaining)

/-- The `while` of `decrypt(input, iv)`. -/
def decryptLoop (P : Primitives) (c : CipherAES) :
    Nat → ByteBuffer → ByteBuffer → ByteBuffer → Except Fault (ByteBuffer × ByteBuffer)
  | 0, _, _, _ => .error .diverged
  | fuel + 1, tmp, iv, output =>
    if 16 ≤ tmp.remaining then
      match tmp.getBytes 16 with
      | .error e => .error e
      | .ok (bytes, tmp1) =>
        let block := ByteBuffer.ofList bytes
        let niv := block.copy
        let block1 := ByteBuffer.ofList (P.aesDecrypt c.mode c.key block.content)
        let block2 := block1.xor iv
        match output.putBuffer block2 with
        | .error e => .error e
        | .ok output1 => decryptLoop P c fuel tmp1 niv output1
    else .ok (output.flip, iv)

/-- `decrypt(input, iv)`: CBC decryption; returns the output and the updated `iv`. -/
def decrypt (P : Primitives) (c : CipherAES) (input iv : ByteBuffer) :
    Except Fault (ByteBuffer × ByteBuffer) :=
  if input.remaining % 16 ≠ 0 then .error .assertion
  else if iv.size ≠ 16 then .error .assertion
  else decryptLoop P c (input.remaining + 1) input iv (ByteBuffer.alloc input.remaining)

end CipherAES

/-- State of a `CipherDES` after `init`: the decrypt mode and the three keys of `DES3`. -/
structure CipherDES where
  mode : Int
  k1 : Nat
  k2 : Nat
  k3 : Nat
  deriving DecidableEq, Repr

namespace CipherDES

def Iso : Int := 0

def Legacy : Int := 1

def init (key : ByteBuffer) (mode : Int) : Except Fault CipherDES :=
  if key.size = 8 ∨ key.size = 16 ∨ key.size = 24 then
    let tmp := key
    if tmp.remaining = 8 then do
      let (k1, _) ← tmp.getLong 8
      pure ⟨mode, k1, k1, k1⟩
    else if tmp.remaining = 16 then do
      let (k1, tmp1) ← tmp.getLong 8
      let (k2, _) ← tmp1.getLong 8
      pure ⟨mode, k1, k2, k1⟩
    else if tmp.remaining = 24 then do
      let (k1, tmp1) ← tmp.getLong 8
      let (k2, tmp2) ← tmp1.getLong 8
      let (k3, _) ← tmp2.getLong 8
      pure ⟨mode, k1, k2, k3⟩
    else pure ⟨mode, 0, 0, 0⟩
  else .error .assertion

/-- `des3->encrypt(block)`, a 64-bit word. -/
def blockEncrypt (P : Primitives) (c : CipherDES) (block : Nat) : Nat :=
  P.des3Encrypt c.k1 c.k2 c.k3 block % 18446744073709551616

/-- `des3->decrypt(block)`, a 64-bit word. -/
def blockDecrypt (P : Primitives) (c : CipherDES) (block : Nat) : Nat :=
  P.des3Decrypt c.k1 c.k2 c.k3 block % 18446744073709551616

/-- The `while` of `encrypt(input, iv)`; returns the output buffer, not yet flipped, and
`iv64`. -/
def encryptLoop (P : Primitives) (c : CipherDES) :
    Nat → ByteBuffer → Nat → ByteBuffer → Except Fault (ByteBuffer × Nat)
  | 0, _, _, _ => .error .diverged
  | fuel + 1, tmp, iv64, output =>
    if 8 ≤ tmp.remaining then
      match tmp.getLong 8 with
      | .error e => .error e
      | .ok (block, tmp1) =>
        let crypt := blockEncrypt P c (block ^^^ iv64)
        match output.putLong crypt 8 with
        | .error e => .error e
        | .ok output1 => encryptLoop P c fuel tmp1 crypt output1
    else .ok (output, iv64)

/-- `encrypt(input, iv)`: CBC encryption; returns the output and the updated `iv`. -/
def encrypt (P : Primitives) (c : CipherDES) (input iv : ByteBuffer) :
    Except Fault (ByteBuffer × ByteBuffer) :=
  if input.remaining % 8 ≠ 0 then .error .assertion
  else if iv.size ≠ 8 then .error .assertion
  else do
    let (iv64, iv1) ← iv.getLong 8
    let (output, iv64') ← encryptLoop P c (input.remaining + 1) input iv64
      (ByteBuffer.alloc input.remaining)
    let iv2 ← iv1.clear.putLong iv64' 8
    pure (output.flip, iv2.flip)

/-- The `while` of `decrypt(input, iv)`. -/
def decryptLoop (P : Primitives) (c : CipherDES) :
    Nat → ByteBuffer → Nat → ByteBuffer → Except Fault (ByteBuffer × Nat)
  | 0, _, _, _ => .error .diverged
  | fuel + 1, tmp, iv64, output =>
    if 8 ≤ tmp.remaining then
      match tmp.getLong 8 with
      | .error e => .error e
      | .ok (block, tmp1) =>
        let value := if c.mode = Legacy then blockEncrypt P c block ^^^ iv64
          else blockDecrypt P c block ^^^ iv64
        match output.putLong value 8 with
        | .error e => .error e
        | .ok output1 => decryptLoop P c fuel tmp1 block output1
    else .ok (output, iv64)

/-- `decrypt(input, iv)`: CBC decryption; returns the output and the updated `iv`. -/
def decrypt (P : Primitives) (c : CipherDES) (input iv : ByteBuffer) :
    Except Fault (ByteBuffer × ByteBuffer) :=
  if input.remaining % 8 ≠ 0 then .error .assertion
  else if iv.size ≠ 8 then .error .assertion
  else do
    let (iv64, iv1) ← iv.getLong 8
    let (output, iv64') ← decryptLoop P c (input.remaining + 1) input iv64
      (ByteBuffer.alloc input.remaining)
    let iv2 ← iv1.clear.putLong iv64' 8
    pure (output.flip, iv2.flip)

end CipherDES

/-- A `Cipher *`: one of the two implementations of the interface. -/
inductive Cipher where
  | aes (c : CipherAES)
  | des (c : CipherDES)
  deriving DecidableEq, Repr

namespace Cipher

/-- `cipher->encrypt(input, iv)`. -/
def encrypt (P : Primitives) : Cipher → ByteBuffer → ByteBuffer →
    Except Fault (ByteBuffer × ByteBuffer)
  | .aes c, input, iv => c.encrypt P input iv
  | .des c, input, iv => c.encrypt P input iv

/-- `cipher->encrypt(input)`: encryption from a zero IV of one block. -/
def encryptZeroIv (P : Primitives) : Cipher → ByteBuffer → Except Fault ByteBuffer
  | .aes c, input => do
    let (output, _) ← c.encrypt P input (ByteBuffer.zero 16)
    pure output
  | .des c, input => do
    let (output, _) ← c.encrypt P input (ByteBuffer.zero 8)
    pure output

end Cipher

namespace CMAC

inductive Mode where
  | CmacTDES
  | CmacAES128
  | CmacAES128Trunc
  deriving DecidableEq, Repr

/-- Block size selected by the mode. -/
def blockSize : Mode → Nat
  | .CmacAES128 => 16
  | .CmacAES128Trunc => 16
  | .CmacTDES => 8

/-- Reduction mask selected by the mode. -/
def blockMask : Mode → Nat
  | .CmacAES128 => 0x87
  | .CmacAES128Trunc => 0x87
  | .CmacTDES => 0x1b

/-- `cipher->init(key, 0)` on the cipher selected by the mode. -/
def initCipher (key : ByteBuffer) : Mode → Except Fault Cipher
  | .CmacAES128 => do
    let c ← CipherAES.init key
    pure (.aes c)
  | .CmacAES128Trunc => do
    let c ← CipherAES.init key
    pure (.aes c)
  | .CmacTDES => do
    let c ← CipherDES.init key 0
    pure (.des c)

/-- One subkey step: `k = shiftBits(prev, Left); if ((prev[0] & 0x80) != 0) k[size - 1] ^= mask`. -/
def nextSubkey (P : Primitives) (prev : ByteBuffer) (size mask : Nat) : Except Fault ByteBuffer := do
  let k := ByteBuffer.ofList (P.shiftBitsLeft prev.content)
  let top ← prev.getAt 0
  if top &&& 0x80 ≠ 0 then
    let last ← k.getAt (size - 1)
    k.setAt (size - 1) (last ^^^ mask)
  else pure k

/-- The subkeys `k0`, `k1`, `k2` that `cmac` derives. -/
def subkeys (P : Primitives) (cipher : Cipher) (size mask : Nat) :
    Except Fault (ByteBuffer × ByteBuffer × ByteBuffer) := do
  let k0 ← cipher.encryptZeroIv P (ByteBuffer.zero size)
  let k1 ← nextSubkey P k0 size mask
  let k2 ← nextSubkey P k1 size mask
  pure (k0, k1, k2)

/-- The loop `for (i = 0; i < size; i++) data[data.size() - size + i] ^= k[i]`, the index
computed in 32-bit unsigned arithmetic. -/
def xorLastBlock (data k : ByteBuffer) (size : Nat) : Except Fault ByteBuffer :=
  (List.range size).foldlM (fun d i => do
    let index := (d.size + 4294967296 - size + i) % 4294967296
    let kv ← k.getAt i
    let dv ← d.getAt index
    d.setAt index (dv ^^^ kv)) data

/-- The padded and masked message that `cmac` encrypts, flipped. -/
def prepare (input k1 k2 : ByteBuffer) (size : Nat) : Except Fault ByteBuffer := do
  let padding := if input.remaining % size = 0 then 0 else size - input.remaining % size
  let data := ByteBuffer.zero (input.remaining + padding)
  let data1 ← data.putBuffer input
  if padding > 0 then
    let data2 ← data1.put 0x80
    let data3 ← data2.push (padding - 1) true
    let data4 ← xorLastBlock data3 k2 size
    pure data4.flip
  else
    let data4 ← xorLastBlock data1 k1 size
    pure data4.flip

/-- The truncation loop `for (i = 0; i < result.capacity(); ++i) result[i] = crypt[i * 2 + 1]`. -/
def truncate (crypt : ByteBuffer) (size : Nat) : Except Fault ByteBuffer :=
  let result := ByteBuffer.alloc (size / 2)
  (List.range result.capacity).foldlM (fun r i => do
    let v ← crypt.getAt (i * 2 + 1)
    r.setAt i v) result

/-- `CMAC::cmac(key, input, iv, mode)`. -/
def cmac (P : Primitives) (key input iv : ByteBuffer) (mode : Mode) : Except Fault ByteBuffer := do
  let size := blockSize mode
  let mask := blockMask mode
  let cipher ← initCipher key mode
  let (_, k1, k2) ← subkeys P cipher size mask
  let data ← prepare input k1 k2 size
  let tmpIv := iv
  let (crypt, _) ← cipher.encrypt P data tmpIv
  let crypt1 ← crypt.slice ((crypt.remaining + 4294967296 - size) % 4294967296) size
  if mode = Mode.CmacAES128Trunc then truncate crypt1 size
  else pure crypt1

end CMAC

end hce

namespace hce

open rt

def NfcATech : Nat := 0x0101

def NfcActivateFrame : Nat := 0x0100

def NfcDeactivateFrame : Nat := 0x0101

def NfcRequestFrame : Nat := 0x0211

def NfcResponseFrame : Nat := 0x0212

/-- A `Frame`: the byte buffer it extends (`none` for the default-constructed frame, which has
no storage) and the fields of `Frame::Impl`. -/
structure Frame where
  buffer : Option ByteBuffer
  techType : Nat
  frameType : Nat
  frameFlags : Nat
  frameRate : Nat
  frameTime : Nat
  deriving DecidableEq, Repr

namespace Frame

/-- `Frame()`. -/
def empty : Frame := ⟨none, 0, 0, 0, 0, 0⟩

/-- `Frame(techType, frameType, data, frameTime)`: a buffer of `data.size()` bytes, the data put
into it and flipped. -/
def ofData (techType frameType : Nat) (data : ByteBuffer) (frameTime : Nat) :
    Except Fault Frame := do
  let buffer ← (ByteBuffer.alloc data.size).putBuffer data
  pure ⟨some buffer.flip, techType, frameType, 0, 0, frameTime⟩

/-- Modelled from the spec: `rt::ByteBuffer::isValid`, the result of `operator bool`, is not
among the sources. A frame is valid when it carries a buffer; the default-constructed frame
is the absent value. -/
def isValid (f : Frame) : Bool := f.buffer.isSome

/-- The bytes a frame carries. -/
def payload (f : Frame) : List Nat :=
  match f.buffer with
  | some b => b.readable
  | none => []

end Frame

/-- The `Target` interface, over the state `σ` of the object behind the pointer. `process`
receives the request and the cleared response buffer and returns its code and the response. -/
structure Target (σ : Type) where
  select : σ → σ
  deselect : σ → σ
  process : σ → ByteBuffer → ByteBuffer → Except Fault (Int × ByteBuffer × σ)

namespace targets

/-- State of `T4T::Impl`: the target parameters. -/
structure T4T where
  targetATQA : Nat
  targetSAK : Nat
  targetTB1 : Nat
  targetTC1 : Nat
  targetHB : ByteBuffer
  targetUID : ByteBuffer
  deriving DecidableEq, Repr

namespace T4T

/-- `T4T::process`: the command processor answers "class not supported"; the response is then
flipped. -/
def process (t : T4T) (_request : ByteBuffer) (response : ByteBuffer) :
    Except Fault (Int × ByteBuffer × T4T) := do
  let response1 ← response.putBytes [0x6E, 0x00]
  pure (0, response1.flip, t)

/-- The T4T target behind the `Target` interface. -/
def target : Target T4T := ⟨fun t => t, fun t => t, process⟩

end T4T

end targets

namespace tasks

namespace TargetListenerTask

def EVENT_TIMEOUT : Int := 0

def EVENT_ACTIVATED : Int := 2

def EVENT_DEACTIVATED : Int := 3

def EVENT_DATA : Int := 5

/-- What the task sees of its surroundings: the events `pn7160.waitEvent` is going to deliver
(event code and payload; an event 0, or the end of the list, is a timeout), the results of the
coming `sendData` calls (`true` once the list has run out), the coming readings of `timeMs()`,
and what the task has handed out: the buffers given to `sendData` and the frames published on
the frame stream. -/
structure World where
  pending : List (Int × List Nat)
  sendResults : List Bool
  clock : List Nat
  sent : List ByteBuffer
  frames : List Frame
  deriving DecidableEq, Repr

namespace World

/-- `timeMs()`: the next reading of the clock. -/
def timeMs (w : World) : Nat × World :=
  match w.clock with
  | [] => (0, w)
  | t :: rest => (t, { w with clock := rest })

/-- `pn7160.sendData(data)`. -/
def sendData (w : World) (data : ByteBuffer) : Bool × World :=
  match w.sendResults with
  | [] => (true, { w with sent := w.sent ++ [data] })
  | ok :: rest => (ok, { w with sendResults := rest, sent := w.sent ++ [data] })

/-- `listenerFrameStream->next(frame)`. -/
def next (w : World) (frame : Frame) : World := { w with frames := w.frames ++ [frame] }

end World

/-- State of `TargetListenerTask::Impl`: the listener status and the target, if any. -/
structure Impl (σ : Type) where
  listenerStatus : Int
  target : Option σ

/-- The body of the `while` in `process()` for one event that `waitEvent` has delivered into
`request`. Returns the task, the world and the response buffer. -/
def onEvent {σ : Type} (tgt : Target σ) (s : Impl σ) (w : World) (event : Int)
    (request response : ByteBuffer) : Except Fault (Impl σ × World × ByteBuffer) := do
  let (t1, w1) := w.timeMs
  let requestFrame ← Frame.ofData NfcATech NfcRequestFrame request t1
  if event = EVENT_DATA then
    let response1 := response.clear
    match s.target with
    | some st =>
      let (code, response2, st1) ← tgt.process st request response1
      let s1 : Impl σ := { s with target := some st1 }
      if code = 0 then
        let (t2, w2) := w1.timeMs
        let responseFrame ← Frame.ofData NfcATech NfcResponseFrame response2 (t2 + 1)
        let (_, w3) := w2.sendData response2
        let w4 := if requestFrame.isValid then w3.next requestFrame else w3
        let w5 := if responseFrame.isValid then w4.next responseFrame else w4
        pure (s1, w5, response2)
      else
        let w4 := if requestFrame.isValid then w1.next requestFrame else w1
        pure (s1, w4, response2)
    | none =>
      let w4 := if requestFrame.isValid then w1.next requestFrame else w1
      pure (s, w4, response1)
  else if event = EVENT_ACTIVATED then
    let s1 : Impl σ := { s with target := s.target.map tgt.select }
    let (t2, w2) := w1.timeMs
    let activateFrame ← Frame.ofData NfcATech NfcActivateFrame request t2
    pure (s1, w2.next activateFrame, response)
  else if event = EVENT_DEACTIVATED then
    let s1 : Impl σ := { s with target := s.target.map tgt.deselect }
    let (t2, w2) := w1.timeMs
    let deactivateFrame ← Frame.ofData NfcATech NfcDeactivateFrame request t2
    pure (s1, w2.next deactivateFrame, response)
  else pure (s, w1, response)

/-- The `while (event = pn7160.waitEvent(request, 500))` of `process()` over the events still to
come; returns the task, the world and the events left for later calls. -/
def processLoop {σ : Type} (tgt : Target σ) :
    List (Int × List Nat) → Impl σ → World → ByteBuffer → ByteBuffer →
    Except Fault (Impl σ × World × List (Int × List Nat))
  | [], s, w, _, _ => .ok (s, w, [])
  | (event, payload) :: rest, s, w, request, response =>
    if event = EVENT_TIMEOUT then .ok (s, w, rest)
    else
      match request.putBytes payload with
      | .error e => .error e
      | .ok request1 =>
        match onEvent tgt s w event request1.flip response with
        | .error e => .error e
        | .ok (s1, w1, response1) => processLoop tgt rest s1 w1 request1.flip.clear response1

/-- `process()`: nothing unless the listener status is `Listening`, else the event loop on two
fresh 256-byte buffers. `Listening` is the value of that enumerator, declared in a header that
is not among the sources. -/
def process {σ : Type} (Listening : Int) (tgt : Target σ) (s : Impl σ) (w : World) :
    Except Fault (Impl σ × World) :=
  if s.listenerStatus ≠ Listening then .ok (s, w)
  else
    match processLoop tgt w.pending s { w with pending := [] } (ByteBuffer.alloc 256)
        (ByteBuffer.alloc 256) with
    | .error e => .error e
    | .ok (s1, w1, rest) => .ok (s1, { w1 with pending := rest })

end TargetListenerTask

end tasks

end hce

namespace rt.ByteBuffer

/-- Read one byte at the cursor and move past it: `get()`. -/
def get (b : ByteBuffer) : Except Fault (Nat × ByteBuffer) :=
  match b.getBytes 1 with
  | .ok (bytes, b1) => .ok (bytes.headD 0, b1)
  | .error e => .error e

/-- The next `n` bytes as a buffer of their own, the cursor moved past them: `getBuffer(n)`. -/
def getBuffer (b : ByteBuffer) (n : Nat) : Except Fault (ByteBuffer × ByteBuffer) :=
  match b.getBytes n with
  | .ok (bytes, b1) => .ok (ofList bytes, b1)
  | .error e => .error e

/-- Move the cursor over `n` bytes: `skip(n)`. -/
def skip (b : ByteBuffer) (n : Nat) : Except Fault ByteBuffer :=
  if n ≤ b.remaining then .ok ⟨b.store, b.position + n, b.limit⟩ else .error .underflow

/-- Read an `n`-byte integer at the cursor: `getInt(n)`, `getInt(n, BigEndian)`. The callers
here read one byte, or log the value only. -/
def getInt (b : ByteBuffer) (n : Nat) : Except Fault (Nat × ByteBuffer) := b.getLong n

/-- Store the low `n` bytes of a value, most significant first: `putInt(value, n)` for one
byte and `putInt(value, n, BigEndian)`. -/
def putInt (b : ByteBuffer) (value : Nat) (n : Nat) : Except Fault ByteBuffer := b.putLong value n

/-- Modelled from the spec: `rt::ByteBuffer::isEmpty` is not among the sources. A buffer is
empty when no byte is left between its cursor and its limit. -/
def isEmpty (b : ByteBuffer) : Bool := decide (b.remaining = 0)

end rt.ByteBuffer

namespace hw

open rt

/-- One call on the MPSSE transport, with its outcome. -/
inductive BusCall where
  | Open (protocol clock : Nat) (ok : Bool)
  | Close
  | SetGpio (pin value : Nat)
  | GetGpio (pin : Nat) (level : Int)
  | Sleep (us : Nat)
  | Start (ok : Bool)
  | Stop
  | Write (bytes : List Nat) (ok : Bool)
  | Read (requested : Nat) (delivered : Option (List Nat))
  deriving DecidableEq, Repr

/-- The MPSSE transport as its user sees it: whether a device is open, what the coming calls
will answer (`open` finds no device and `read` fails once their lists have run out, `start` and
`write` succeed, a pin reads 0) and the record of the calls made. -/
structure MPSSE where
  opened : Bool
  openResults : List Bool
  startResults : List Bool
  writeResults : List Bool
  readResults : List (Option (List Nat))
  pins : List Int
  calls : List BusCall
  deriving DecidableEq, Repr

namespace MPSSE

def I2C : Nat := 0

def SPI0 : Nat := 1

def CLK_100KHZ : Nat := 100000

def CLK_1MHZ : Nat := 1000000

def GPIOL1 : Nat := 1

def GPIOH2 : Nat := 6

def GPIOH3 : Nat := 7

/-- `close()`. -/
def close (m : MPSSE) : MPSSE := { m with opened := false, calls := m.calls ++ [.Close] }

/-- `open(protocol, clock)`: closes first, then looks for the device and sets it up. -/
def openPort (m : MPSSE) (protocol clock : Nat) : Bool × MPSSE :=
  match m.openResults with
  | [] => (false, { m with opened := false, calls := m.calls ++ [.Open protocol clock false] })
  | ok :: rest =>
    (ok, { m with opened := ok, openResults := rest, calls := m.calls ++ [.Open protocol clock ok] })

/-- `start()`: the bus start condition. -/
def start (m : MPSSE) : Bool × MPSSE :=
  if m.opened = false then (false, m)
  else
    match m.startResults with
    | [] => (true, { m with calls := m.calls ++ [.Start true] })
    | ok :: rest => (ok, { m with startResults := rest, calls := m.calls ++ [.Start ok] })

/-- `stop()`: the bus stop condition; its callers drop the result. -/
def stop (m : MPSSE) : MPSSE :=
  if m.opened = false then m else { m with calls := m.calls ++ [.Stop] }

/-- `write(data)`: the readable bytes of `data` go out. -/
def write (m : MPSSE) (data : ByteBuffer) : Bool × MPSSE :=
  if m.opened = false then (false, m)
  else
    match m.writeResults with
    | [] => (true, { m with calls := m.calls ++ [.Write data.readable true] })
    | ok :: rest =>
      (ok, { m with writeResults := rest, calls := m.calls ++ [.Write data.readable ok] })

/-- `read(data)`: fills what remains of `data` with bytes from the bus and flips it. -/
def read (m : MPSSE) (data : ByteBuffer) : Bool × ByteBuffer × MPSSE :=
  if m.opened = false then (false, data, m)
  else
    match m.readResults with
    | [] => (false, data, { m with calls := m.calls ++ [.Read data.remaining none] })
    | none :: rest =>
      (false, data, { m with readResults := rest, calls := m.calls ++ [.Read data.remaining none] })
    | some bytes :: rest =>
      let delivered :=
        (bytes.map (· % 256) ++ List.replicate data.remaining 0).take data.remaining
      (true,
        ⟨data.store.take data.position ++ delivered ++
            data.store.drop (data.position + data.remaining), 0, data.position + data.remaining⟩,
        { m with readResults := rest,
                 calls := m.calls ++ [.Read data.remaining (some delivered)] })

/-- `getGpio(pin)`: the level of the pin, or -1 when the pins cannot be read. -/
def getGpio (m : MPSSE) (pin : Nat) : Int × MPSSE :=
  match m.pins with
  | [] => (0, { m with calls := m.calls ++ [.GetGpio pin 0] })
  | level :: rest => (level, { m with pins := rest, calls := m.calls ++ [.GetGpio pin level] })

/-- `setGpio(pin, value)`; its callers drop the result. -/
def setGpio (m : MPSSE) (pin value : Nat) : MPSSE :=
  { m with calls := m.calls ++ [.SetGpio pin value] }

/-- `usleep(us)` between two calls on the transport. -/
def usleep (m : MPSSE) (us : Nat) : MPSSE := { m with calls := m.calls ++ [.Sleep us] }

end MPSSE

namespace PN7160

def I2C : Nat := 0

def SPI : Nat := 1

def STATUS_CLOSED : Nat := 0

def STATUS_OPENED : Nat := 1

def STATUS_LISTENING : Nat := 2

def STATUS_POLLING : Nat := 4

def EVENT_UNKNOW : Int := -1

def EVENT_TIMEOUT : Int := 0

def EVENT_FIELD_INFO : Int := 1

def EVENT_ACTIVATED : Int := 2

def EVENT_DEACTIVATED : Int := 3

def EVENT_CREDITS : Int := 4

def EVENT_DATA : Int := 5

def PN7160_T_WL_DWL : Nat := 5000

def PN7160_T_WL_VDD : Nat := 5000

def PN7160_T_WL_VEN : Nat := 5000

def PN7160_T_BOOT : Nat := 5000

def PN7160_DEFAULT_TIMEOUT : Int := 500

def PN7160_FT232H_IRQ_PIN : Nat := MPSSE.GPIOL1

def PN7160_FT232H_DWL_PIN : Nat := MPSSE.GPIOH2

def PN7160_FT232H_VEN_PIN : Nat := MPSSE.GPIOH3

def NCI_MT_DATA : Nat := 0x00

def NCI_MT_EVENT_CORE : Nat := 0x60

def NCI_MT_EVENT_RF : Nat := 0x61

def NCI_STATUS_OK : Nat := 0x00

def NCI_OP_CORE_CONN_CREDITS_NTF : Nat := 0x06

def NCI_OP_RF_INTF_ACTIVATED_NTF : Nat := 0x05

def NCI_OP_RF_DEACTIVATE_NTF : Nat := 0x06

def NCI_OP_RF_FIELD_INFO_NTF : Nat := 0x07

def POWER_MODE_FULL : Nat := 0x00

def NCI_DATA_CMD : ByteBuffer := ByteBuffer.ofList [0x00, 0x00]

def NCI_CORE_RESET_CMD : ByteBuffer := ByteBuffer.ofList [0x20, 0x00]

def NCI_CORE_INIT_CMD : ByteBuffer := ByteBuffer.ofList [0x20, 0x01]

def NCI_CORE_SET_CONF_CMD : ByteBuffer := ByteBuffer.ofList [0x20, 0x02]

def NCI_CORE_SET_POWER_MODE_CMD : ByteBuffer := ByteBuffer.ofList [0x2F, 0x00]

def NCI_RF_DEACTIVATE_CMD : ByteBuffer := ByteBuffer.ofList [0x21, 0x06]

def NXP_CONF_CORE : List ByteBuffer := [ByteBuffer.ofList [0x00, 0x02, 0xFE, 0x01]]

def NXP_CONF_CORE_EXT : List ByteBuffer :=
  [ByteBuffer.ofList [0xA0, 0x40, 0x01, 0x00],
   ByteBuffer.ofList [0xA0, 0x95, 0x01, 0x00],
   ByteBuffer.ofList [0xA0, 0x03, 0x01, 0x08]]

def NXP_CONF_TVDD : List ByteBuffer :=
  [ByteBuffer.ofList
    [0xA0, 0x0E, 0x0B, 0x11, 0x01, 0x01, 0x01, 0x00, 0x00, 0x00, 0x40, 0x00, 0xD0, 0x0C]]

def NXP_CONF_RF : List ByteBuffer :=
  [ByteBuffer.ofList [0xA0, 0x0D, 0x03, 0x78, 0x0D, 0x02],
   ByteBuffer.ofList [0xA0, 0x0D, 0x03, 0x78, 0x14, 0x02],
   ByteBuffer.ofList [0xA0, 0x0D, 0x06, 0x4C, 0x44, 0x65, 0x09, 0x00, 0x00],
   ByteBuffer.ofList [0xA0, 0x0D, 0x06, 0x4C, 0x2D, 0x05, 0x35, 0x1E, 0x01],
   ByteBuffer.ofList [0xA0, 0x0D, 0x06, 0x82, 0x4A, 0x55, 0x07, 0x00, 0x07],
   ByteBuffer.ofList [0xA0, 0x0D, 0x06, 0x44, 0x44, 0x03, 0x04, 0xC4, 0x00],
   ByteBuffer.ofList [0xA0, 0x0D, 0x06, 0x46, 0x30, 0x50, 0x00, 0x18, 0x00],
   ByteBuffer.ofList [0xA0, 0x0D, 0x06, 0x48, 0x30, 0x50, 0x00, 0x18, 0x00],
   ByteBuffer.ofList [0xA0, 0x0D, 0x06, 0x4A, 0x30, 0x50, 0x00, 0x08, 0x00],
   ByteBuffer.ofList
    [0xA0, 0xAF, 0x0C, 0x03, 0xC0, 0x80, 0xA0, 0x00, 0x03, 0xC0, 0x80, 0xA0, 0x00, 0x00, 0x08],
   ByteBuffer.ofList [0xA0, 0x3A, 0x08, 0xB4, 0x00, 0xB4, 0x00, 0xB4, 0x00, 0xB4, 0x00],
   ByteBuffer.ofList [0xA0, 0x0D, 0x06, 0x08, 0x37, 0x28, 0x76, 0x00, 0x00],
   ByteBuffer.ofList [0xA0, 0x0D, 0x06, 0x08, 0x42, 0x00, 0x02, 0xF9, 0xFF],
   ByteBuffer.ofList [0xA0, 0x0D, 0x06, 0x08, 0x44, 0x04, 0x04, 0xC4, 0x00],
   ByteBuffer.ofList [0xA0, 0x0D, 0x06, 0xC2, 0x35, 0x00, 0x3E, 0x00, 0x03],
   ByteBuffer.ofList [0xA0, 0x0D, 0x03, 0x24, 0x03, 0x7F]]

/-- A `PN7160::Parameter`. -/
structure Parameter where
  tag : Nat
  value : ByteBuffer
  deriving DecidableEq, Repr

/-- State of `PN7160::Impl`: the transport, the coming readings of the steady clock in
milliseconds (0 once the list has run out), the protocol, the I2C address and the status. -/
structure Impl where
  mpsse : MPSSE
  clock : List Nat
  protocol : Nat
  i2cAddress : Nat
  status : Nat
  deriving DecidableEq, Repr

namespace Impl

/-- `std::chrono::steady_clock::now()`. -/
def now (s : Impl) : Nat × Impl :=
  match s.clock with
  | [] => (0, s)
  | t :: rest => (t, { s with clock := rest })

/-- `isOpen()`. -/
def isOpen (s : Impl) : Bool := decide (s.status ≠ STATUS_CLOSED)

/-- `close()`. -/
def close (s : Impl) : Impl := { s with mpsse := s.mpsse.close, status := STATUS_CLOSED }

/-- `hasMessage()`: the IRQ pin, read as a truth value. -/
def hasMessage (s : Impl) : Bool × Impl :=
  let (level, m) := s.mpsse.getGpio PN7160_FT232H_IRQ_PIN
  (decide (level ≠ 0), { s with mpsse := m })

/-- `nciSend(cmd)`. -/
def nciSend (s : Impl) (cmd : ByteBuffer) : Except Fault (Bool × Impl) := do
  let target := if s.protocol = I2C then (s.i2cAddress <<< 1) % 256 else 0x00
  let buffer0 ← (ByteBuffer.alloc (1 + cmd.elements)).put target
  let buffer1 ← buffer0.putBuffer cmd
  let buffer := buffer1.flip
  let (started, m1) := s.mpsse.start
  if started = false then return (false, { s with mpsse := m1 })
  let (written, m2) := m1.write buffer
  let m3 := m2.stop
  if written = false then return (false, { s with mpsse := m3 })
  return (true, { s with mpsse := m3 })

/-- The block of `nciRecv` that runs once `hasMessage()` holds: request byte, header, payload,
and the message committed to `res`. -/
def readMessage (s : Impl) (res : ByteBuffer) : Except Fault (Bool × ByteBuffer × Impl) := do
  let request := if s.protocol = I2C then ((s.i2cAddress <<< 1) ||| 1) % 256 else 0xff
  let (started, m1) := s.mpsse.start
  if started = false then return (false, res, { s with mpsse := m1 })
  let hdr := ByteBuffer.alloc 3
  let (asked, m2) := m1.write (ByteBuffer.ofList [request])
  if asked = false then return (false, res, { s with mpsse := m2.stop })
  let (gotHeader, hdr1, m3) := m2.read hdr
  if gotHeader = false then return (false, res, { s with mpsse := m3.stop })
  match hdr1.getAt 2 with
  | .error e => .error e
  | .ok length =>
    if res.capacity < length then return (false, res, { s with mpsse := m3.stop })
    let data := ByteBuffer.alloc length
    let (gotData, data1, m4) := m3.read data
    if gotData = false then return (false, res, { s with mpsse := m4.stop })
    let res1 ← res.putBuffer hdr1
    let res2 ← res1.putBuffer data1
    return (true, res2.flip, { s with mpsse := m4.stop })

/-- The `do ... while` of `nciRecv`: poll the IRQ pin until a message is there or the time is
up. The fuel bounds the turns by the readings still to come. -/
def recvLoop : Nat → Impl → ByteBuffer → Int → Nat → Except Fault (Bool × ByteBuffer × Impl)
  | 0, _, _, _, _ => .error .diverged
  | fuel + 1, s, res, timeout, startTime =>
    let (message, s1) := s.hasMessage
    if message then readMessage s1 res
    else if timeout < 0 then recvLoop fuel s1 res timeout startTime
    else
      let (t, s2) := s1.now
      if (t : Int) - (startTime : Int) < timeout then recvLoop fuel s2 res timeout startTime
      else .ok (false, res, s2)

/-- `nciRecv(res, timeout)`. -/
def nciRecv (s : Impl) (res : ByteBuffer) (timeout : Int) :
    Except Fault (Bool × ByteBuffer × Impl) :=
  if res.capacity < 3 then .ok (false, res, s)
  else
    let (startTime, s1) := s.now
    recvLoop (s1.mpsse.pins.length + s1.clock.length + 1) s1 res timeout startTime

/-- `nciControl(cmd, rsp)`: send, read the response within 500 ms, check its status byte. -/
def nciControl (s : Impl) (cmd rsp : ByteBuffer) : Except Fault (Bool × ByteBuffer × Impl) := do
  let (sent, s1) ← nciSend s cmd
  if sent = false then return (false, rsp, s1)
  let (received, rsp1, s2) ← nciRecv s1 rsp PN7160_DEFAULT_TIMEOUT
  if received = false then return (false, rsp1, s2)
  let status ← rsp1.getAt 3
  if status ≠ NCI_STATUS_OK then return (false, rsp1, s2)
  return (true, rsp1, s2)

end Impl

end PN7160

end hw

namespace hw

open rt

namespace PN7160

namespace Impl

/-- The fields of the reset notification that `nciCoreReset` reads for its log. -/
def logResetNotification (rsp : ByteBuffer) : Except Fault Unit := do
  let rsp2 ← rsp.skip 4
  let (_confMode, rsp3) ← rsp2.getInt 1
  let (_nciVersion, rsp4) ← rsp3.getInt 1
  let (_manufacturerId, rsp5) ← rsp4.getInt 1
  let (info, rsp6) ← rsp5.getInt 1
  if info = 4 then
    let (_hardwareVersion, rsp7) ← rsp6.getInt 1
    let (_romCodeVersion, rsp8) ← rsp7.getInt 1
    let (_flashMajorVersion, rsp9) ← rsp8.getInt 1
    let (_flashMinorVersion, _) ← rsp9.getInt 1
    pure ()
  else pure ()

/-- `nciCoreReset(resetConfig)`: the command, then the reset notification and its fields. -/
def nciCoreReset (s : Impl) (resetConfig : Bool) : Except Fault (Bool × Impl) := do
  let cmd0 ← (ByteBuffer.alloc 256).putBuffer NCI_CORE_RESET_CMD
  let cmd1 ← cmd0.put 0x01
  let cmd2 ← cmd1.put (if resetConfig then 1 else 0)
  let (ok, rsp, s1) ← nciControl s cmd2.flip (ByteBuffer.alloc 256)
  if ok = false then return (false, s1)
  let (notified, rsp1, s2) ← nciRecv s1 rsp.clear 1000
  if notified = false then return (false, s2)
  let _ ← logResetNotification rsp1
  return (true, s2)

/-- The loop of `nciCoreInit` that logs the supported RF interfaces, two bytes each. -/
def logInterfaces : Nat → ByteBuffer → Except Fault ByteBuffer
  | 0, rsp => .ok rsp
  | n + 1, rsp =>
    match rsp.getInt 2 with
    | .error e => .error e
    | .ok (_, rsp1) => logInterfaces n rsp1

/-- The fields of the response that `nciCoreInit` reads for its log. -/
def logInitResponse (rsp : ByteBuffer) : Except Fault Unit := do
  let rsp1 ← rsp.skip 4
  let (_features, rsp2) ← rsp1.getBuffer 4
  let (_connections, rsp3) ← rsp2.getInt 1
  let (_routing, rsp4) ← rsp3.getBuffer 2
  let (_control, rsp5) ← rsp4.getInt 1
  let (_data, rsp6) ← rsp5.getInt 1
  let (_credits, rsp7) ← rsp6.getInt 1
  let (_frame, rsp8) ← rsp7.getInt 2
  let (supInf, rsp9) ← rsp8.getInt 1
  if supInf ≠ 0 then
    let _ ← logInterfaces supInf rsp9
    pure ()
  else pure ()

/-- `nciCoreInit()`: the command, then the fields of the response, which are logged. -/
def nciCoreInit (s : Impl) : Except Fault (Bool × Impl) := do
  let cmd0 ← (ByteBuffer.alloc 256).putBuffer NCI_CORE_INIT_CMD
  let cmd1 ← cmd0.put 0x02
  let cmd2 ← cmd1.putBytes [0x00, 0x00]
  let (ok, rsp, s1) ← nciControl s cmd2.flip (ByteBuffer.alloc 256)
  if ok = false then return (false, s1)
  let _ ← logInitResponse rsp
  return (true, s1)

/-- The loop of `nciSetConfig` that puts every parameter into `data`. -/
def putAll : List ByteBuffer → ByteBuffer → Except Fault ByteBuffer
  | [], data => .ok data
  | parameter :: rest, data =>
    match data.putBuffer parameter with
    | .error e => .error e
    | .ok data1 => putAll rest data1

/-- `nciSetConfig(parameters)`: nothing to send for an empty list, else one
`CORE_SET_CONFIG` with the number of parameters and the parameters. -/
def nciSetConfig (s : Impl) (parameters : List ByteBuffer) : Except Fault (Bool × Impl) :=
  if parameters.isEmpty then .ok (true, s)
  else do
    let data0 ← (ByteBuffer.alloc 256).put parameters.length
    let data1 ← putAll parameters data0
    let data := data1.flip
    let cmd0 ← (ByteBuffer.alloc 256).putBuffer NCI_CORE_SET_CONF_CMD
    let cmd1 ← cmd0.put data.elements
    let cmd2 ← cmd1.putBuffer data
    let (ok, _, s1) ← nciControl s cmd2.flip (ByteBuffer.alloc 256)
    if ok = false then return (false, s1)
    return (true, s1)

/-- `nciSetPowerMode(mode)`. -/
def nciSetPowerMode (s : Impl) (mode : Nat) : Except Fault (Bool × Impl) := do
  let payload := ByteBuffer.ofList [mode % 256]
  let cmd0 ← (ByteBuffer.alloc 256).putBuffer NCI_CORE_SET_POWER_MODE_CMD
  let cmd1 ← cmd0.put payload.elements
  let cmd2 ← cmd1.putBuffer payload
  let (ok, _, s1) ← nciControl s cmd2.flip (ByteBuffer.alloc 256)
  if ok = false then return (false, s1)
  return (true, s1)

/-- `nciRfDiscoveryStop()`: the `RF_DEACTIVATE` command. -/
def nciRfDiscoveryStop (s : Impl) : Except Fault (Bool × Impl) := do
  let cmd0 ← (ByteBuffer.alloc 256).putBuffer NCI_RF_DEACTIVATE_CMD
  let cmd1 ← cmd0.put 0x01
  let cmd2 ← cmd1.put 0x00
  let (ok, _, s1) ← nciControl s cmd2.flip (ByteBuffer.alloc 256)
  if ok = false then return (false, s1)
  return (true, s1)

/-- `coreReset(resetConfig)`: reset, then init. -/
def coreReset (s : Impl) (resetConfig : Bool) : Except Fault (Bool × Impl) := do
  let (reset, s1) ← nciCoreReset s resetConfig
  if reset = false then return (false, s1)
  let (init, s2) ← nciCoreInit s1
  if init = false then return (false, s2)
  return (true, s2)

/-- The entry `setParameters` builds for one parameter: the tag in two bytes when it has a bit
of 0xA000, else in one, the number of elements of the value in one byte, the value. -/
def parameterEntry (tag : Nat) (value : ByteBuffer) : Except Fault ByteBuffer := do
  let entry := ByteBuffer.alloc 255
  let entry1 ← if tag &&& 0xA000 ≠ 0 then entry.putInt tag 2 else entry.putInt tag 1
  let entry2 ← entry1.putInt value.elements 1
  let entry3 ← entry2.putBuffer value
  pure entry3.flip

/-- The loop of `setParameters` over the parameters: `none` when a value is empty, else the
list of entries. -/
def buildEntries : List Parameter → List ByteBuffer → Except Fault (Option (List ByteBuffer))
  | [], list => .ok (some list)
  | p :: rest, list =>
    if p.value.isEmpty then .ok none
    else
      match parameterEntry p.tag p.value with
      | .error e => .error e
      | .ok entry => buildEntries rest (list ++ [entry])

/-- `setParameters(parameters)`. -/
def setParameters (s : Impl) (parameters : List Parameter) : Except Fault (Bool × Impl) :=
  if parameters.isEmpty then .ok (true, s)
  else
    match buildEntries parameters [] with
    | .error e => .error e
    | .ok none => .ok (false, s)
    | .ok (some list) => nciSetConfig s list

/-- The mark of `open` on the transport after a failed step that leaves the loop with `break`:
`mpsse.close()`. -/
def abort (s : Impl) : Impl := { s with mpsse := s.mpsse.close }

/-- The `while (true)` block of `open`, the initialization sequence. A failed `coreReset` or
`nciSetPowerMode` leaves the block with `break`, after which the transport is closed; a failed
`nciSetConfig` returns at once. -/
def initSequence (s : Impl) : Except Fault (Bool × Impl) := do
  let (reset, s1) ← coreReset s true
  if reset = false then return (false, s1.abort)
  let (core, s2) ← nciSetConfig s1 NXP_CONF_CORE
  if core = false then return (false, s2)
  let (coreExt, s3) ← nciSetConfig s2 NXP_CONF_CORE_EXT
  if coreExt = false then return (false, s3)
  let (tvdd, s4) ← nciSetConfig s3 NXP_CONF_TVDD
  if tvdd = false then return (false, s4)
  let (rf, s5) ← nciSetConfig s4 NXP_CONF_RF
  if rf = false then return (false, s5)
  let (again, s6) ← coreReset s5 false
  if again = false then return (false, s6.abort)
  let (power, s7) ← nciSetPowerMode s6 POWER_MODE_FULL
  if power = false then return (false, s7.abort)
  return (true, { s7 with status := STATUS_OPENED })

/-- `open(config)`: close, open the transport, reset the chip over its pins, then the
initialization sequence. -/
def openDevice (s : Impl) : Except Fault (Bool × Impl) :=
  let s0 := s.close
  let (found, m0) := s0.mpsse.openPort (if s0.protocol = SPI then MPSSE.SPI0 else MPSSE.I2C)
    (if s0.protocol = SPI then MPSSE.CLK_1MHZ else MPSSE.CLK_100KHZ)
  if found = false then .ok (false, { s0 with mpsse := m0 })
  else
    let m1 := (m0.setGpio PN7160_FT232H_DWL_PIN 0).usleep PN7160_T_WL_DWL
    let m2 := (m1.setGpio PN7160_FT232H_VEN_PIN 1).usleep PN7160_T_WL_VDD
    let m3 := (m2.setGpio PN7160_FT232H_VEN_PIN 0).usleep PN7160_T_WL_VEN
    let m4 := (m3.setGpio PN7160_FT232H_VEN_PIN 1).usleep PN7160_T_BOOT
    initSequence { s0 with mpsse := m4 }

/-- `stopDiscoveryMode()`: `RF_DEACTIVATE`, and on success the status back to opened. -/
def stopDiscoveryMode (s : Impl) : Except Fault (Bool × Impl) := do
  let (ok, s1) ← nciRfDiscoveryStop s
  if ok = false then return (false, s1)
  return (true, { s1 with status := STATUS_OPENED })

/-- The reads that `waitEvent` logs of a credits notification: two bytes per entry. -/
def logCredits : Nat → ByteBuffer → Except Fault ByteBuffer
  | 0, payload => .ok payload
  | n + 1, payload => do
    let (_connId, payload1) ← payload.get
    let (_credits, payload2) ← payload1.get
    logCredits n payload2

/-- The read of a length-prefixed block for the log: `if (l > 0) payload.getBuffer(l)`. -/
def logBlock (l : Nat) (payload : ByteBuffer) : Except Fault ByteBuffer :=
  if l > 0 then
    match payload.getBuffer l with
    | .error e => .error e
    | .ok (_, payload1) => .ok payload1
  else .ok payload

/-- The reads that `waitEvent` logs of an activation notification. -/
def logActivated (payload : ByteBuffer) : Except Fault ByteBuffer := do
  let (_discoveryId, p1) ← payload.get
  let (_interface, p2) ← p1.get
  let (_protocol, p3) ← p2.get
  let (_activationMode, p4) ← p3.get
  let (_maxPayload, p5) ← p4.get
  let (_initialCredits, p6) ← p5.get
  let (l, p7) ← p6.get
  let p8 ← logBlock l p7
  let (_exchangeMode, p9) ← p8.get
  let (_transmitRate, p10) ← p9.get
  let (_receiveRate, p11) ← p10.get
  let (l2, p12) ← p11.get
  logBlock l2 p12

/-- The reads that `waitEvent` makes on the payload of a notification, by message type and
opcode, before it returns the event code. -/
def logNotification (mt op : Nat) (payload : ByteBuffer) : Except Fault Unit :=
  if mt = NCI_MT_EVENT_CORE then
    if op = NCI_OP_CORE_CONN_CREDITS_NTF then do
      let (entries, payload1) ← payload.get
      let _ ← logCredits entries payload1
      pure ()
    else pure ()
  else if mt = NCI_MT_EVENT_RF then
    if op = NCI_OP_RF_INTF_ACTIVATED_NTF then do
      let _ ← logActivated payload
      pure ()
    else if op = NCI_OP_RF_DEACTIVATE_NTF then do
      let (_type, payload1) ← payload.get
      let (_reason, _) ← payload1.get
      pure ()
    else if op = NCI_OP_RF_FIELD_INFO_NTF then do
      let (_field, _) ← payload.get
      pure ()
    else pure ()
  else pure ()

/-- The `switch` of `waitEvent` on message type and opcode. -/
def eventCode (mt op : Nat) : Int :=
  if mt = NCI_MT_DATA then EVENT_DATA
  else if mt = NCI_MT_EVENT_CORE then
    if op = NCI_OP_CORE_CONN_CREDITS_NTF then EVENT_CREDITS else EVENT_UNKNOW
  else if mt = NCI_MT_EVENT_RF then
    if op = NCI_OP_RF_INTF_ACTIVATED_NTF then EVENT_ACTIVATED
    else if op = NCI_OP_RF_DEACTIVATE_NTF then EVENT_DEACTIVATED
    else if op = NCI_OP_RF_FIELD_INFO_NTF then EVENT_FIELD_INFO
    else EVENT_UNKNOW
  else EVENT_UNKNOW

/-- `waitEvent(data, timeout)`: the event code, the caller's buffer and the device. -/
def waitEvent (s : Impl) (data : ByteBuffer) (timeout : Int) :
    Except Fault (Int × ByteBuffer × Impl) := do
  let (received, event, s1) ← nciRecv s (ByteBuffer.alloc 256) timeout
  if received = false then return (EVENT_TIMEOUT, data, s1)
  let (b0, event1) ← event.get
  let mt := b0 &&& 0xEF
  let (b1, event2) ← event1.get
  let op := b1 &&& 0x3F
  let (len, event3) ← event2.get
  let (payload, _) ← event3.getBuffer len
  let data1 ← data.putBuffer payload
  let data2 := data1.flip
  let _ ← logNotification mt op payload
  return (eventCode mt op, data2, s1)

end Impl

/-- The public `PN7160::stopDiscovery()`: it calls `impl->nciRfDiscoveryStop()`. -/
def stopDiscovery (s : Impl) : Except Fault (Bool × Impl) := s.nciRfDiscoveryStop

/-- The public `PN7160::status()`. -/
def status (s : Impl) : Nat := s.status

end PN7160

end hw

/-! ## Target parameters and the command loop of the listener task -/

namespace rt

/-- Modelled from the spec: `rt::Variant` (lib-rt) is not among the sources. It is the
tagged-union value through which parameters are exchanged. The alternatives are the empty value
of `return {}`, the three types that `T4T` asks for with `std::get_if` (`unsigned char`,
`unsigned short`, `rt::Buffer<unsigned char>`), and any further alternative, known by a tag. -/
inductive Variant where
  | empty
  | uchar (v : Nat)
  | ushort (v : Nat)
  | buffer (b : ByteBuffer)
  | other (alternative : Nat)
  deriving DecidableEq, Repr

/-- The bytes that `rt::ByteBuffer(b.ptr(), b.size())` copies: `size()` bytes from `ptr()`. -/
def ByteBuffer.copied (b : ByteBuffer) : List Nat := (b.store.drop b.position).take b.limit

end rt

namespace hce

open rt

namespace Target

def PARAM_UID : Int := 0

def PARAM_ATQA : Int := 1

def PARAM_SAK : Int := 2

def PARAM_RATS_TB1 : Int := 10

def PARAM_RATS_TC1 : Int := 11

def PARAM_RATS_HB : Int := 12

end Target

namespace targets

namespace T4T

open Target

/-- `T4T::Impl::getParam(id)`. -/
def getParam (t : T4T) (id : Int) : Variant :=
  if id = PARAM_ATQA then .ushort t.targetATQA
  else if id = PARAM_SAK then .uchar t.targetSAK
  else if id = PARAM_UID then .buffer t.targetUID
  else if id = PARAM_RATS_TB1 then .uchar t.targetTB1
  else if id = PARAM_RATS_TC1 then .uchar t.targetTC1
  else if id = PARAM_RATS_HB then .buffer t.targetHB
  else .empty

/-- `T4T::Impl::setParam(id, value)`: the result and the target. A buffer is stored as a new
buffer of its bytes, `rt::ByteBuffer(v->ptr(), v->size())`. -/
def setParam (t : T4T) (id : Int) (value : Variant) : Bool × T4T :=
  if id = PARAM_ATQA then
    match value with
    | .ushort v => (true, { t with targetATQA := v % 65536 })
    | _ => (false, t)
  else if id = PARAM_SAK then
    match value with
    | .uchar v => (true, { t with targetSAK := v % 256 })
    | _ => (false, t)
  else if id = PARAM_UID then
    match value with
    | .buffer v => (true, { t with targetUID := ByteBuffer.ofList v.copied })
    | _ => (false, t)
  else if id = PARAM_RATS_TB1 then
    match value with
    | .uchar v => (true, { t with targetTB1 := v % 256 })
    | _ => (false, t)
  else if id = PARAM_RATS_TC1 then
    match value with
    | .uchar v => (true, { t with targetTC1 := v % 256 })
    | _ => (false, t)
  else if id = PARAM_RATS_HB then
    match value with
    | .buffer v => (true, { t with targetHB := ByteBuffer.ofList v.copied })
    | _ => (false, t)
  else (false, t)

/-- `T4T::get(id)`. -/
def get (t : T4T) (id : Int) : Variant := t.getParam id

/-- `T4T::set(id, value)`. -/
def set (t : T4T) (id : Int) (value : Variant) : Bool × T4T := t.setParam id value

end T4T

end targets

namespace tasks

namespace TargetListenerTask

open Target

/-- What can leave `loop()` instead of a result: a fault of the event loop, the exception of
`json::parse` on a text that is not well-formed, the exception of `std::get<T>` on a variant
that holds another alternative. -/
inductive Thrown where
  | fault (f : Fault)
  | parse_error
  | bad_variant_access
  deriving DecidableEq, Repr

/-- Modelled from the spec: a queued command `\x7bcode, data?\x7d`, the `rt::Event` that
`commandQueue.get()` hands out; `rt::Event` is not among the sources. -/
structure Command where
  code : Int
  data : Option String
  deriving DecidableEq, Repr

/-- Modelled from the spec: what the caller of a command is told, by `resolve()` or by
`reject(error)`. -/
inductive Completion where
  | resolved
  | rejected (error : Int)
  deriving DecidableEq, Repr

/-- The enumerators of the command codes, of the errors and of the listener statuses; they are
declared in headers that are not among the sources. -/
structure Codes where
  Start : Int
  Stop : Int
  Configure : Int
  UnknownCommand : Int
  InvalidConfig : Int
  Absent : Int
  Idle : Int
  Listening : Int
  deriving DecidableEq, Repr

/-- What `loop()` sees beyond the event loop of `process()`: the command queue; the calls of
`resolve` and `reject` made so far, each with its command; the statuses handed to
`updateStatus`, each with the text of its `status` field; whether the device is open
(`if (pn7160)`); the results of the coming `pn7160.open()` and `pn7160.startDiscovery` calls
(`false` once a list has run out); the coming results of `rt::ByteBuffer::random(7)` (seven
zero bytes once the list has run out); the parameter lists handed to `startDiscovery`; the
number of `stopDiscovery` calls; the waits. -/
structure Host where
  queue : List Command
  completions : List (Command × Completion)
  statuses : List (Int × String)
  opened : Bool
  openResults : List Bool
  discoveryResults : List Bool
  randoms : List (List Nat)
  discoveries : List (List hw.PN7160.Parameter)
  stops : Nat
  waits : List Nat
  deriving DecidableEq, Repr

namespace Host

/-- `command.resolve()`. -/
def resolve (h : Host) (command : Command) : Host :=
  { h with completions := h.completions ++ [(command, .resolved)] }

/-- `command.reject(error)`. -/
def reject (h : Host) (command : Command) (error : Int) : Host :=
  { h with completions := h.completions ++ [(command, .rejected error)] }

/-- `rt::ByteBuffer::random(7)`. -/
def random (h : Host) : ByteBuffer × Host :=
  match h.randoms with
  | [] => (ByteBuffer.ofList (List.replicate 7 0), h)
  | bytes :: rest => (ByteBuffer.ofList ((bytes.map (· % 256) ++ List.replicate 7 0).take 7),
      { h with randoms := rest })

/-- `pn7160.open()`. -/
def openDevice (h : Host) : Bool × Host :=
  match h.openResults with
  | [] => (false, { h with opened := false })
  | ok :: rest => (ok, { h with opened := ok, openResults := rest })

/-- `pn7160.startDiscovery(parameters, DISCOVERY_LISTEN)`. -/
def startDiscovery (h : Host) (parameters : List hw.PN7160.Parameter) : Bool × Host :=
  match h.discoveryResults with
  | [] => (false, { h with discoveries := h.discoveries ++ [parameters] })
  | ok :: rest =>
    (ok, { h with discoveryResults := rest, discoveries := h.discoveries ++ [parameters] })

/-- `pn7160.stopDiscovery()`. -/
def stopDiscovery (h : Host) : Host := { h with stops := h.stops + 1 }

/-- `wait(milliseconds)`. -/
def wait (h : Host) (milliseconds : Nat) : Host := { h with waits := h.waits ++ [milliseconds] }

end Host

/-- `updateListenerStatus(status)`. -/
def updateListenerStatus (codes : Codes) (s : Impl targets.T4T) (h : Host) (status : Int) :
    Impl targets.T4T × Host :=
  ({ s with listenerStatus := status },
    { h with statuses := h.statuses ++
      [(status, if status = codes.Idle then "idle"
        else if status = codes.Listening then "listening" else "disabled")] })

/-- `target->get<unsigned short>(id)`, that is `std::get<unsigned short>(get(id))`. -/
def getShort (t : targets.T4T) (id : Int) : Except Thrown Nat :=
  match t.get id with
  | .ushort v => .ok v
  | _ => .error .bad_variant_access

/-- `target->get<unsigned char>(id)`. -/
def getChar (t : targets.T4T) (id : Int) : Except Thrown Nat :=
  match t.get id with
  | .uchar v => .ok v
  | _ => .error .bad_variant_access

/-- `target->get<rt::Buffer<unsigned char>>(id)`. -/
def getBuffer (t : targets.T4T) (id : Int) : Except Thrown ByteBuffer :=
  match t.get id with
  | .buffer v => .ok v
  | _ => .error .bad_variant_access

/-- `startListening(command)`: a new T4T target with its default parameters, the discovery
parameters built from them, and the status Listening when the discovery has started. The
command is not used. -/
def startListening (codes : Codes) (s : Impl targets.T4T) (h : Host) (_command : Command) :
    Except Thrown (Impl targets.T4T × Host) := do
  let (uidBytes, h1) := h.random
  let target : targets.T4T := ⟨0x4403, 0x20, 0x81, 0x02, ByteBuffer.ofList [0x80], uidBytes⟩
  let s1 : Impl targets.T4T := { s with target := some target }
  let atqa ← getShort target PARAM_ATQA
  let sak ← getChar target PARAM_SAK
  let tb1 ← getChar target PARAM_RATS_TB1
  let tc1 ← getChar target PARAM_RATS_TC1
  let uid ← getBuffer target PARAM_UID
  let hist ← getBuffer target PARAM_RATS_HB
  let sn := ByteBuffer.ofList uid.copied
  let hb := ByteBuffer.ofList hist.copied
  let parameters : List hw.PN7160.Parameter := [
    ⟨0x30, ByteBuffer.ofList [atqa / 256 % 256]⟩,
    ⟨0x31, ByteBuffer.ofList [atqa % 256]⟩,
    ⟨0x32, ByteBuffer.ofList [sak]⟩,
    ⟨0x33, sn⟩,
    ⟨0x5B, ByteBuffer.ofList [0x00]⟩,
    ⟨0x58, ByteBuffer.ofList [tb1]⟩,
    ⟨0x5C, ByteBuffer.ofList [tc1]⟩,
    ⟨0x59, hb⟩,
    ⟨0x80, ByteBuffer.ofList [0x00]⟩,
    ⟨0x81, ByteBuffer.ofList [0x01]⟩]
  let (started, h2) := h1.startDiscovery parameters
  if started = false then return (s1, h2)
  return updateListenerStatus codes s1 h2 codes.Listening

/-- `stopListening(command)`. The command is not used. -/
def stopListening (codes : Codes) (s : Impl targets.T4T) (h : Host) (_command : Command) :
    Impl targets.T4T × Host :=
  let h1 := if h.opened then h.stopDiscovery else h
  updateListenerStatus codes s h1 codes.Idle

/-- `configureTarget(command)`. `json::parse` is known by the texts that are well-formed; on
any other text it throws, and neither `configureTarget` nor `loop` catches. -/
def configureTarget (wellFormed : String → Bool) (codes : Codes) (s : Impl targets.T4T)
    (h : Host) (command : Command) : Except Thrown (Impl targets.T4T × Host) :=
  match command.data with
  | some data =>
    if wellFormed data then .ok (updateListenerStatus codes s (h.resolve command) 0)
    else .error .parse_error
  | none => .ok (s, h.reject command codes.InvalidConfig)

/-- `refresh()`. -/
def refresh (codes : Codes) (s : Impl targets.T4T) (h : Host) : Impl targets.T4T × Host :=
  let (ok, h1) := h.openDevice
  if ok then updateListenerStatus codes s h1 codes.Idle
  else
    let (s1, h2) := updateListenerStatus codes s h1 codes.Absent
    (s1, h2.wait 1000)

/-- The end of `loop()`: the event loop when the device is open, else `refresh()`. -/
def poll (codes : Codes) (s : Impl targets.T4T) (w : World) (h : Host) :
    Except Thrown (Bool × Impl targets.T4T × World × Host) :=
  if h.opened then
    match process codes.Listening targets.T4T.target s w with
    | .error f => .error (.fault f)
    | .ok (s1, w1) => .ok (true, s1, w1, h)
  else
    let (s1, h1) := refresh codes s h
    .ok (true, s1, w, h1)

/-- `loop()`: at most one command is taken from the queue and dispatched. -/
def loop (wellFormed : String → Bool) (codes : Codes) (s : Impl targets.T4T) (w : World)
    (h : Host) : Except Thrown (Bool × Impl targets.T4T × World × Host) :=
  match h.queue with
  | [] => poll codes s w h
  | command :: rest =>
    let h0 := { h with queue := rest }
    if command.code = codes.Start then
      match startListening codes s h0 command with
      | .error e => .error e
      | .ok (s1, h1) => poll codes s1 w h1
    else if command.code = codes.Stop then
      let (s1, h1) := stopListening codes s h0 command
      poll codes s1 w h1
    else if command.code = codes.Configure then
      match configureTarget wellFormed codes s h0 command with
      | .error e => .error e
      | .ok (s1, h1) => poll codes s1 w h1
    else .ok (true, s, w, h0.reject command codes.UnknownCommand)

end TargetListenerTask

end tasks

end hce

/-! ## The frame list of the stream view -/

namespace hce

namespace Frame

/-- `Frame::operator<`: by frame time. -/
def lt (a b : Frame) : Bool := decide (a.frameTime < b.frameTime)

/-- `Frame::operator>`: by frame time. -/
def gt (a b : Frame) : Bool := decide (a.frameTime > b.frameTime)

end Frame

end hce

namespace std

open hce

/-- The loop of `std::lower_bound`, a binary search with `operator<` on the `len` elements from
index `first`: while `len > 0`, the element in the middle is compared with the value and the
search goes on in the half after it or in the half before it. The fuel is one more than `len`,
which gets smaller at every turn. -/
def lowerBoundLoop : Nat → List Frame → Nat → Nat → Frame → Nat
  | 0, _, first, _, _ => first
  | fuel + 1, xs, first, len, value =>
    if len > 0 then
      let half := len / 2
      let middle := first + half
      match xs[middle]? with
      | none => first
      | some x =>
        if x.lt value then lowerBoundLoop fuel xs (middle + 1) (len - half - 1) value
        else lowerBoundLoop fuel xs first half value
    else first

/-- `std::lower_bound(xs.begin(), xs.end(), value) - xs.begin()`. -/
def lower_bound (xs : List Frame) (value : Frame) : Nat :=
  lowerBoundLoop (xs.length + 1) xs 0 xs.length value

end std

namespace StreamModel

open hce

/-- State of `StreamModel::Impl` as far as the frames go: the frame list shown and the queue of
the frames that have arrived, the oldest first. -/
structure Impl where
  frames : List Frame
  stream : List Frame
  deriving DecidableEq, Repr

/-- `frames.insert(i, frame)` of `QList`. -/
def insertAt (frames : List Frame) (i : Nat) (frame : Frame) : List Frame :=
  frames.take i ++ frame :: frames.drop i

/-- The `while (!stream.isEmpty())` of `fetchMore`: each frame taken from the queue goes into
the list at its `lower_bound`. -/
def fetchLoop : List Frame → List Frame → List Frame
  | frames, [] => frames
  | frames, frame :: rest => fetchLoop (insertAt frames (std.lower_bound frames frame) frame) rest

/-- `StreamModel::canFetchMore`. -/
def canFetchMore (m : Impl) : Bool := decide (m.stream.length > 0)

/-- `StreamModel::fetchMore`. -/
def fetchMore (m : Impl) : Impl := ⟨fetchLoop m.frames m.stream, []⟩

/-- `StreamModel::resetModel`. -/
def resetModel (m : Impl) : Impl := { m with frames := [] }

/-- `StreamModel::append(frame)`. -/
def append (m : Impl) (frame : Frame) : Impl := { m with stream := m.stream ++ [frame] }

end StreamModel

/-! ## The clock of the MPSSE transport -/

namespace rt.ByteBuffer

/-- Store the low `n` bytes of a value, least significant first: `putInt(value, n)` with the
byte order that lib-rt, which is not among the sources, takes when none is given; the divisor
command of the FTDI chip takes the low byte first. -/
def putIntLow (b : ByteBuffer) (value : Nat) (n : Nat) : Except Fault ByteBuffer :=
  b.putBytes (beBytes n value).reverse

end rt.ByteBuffer

namespace hw.MPSSE

open rt

def CLK_400KHZ : Nat := 400000

def CLK_2MHZ : Nat := 2000000

def CLK_5MHZ : Nat := 5000000

def CLK_6MHZ : Nat := 6000000

def CLK_10MHZ : Nat := 10000000

def CLK_12MHZ : Nat := 12000000

def CLK_15MHZ : Nat := 15000000

def CLK_30MHZ : Nat := 30000000

def CLK_60MHZ : Nat := 60000000

def CMD_TCK_DIVISOR : Nat := 0x86

def CMD_TCK_X5 : Nat := 0x8A

def CMD_TCK_D5 : Nat := 0x8B

/-- What `setClock` uses of `MPSSE::Impl`: the results of the coming `ftdi_write_data` calls
(whether all bytes were written; they are once the list has run out), the byte strings handed
to them, and the member `clock`. -/
structure Impl where
  writeResults : List Bool
  written : List (List Nat)
  clock : Nat
  deriving DecidableEq, Repr

namespace Impl

/-- `ftdiSend(data)`. -/
def ftdiSend (s : Impl) (data : ByteBuffer) : Bool × Impl :=
  match s.writeResults with
  | [] => (true, { s with written := s.written ++ [data.readable] })
  | ok :: rest => (ok, { s with writeResults := rest, written := s.written ++ [data.readable] })

/-- The base clock `sck` that `setClock` selects for a frequency. -/
def baseClock (freq : Nat) : Nat := if freq > CLK_6MHZ then CLK_6MHZ else CLK_12MHZ

/-- The divisor `div` of `setClock`, `(sck / freq) / 2 - 1` in 32-bit unsigned arithmetic. -/
def divisor (freq : Nat) : Nat :=
  if freq > 0 then ((baseClock freq / freq) / 2 + 4294967296 - 1) % 4294967296 else 0xFFFF

/-- The denominator `(1 + div) * 2` of the effective clock, in 32-bit unsigned arithmetic. -/
def denominator (freq : Nat) : Nat := ((1 + divisor freq) * 2) % 4294967296

/-- `setClock(freq)`: the two commands to the chip, then the effective clock. A division by
zero is the fault `arithmetic`. -/
def setClock (s : Impl) (freq : Nat) : Except Fault (Bool × Impl) := do
  let sck := baseClock freq
  let div := divisor freq
  let cmd1 ← (ByteBuffer.alloc 32).put (if freq > CLK_6MHZ then CMD_TCK_X5 else CMD_TCK_D5)
  let (sent1, s1) := s.ftdiSend cmd1.flip
  if sent1 = false then return (false, s1)
  let cmd2 ← (ByteBuffer.alloc 32).put CMD_TCK_DIVISOR
  let cmd3 ← cmd2.putIntLow div 2
  let (sent2, s2) := s1.ftdiSend cmd3.flip
  if sent2 = false then return (false, s2)
  if denominator freq = 0 then .error .arithmetic
  else return (true, { s2 with clock := sck / denominator freq })

end Impl

end hw.MPSSE

/-! ## The PN532 commands and the ACR122U reader -/

namespace rt.ByteBuffer

/-- Read through the raw pointer, `b.data()[index]`. The model admits the read below the limit
only: a read at or beyond the limit is the fault `bounds`. -/
def dataAt (b : ByteBuffer) (index : Nat) : Except Fault Nat :=
  if index < b.limit then .ok (b.store.getD index 0) else .error .bounds

/-- The `count` bytes from `b.data() + offset`, as `put(b.data() + offset, count)` reads them.
The model admits the read below the limit only. -/
def dataRange (b : ByteBuffer) (offset count : Nat) : Except Fault (List Nat) :=
  if offset + count ≤ b.limit then .ok (((b.store.take b.limit).drop offset).take count)
  else .error .bounds

end rt.ByteBuffer

namespace hw

open rt

namespace PN532

/-- A `TransmitFunction`: from the command, the response buffer and the timeout to the result
code and the response buffer as the call leaves it. -/
abbrev TransmitFunction := ByteBuffer → ByteBuffer → Int → Int × ByteBuffer

structure FwVersion where
  ic : Nat
  ver : Nat
  rev : Nat
  support : Nat
  deriving DecidableEq, Repr

structure GeneralStatus where
  err : Nat
  field : Nat
  nbTg : Nat
  tg1Id : Nat
  tg1BrRx : Nat
  tg1BrTx : Nat
  tg1Type : Nat
  tg2Id : Nat
  tg2BrRx : Nat
  tg2BrTx : Nat
  tg2Type : Nat
  sam : Nat
  deriving DecidableEq, Repr

/-- State of `PN532::Impl`: the transmit function it was bound to, if any. -/
structure Impl where
  transmitFunction : Option TransmitFunction

namespace Impl

/-- `transmit(cmd, res, timeout)`: -1 and -2 of the transmit function are handed on, any other
result is 0. -/
def transmit (s : Impl) (cmd res : ByteBuffer) (timeout : Int) : Int × ByteBuffer :=
  match s.transmitFunction with
  | none => (-1, res)
  | some f =>
    let (r, res1) := f cmd res timeout
    if r = -1 then (-1, res1)
    else if r = -2 then (-2, res1)
    else (0, res1)

/-- `getFirmwareVersion(version)`: the result and the version as the call leaves it. -/
def getFirmwareVersion (s : Impl) (version : FwVersion) : Except Fault (Int × FwVersion) := do
  let cmd := ByteBuffer.ofList [0xD4, 0x02]
  let (r, res) := s.transmit cmd (ByteBuffer.alloc 256) 500
  if r ≠ 0 then return (-1, version)
  if res.limit ≠ 6 then return (-1, version)
  let ic ← res.dataAt 2
  let ver ← res.dataAt 3
  let rev ← res.dataAt 4
  let support ← res.dataAt 5
  return (0, ⟨ic, ver, rev, support⟩)

/-- `getGeneralStatus(status)`. The reads go through `res.ptr()`, the response flipped. -/
def getGeneralStatus (s : Impl) (status : GeneralStatus) :
    Except Fault (Int × GeneralStatus) := do
  let cmd := ByteBuffer.ofList [0xD4, 0x04]
  let (r, res) := s.transmit cmd (ByteBuffer.alloc 256) 500
  if r ≠ 0 then return (-1, status)
  if res.limit < 6 then return (-1, status)
  let err ← res.dataAt (res.position + 2)
  let field ← res.dataAt (res.position + 3)
  let nbTg ← res.dataAt (res.position + 4)
  let st1 : GeneralStatus := { status with err := err, field := field, nbTg := nbTg }
  let offset := 5
  let (st2, offset) ← (if nbTg > 0 then do
      let a ← res.dataAt (res.position + offset)
      let b ← res.dataAt (res.position + offset + 1)
      let c ← res.dataAt (res.position + offset + 2)
      let d ← res.dataAt (res.position + offset + 3)
      pure ({ st1 with tg1Id := a, tg1BrRx := b, tg1BrTx := c, tg1Type := d }, offset + 4)
    else pure (st1, offset) : Except Fault (GeneralStatus × Nat))
  let (st3, offset) ← (if nbTg > 1 then do
      let a ← res.dataAt (res.position + offset)
      let b ← res.dataAt (res.position + offset + 1)
      let c ← res.dataAt (res.position + offset + 2)
      let d ← res.dataAt (res.position + offset + 3)
      pure ({ st2 with tg2Id := a, tg2BrRx := b, tg2BrTx := c, tg2Type := d }, offset + 4)
    else pure (st2, offset) : Except Fault (GeneralStatus × Nat))
  let sam ← res.dataAt (res.position + offset)
  return (0, { st3 with sam := sam })

/-- `setParameters(value)`. -/
def setParameters (s : Impl) (value : Nat) : Except Fault Int := do
  let cmd ← (ByteBuffer.alloc 256).putBytes [0xD4, 0x12]
  let cmd ← cmd.put value
  let (r, res) := s.transmit cmd.flip (ByteBuffer.alloc 256) 0
  if r ≠ 0 then return -1
  if res.limit ≠ 2 then return -1
  return 0

/-- `setSAMConfiguration(mode, timeout, irq)`. -/
def setSAMConfiguration (s : Impl) (mode timeout irq : Nat) : Except Fault Int := do
  let cmd ← (ByteBuffer.alloc 256).putBytes [0xD4, 0x14]
  let cmd ← cmd.put mode
  let cmd ← cmd.put timeout
  let cmd ← cmd.put irq
  let (r, res) := s.transmit cmd.flip (ByteBuffer.alloc 256) 0
  if r ≠ 0 then return -1
  if res.limit ≠ 2 then return -1
  return 0

/-- `powerDown(wakeUpEnable, triggerIrq)`. -/
def powerDown (s : Impl) (wakeUpEnable triggerIrq : Nat) : Except Fault Int := do
  let cmd ← (ByteBuffer.alloc 256).putBytes [0xD4, 0x16]
  let cmd ← cmd.put wakeUpEnable
  let cmd ← cmd.put triggerIrq
  let (r, res) := s.transmit cmd.flip (ByteBuffer.alloc 256) 0
  if r ≠ 0 then return -1
  if res.limit ≠ 2 then return -1
  return 0

/-- The number of bytes that `tgInitAsTarget` and `tgGetData` copy from the response,
`res.limit() - 3` in 32-bit unsigned arithmetic. -/
def copyCount (res : ByteBuffer) : Nat := (res.limit + 4294967296 - 3) % 4294967296

/-- `tgInitAsTarget(mode, init)`: the result, the mode and the buffer `init` as the call leaves
them. -/
def tgInitAsTarget (s : Impl) (mode : Nat) (init : ByteBuffer) :
    Except Fault (Int × Nat × ByteBuffer) := do
  let cmd ← (ByteBuffer.alloc 256).putBytes [0xD4, 0x8C, 0x04]
  let cmd ← cmd.putBytes [0x04, 0x00, 0x12, 0x34, 0x56, 0x20]
  let cmd ← cmd.putBytes [0x00, 0x00, 0x00, 0x00, 0x00, 0x00, 0x00, 0x00, 0x00, 0x00, 0x00, 0x00,
    0x00, 0x00, 0x00, 0x00, 0x00, 0x00]
  let cmd ← cmd.putBytes [0x00, 0x00, 0x00, 0x00, 0x00, 0x00, 0x00, 0x00, 0x00, 0x00]
  let cmd ← cmd.putBytes [0x00]
  let cmd ← cmd.putBytes [0x00]
  let (r, res) := s.transmit cmd.flip (ByteBuffer.alloc 256) 5000
  if r < 0 then return (r, mode, init)
  if res.limit < 2 then return (-1, mode, init)
  let mode1 ← res.dataAt 2
  let bytes ← res.dataRange 3 (copyCount res)
  let init1 ← init.putBytes bytes
  return (0, mode1, init1.flip)

/-- `tgResponseToInitiator(data, status)`. -/
def tgResponseToInitiator (s : Impl) (data : ByteBuffer) (status : Nat) :
    Except Fault (Int × Nat) := do
  let cmd ← (ByteBuffer.alloc 256).putBytes [0xD4, 0x90]
  let cmd ← cmd.putBytes data.content
  let (r, res) := s.transmit cmd.flip (ByteBuffer.alloc 256) 0
  if r ≠ 0 then return (-1, status)
  if res.limit < 3 then return (-1, status)
  let status1 ← res.dataAt 2
  return (0, status1)

/-- `tgGetData(data, status)`. -/
def tgGetData (s : Impl) (data : ByteBuffer) (status : Nat) :
    Except Fault (Int × ByteBuffer × Nat) := do
  let cmd ← (ByteBuffer.alloc 256).putBytes [0xD4, 0x86]
  let (r, res) := s.transmit cmd.flip (ByteBuffer.alloc 256) 0
  if r ≠ 0 then return (-1, data, status)
  if res.limit < 3 then return (-1, data, status)
  let status1 ← res.dataAt 2
  let bytes ← res.dataRange 3 (copyCount res)
  let data1 ← data.putBytes bytes
  return (0, data1.flip, status1)

/-- `tgSetData(data, status)`. -/
def tgSetData (s : Impl) (data : ByteBuffer) (status : Nat) : Except Fault (Int × Nat) := do
  let cmd ← (ByteBuffer.alloc 256).putBytes [0xD4, 0x8E]
  let cmd ← cmd.putBytes data.content
  let (r, res) := s.transmit cmd.flip (ByteBuffer.alloc 256) 0
  if r ≠ 0 then return (-1, status)
  if res.limit < 3 then return (-1, status)
  let status1 ← res.dataAt 2
  return (0, status1)

/-- `readRegister(reg, value)`. -/
def readRegister (s : Impl) (reg : Nat) (value : Nat) : Except Fault (Int × Nat) := do
  let cmd ← (ByteBuffer.alloc 256).putBytes [0xD4, 0x06]
  let cmd ← cmd.put (reg / 256 % 256)
  let cmd ← cmd.put (reg % 256)
  let (r, res) := s.transmit cmd.flip (ByteBuffer.alloc 256) 0
  if r ≠ 0 then return (-1, value)
  if res.limit ≠ 3 then return (-1, value)
  let value1 ← res.dataAt 2
  return (0, value1)

/-- `writeRegister(reg, value)`. -/
def writeRegister (s : Impl) (reg : Nat) (value : Nat) : Except Fault Int := do
  let cmd ← (ByteBuffer.alloc 256).putBytes [0xD4, 0x08]
  let cmd ← cmd.put (reg / 256 % 256)
  let cmd ← cmd.put (reg % 256)
  let cmd ← cmd.put value
  let (r, res) := s.transmit cmd.flip (ByteBuffer.alloc 256) 0
  if r ≠ 0 then return -1
  if res.limit ≠ 2 then return -1
  return 0

end Impl

end PN532

/-- The PC/SC connection as `ACR122U` uses it: whether a card handle is held, what the coming
`SCardControl` calls will answer (`none` for an error code, else the bytes of the reply; an
error once the list has run out) and the control code and command bytes of the calls made. -/
structure PCSC where
  connected : Bool
  controlResults : List (Option (List Nat))
  calls : List (Nat × List Nat)
  deriving DecidableEq, Repr

namespace PCSC

def IOCTL_CCID_ESCAPE : Nat := 1

/-- `control(controlCode, cmd, resp)`, that is `cardControl`: the command handed to
`SCardControl` is `cmd.remaining()` bytes from `cmd.data()`; the reply is stored at
`resp.ptr()`, in a buffer announced with `resp.capacity()` bytes, and `resp` is pushed by its
length and flipped. A reply longer than the announced size is an error of the call. -/
def control (p : PCSC) (controlCode : Nat) (cmd resp : ByteBuffer) :
    Except Fault (Int × ByteBuffer × PCSC) :=
  if p.connected = false then .ok (-1, resp, p)
  else
    let sent := cmd.store.take cmd.remaining
    let p1 : PCSC :=
      { p with calls := p.calls ++ [(controlCode, sent)], controlResults := p.controlResults.tail }
    match p.controlResults.head? with
    | none => .ok (-1, resp, p1)
    | some none => .ok (-1, resp, p1)
    | some (some reply) =>
      if resp.capacity < reply.length then .ok (-1, resp, p1)
      else if resp.capacity < resp.position + reply.length then .error .overflow
      else
        let stored : ByteBuffer := ⟨resp.store.take resp.position ++ reply ++
          resp.store.drop (resp.position + reply.length), resp.position, resp.limit⟩
        match stored.push reply.length false with
        | .error e => .error e
        | .ok resp1 => .ok (0, resp1.flip, p1)

end PCSC

namespace ACR122U

/-- State of `ACR122U::Impl`: the PC/SC connection. -/
structure Impl where
  pcsc : PCSC
  deriving DecidableEq, Repr

namespace Impl

/-- `directTx(cmd, res, timeout)`: the result, the response buffer and the reader. -/
def directTx (s : Impl) (cmd res : ByteBuffer) (_timeout : Int) :
    Except Fault (Int × ByteBuffer × Impl) := do
  let directCmd ← (ByteBuffer.alloc (5 + cmd.remaining)).putBytes [0xFF, 0x00, 0x00, 0x00]
  let directCmd ← directCmd.put cmd.limit
  let directCmd ← directCmd.putBytes cmd.content
  let (r, res1, pcsc) ← s.pcsc.control PCSC.IOCTL_CCID_ESCAPE directCmd.flip res
  if r ≠ 0 then return (-1, res1, ⟨pcsc⟩)
  if res1.limit < 2 then return (-1, res1, ⟨pcsc⟩)
  let sw1 ← res1.getAt (res1.limit - 2)
  if sw1 ≠ 0x90 then return (-1, res1, ⟨pcsc⟩)
  let sw2 ← res1.getAt (res1.limit - 1)
  if sw2 ≠ 0x00 then return (-1, res1, ⟨pcsc⟩)
  let res2 ← res1.push (res1.limit - 2) false
  return (0, res2.flip, ⟨pcsc⟩)

end Impl

/-- `ACR122U::transmit(cmd, res, timeout)`. -/
def transmit (s : Impl) (cmd res : ByteBuffer) (timeout : Int) :
    Except Fault (Int × ByteBuffer × Impl) := s.directTx cmd res timeout

end ACR122U

end hw

/-! ## Definitions used to state the properties -/

namespace rt.ByteBuffer

/-- A buffer of capacity `cap` into which exactly the bytes `w` have been written. -/
def writing (w : List Nat) (cap : Nat) : ByteBuffer :=
  ⟨w ++ List.replicate (cap - w.length) 0, w.length, cap⟩

/-- The bytes `w` have been written from the start of the buffer up to its cursor. -/
def Written (b : ByteBuffer) (w : List Nat) : Prop :=
  b.store.take b.position = w ∧ w.length = b.position

/-- A buffer that holds `pre ++ m`, read up to the end of `pre`: `m` is still to be read. -/
def reading (pre m : List Nat) : ByteBuffer := ⟨pre ++ m, pre.length, (pre ++ m).length⟩

end rt.ByteBuffer

namespace hw.HSU

open rt

/-- The result of `send` as decided by the record of its ACK read: -1 when a call failed, -2
when no byte arrived, 0 when the bytes read are the ACK frame, -1 for any other bytes. -/
def ackVerdict (post : List SysCall) : Int :=
  if post.any SysCall.failed then -1
  else if received post = [] then -2
  else if received post = ackFrame.readable then 0
  else -1

/-- The ATB frame of a command: preamble and start code, LEN, LCS, the command, DCS,
postamble. -/
def atbFrame (bytes : List Nat) : List Nat :=
  [0x00, 0x00, 0xff, bytes.length, (256 - bytes.length) % 256] ++ bytes ++
    [(256 - bytes.sum % 256) % 256, 0x00]

end hw.HSU

namespace hce

/-- A T4T target to run the definitions on. -/
def sampleT4T : targets.T4T := ⟨4, 32, 0, 0, rt.ByteBuffer.ofList [], rt.ByteBuffer.ofList [1, 2, 3, 4]⟩

/-- A target whose `process` fails: it returns the code 1 and an empty response. -/
def sampleFailingTarget : Target Unit :=
  ⟨fun t => t, fun t => t, fun t _ response => .ok (1, response.flip, t)⟩

end hce

namespace hce

open rt

/-- XOR of two byte strings, byte by byte. -/
def xorBytes (a b : List Nat) : List Nat := List.zipWith (· ^^^ ·) a b

/-- CBC encryption of a list of blocks with the block function `E`: each block is XORed with
the chaining value and encrypted, and its ciphertext is the next chaining value. Returns the
ciphertext blocks and the last chaining value. -/
def cbcChain (E : List Nat → List Nat) : List (List Nat) → List Nat → List (List Nat) × List Nat
  | [], iv => ([], iv)
  | b :: bs, iv => ((E (xorBytes b iv)) :: (cbcChain E bs (E (xorBytes b iv))).1,
      (cbcChain E bs (E (xorBytes b iv))).2)

/-- CBC decryption of a list of blocks with the block function `D`. -/
def cbcUnchain (D : List Nat → List Nat) : List (List Nat) → List Nat → List (List Nat) × List Nat
  | [], iv => ([], iv)
  | c :: cs, iv => ((xorBytes (D c) iv) :: (cbcUnchain D cs c).1, (cbcUnchain D cs c).2)

/-- CBC encryption of 8-byte blocks with a block function on 64-bit words. -/
def cbcChain64 (E : Nat → Nat) : List (List Nat) → Nat → List (List Nat) × Nat
  | [], iv => ([], iv)
  | b :: bs, iv =>
    (ByteBuffer.beBytes 8 (E (ByteBuffer.beValue b ^^^ iv)) ::
        (cbcChain64 E bs (E (ByteBuffer.beValue b ^^^ iv))).1,
      (cbcChain64 E bs (E (ByteBuffer.beValue b ^^^ iv))).2)

/-- CBC decryption of 8-byte blocks with a block function on 64-bit words. -/
def cbcUnchain64 (D : Nat → Nat) : List (List Nat) → Nat → List (List Nat) × Nat
  | [], iv => ([], iv)
  | c :: cs, iv =>
    (ByteBuffer.beBytes 8 (D (ByteBuffer.beValue c) ^^^ iv) ::
        (cbcUnchain64 D cs (ByteBuffer.beValue c)).1,
      (cbcUnchain64 D cs (ByteBuffer.beValue c)).2)

namespace Cipher

/-- Block length of the cipher in bytes. -/
def blockLength : Cipher → Nat
  | .aes _ => 16
  | .des _ => 8

/-- CBC encryption by the cipher of a list of blocks from the chaining value `iv`: the
ciphertext blocks, and the chaining value after them, which is the last ciphertext block when
there is one. -/
def cbc (P : Primitives) : Cipher → List (List Nat) → List Nat → List (List Nat) × List Nat
  | .aes c, blocks, iv => cbcChain (P.aesEncrypt c.mode c.key) blocks iv
  | .des c, blocks, iv =>
    ((cbcChain64 (CipherDES.blockEncrypt P c) blocks (ByteBuffer.beValue iv)).1,
      ByteBuffer.beBytes 8 (cbcChain64 (CipherDES.blockEncrypt P c) blocks (ByteBuffer.beValue iv)).2)

end Cipher

/-- A message with its last block of `size` bytes XORed with `k`. -/
def xorLast (size : Nat) (m k : List Nat) : List Nat :=
  m.take (m.length - size) ++ xorBytes (m.drop (m.length - size)) k

/-- The message CMAC encrypts: the input with its last block XORed with `k1` when its length
is a multiple of the block size, else the input followed by 0x80 and zero bytes up to the next
multiple, with the last block XORed with `k2`. -/
def cmacMessage (size : Nat) (k1 k2 input : List Nat) : List Nat :=
  if input.length % size = 0 then xorLast size input k1
  else xorLast size (input ++ 0x80 :: List.replicate (size - input.length % size - 1) 0) k2

/-- A CMAC subkey from the one before it: shifted left by one bit, and the mask XORed into its
last byte exactly when the top bit of the first byte of the one before is set. -/
def deriveSubkey (shift : List Nat → List Nat) (size mask : Nat) (k : List Nat) : List Nat :=
  if (k.headD 0).testBit 7 then (shift k).set (size - 1) ((shift k).getD (size - 1) 0 ^^^ mask)
  else shift k

/-- A byte string shifted left by one bit as one big-endian number, the top bit dropped. -/
def shiftLeftBytes : List Nat → List Nat
  | [] => []
  | [b] => [(b * 2) % 256]
  | b :: c :: rest => ((b * 2) % 256 + c / 128 % 2) :: shiftLeftBytes (c :: rest)

/-- Stand-ins for the library primitives, to run the definitions on concrete inputs: block
functions that are their own kind of inverse. -/
def samplePrimitives : Primitives where
  aesEncrypt := fun _ key block => (block.map (· ^^^ key.headD 0)).reverse
  aesDecrypt := fun _ key block => block.reverse.map (· ^^^ key.headD 0)
  des3Encrypt := fun k1 _ _ block => block ^^^ (k1 % 18446744073709551616)
  des3Decrypt := fun k1 _ _ block => block ^^^ (k1 % 18446744073709551616)
  shiftBitsLeft := shiftLeftBytes

/-- A 16-byte key to run the definitions on. -/
def sampleKey : List Nat := [1, 2, 3, 4, 5, 6, 7, 8, 9, 10, 11, 12, 13, 14, 15, 16]

/-- A 16-byte message to run the definitions on. -/
def sampleBlock : List Nat :=
  [16, 32, 48, 64, 80, 96, 112, 128, 144, 160, 176, 192, 208, 224, 240, 255]

end hce

namespace hw

open rt

/-- The buffers written to the transport with the byte `target` in front, that byte taken off:
the NCI messages handed to the chip, in order, whether or not the write succeeded. -/
def commandsOf (target : Nat) (calls : List BusCall) : List (List Nat) :=
  calls.filterMap (fun c =>
    match c with
    | .Write (t :: cmd) _ => if t = target then some cmd else none
    | _ => none)

namespace PN7160

/-- The byte `nciSend` puts in front of a message: the I2C address shifted, or 0 for SPI. -/
def Impl.target (s : Impl) : Nat := if s.protocol = I2C then (s.i2cAddress <<< 1) % 256 else 0x00

/-- The NCI messages handed to the chip so far. -/
def Impl.commands (s : Impl) : List (List Nat) := commandsOf s.target s.mpsse.calls

/-- Between `s` and `s1` the device keeps its status and its settings and the transport stays
as open as it was, and exactly the messages `cmds` are handed to the chip. -/
def Sends (s s1 : Impl) (cmds : List (List Nat)) : Prop :=
  s1.status = s.status ∧ s1.protocol = s.protocol ∧ s1.i2cAddress = s.i2cAddress ∧
    s1.mpsse.opened = s.mpsse.opened ∧ s1.commands = s.commands ++ cmds

/-- One command exchange between `s` and `s1` with result `ok`: the message `cmd` is handed to
the chip, unless the exchange failed before the write. -/
def Exchange (s s1 : Impl) (cmd : List Nat) (ok : Bool) : Prop :=
  ∃ tail, Sends s s1 tail ∧ (tail = [] ∨ tail = [cmd]) ∧ (ok = true → tail = [cmd])

/-- The event code for a message with header bytes `b0` and `b1`, as the classification reads:
data for type 0x00, credits for type 0x60 with opcode 0x06, activated, deactivated and field
info for type 0x61 with opcodes 0x05, 0x06 and 0x07, unknown otherwise. -/
def classify (b0 b1 : Nat) : Int :=
  if b0 &&& 0xEF = 0x00 then EVENT_DATA
  else if b0 &&& 0xEF = 0x60 ∧ b1 &&& 0x3F = 0x06 then EVENT_CREDITS
  else if b0 &&& 0xEF = 0x61 ∧ b1 &&& 0x3F = 0x05 then EVENT_ACTIVATED
  else if b0 &&& 0xEF = 0x61 ∧ b1 &&& 0x3F = 0x06 then EVENT_DEACTIVATED
  else if b0 &&& 0xEF = 0x61 ∧ b1 &&& 0x3F = 0x07 then EVENT_FIELD_INFO
  else EVENT_UNKNOW

/-- The number of payload bytes that the fields of a notification take: the count and two bytes
per entry of a credits notification; the fixed fields and the two length-prefixed parameter
blocks of an activation; two bytes of a deactivation; one byte of a field info. -/
def demand (b0 b1 : Nat) (payload : List Nat) : Nat :=
  if b0 &&& 0xEF = 0x60 ∧ b1 &&& 0x3F = 0x06 then 1 + 2 * payload.getD 0 0
  else if b0 &&& 0xEF = 0x61 ∧ b1 &&& 0x3F = 0x05 then
    11 + payload.getD 6 0 + payload.getD (10 + payload.getD 6 0) 0
  else if b0 &&& 0xEF = 0x61 ∧ b1 &&& 0x3F = 0x06 then 2
  else if b0 &&& 0xEF = 0x61 ∧ b1 &&& 0x3F = 0x07 then 1
  else 0

/-- The `CORE_SET_CONFIG` message for a list of entries: 20 02, the length of the payload, and
as payload the number of entries and the entries. -/
def setConfigCommand (entries : List (List Nat)) : List Nat :=
  0x20 :: 0x02 :: ((1 + entries.flatten.length) % 256) :: (entries.length % 256) :: entries.flatten

/-- The NCI messages of the initialization sequence of `open`, in order. -/
def openCommands : List (List Nat) :=
  [[0x20, 0x00, 0x01, 0x01],
   [0x20, 0x01, 0x02, 0x00, 0x00],
   setConfigCommand (NXP_CONF_CORE.map (·.readable)),
   setConfigCommand (NXP_CONF_CORE_EXT.map (·.readable)),
   setConfigCommand (NXP_CONF_TVDD.map (·.readable)),
   setConfigCommand (NXP_CONF_RF.map (·.readable)),
   [0x20, 0x00, 0x01, 0x00],
   [0x20, 0x01, 0x02, 0x00, 0x00],
   [0x2F, 0x00, 0x01, 0x00]]

/-- The steps of the initialization sequence of `open`, in order: `coreReset(true)` as its
reset and its init, the four configuration groups, `coreReset(false)` as its reset and its
init, the power mode. -/
def openSteps : List (Impl → Except Fault (Bool × Impl)) :=
  [fun s => s.nciCoreReset true,
   fun s => s.nciCoreInit,
   fun s => s.nciSetConfig NXP_CONF_CORE,
   fun s => s.nciSetConfig NXP_CONF_CORE_EXT,
   fun s => s.nciSetConfig NXP_CONF_TVDD,
   fun s => s.nciSetConfig NXP_CONF_RF,
   fun s => s.nciCoreReset false,
   fun s => s.nciCoreInit,
   fun s => s.nciSetPowerMode POWER_MODE_FULL]

/-- Run steps in order and stop at the first that fails: `none` when all succeeded, else the
index of the step that failed, counted from `i`, with the device as that step left it. -/
def runSteps : List (Impl → Except Fault (Bool × Impl)) → Nat → Impl →
    Except Fault (Option Nat × Impl)
  | [], _, s => .ok (none, s)
  | step :: rest, i, s =>
    match step s with
    | .error e => .error e
    | .ok (false, s1) => .ok (some i, s1)
    | .ok (true, s1) => runSteps rest (i + 1) s1

/-- What `open` makes of the run of its steps: opened when all succeeded; else closed, the
transport closed too unless the step that failed is one of the four configuration groups. -/
def finishOpen : Option Nat × Impl → Bool × Impl
  | (none, s) => (true, { s with status := STATUS_OPENED })
  | (some i, s) => (false, if 2 ≤ i ∧ i ≤ 5 then s else s.abort)

/-- The device as `open` has it when the initialization sequence starts: closed, the transport
opened, the chip reset over its pins. -/
def Impl.prepared (s : Impl) : Impl :=
  { s.close with mpsse :=
      ((((((((s.close.mpsse.openPort (if s.protocol = SPI then MPSSE.SPI0 else MPSSE.I2C)
        (if s.protocol = SPI then MPSSE.CLK_1MHZ else MPSSE.CLK_100KHZ)).2.setGpio
          PN7160_FT232H_DWL_PIN 0).usleep PN7160_T_WL_DWL).setGpio
          PN7160_FT232H_VEN_PIN 1).usleep PN7160_T_WL_VDD).setGpio
          PN7160_FT232H_VEN_PIN 0).usleep PN7160_T_WL_VEN).setGpio
          PN7160_FT232H_VEN_PIN 1).usleep PN7160_T_BOOT }

/-- A device on SPI with a transport that is found once and then delivers the given reads, the
IRQ pin high for the next `n` polls. -/
def sampleDevice (reads : List (Option (List Nat))) (n : Nat) (status : Nat) : Impl :=
  ⟨⟨false, [true], [], [], reads, List.replicate n 1, []⟩, [], SPI, 0x28, status⟩

/-- Reads of a one-byte response with status `st`. -/
def sampleResponse (b0 b1 st : Nat) : List (Option (List Nat)) := [some [b0, b1, 1], some [st]]

/-- Reads of a reset notification. -/
def sampleResetNotification : List (Option (List Nat)) :=
  [some [0x60, 0x00, 0x05], some [0x02, 0x01, 0x20, 0x00, 0x00]]

/-- Reads of a `CORE_INIT` response. -/
def sampleInitResponse : List (Option (List Nat)) :=
  [some [0x40, 0x01, 14], some [0, 0, 0, 0, 0, 1, 0, 0, 255, 255, 1, 0, 0, 0]]

/-- Reads of a `CORE_SET_CONFIG` response with status `st`. -/
def sampleConfigResponse (st : Nat) : List (Option (List Nat)) :=
  [some [0x40, 0x02, 0x02], some [st, 0]]

/-- A device on which every step of `open` succeeds. -/
def sampleOpening : Impl :=
  sampleDevice (sampleResponse 0x40 0x00 0 ++ sampleResetNotification ++ sampleInitResponse ++
    sampleConfigResponse 0 ++ sampleConfigResponse 0 ++ sampleConfigResponse 0 ++
    sampleConfigResponse 0 ++ sampleResponse 0x40 0x00 0 ++ sampleResetNotification ++
    sampleInitResponse ++ sampleResponse 0x4F 0x00 0) 11 STATUS_CLOSED

/-- A device whose chip rejects the first configuration group with status 6. -/
def sampleConfigRejected : Impl :=
  sampleDevice (sampleResponse 0x40 0x00 0 ++ sampleResetNotification ++ sampleInitResponse ++
    sampleConfigResponse 6) 4 STATUS_CLOSED

/-- A device that is listening, with an open transport, whose chip acknowledges the next
command with status OK. -/
def sampleListening : Impl :=
  ⟨⟨true, [], [], [], sampleResponse 0x41 0x06 0, [1], []⟩, [], SPI, 0x28, STATUS_LISTENING⟩

/-- A listening device with a message waiting: an activation notification with four bytes of
technology parameters and no activation parameters. -/
def sampleActivated : Impl :=
  ⟨⟨true, [], [], [],
    [some [0x61, 0x05, 15], some [1, 2, 4, 0x80, 255, 1, 4, 0x44, 0x03, 0x07, 0x20, 0x80, 0, 0, 0]],
    [1], []⟩, [], SPI, 0x28, STATUS_LISTENING⟩

/-- The event buffer after the message of `sampleActivated` has been received. -/
def sampleActivatedEvent : ByteBuffer :=
  (ByteBuffer.writing [0x61, 0x05, 15, 1, 2, 4, 0x80, 255, 1, 4, 0x44, 0x03, 0x07, 0x20, 0x80, 0, 0, 0]
    256).flip

/-- The device `sampleActivated` after its message has been received. -/
def sampleActivatedAfter : Impl :=
  ⟨⟨true, [], [], [], [], [],
    [.GetGpio 1 1, .Start true, .Write [255] true, .Read 3 (some [0x61, 0x05, 15]),
      .Read 15 (some [1, 2, 4, 0x80, 255, 1, 4, 0x44, 0x03, 0x07, 0x20, 0x80, 0, 0, 0]), .Stop]⟩,
    [], SPI, 0x28, STATUS_LISTENING⟩

end PN7160

end hw

namespace hce

open rt

namespace targets.T4T

open Target

/-- The alternative that `set` expects for a parameter id: `unsigned short` for PARAM_ATQA;
`unsigned char` for PARAM_SAK, PARAM_RATS_TB1, PARAM_RATS_TC1; a byte buffer for PARAM_UID and
PARAM_RATS_HB. No alternative is expected for an id outside the enumeration. -/
def expects (id : Int) (value : Variant) : Bool :=
  match value with
  | .ushort _ => id = PARAM_ATQA
  | .uchar _ => id = PARAM_SAK ∨ id = PARAM_RATS_TB1 ∨ id = PARAM_RATS_TC1
  | .buffer _ => id = PARAM_UID ∨ id = PARAM_RATS_HB
  | _ => false

end targets.T4T

namespace tasks.TargetListenerTask

/-- Values for the enumerators to run the definitions on. -/
def sampleCodes : Codes := ⟨1, 2, 3, -1, -2, 0, 1, 2⟩

/-- A stand-in for `json::parse` to run the definitions on: only the text `null` is
well-formed. -/
def sampleWellFormed (text : String) : Bool := text = "null"

/-- A host with an open device, one command in the queue and a discovery that starts. -/
def sampleHost (command : Command) : Host := ⟨[command], [], [], true, [], [true], [], [], 0, []⟩

/-- The task when idle, with no target. -/
def sampleIdle : Impl targets.T4T := ⟨1, none⟩

/-- A world with no event pending. -/
def sampleWorld : World := ⟨[], [], [], [], []⟩

end tasks.TargetListenerTask

end hce

namespace StreamModel

open hce

/-- A list of frames in order of time: no frame is followed by one with a smaller time. -/
def Ordered (frames : List Frame) : Prop :=
  frames.Pairwise (fun a b => a.frameTime ≤ b.frameTime)

/-- The list with a frame put before the first frame whose time is not smaller than its own, or
at the end when there is no such frame. -/
def merged (frames : List Frame) (frame : Frame) : List Frame :=
  frames.takeWhile (fun x => decide (x.frameTime < frame.frameTime)) ++
    frame :: frames.dropWhile (fun x => decide (x.frameTime < frame.frameTime))

/-- A frame with no data and the given time, and the given frame type to tell it from others
with the same time. -/
def sampleFrame (frameType time : Nat) : Frame := ⟨none, 0, frameType, 0, 0, time⟩

/-- A model with two frames listed, at the times 10 and 20, and three frames queued that all
carry the time 15. -/
def sampleModel : Impl :=
  ⟨[sampleFrame 1 10, sampleFrame 2 20],
    [sampleFrame 3 15, sampleFrame 4 15, sampleFrame 5 15]⟩

end StreamModel

namespace hw

open rt

namespace HSU

/-- A link in normal mode on a port that accepts every timeout setting and delivers the given
byte strings, one per `ReadFile`. -/
def sampleLink (reads : List (List Nat)) : Impl :=
  ⟨true, .Normal, ⟨[], reads.map (fun bytes => (true, bytes)), [], []⟩⟩

end HSU

namespace PN532

/-- A transmit function that reports a transmit error. -/
def sampleError : TransmitFunction := fun _ res _ => (-1, res)

/-- A transmit function that reports a timeout. -/
def sampleTimeout : TransmitFunction := fun _ res _ => (-2, res)

/-- A transmit function that delivers the given response with result 0. -/
def sampleReply (bytes : List Nat) : TransmitFunction :=
  fun _ res _ => (0, (ByteBuffer.writing bytes res.capacity).flip)

end PN532

namespace ACR122U

/-- A connected reader that answers the next control call with the given reply. -/
def sampleReader (reply : List Nat) : Impl := ⟨⟨true, [some reply], []⟩⟩

end ACR122U

end hw

/-! ## Properties -/

namespace rt.ByteBuffer

theorem readable_ofList (l : List Nat) : (ofList l).readable = l := by
  simp [readable, ofList]

theorem content_ofList (l : List Nat) : (ofList l).content = l := by
  simp [content, ofList]

theorem remaining_ofList (l : List Nat) : (ofList l).remaining = l.length := by
  simp [remaining, ofList]

theorem alloc_eq_writing (cap : Nat) : alloc cap = writing [] cap := by
  simp [alloc, writing]

theorem putBytes_writing (w xs : List Nat) (cap : Nat) (h : w.length + xs.length ≤ cap) :
    (writing w cap).putBytes xs = .ok (writing (w ++ xs) cap) := by
  unfold putBytes writing
  simp only [h, if_true]
  congr 1
  simp only [ByteBuffer.mk.injEq, List.length_append, and_true]
  rw [List.take_left' rfl, List.drop_append_eq_append_drop]
  simp only [List.length_replicate, List.drop_replicate]
  rw [List.drop_eq_nil_of_le (by omega), List.nil_append]
  have e : cap - w.length - (w.length + xs.length - w.length) = cap - (w.length + xs.length) := by
    omega
  rw [e]

theorem put_writing (w : List Nat) (v cap : Nat) (h : w.length + 1 ≤ cap) :
    (writing w cap).put v = .ok (writing (w ++ [v % 256]) cap) := by
  unfold put
  exact putBytes_writing w [v % 256] cap (by simpa using h)

theorem content_flip_writing (w : List Nat) (cap : Nat) : (writing w cap).flip.content = w := by
  simp [content, flip, writing]

theorem reduceSum_foldl (l : List Nat) (a : Nat) :
    l.foldl (fun a d => (a + d) % 256) a % 256 = (a + l.sum) % 256 := by
  induction l generalizing a with
  | nil => simp
  | cons x xs ih => simp only [List.foldl_cons, List.sum_cons]; rw [ih]; omega

theorem reduceSum_ofList (l : List Nat) : (ofList l).reduceSum = l.sum % 256 := by
  unfold reduceSum
  rw [readable_ofList]
  cases l with
  | nil => simp
  | cons x xs =>
    have h := reduceSum_foldl (x :: xs) 0
    have h2 : ∀ (l : List Nat) (a : Nat), a < 256 → l.foldl (fun a d => (a + d) % 256) a < 256 := by
      intro l
      induction l with
      | nil => intro a ha; simpa using ha
      | cons y ys ih => intro a _; simp only [List.foldl_cons]; exact ih _ (Nat.mod_lt _ (by norm_num))
    have h3 := h2 (x :: xs) 0 (by norm_num)
    rw [Nat.mod_eq_of_lt h3] at h
    simpa using h

theorem readable_flip_writing (w : List Nat) (cap : Nat) : (writing w cap).flip.readable = w := by
  simp [readable, ByteBuffer.flip, writing]

theorem getAt_ofList (l : List Nat) (i : Nat) (h : i < l.length) :
    (ofList l).getAt i = .ok (l.getD i 0) := by
  simp [getAt, ofList, h]

theorem remaining_reading (pre m : List Nat) : (reading pre m).remaining = m.length := by
  simp [remaining, reading]

theorem readable_reading (pre m : List Nat) : (reading pre m).readable = m := by
  simp only [readable, reading]
  rw [List.take_of_length_le (le_refl _), List.drop_left' rfl]

theorem ofList_eq_reading (m : List Nat) : ofList m = reading [] m := by
  simp [ofList, reading]

theorem size_ofList (m : List Nat) : (ofList m).size = m.length := by
  simp [size, ofList]

theorem getBytes_reading (pre m : List Nat) (n : Nat) (h : n ≤ m.length) :
    (reading pre m).getBytes n = .ok (m.take n, reading (pre ++ m.take n) (m.drop n)) := by
  unfold getBytes
  rw [remaining_reading, if_pos h, readable_reading]
  congr 2
  simp only [reading, List.append_assoc, List.take_append_drop, List.length_append,
    List.length_take, ByteBuffer.mk.injEq, and_true, true_and]
  omega

theorem flip_writing_full (w : List Nat) (cap : Nat) (h : w.length = cap) :
    (writing w cap).flip = ofList w := by
  simp [flip, writing, ofList, h]

theorem xor_ofList (a b : List Nat) :
    (ofList a).xor (ofList b) = ofList (List.zipWith (· ^^^ ·) a b) := by
  simp [xor, readable_ofList]

theorem putBuffer_writing (w l : List Nat) (cap : Nat) (h : w.length + l.length ≤ cap) :
    (writing w cap).putBuffer (ofList l) = .ok (writing (w ++ l) cap) := by
  unfold putBuffer
  rw [readable_ofList]
  exact putBytes_writing w l cap h

theorem length_beBytes (n v : Nat) : (beBytes n v).length = n := by
  induction n with
  | zero => simp [beBytes]
  | succ k ih => simp [beBytes, ih]

theorem getLong_reading (pre m : List Nat) (n : Nat) (h : n ≤ m.length) :
    (reading pre m).getLong n = .ok (beValue (m.take n), reading (pre ++ m.take n) (m.drop n)) := by
  unfold getLong
  rw [getBytes_reading pre m n h]

theorem putLong_writing (w : List Nat) (v n cap : Nat) (h : w.length + n ≤ cap) :
    (writing w cap).putLong v n = .ok (writing (w ++ beBytes n v) cap) := by
  unfold putLong
  exact putBytes_writing w _ cap (by rw [length_beBytes]; exact h)

/-- Eight bytes read as a big-endian word and written back are the same bytes. -/
theorem beBytes_beValue (l : List Nat) (hl : l.length = 8) (hb : ∀ x ∈ l, x < 256) :
    beBytes 8 (beValue l) = l := by
  match l, hl with
  | [a, b, c, d, e, f, g, h], _ =>
    have ha := hb a (by simp)
    have hb' := hb b (by simp)
    have hc := hb c (by simp)
    have hd := hb d (by simp)
    have he := hb e (by simp)
    have hf := hb f (by simp)
    have hg := hb g (by simp)
    have hh := hb h (by simp)
    simp only [beValue, beBytes, List.foldl_cons, List.foldl_nil]
    norm_num
    refine ⟨?_, ?_, ?_, ?_, ?_, ?_, ?_, ?_⟩ <;> omega

/-- A 64-bit word written as eight big-endian bytes and read back is the same word. -/
theorem beValue_beBytes (v : Nat) (hv : v < 18446744073709551616) :
    beValue (beBytes 8 v) = v := by
  simp only [beValue, beBytes, List.foldl_cons, List.foldl_nil]
  norm_num
  omega

theorem beBytes_lt (n v : Nat) : ∀ x ∈ beBytes n v, x < 256 := by
  induction n with
  | zero => simp [beBytes]
  | succ k ih =>
    intro x hx
    simp only [beBytes, List.mem_cons] at hx
    rcases hx with h | h
    · rw [h]; exact Nat.mod_lt _ (by norm_num)
    · exact ih x h

theorem beValue_lt (l : List Nat) (hl : l.length = 8) (hb : ∀ x ∈ l, x < 256) :
    beValue l < 18446744073709551616 := by
  match l, hl with
  | [a, b, c, d, e, f, g, h], _ =>
    have ha := hb a (by simp)
    have hb' := hb b (by simp)
    have hc := hb c (by simp)
    have hd := hb d (by simp)
    have he := hb e (by simp)
    have hf := hb f (by simp)
    have hg := hb g (by simp)
    have hh := hb h (by simp)
    simp only [beValue, List.foldl_cons, List.foldl_nil]
    omega

end rt.ByteBuffer

namespace rt.ByteBuffer

theorem length_readable_le (b : ByteBuffer) : b.readable.length ≤ b.limit := by
  simp only [readable, List.length_drop, List.length_take]
  omega

theorem putBuffer_writing_any (w : List Nat) (other : ByteBuffer) (cap : Nat)
    (h : w.length + other.readable.length ≤ cap) :
    (writing w cap).putBuffer other = .ok (writing (w ++ other.readable) cap) := by
  unfold putBuffer
  exact putBytes_writing w _ cap h

theorem get_reading (pre m : List Nat) (x : Nat) :
    (reading pre (x :: m)).get = .ok (x, reading (pre ++ [x]) m) := by
  unfold get
  rw [getBytes_reading pre (x :: m) 1 (by simp)]
  rfl

theorem get_reading_nil (pre : List Nat) : (reading pre []).get = .error .underflow := by
  simp [get, getBytes, remaining_reading]

theorem getBuffer_reading (pre m : List Nat) (n : Nat) (h : n ≤ m.length) :
    (reading pre m).getBuffer n = .ok (ofList (m.take n), reading (pre ++ m.take n) (m.drop n)) := by
  unfold getBuffer
  rw [getBytes_reading pre m n h]

theorem getInt_reading (pre m : List Nat) (n : Nat) (h : n ≤ m.length) :
    (reading pre m).getInt n = .ok (beValue (m.take n), reading (pre ++ m.take n) (m.drop n)) :=
  getLong_reading pre m n h

theorem skip_reading (pre m : List Nat) (n : Nat) (h : n ≤ m.length) :
    (reading pre m).skip n = .ok (reading (pre ++ m.take n) (m.drop n)) := by
  unfold skip
  rw [remaining_reading, if_pos h]
  simp only [reading, List.length_append, List.length_take, Nat.min_eq_left h]
  congr 2
  · rw [List.append_assoc, List.take_append_drop]
  · simp only [List.length_append, List.length_take, List.length_drop]
    omega

end rt.ByteBuffer

namespace rt.ByteBuffer

/-- Reading `n` bytes that are there: the first `n` readable bytes, and the rest stays
readable. -/
theorem getBytes_readable (b : ByteBuffer) (n : Nat) (h : n ≤ b.readable.length) :
    b.getBytes n = .ok (b.readable.take n, ⟨b.store, b.position + n, b.limit⟩) ∧
      (⟨b.store, b.position + n, b.limit⟩ : ByteBuffer).readable = b.readable.drop n := by
  have hr : n ≤ b.remaining := by
    have := h
    simp only [readable, List.length_drop, List.length_take] at this
    simp only [remaining]
    omega
  constructor
  · unfold getBytes
    rw [if_pos hr]
  · simp only [readable, List.drop_drop]

theorem get_readable (b : ByteBuffer) (x : Nat) (m : List Nat) (h : b.readable = x :: m) :
    ∃ b1, b.get = .ok (x, b1) ∧ b1.readable = m := by
  obtain ⟨h1, h2⟩ := getBytes_readable b 1 (by rw [h]; simp)
  refine ⟨⟨b.store, b.position + 1, b.limit⟩, ?_, ?_⟩
  · unfold get
    rw [h1, h]
    rfl
  · rw [h2, h]
    rfl

theorem getBuffer_readable (b : ByteBuffer) (n : Nat) (h : n ≤ b.readable.length) :
    ∃ b1, b.getBuffer n = .ok (ofList (b.readable.take n), b1) ∧
      b1.readable = b.readable.drop n := by
  obtain ⟨h1, h2⟩ := getBytes_readable b n h
  refine ⟨⟨b.store, b.position + n, b.limit⟩, ?_, h2⟩
  unfold getBuffer
  rw [h1]

theorem getInt_readable (b : ByteBuffer) (n : Nat) (h : n ≤ b.readable.length) :
    ∃ b1, b.getInt n = .ok (beValue (b.readable.take n), b1) ∧
      b1.readable = b.readable.drop n := by
  obtain ⟨h1, h2⟩ := getBytes_readable b n h
  refine ⟨⟨b.store, b.position + n, b.limit⟩, ?_, h2⟩
  unfold getInt getLong
  rw [h1]

theorem skip_readable (b : ByteBuffer) (n : Nat) (h : n ≤ b.readable.length) :
    ∃ b1, b.skip n = .ok b1 ∧ b1.readable = b.readable.drop n := by
  obtain ⟨_, h2⟩ := getBytes_readable b n h
  have hr : n ≤ b.remaining := by
    have := h
    simp only [readable, List.length_drop, List.length_take] at this
    simp only [remaining]
    omega
  refine ⟨⟨b.store, b.position + n, b.limit⟩, ?_, h2⟩
  unfold skip
  rw [if_pos hr]

/-- A buffer that has `w` written up to its cursor has `w ++ xs` written after a `put` of
`xs`. -/
theorem written_putBytes (b r : ByteBuffer) (w xs : List Nat)
    (hw : b.store.take b.position = w) (hp : w.length = b.position)
    (h : b.putBytes xs = .ok r) :
    r.store.take r.position = w ++ xs ∧ (w ++ xs).length = r.position ∧ r.limit = b.limit := by
  unfold putBytes at h
  split at h
  · cases h
    refine ⟨?_, by simp [hp], rfl⟩
    simp only [hw]
    rw [List.append_assoc, List.take_append_eq_append_take, List.take_of_length_le (by omega)]
    rw [hp, Nat.add_sub_cancel_left, List.take_append_eq_append_take,
      List.take_of_length_le (le_refl _)]
    simp
  · cases h

theorem readable_flip_written (r : ByteBuffer) (w : List Nat)
    (hw : r.store.take r.position = w) : r.flip.readable = w ∧ r.flip.position = 0 := by
  simp [readable, ByteBuffer.flip, hw]

end rt.ByteBuffer

namespace rt.ByteBuffer

theorem written_alloc (n : Nat) : Written (alloc n) [] := ⟨rfl, rfl⟩

theorem written_put_bytes {b r : ByteBuffer} {w : List Nat} (xs : List Nat) (hw : Written b w)
    (h : b.putBytes xs = .ok r) : Written r (w ++ xs) := by
  obtain ⟨h1, h2, _⟩ := written_putBytes b r w xs hw.1 hw.2 h
  exact ⟨h1, h2⟩

theorem written_put {b r : ByteBuffer} {w : List Nat} (v : Nat) (hw : Written b w)
    (h : b.put v = .ok r) : Written r (w ++ [v % 256]) :=
  written_put_bytes _ hw h

theorem written_putBuffer {b r : ByteBuffer} {w : List Nat} (other : ByteBuffer)
    (hw : Written b w) (h : b.putBuffer other = .ok r) : Written r (w ++ other.readable) :=
  written_put_bytes _ hw h

theorem written_putInt {b r : ByteBuffer} {w : List Nat} (v n : Nat) (hw : Written b w)
    (h : b.putInt v n = .ok r) : Written r (w ++ beBytes n v) :=
  written_put_bytes _ hw h

theorem written_flip {r : ByteBuffer} {w : List Nat} (hw : Written r w) :
    r.flip.readable = w ∧ r.flip.position = 0 ∧ r.flip.elements = w.length := by
  obtain ⟨h1, h2⟩ := readable_flip_written r w hw.1
  exact ⟨h1, h2, hw.2.symm⟩

end rt.ByteBuffer

namespace hw.HSU.Impl
open rt rt.ByteBuffer

theorem buildFrame_ofList (bytes : List Nat) (h : bytes.length ≤ 248) :
    buildFrame (ofList bytes) = .ok (writing (atbFrame bytes) 255).flip := by
  unfold buildFrame
  simp only [alloc_eq_writing, remaining_ofList, readable_ofList, reduceSum_ofList]
  rw [putBytes_writing _ _ _ (by simp)]
  simp only [bind, Except.bind]
  rw [put_writing _ _ _ (by simp)]
  simp only [bind, Except.bind]
  rw [put_writing _ _ _ (by simp)]
  simp only [bind, Except.bind]
  rw [putBytes_writing _ _ _ (by simp; omega)]
  simp only [bind, Except.bind]
  rw [put_writing _ _ _ (by simp; omega)]
  simp only [bind, Except.bind]
  rw [putBytes_writing _ _ _ (by simp; omega)]
  simp only [bind, Except.bind, pure, Except.pure]
  congr 3
  unfold atbFrame
  have e1 : bytes.length % 256 = bytes.length := Nat.mod_eq_of_lt (by omega)
  have e2 : (4294967296 + 256 - bytes.length) % 4294967296 % 256 = (256 - bytes.length) % 256 := by
    omega
  simp [e1, e2]

end hw.HSU.Impl
namespace hw.HSU
open rt rt.ByteBuffer

theorem received_append (a b : List SysCall) : received (a ++ b) = received a ++ received b := by
  induction a with
  | nil => simp [received]
  | cons c cs ih => cases c <;> simp [received, ih]

theorem written_append (a b : List SysCall) : written (a ++ b) = written a ++ written b := by
  induction a with
  | nil => simp [written]
  | cons c cs ih => cases c <;> simp [written, ih]

theorem remaining_writing (w : List Nat) (cap : Nat) : (writing w cap).remaining = cap - w.length := by
  simp [remaining, writing]

theorem accepts_readFile (p : Serial) (n : Nat) (h : p.Accepts) : (p.readFile n).2.2.Accepts := by
  unfold Serial.readFile
  cases hr : p.readResults with
  | nil => exact h
  | cons x xs => obtain ⟨ok, bs⟩ := x; exact h

theorem accepts_setCommTimeouts (p : Serial) (r w : Int) (h : p.Accepts) :
    (p.setCommTimeouts r w).1 = true ∧ (p.setCommTimeouts r w).2.Accepts := by
  unfold Serial.setCommTimeouts
  cases hr : p.timeoutResults with
  | nil => exact ⟨rfl, by simpa [Serial.Accepts, hr] using h⟩
  | cons x xs =>
    obtain ⟨h1, h2⟩ := h
    rw [hr] at h1
    refine ⟨h1 x (by simp), ?_, h2⟩
    intro ok hok
    exact h1 ok (by simp [hok])

theorem accepts_writeFile (p : Serial) (bytes : List Nat) (h : p.Accepts) (hb : bytes ≠ []) :
    (p.writeFile bytes).1 = true ∧ 0 < (p.writeFile bytes).2.1 ∧ (p.writeFile bytes).2.2.Accepts := by
  have hlen : 0 < bytes.length := List.length_pos.mpr hb
  unfold Serial.writeFile
  cases hr : p.writeResults with
  | nil => exact ⟨rfl, hlen, by simpa [Serial.Accepts, hr] using h⟩
  | cons x xs =>
    obtain ⟨ok, n⟩ := x
    obtain ⟨h1, h2⟩ := h
    rw [hr] at h2
    have hx := h2 (ok, n) (by simp)
    refine ⟨hx.1, ?_, h1, ?_⟩
    · have := hx.2
      simp only at this ⊢
      omega
    · intro w hw
      exact h2 w (by simp [hw])

namespace Impl

theorem readLoop_spec (fuel : Nat) : ∀ (s : Impl) (w : List Nat) (cap total : Nat),
    w.length ≤ cap → cap - w.length < fuel →
    ∃ r d s1 post, readLoop fuel s (writing w cap) total = .ok (r, d, s1) ∧
      s1.handleValid = s.handleValid ∧ s1.powerMode = s.powerMode ∧
      s1.port.calls = s.port.calls ++ post ∧ (s.port.Accepts → s1.port.Accepts) ∧
      (∀ c ∈ post, c.reads = true) ∧ written post = [] ∧
      ((r = -1 ∧ post.any SysCall.failed = true) ∨
       (r = -2 ∧ total = 0 ∧ post.any SysCall.failed = false ∧ received post = []) ∨
       (r = ((total + (received post).length : Nat) : Int) ∧ 0 < total + (received post).length ∧
          post.any SysCall.failed = false ∧ d = (writing (w ++ received post) cap).flip)) := by
  induction fuel with
  | zero => intro s w cap total _ h; omega
  | succ n ih =>
    intro s w cap total hw hfuel
    -- the answer of this turn's ReadFile
    obtain ⟨ok, bytes, port, hrf, hcalls, hlen, hfail⟩ :
        ∃ ok bytes port, s.port.readFile (cap - w.length) = (ok, bytes, port) ∧
          port.calls = s.port.calls ++ [.ReadFile (cap - w.length) ok bytes] ∧
          bytes.length ≤ cap - w.length ∧ (ok = false → bytes = []) := by
      unfold Serial.readFile
      cases hrr : s.port.readResults with
      | nil => exact ⟨true, [], _, rfl, rfl, by simp, by simp⟩
      | cons x xs =>
        obtain ⟨ok, bs⟩ := x
        refine ⟨ok, if ok then bs.take (cap - w.length) else [], _, rfl, rfl, ?_, ?_⟩
        · split <;> simp
        · intro h; simp [h]
    have hacc : s.port.Accepts → port.Accepts := by
      intro h
      have := accepts_readFile s.port (cap - w.length) h
      rw [hrf] at this
      exact this
    unfold readLoop
    simp only [remaining_writing, hrf]
    cases ok with
    | false =>
      refine ⟨-1, _, _, [.ReadFile (cap - w.length) false bytes], rfl, rfl, rfl, hcalls, hacc,
        ?_, ?_, ?_⟩
      · simp [SysCall.reads]
      · simp [written]
      · left; simp [SysCall.failed]
    | true =>
      simp only [Bool.not_true, Bool.false_eq_true, if_false]
      by_cases htot : total + bytes.length = 0
      · simp only [htot, if_true]
        have hb : bytes = [] := by
          have : bytes.length = 0 := by omega
          simpa using this
        refine ⟨-2, _, _, [.ReadFile (cap - w.length) true bytes], rfl, rfl, rfl, hcalls, hacc,
          ?_, ?_, ?_⟩
        · simp [SysCall.reads]
        · simp [written]
        · right; left
          refine ⟨rfl, by omega, by simp [SysCall.failed], by simp [received, hb]⟩
      · simp only [htot, if_false]
        rw [putBytes_writing w bytes cap (by omega)]
        simp only [remaining_writing, List.length_append]
        by_cases hcont : 0 < bytes.length ∧ 0 < cap - (w.length + bytes.length)
        · simp only [hcont, and_self, if_true]
          obtain ⟨r, d, s1, post, hrun, hv, hm, hc, hac, hreads, hwr, hres⟩ :=
            ih { s with port := port } (w ++ bytes) cap (total + bytes.length)
              (by simp; omega) (by simp; omega)
          refine ⟨r, d, s1, .ReadFile (cap - w.length) true bytes :: post, hrun, hv, hm, ?_,
            fun h => hac (hacc h), ?_, ?_, ?_⟩
          · rw [hc]; simp [hcalls]
          · intro c hcm
            rcases List.mem_cons.mp hcm with h | h
            · simp [h, SysCall.reads]
            · exact hreads c h
          · simp [written, hwr]
          · rcases hres with ⟨h1, h2⟩ | ⟨h1, h2, _, _⟩ | ⟨h1, h2, h3, h4⟩
            · left; exact ⟨h1, by simp [h2]⟩
            · omega
            · right; right
              refine ⟨?_, ?_, ?_, ?_⟩
              · rw [h1]; simp [received]; omega
              · simp [received]; omega
              · simp [SysCall.failed, h3]
              · rw [h4]; simp [received]
        · simp only [hcont, if_false]
          refine ⟨_, _, _, [.ReadFile (cap - w.length) true bytes], rfl, rfl, rfl, hcalls, hacc,
            ?_, ?_, ?_⟩
          · simp [SysCall.reads]
          · simp [written]
          · right; right
            refine ⟨by simp [received], by simp [received]; omega, by simp [SysCall.failed],
              by simp [received]⟩

end Impl
end hw.HSU
namespace hw.HSU.Impl
open rt rt.ByteBuffer

theorem read_spec (s : Impl) (cap : Nat) (timeout : Int) :
    ∃ r d s1 post, read s (alloc cap) timeout = .ok (r, d, s1) ∧
      s1.handleValid = s.handleValid ∧ s1.powerMode = s.powerMode ∧
      s1.port.calls = s.port.calls ++ post ∧ (s.port.Accepts → s1.port.Accepts) ∧
      (∀ c ∈ post, c.reads = true) ∧ written post = [] ∧
      (∃ ok, post.head? = some (.SetCommTimeouts timeout timeout ok) ∧
        (s.port.Accepts → ok = true)) ∧
      ((r = -1 ∧ post.any SysCall.failed = true) ∨
       (r = -2 ∧ post.any SysCall.failed = false ∧ received post = []) ∨
       (r = (((received post).length : Nat) : Int) ∧ 0 < (received post).length ∧
          post.any SysCall.failed = false ∧ d = (writing (received post) cap).flip)) := by
  obtain ⟨ok, port, hst, hcalls⟩ : ∃ ok port, s.port.setCommTimeouts timeout timeout = (ok, port) ∧
      port.calls = s.port.calls ++ [.SetCommTimeouts timeout timeout ok] := by
    unfold Serial.setCommTimeouts
    cases s.port.timeoutResults with
    | nil => exact ⟨_, _, rfl, rfl⟩
    | cons x xs => exact ⟨_, _, rfl, rfl⟩
  have hacc : s.port.Accepts → port.Accepts := by
    intro h
    have := (accepts_setCommTimeouts s.port timeout timeout h).2
    rw [hst] at this
    exact this
  unfold read
  simp only [hst]
  cases ok with
  | false =>
    have hno : ¬ s.port.Accepts := by
      intro h
      have := (accepts_setCommTimeouts s.port timeout timeout h).1
      rw [hst] at this
      simp at this
    refine ⟨-1, _, _, [.SetCommTimeouts timeout timeout false], rfl, rfl, rfl, hcalls, hacc,
      ?_, ?_, ⟨_, rfl, fun h => absurd h hno⟩, ?_⟩
    · simp [SysCall.reads]
    · simp [written]
    · left; simp [SysCall.failed]
  | true =>
    simp only [Bool.not_true, Bool.false_eq_true, if_false, alloc_eq_writing, remaining_writing]
    obtain ⟨r, d, s1, post, hrun, hv, hm, hc, hac, hreads, hwr, hres⟩ :=
      readLoop_spec (cap - ([] : List Nat).length + 1) { s with port := port } [] cap 0
        (by simp) (by omega)
    refine ⟨r, d, s1, .SetCommTimeouts timeout timeout true :: post, hrun, hv, hm, ?_,
      fun h => hac (hacc h), ?_, ?_, ⟨_, rfl, fun _ => rfl⟩, ?_⟩
    · rw [hc]; simp [hcalls]
    · intro c hcm
      rcases List.mem_cons.mp hcm with h | h
      · simp [h, SysCall.reads]
      · exact hreads c h
    · simp [written, hwr]
    · rcases hres with ⟨h1, h2⟩ | ⟨h1, _, h2, h3⟩ | ⟨h1, h2, h3, h4⟩
      · left; exact ⟨h1, by simp [h2]⟩
      · right; left; exact ⟨h1, by simp [SysCall.failed, h2], by simp [received, h3]⟩
      · right; right
        refine ⟨by simpa [received] using h1, by simpa [received] using h2,
          by simp [SysCall.failed, h3], by simpa [received] using h4⟩

theorem setCommTimeouts_spec (p : Serial) (r w : Int) :
    ∃ ok port, p.setCommTimeouts r w = (ok, port) ∧
      port.calls = p.calls ++ [.SetCommTimeouts r w ok] := by
  unfold Serial.setCommTimeouts
  cases p.timeoutResults with
  | nil => exact ⟨_, _, rfl, rfl⟩
  | cons x xs => exact ⟨_, _, rfl, rfl⟩

theorem writeFile_spec (p : Serial) (bytes : List Nat) :
    ∃ ok k port, p.writeFile bytes = (ok, k, port) ∧
      port.calls = p.calls ++ [.WriteFile bytes ok k] := by
  unfold Serial.writeFile
  cases p.writeResults with
  | nil => exact ⟨_, _, _, rfl, rfl⟩
  | cons x xs => exact ⟨_, _, _, rfl, rfl⟩

theorem write_accepts (s : Impl) (data : ByteBuffer) (timeout : Int)
    (hacc : s.port.Accepts) (hne : data.content ≠ []) :
    0 < (s.write data timeout).1 ∧ (s.write data timeout).2.port.Accepts := by
  obtain ⟨a1, a2⟩ := accepts_setCommTimeouts s.port timeout timeout hacc
  obtain ⟨b1, b2, b3⟩ := accepts_writeFile _ data.content a2 hne
  rcases hst : s.port.setCommTimeouts timeout timeout with ⟨ok, port⟩
  rw [hst] at a1 a2 b1 b2 b3
  simp only at a1 a2 b1 b2 b3
  rcases hwf : port.writeFile data.content with ⟨ok2, k, port2⟩
  rw [hwf] at b1 b2 b3
  simp only at b1 b2 b3
  subst a1 b1
  unfold write
  simp only [hst, hwf, Bool.not_true, Bool.false_eq_true, if_false]
  exact ⟨by omega, b3⟩

theorem write_spec (s : Impl) (data : ByteBuffer) (timeout : Int) :
    (s.write data timeout).2.handleValid = s.handleValid ∧
    (s.write data timeout).2.powerMode = s.powerMode ∧
    ((s.write data timeout).1 ≤ 0 ∧
        (s.write data timeout).2.port.calls =
          s.port.calls ++ [.SetCommTimeouts timeout timeout false] ∨
     (s.write data timeout).1 ≤ 0 ∧ (∃ ok k, (ok = false ∨ k = 0) ∧
        (s.write data timeout).2.port.calls = s.port.calls ++
          [.SetCommTimeouts timeout timeout true, .WriteFile data.content ok k]) ∨
     0 < (s.write data timeout).1 ∧ (∃ k, 0 < k ∧
        (s.write data timeout).2.port.calls = s.port.calls ++
          [.SetCommTimeouts timeout timeout true, .WriteFile data.content true k])) := by
  obtain ⟨ok, port, h1, hc1⟩ := setCommTimeouts_spec s.port timeout timeout
  obtain ⟨ok2, k, port2, h2, hc2⟩ := writeFile_spec port data.content
  unfold write
  simp only [h1]
  cases ok with
  | false =>
    simp only [Bool.not_false, if_true, true_and]
    left
    exact ⟨by norm_num, hc1⟩
  | true =>
    simp only [Bool.not_true, Bool.false_eq_true, if_false, h2]
    cases ok2 with
    | false =>
      simp only [Bool.not_false, if_true, true_and]
      right; left
      exact ⟨by norm_num, false, k, Or.inl rfl, by rw [hc2, hc1]; simp⟩
    | true =>
      simp only [Bool.not_true, Bool.false_eq_true, if_false, true_and]
      by_cases hk : k = 0
      · right; left
        exact ⟨by simp [hk], true, k, Or.inr hk, by rw [hc2, hc1]; simp⟩
      · right; right
        exact ⟨by omega, k, by omega, by rw [hc2, hc1]; simp⟩

end hw.HSU.Impl
namespace hw.HSU.Impl
open rt rt.ByteBuffer

theorem sendFrame_spec (s : Impl) (bytes : List Nat) (timeout : Int)
    (h2 : 2 ≤ bytes.length) (h248 : bytes.length ≤ 248) :
    ∃ r s1 tr, sendFrame s (ofList bytes) timeout = .ok (r, s1) ∧
      s1.handleValid = s.handleValid ∧ s1.port.calls = s.port.calls ++ tr ∧
      ((tr = [.SetCommTimeouts 100 100 false] ∧ r = -1 ∧ s1.powerMode = s.powerMode ∧
          ¬ s.port.Accepts) ∨
       (∃ ok k, (ok = false ∨ k = 0) ∧
          tr = [.SetCommTimeouts 100 100 true, .WriteFile (atbFrame bytes) ok k] ∧ r = -1 ∧
          s1.powerMode = s.powerMode ∧ ¬ s.port.Accepts) ∨
       (∃ k post, 0 < k ∧
          tr = [.SetCommTimeouts 100 100 true, .WriteFile (atbFrame bytes) true k] ++ post ∧
          (∀ c ∈ post, c.reads = true) ∧ written post = [] ∧
          (∃ ok, post.head? = some (.SetCommTimeouts timeout timeout ok) ∧
            (s.port.Accepts → ok = true)) ∧
          (s.port.Accepts → s1.port.Accepts) ∧
          r = ackVerdict post ∧
          s1.powerMode =
            (if bytes.getD 1 0 = 0x8c then
               (if post.any SysCall.failed = false ∧ received post ≠ [] then Mode.Normal
                else Mode.PowerDown)
             else if bytes.getD 1 0 = 0x16 then Mode.PowerDown else s.powerMode))) := by
  unfold sendFrame
  rw [buildFrame_ofList bytes h248]
  simp only [bind, Except.bind]
  obtain ⟨hwv, hwm, hw⟩ := write_spec s (writing (atbFrame bytes) 255).flip 100
  rw [content_flip_writing] at hw
  rcases hwr : s.write (writing (atbFrame bytes) 255).flip 100 with ⟨w, sw⟩
  rw [hwr] at hwv hwm hw
  simp only at hwv hwm hw ⊢
  have hfne : (writing (atbFrame bytes) 255).flip.content ≠ [] := by
    rw [content_flip_writing]; simp [atbFrame]
  have hwacc : s.port.Accepts → 0 < w ∧ sw.port.Accepts := by
    intro h
    have := write_accepts s (writing (atbFrame bytes) 255).flip 100 h hfne
    rw [hwr] at this
    exact this
  by_cases hwle : w ≤ 0
  · simp only [hwle, if_true, pure, Except.pure]
    have hno : ¬ s.port.Accepts := fun h => by have := (hwacc h).1; omega
    rcases hw with ⟨_, hc⟩ | ⟨_, ok, k, hk, hc⟩ | ⟨hpos, _⟩
    · exact ⟨-1, sw, _, rfl, hwv, hc, Or.inl ⟨rfl, rfl, hwm, hno⟩⟩
    · exact ⟨-1, sw, _, rfl, hwv, hc, Or.inr (Or.inl ⟨ok, k, hk, rfl, rfl, hwm, hno⟩)⟩
    · omega
  · simp only [hwle, if_false]
    rcases hw with ⟨hle, _⟩ | ⟨hle, _⟩ | ⟨_, k, hk, hc⟩
    · omega
    · omega
    rw [getAt_ofList bytes 1 (by omega)]
    simp only
    generalize hs2 : (if bytes.getD 1 0 = 22 then ({ sw with powerMode := Mode.PowerDown } : Impl)
      else if bytes.getD 1 0 = 140 then { sw with powerMode := Mode.PowerDown } else sw) = s2
    have hs2v : s2.handleValid = sw.handleValid := by
      rw [← hs2]; split
      · rfl
      · split <;> rfl
    have hs2c : s2.port = sw.port := by
      rw [← hs2]; split
      · rfl
      · split <;> rfl
    have hs2m : s2.powerMode = (if bytes.getD 1 0 = 22 then Mode.PowerDown
        else if bytes.getD 1 0 = 140 then Mode.PowerDown else s.powerMode) := by
      rw [← hs2, ← hwm]; split
      · rfl
      · split <;> rfl
    obtain ⟨r, d, s3, post, hrun, hv, hm, hcalls, hracc, hreads, hwrt, hhead0, hres⟩ :=
      read_spec s2 6 timeout
    rw [hrun]
    simp only
    have hhead : ∃ ok, post.head? = some (.SetCommTimeouts timeout timeout ok) ∧
        (s.port.Accepts → ok = true) := by
      obtain ⟨ok, h1, h2⟩ := hhead0
      exact ⟨ok, h1, fun h => h2 (by rw [hs2c]; exact (hwacc h).2)⟩
    have hacc3 : s.port.Accepts → s3.port.Accepts := fun h =>
      hracc (by rw [hs2c]; exact (hwacc h).2)
    have hfinal_calls : s3.port.calls = s.port.calls ++
        ([.SetCommTimeouts 100 100 true, .WriteFile (atbFrame bytes) true k] ++ post) := by
      rw [hcalls, hs2c, hc]; simp
    rcases hres with ⟨h1, hf⟩ | ⟨h1, hf, hrec⟩ | ⟨h1, hpos, hf, hd⟩
    · -- a call of the ACK read failed
      subst h1
      simp only [show ((-1 : Int) ≤ 0) from by norm_num, if_true, pure, Except.pure]
      refine ⟨-1, s3, _, rfl, by rw [hv, hs2v, hwv], hfinal_calls, ?_⟩
      right; right
      refine ⟨k, post, hk, rfl, hreads, hwrt, hhead, hacc3, by simp [ackVerdict, hf], ?_⟩
      rw [hm, hs2m]
      simp only [hf, Bool.true_eq_false, false_and, if_false]
      split <;> simp_all
    · -- no byte arrived
      subst h1
      simp only [show ((-2 : Int) ≤ 0) from by norm_num, if_true, pure, Except.pure]
      refine ⟨-2, s3, _, rfl, by rw [hv, hs2v, hwv], hfinal_calls, ?_⟩
      right; right
      refine ⟨k, post, hk, rfl, hreads, hwrt, hhead, hacc3, by simp [ackVerdict, hf, hrec], ?_⟩
      rw [hm, hs2m]
      simp only [hrec, ne_eq, not_true_eq_false, and_false, if_false]
      split <;> simp_all
    · -- some bytes arrived
      have hrpos : ¬ r ≤ 0 := by rw [h1]; omega
      have hne : received post ≠ [] := by
        intro h; rw [h] at hpos; simp at hpos
      simp only [hrpos, if_false]
      subst hd
      have hlim : (writing (received post) 6).flip.limit = (received post).length := by
        simp [ByteBuffer.flip, writing]
      generalize hs4 : (if bytes.getD 1 0 = 140 then ({ s3 with powerMode := Mode.Normal } : Impl)
        else s3) = s4
      have hs4v : s4.handleValid = s3.handleValid := by
        rw [← hs4]; split <;> rfl
      have hs4c : s4.port = s3.port := by
        rw [← hs4]; split <;> rfl
      have hs4m : s4.powerMode =
          (if bytes.getD 1 0 = 0x8c then
             (if post.any SysCall.failed = false ∧ received post ≠ [] then Mode.Normal
              else Mode.PowerDown)
           else if bytes.getD 1 0 = 0x16 then Mode.PowerDown else s.powerMode) := by
        rw [← hs4]
        by_cases h8c : bytes.getD 1 0 = 140
        · rw [if_pos h8c, if_pos h8c, if_pos ⟨hf, hne⟩]
        · rw [if_neg h8c, if_neg h8c, hm, hs2m]
          by_cases h16 : bytes.getD 1 0 = 22
          · rw [if_pos h16, if_pos h16]
          · rw [if_neg h16, if_neg h16, if_neg h8c]
      have hackr : ackFrame.readable = [0x00, 0x00, 0xff, 0x00, 0xff, 0x00] := by
        simp [ackFrame, readable_ofList]
      by_cases hshort : (received post).length < 6
      · simp only [hlim, hshort, if_true, pure, Except.pure]
        refine ⟨-1, s4, _, rfl, by rw [hs4v, hv, hs2v, hwv], by rw [hs4c]; exact hfinal_calls, ?_⟩
        right; right
        refine ⟨k, post, hk, rfl, hreads, hwrt, hhead, by rw [hs4c]; exact hacc3, ?_, hs4m⟩
        have : received post ≠ ackFrame.readable := by
          intro h; rw [h, hackr] at hshort; simp at hshort
        simp [ackVerdict, hf, hne, this]
      · simp only [hlim, hshort, if_false, pure, Except.pure]
        refine ⟨_, s4, _, rfl, by rw [hs4v, hv, hs2v, hwv], by rw [hs4c]; exact hfinal_calls, ?_⟩
        right; right
        refine ⟨k, post, hk, rfl, hreads, hwrt, hhead, by rw [hs4c]; exact hacc3, ?_, hs4m⟩
        simp only [ackVerdict, hf, Bool.false_eq_true, if_false, hne, contentEq,
          readable_flip_writing]
        by_cases heq : received post = ackFrame.readable
        · simp [heq]
        · simp [heq]

end hw.HSU.Impl
namespace hw.HSU.Impl
open rt rt.ByteBuffer

theorem received_short (k : Nat) (bytes : List Nat) (t : Int) (ok okw : Bool) :
    received [SysCall.SetCommTimeouts t t ok, SysCall.WriteFile bytes okw k] = [] := by
  simp [received]

/-- `send` in any power mode: the record splits into a writing part `pre` and the ACK read
`post`; when the command frame went out the result is the verdict on the ACK read, otherwise
nothing is read and the result is -1. -/
theorem send_spec (s : Impl) (bytes : List Nat) (timeout : Int)
    (h2 : 2 ≤ bytes.length) (h248 : bytes.length ≤ 248) :
    ∃ r s1 pre post, send s (ofList bytes) timeout = .ok (r, s1) ∧
      s1.handleValid = s.handleValid ∧ s1.port.calls = s.port.calls ++ pre ++ post ∧
      received pre = [] ∧ written post = [] ∧ (∀ c ∈ post, c.reads = true) ∧
      (((∃ k, 0 < k ∧ pre.getLast? = some (.WriteFile (atbFrame bytes) true k)) ∧
          r = ackVerdict post ∧
          s1.powerMode =
            (if bytes.getD 1 0 = 0x8c then
               (if post.any SysCall.failed = false ∧ received post ≠ [] then Mode.Normal
                else Mode.PowerDown)
             else if bytes.getD 1 0 = 0x16 then Mode.PowerDown else Mode.Normal)) ∨
        (post = [] ∧ r = -1)) := by
  -- what `sendFrame` contributes, from a state in normal mode
  have key : ∀ (s' : Impl) (t' : Int), s'.powerMode = Mode.Normal →
      ∃ r s1 pre post, sendFrame s' (ofList bytes) t' = .ok (r, s1) ∧
        s1.handleValid = s'.handleValid ∧ s1.port.calls = s'.port.calls ++ pre ++ post ∧
        received pre = [] ∧ written post = [] ∧ (∀ c ∈ post, c.reads = true) ∧
        (((∃ k, 0 < k ∧ pre.getLast? = some (.WriteFile (atbFrame bytes) true k)) ∧
            r = ackVerdict post ∧
            s1.powerMode =
              (if bytes.getD 1 0 = 0x8c then
                 (if post.any SysCall.failed = false ∧ received post ≠ [] then Mode.Normal
                  else Mode.PowerDown)
               else if bytes.getD 1 0 = 0x16 then Mode.PowerDown else Mode.Normal)) ∨
          (post = [] ∧ r = -1)) := by
    intro s' t' hm'
    obtain ⟨r, s1, tr, hrun, hv, hc, hcase⟩ := sendFrame_spec s' bytes t' h2 h248
    rcases hcase with ⟨htr, hr, _, _⟩ | ⟨ok, k, _, htr, hr, _, _⟩ | ⟨k, post, hk, htr, hreads, hwr, _, _, hr, hm⟩
    · exact ⟨r, s1, tr, [], hrun, hv, by simpa using hc, by simp [htr, received], rfl,
        by simp, Or.inr ⟨rfl, hr⟩⟩
    · exact ⟨r, s1, tr, [], hrun, hv, by simpa using hc, by simp [htr, received], rfl,
        by simp, Or.inr ⟨rfl, hr⟩⟩
    · refine ⟨r, s1, [.SetCommTimeouts 100 100 true, .WriteFile (atbFrame bytes) true k], post,
        hrun, hv, by rw [hc, htr]; simp, by simp [received], hwr, hreads, Or.inl ⟨⟨k, hk, rfl⟩, hr, ?_⟩⟩
      rw [hm, hm']
  unfold send
  by_cases hmode : s.powerMode = Mode.Normal
  · simp only [hmode, ne_eq, not_true_eq_false, if_false]
    exact key s timeout hmode
  · simp only [ne_eq, hmode, not_false_eq_true, if_true]
    obtain ⟨hwv, hwm, hw⟩ := write_spec s wakeUpFrame 100
    rcases hwr : s.write wakeUpFrame 100 with ⟨w, sw⟩
    rw [hwr] at hwv hwm hw
    simp only at hwv hwm hw ⊢
    by_cases hwle : w ≤ 0
    · simp only [hwle, if_true]
      rcases hw with ⟨_, hc⟩ | ⟨_, ok, k, _, hc⟩ | ⟨hpos, _⟩
      · exact ⟨-1, sw, _, [], rfl, hwv, by simpa using hc, by simp [received], rfl, by simp,
          Or.inr ⟨rfl, rfl⟩⟩
      · exact ⟨-1, sw, _, [], rfl, hwv, by simpa using hc, by simp [received], rfl, by simp,
          Or.inr ⟨rfl, rfl⟩⟩
      · omega
    · simp only [hwle, if_false]
      rcases hw with ⟨hle, _⟩ | ⟨hle, _⟩ | ⟨_, k, hk, hc⟩
      · omega
      · omega
      obtain ⟨r, s1, pre, post, hrun, hv, hcalls, hrec, hwrt, hreads, hcase⟩ :=
        key { sw with powerMode := Mode.Normal } (timeout + 1000) rfl
      refine ⟨r, s1, [.SetCommTimeouts 100 100 true, .WriteFile wakeUpFrame.content true k] ++ pre,
        post, hrun, by rw [hv]; exact hwv, ?_, ?_, hwrt, hreads, ?_⟩
      · rw [hcalls]; simp only; rw [hc]; simp
      · rw [received_append, hrec]; simp [received]
      · rcases hcase with ⟨⟨k', hk', hlast⟩, hr, hm⟩ | h
        · left
          refine ⟨⟨k', hk', ?_⟩, hr, hm⟩
          rw [List.getLast?_append, hlast]; rfl
        · exact Or.inr h

/-- `send` in any power mode, by the record of its calls: the writing part `pre` holds no
`ReadFile`; either it ends in the write of the command frame and the ACK read `post` alone
decides the result, or it ends in the call that failed, nothing is read and the result is -1. -/
theorem send_gate (s : Impl) (bytes : List Nat) (timeout : Int)
    (h2 : 2 ≤ bytes.length) (h248 : bytes.length ≤ 248) :
    ∃ r s1 pre post, send s (ofList bytes) timeout = .ok (r, s1) ∧
      s1.port.calls = s.port.calls ++ pre ++ post ∧
      (∀ n ok d, SysCall.ReadFile n ok d ∉ pre) ∧ written post = [] ∧
      (∀ c ∈ post, c.reads = true) ∧
      (((∃ k, 0 < k ∧ pre.getLast? = some (.WriteFile (atbFrame bytes) true k)) ∧
          (∃ ok, post.head? = some (.SetCommTimeouts
            (if s.powerMode = Mode.Normal then timeout else timeout + 1000)
            (if s.powerMode = Mode.Normal then timeout else timeout + 1000) ok)) ∧
          r = ackVerdict post) ∨
        ((∀ k, 0 < k → SysCall.WriteFile (atbFrame bytes) true k ∉ pre) ∧
          (pre.getLast? = some (.SetCommTimeouts 100 100 false) ∨
            ∃ b ok k, (ok = false ∨ k = 0) ∧ pre.getLast? = some (.WriteFile b ok k)) ∧
          post = [] ∧ r = -1)) := by
  have hwake : wakeUpFrame.content ≠ atbFrame bytes := by
    simp [wakeUpFrame, content_ofList, atbFrame]
  have key : ∀ (s' : Impl) (t' : Int),
      ∃ r s1 pre post, sendFrame s' (ofList bytes) t' = .ok (r, s1) ∧
        s1.port.calls = s'.port.calls ++ pre ++ post ∧
        (∀ n ok d, SysCall.ReadFile n ok d ∉ pre) ∧ written post = [] ∧
        (∀ c ∈ post, c.reads = true) ∧
        (((∃ k, 0 < k ∧ pre.getLast? = some (.WriteFile (atbFrame bytes) true k)) ∧
            (∃ ok, post.head? = some (.SetCommTimeouts t' t' ok)) ∧
            r = ackVerdict post) ∨
          ((∀ k, 0 < k → SysCall.WriteFile (atbFrame bytes) true k ∉ pre) ∧
            (pre.getLast? = some (.SetCommTimeouts 100 100 false) ∨
              ∃ b ok k, (ok = false ∨ k = 0) ∧ pre.getLast? = some (.WriteFile b ok k)) ∧
            post = [] ∧ r = -1)) := by
    intro s' t'
    obtain ⟨r, s1, tr, hrun, _, hc, hcase⟩ := sendFrame_spec s' bytes t' h2 h248
    rcases hcase with ⟨htr, hr, _, _⟩ | ⟨ok, k, hok, htr, hr, _, _⟩ |
      ⟨k, post, hk, htr, hreads, hwr, ⟨ok, hhead, _⟩, _, hr, _⟩
    · refine ⟨r, s1, tr, [], hrun, by simpa using hc, by simp [htr], rfl, by simp,
        Or.inr ⟨by simp [htr], Or.inl (by simp [htr]), rfl, hr⟩⟩
    · refine ⟨r, s1, tr, [], hrun, by simpa using hc, by simp [htr], rfl, by simp,
        Or.inr ⟨?_, Or.inr ⟨atbFrame bytes, ok, k, hok, by simp [htr]⟩, rfl, hr⟩⟩
      intro k' hk' hmem
      rw [htr] at hmem
      simp only [List.mem_cons, SysCall.WriteFile.injEq, List.mem_singleton, false_or,
        List.not_mem_nil, or_false, reduceCtorEq] at hmem
      rcases hok with h | h
      · rw [h] at hmem; simp at hmem
      · omega
    · exact ⟨r, s1, [.SetCommTimeouts 100 100 true, .WriteFile (atbFrame bytes) true k], post,
        hrun, by rw [hc, htr]; simp, by simp, hwr, hreads,
        Or.inl ⟨⟨k, hk, rfl⟩, ⟨ok, hhead⟩, hr⟩⟩
  unfold send
  by_cases hmode : s.powerMode = Mode.Normal
  · simp only [hmode, ne_eq, not_true_eq_false, if_false, if_true]
    exact key s timeout
  · simp only [ne_eq, hmode, not_false_eq_true, if_true, if_false]
    obtain ⟨_, _, hw⟩ := write_spec s wakeUpFrame 100
    rcases hwr : s.write wakeUpFrame 100 with ⟨w, sw⟩
    rw [hwr] at hw
    simp only at hw ⊢
    by_cases hwle : w ≤ 0
    · simp only [hwle, if_true]
      rcases hw with ⟨_, hc⟩ | ⟨_, ok, k, hok, hc⟩ | ⟨hpos, _⟩
      · exact ⟨-1, sw, _, [], rfl, by simpa using hc, by simp, rfl, by simp,
          Or.inr ⟨by simp, Or.inl (by simp), rfl, rfl⟩⟩
      · refine ⟨-1, sw, _, [], rfl, by simpa using hc, by simp, rfl, by simp,
          Or.inr ⟨?_, Or.inr ⟨wakeUpFrame.content, ok, k, hok, by simp⟩, rfl, rfl⟩⟩
        intro k' hk' hmem
        simp only [List.mem_cons, SysCall.WriteFile.injEq, List.mem_singleton, false_or,
          List.not_mem_nil, or_false, reduceCtorEq] at hmem
        exact hwake hmem.1.symm
      · omega
    · simp only [hwle, if_false]
      rcases hw with ⟨hle, _⟩ | ⟨hle, _⟩ | ⟨_, k, hk, hc⟩
      · omega
      · omega
      obtain ⟨r, s1, pre, post, hrun, hcalls, hnoread, hwrt, hreads, hcase⟩ :=
        key { sw with powerMode := Mode.Normal } (timeout + 1000)
      refine ⟨r, s1, [.SetCommTimeouts 100 100 true, .WriteFile wakeUpFrame.content true k] ++ pre,
        post, hrun, ?_, ?_, hwrt, hreads, ?_⟩
      · rw [hcalls]; simp only; rw [hc]; simp
      · intro n ok d hmem
        simp only [List.cons_append, List.nil_append, List.mem_cons, reduceCtorEq,
          false_or] at hmem
        exact hnoread n ok d hmem
      · have hlast : ∀ x, pre.getLast? = some x →
            ([SysCall.SetCommTimeouts 100 100 true,
              SysCall.WriteFile wakeUpFrame.content true k] ++ pre).getLast? = some x := by
          intro x hx
          rw [List.getLast?_append, hx]; rfl
        rcases hcase with ⟨⟨k', hk', hl⟩, hhead, hr⟩ | ⟨hnone, hl, hpost, hr⟩
        · exact Or.inl ⟨⟨k', hk', hlast _ hl⟩, hhead, hr⟩
        · refine Or.inr ⟨?_, ?_, hpost, hr⟩
          · intro k' hk' hmem
            simp only [List.cons_append, List.nil_append, List.mem_cons, reduceCtorEq,
              false_or, SysCall.WriteFile.injEq] at hmem
            rcases hmem with h | h
            · exact hwake h.1.symm
            · exact hnone k' hk' h
          · rcases hl with h | ⟨b, ok, k', hok, h⟩
            · exact Or.inl (hlast _ h)
            · exact Or.inr ⟨b, ok, k', hok, hlast _ h⟩

end hw.HSU.Impl

namespace hw.HSU
open rt rt.ByteBuffer

/-- C7: in normal power mode `send` of a command of 2 to 248 bytes returns, and the one
`WriteFile` it issues carries exactly the frame 00 00 FF, LEN, LCS, the command bytes, DCS, 00
(it issues none only when the port refuses the timeout setting, and then returns -1); LEN + LCS
and the sum of the command bytes + DCS are 0 modulo 256. -/
theorem hsu_send_frame (s : Impl) (bytes : List Nat) (timeout : Int)
    (hmode : s.powerMode = Mode.Normal) (h2 : 2 ≤ bytes.length) (h248 : bytes.length ≤ 248) :
    ∃ r s1 tr, Impl.send s (ByteBuffer.ofList bytes) timeout = .ok (r, s1) ∧
      s1.port.calls = s.port.calls ++ tr ∧
      (written tr = [[0x00, 0x00, 0xff, bytes.length, (256 - bytes.length) % 256] ++ bytes ++
          [(256 - bytes.sum % 256) % 256, 0x00]] ∨
        (tr = [.SetCommTimeouts 100 100 false] ∧ r = -1)) ∧
      (bytes.length + (256 - bytes.length) % 256) % 256 = 0 ∧
      (bytes.sum + (256 - bytes.sum % 256) % 256) % 256 = 0 := by
  obtain ⟨r, s1, tr, hrun, _, hc, hcase⟩ := Impl.sendFrame_spec s bytes timeout h2 h248
  refine ⟨r, s1, tr, ?_, hc, ?_, by omega, by omega⟩
  · unfold Impl.send
    simp only [hmode, ne_eq, not_true_eq_false, if_false]
    exact hrun
  · rcases hcase with ⟨htr, hr, _, _⟩ | ⟨ok, k, _, htr, _, _, _⟩ | ⟨k, post, _, htr, _, hwr, _, _, _, _⟩
    · exact Or.inr ⟨htr, hr⟩
    · left; rw [htr]; simp [written, atbFrame]
    · left; rw [htr, written_append, hwr]; simp [written, atbFrame]

theorem hsu_send_frame_witness :
    (⟨true, Mode.Normal, ⟨[], [(true, [0x00, 0x00, 0xff, 0x00, 0xff, 0x00])], [], []⟩⟩ : Impl).powerMode
        = Mode.Normal ∧
      2 ≤ [0xD4, 0x02].length ∧ [0xD4, 0x02].length ≤ 248 ∧
      ∃ r s1 tr, Impl.send ⟨true, Mode.Normal,
          ⟨[], [(true, [0x00, 0x00, 0xff, 0x00, 0xff, 0x00])], [], []⟩⟩
          (ByteBuffer.ofList [0xD4, 0x02]) 50 = .ok (r, s1) ∧
        s1.port.calls = ([] : List SysCall) ++ tr ∧
        (written tr = [[0x00, 0x00, 0xff, [0xD4, 0x02].length, (256 - [0xD4, 0x02].length) % 256] ++
            [0xD4, 0x02] ++ [(256 - [0xD4, 0x02].sum % 256) % 256, 0x00]] ∨
          (tr = [.SetCommTimeouts 100 100 false] ∧ r = -1)) ∧
        ([0xD4, 0x02].length + (256 - [0xD4, 0x02].length) % 256) % 256 = 0 ∧
        ([0xD4, 0x02].sum + (256 - [0xD4, 0x02].sum % 256) % 256) % 256 = 0 :=
  ⟨rfl, by decide, by decide,
    hsu_send_frame ⟨true, Mode.Normal, ⟨[], [(true, [0x00, 0x00, 0xff, 0x00, 0xff, 0x00])], [], []⟩⟩
      [0xD4, 0x02] 50 rfl (by decide) (by decide)⟩

end hw.HSU
namespace hw.HSU.Impl
open rt rt.ByteBuffer

/-- `sendFrame` on a port that accepts the writes: the frame goes out and the ACK is read with
the given timeout. -/
theorem sendFrame_accepts (s : Impl) (bytes : List Nat) (timeout : Int)
    (h2 : 2 ≤ bytes.length) (h248 : bytes.length ≤ 248) (hacc : s.port.Accepts) :
    ∃ r s1 k post, sendFrame s (ofList bytes) timeout = .ok (r, s1) ∧ 0 < k ∧
      s1.port.calls = s.port.calls ++
        [.SetCommTimeouts 100 100 true, .WriteFile (atbFrame bytes) true k] ++ post ∧
      post.head? = some (.SetCommTimeouts timeout timeout true) ∧
      (∀ c ∈ post, c.reads = true) ∧ written post = [] ∧ s1.port.Accepts ∧
      r = ackVerdict post ∧
      s1.powerMode =
        (if bytes.getD 1 0 = 0x8c then
           (if post.any SysCall.failed = false ∧ received post ≠ [] then Mode.Normal
            else Mode.PowerDown)
         else if bytes.getD 1 0 = 0x16 then Mode.PowerDown else s.powerMode) := by
  obtain ⟨r, s1, tr, hrun, _, hc, hcase⟩ := sendFrame_spec s bytes timeout h2 h248
  rcases hcase with ⟨_, _, _, hno⟩ | ⟨_, _, _, _, _, _, hno⟩ |
    ⟨k, post, hk, htr, hreads, hwr, ⟨ok, hhead, hok⟩, hacc1, hr, hm⟩
  · exact absurd hacc hno
  · exact absurd hacc hno
  · refine ⟨r, s1, k, post, hrun, hk, by rw [hc, htr]; simp, ?_, hreads, hwr, hacc1 hacc, hr, hm⟩
    rw [hhead, hok hacc]

/-- `send` on a port that accepts the writes: the wake-up preamble goes out first exactly when
the tracked mode is not normal, and then the ACK read gets 1000 ms more. -/
theorem send_accepts (s : Impl) (bytes : List Nat) (timeout : Int)
    (h2 : 2 ≤ bytes.length) (h248 : bytes.length ≤ 248) (hacc : s.port.Accepts) :
    ∃ r s1 pre k post, send s (ofList bytes) timeout = .ok (r, s1) ∧ 0 < k ∧
      s1.port.calls = s.port.calls ++ pre ++
        [.SetCommTimeouts 100 100 true, .WriteFile (atbFrame bytes) true k] ++ post ∧
      ((s.powerMode = Mode.Normal ∧ pre = [] ∧
          post.head? = some (.SetCommTimeouts timeout timeout true)) ∨
       (s.powerMode ≠ Mode.Normal ∧
          (∃ k1, 0 < k1 ∧ pre = [.SetCommTimeouts 100 100 true,
            .WriteFile [0x55, 0x55, 0x00, 0x00, 0x00, 0x00, 0x00, 0x00, 0x00, 0x00, 0x00, 0x00,
              0x00, 0x00, 0x00, 0x00] true k1]) ∧
          post.head? = some (.SetCommTimeouts (timeout + 1000) (timeout + 1000) true))) ∧
      (∀ c ∈ post, c.reads = true) ∧ written post = [] ∧ s1.port.Accepts ∧
      r = ackVerdict post ∧
      s1.powerMode =
        (if bytes.getD 1 0 = 0x8c then
           (if post.any SysCall.failed = false ∧ received post ≠ [] then Mode.Normal
            else Mode.PowerDown)
         else if bytes.getD 1 0 = 0x16 then Mode.PowerDown else Mode.Normal) := by
  by_cases hmode : s.powerMode = Mode.Normal
  · have hsend : send s (ofList bytes) timeout = sendFrame s (ofList bytes) timeout := by
      unfold send
      simp only [hmode, ne_eq, not_true_eq_false, if_false]
    obtain ⟨r, s1, k, post, hrun, hk, hc, hhead, hreads, hwrt, hacc1, hr, hm⟩ :=
      sendFrame_accepts s bytes timeout h2 h248 hacc
    refine ⟨r, s1, [], k, post, hsend.trans hrun, hk, by rw [hc]; simp,
      Or.inl ⟨hmode, rfl, hhead⟩, hreads, hwrt, hacc1, hr, ?_⟩
    rw [hm, hmode]
  · have hne : wakeUpFrame.content ≠ [] := by simp [wakeUpFrame, content_ofList]
    obtain ⟨hpos, hacc0⟩ := write_accepts s wakeUpFrame 100 hacc hne
    obtain ⟨_, _, hw⟩ := write_spec s wakeUpFrame 100
    rcases hwr : s.write wakeUpFrame 100 with ⟨w, sw⟩
    rw [hwr] at hpos hacc0 hw
    simp only at hpos hacc0 hw
    have hwle : ¬ w ≤ 0 := by omega
    have hsend : send s (ofList bytes) timeout =
        sendFrame { sw with powerMode := Mode.Normal } (ofList bytes) (timeout + 1000) := by
      unfold send
      simp only [ne_eq, hmode, not_false_eq_true, if_true, hwr, hwle, if_false]
    rcases hw with ⟨hle, _⟩ | ⟨hle, _⟩ | ⟨_, k1, hk1, hc1⟩
    · omega
    · omega
    obtain ⟨r, s1, k, post, hrun, hk, hc, hhead, hreads, hwrt, hacc1, hr, hm⟩ :=
      sendFrame_accepts { sw with powerMode := Mode.Normal } bytes (timeout + 1000)
        h2 h248 hacc0
    refine ⟨r, s1, _, k, post, hsend.trans hrun, hk, ?_,
      Or.inr ⟨hmode, ⟨k1, hk1, rfl⟩, hhead⟩, hreads, hwrt, hacc1, hr, hm⟩
    rw [hc]; simp only; rw [hc1]
    simp [wakeUpFrame, content_ofList]

end hw.HSU.Impl

namespace hw.HSU
open rt rt.ByteBuffer

/-- C8: `transmit` of a command of 2 to 248 bytes on an open handle. After the purge the calls
of its `send` split into a writing part `pre`, which holds no `ReadFile`, and the ACK read
`post`, which holds no `WriteFile`. Either `pre` ends in the successful write of the command
frame, `post` starts by setting the ACK timeout, and the result is decided by the ACK read
alone: -1 when a call of it failed, -2 when no byte arrived, 0 when exactly 00 00 FF 00 FF 00
was read, -1 for any other bytes; or the frame was not written, `pre` ends in the call that
failed or wrote nothing, nothing is read and the result is -1. For a non-zero result `transmit`
returns that code at once, response buffer and port record as `send` left them; for 0 it goes
on to `recv`. -/
theorem hsu_transmit_ack_gate (s : Impl) (bytes : List Nat) (res : ByteBuffer) (timeout : Int)
    (hv : s.handleValid = true) (h2 : 2 ≤ bytes.length) (h248 : bytes.length ≤ 248) :
    ∃ r s1 pre post, Impl.send s.purge (ByteBuffer.ofList bytes) timeout = .ok (r, s1) ∧
      s1.port.calls = s.port.calls ++ [.PurgeComm] ++ pre ++ post ∧
      (∀ n ok d, SysCall.ReadFile n ok d ∉ pre) ∧ written post = [] ∧
      (∀ c ∈ post, c.reads = true) ∧
      (((∃ k, 0 < k ∧ pre.getLast? = some (.WriteFile (atbFrame bytes) true k)) ∧
          (∃ ok, post.head? = some (.SetCommTimeouts
            (if s.powerMode = Mode.Normal then timeout else timeout + 1000)
            (if s.powerMode = Mode.Normal then timeout else timeout + 1000) ok)) ∧
          r = (if post.any SysCall.failed then -1
               else if received post = [] then -2
               else if received post = [0x00, 0x00, 0xff, 0x00, 0xff, 0x00] then 0
               else -1)) ∨
        ((∀ k, 0 < k → SysCall.WriteFile (atbFrame bytes) true k ∉ pre) ∧
          (pre.getLast? = some (.SetCommTimeouts 100 100 false) ∨
            ∃ b ok k, (ok = false ∨ k = 0) ∧ pre.getLast? = some (.WriteFile b ok k)) ∧
          post = [] ∧ r = -1)) ∧
      (r = 0 → received post = [0x00, 0x00, 0xff, 0x00, 0xff, 0x00]) ∧
      (r ≠ 0 → Impl.transmit s (ByteBuffer.ofList bytes) res timeout = .ok (r, res, s1)) ∧
      (r = 0 → Impl.transmit s (ByteBuffer.ofList bytes) res timeout = Impl.recv s1 res timeout) := by
  obtain ⟨r, s1, pre, post, hrun, hcalls, hnoread, hwr, hreads, hcase⟩ :=
    Impl.send_gate s.purge bytes timeout h2 h248
  have hmode : s.purge.powerMode = s.powerMode := by simp [Impl.purge]
  rw [hmode] at hcase
  have hack : ackFrame.readable = [0x00, 0x00, 0xff, 0x00, 0xff, 0x00] := by
    simp [ackFrame, readable_ofList]
  have hverdict : ackVerdict post = (if post.any SysCall.failed then -1
      else if received post = [] then -2
      else if received post = [0x00, 0x00, 0xff, 0x00, 0xff, 0x00] then 0 else -1) := by
    unfold ackVerdict; rw [hack]
  refine ⟨r, s1, pre, post, hrun, ?_, hnoread, hwr, hreads, ?_, ?_, ?_, ?_⟩
  · rw [hcalls]; simp [Impl.purge, Serial.purgeComm]
  · rcases hcase with ⟨hk, hhead, hr⟩ | h
    · exact Or.inl ⟨hk, hhead, by rw [hr, hverdict]⟩
    · exact Or.inr h
  · intro h0
    rcases hcase with ⟨_, _, hr⟩ | ⟨_, _, _, hr⟩
    · rw [hverdict] at hr
      by_contra hne
      rw [h0] at hr
      by_cases hf : post.any SysCall.failed = true
      · rw [if_pos hf] at hr; omega
      · rw [if_neg hf] at hr
        by_cases he : received post = []
        · rw [if_pos he] at hr; omega
        · rw [if_neg he, if_neg hne] at hr; omega
    · omega
  · intro hne
    unfold Impl.transmit
    simp only [hv, Bool.true_eq_false, if_false, bind, Except.bind, hrun, pure, Except.pure,
      hne, ne_eq, not_false_eq_true, if_true]
  · intro h0
    unfold Impl.transmit
    simp only [hv, Bool.true_eq_false, if_false, bind, Except.bind, hrun, pure, Except.pure,
      h0, ne_eq, not_true_eq_false]
    cases hrecv : Impl.recv s1 res timeout with
    | error e => rfl
    | ok v =>
      obtain ⟨r2, res1, s2⟩ := v
      by_cases hr2 : r2 = 0
      · simp [hr2]
      · simp [hr2]

theorem hsu_transmit_ack_gate_witness :
    (⟨true, Mode.Normal, ⟨[], [(true, [0x00, 0x00, 0xff, 0x00, 0xff])], [], []⟩⟩ : Impl).handleValid
        = true ∧
      2 ≤ [0xD4, 0x02].length ∧ [0xD4, 0x02].length ≤ 248 ∧
      ∃ r s1 pre post, Impl.send (Impl.purge ⟨true, Mode.Normal,
          ⟨[], [(true, [0x00, 0x00, 0xff, 0x00, 0xff])], [], []⟩⟩)
          (ByteBuffer.ofList [0xD4, 0x02]) 50 = .ok (r, s1) ∧
        s1.port.calls = ([] : List SysCall) ++ [.PurgeComm] ++ pre ++ post ∧
        (∀ n ok d, SysCall.ReadFile n ok d ∉ pre) ∧ written post = [] ∧
        (∀ c ∈ post, c.reads = true) ∧
        (((∃ k, 0 < k ∧ pre.getLast? = some (.WriteFile (atbFrame [0xD4, 0x02]) true k)) ∧
            (∃ ok, post.head? = some (.SetCommTimeouts
              (if Mode.Normal = Mode.Normal then 50 else 50 + 1000)
              (if Mode.Normal = Mode.Normal then 50 else 50 + 1000) ok)) ∧
            r = (if post.any SysCall.failed then -1
                 else if received post = [] then -2
                 else if received post = [0x00, 0x00, 0xff, 0x00, 0xff, 0x00] then 0
                 else -1)) ∨
          ((∀ k, 0 < k → SysCall.WriteFile (atbFrame [0xD4, 0x02]) true k ∉ pre) ∧
            (pre.getLast? = some (.SetCommTimeouts 100 100 false) ∨
              ∃ b ok k, (ok = false ∨ k = 0) ∧ pre.getLast? = some (.WriteFile b ok k)) ∧
            post = [] ∧ r = -1)) ∧
        (r = 0 → received post = [0x00, 0x00, 0xff, 0x00, 0xff, 0x00]) ∧
        (r ≠ 0 → Impl.transmit ⟨true, Mode.Normal,
            ⟨[], [(true, [0x00, 0x00, 0xff, 0x00, 0xff])], [], []⟩⟩
            (ByteBuffer.ofList [0xD4, 0x02]) (ByteBuffer.alloc 16) 50 = .ok (r, ByteBuffer.alloc 16, s1)) ∧
        (r = 0 → Impl.transmit ⟨true, Mode.Normal,
            ⟨[], [(true, [0x00, 0x00, 0xff, 0x00, 0xff])], [], []⟩⟩
            (ByteBuffer.ofList [0xD4, 0x02]) (ByteBuffer.alloc 16) 50
              = Impl.recv s1 (ByteBuffer.alloc 16) 50) :=
  ⟨rfl, by decide, by decide,
    hsu_transmit_ack_gate ⟨true, Mode.Normal, ⟨[], [(true, [0x00, 0x00, 0xff, 0x00, 0xff])], [], []⟩⟩
      [0xD4, 0x02] (ByteBuffer.alloc 16) 50 rfl (by decide) (by decide)⟩

/-- C9: on a port that accepts the writes, after `send` has written a command whose opcode
byte `cmd[1]` is 0x16 the tracked power mode is PowerDown whatever the ACK read brought, and the
next `send` writes the 16-byte wake-up preamble 55 55 00 … 00, then the command frame, and
reads the ACK with its timeout raised by 1000 ms. -/
theorem hsu_powerdown_wakeup (s : Impl) (bytes bytes2 : List Nat) (timeout timeout2 : Int)
    (hacc : s.port.Accepts) (h2 : 2 ≤ bytes.length) (h248 : bytes.length ≤ 248)
    (hop : bytes.getD 1 0 = 0x16) (h2' : 2 ≤ bytes2.length) (h248' : bytes2.length ≤ 248) :
    ∃ r s1, Impl.send s (ByteBuffer.ofList bytes) timeout = .ok (r, s1) ∧
      (∃ k, 0 < k ∧ SysCall.WriteFile (atbFrame bytes) true k ∈ s1.port.calls) ∧
      s1.powerMode = Mode.PowerDown ∧
      ∃ r2 s2 k1 k2 post, Impl.send s1 (ByteBuffer.ofList bytes2) timeout2 = .ok (r2, s2) ∧
        0 < k1 ∧ 0 < k2 ∧
        s2.port.calls = s1.port.calls ++
          [.SetCommTimeouts 100 100 true,
           .WriteFile [0x55, 0x55, 0x00, 0x00, 0x00, 0x00, 0x00, 0x00, 0x00, 0x00, 0x00, 0x00,
             0x00, 0x00, 0x00, 0x00] true k1,
           .SetCommTimeouts 100 100 true, .WriteFile (atbFrame bytes2) true k2] ++ post ∧
        post.head? = some (.SetCommTimeouts (timeout2 + 1000) (timeout2 + 1000) true) ∧
        (∀ c ∈ post, c.reads = true) ∧ written post = [] := by
  obtain ⟨r, s1, pre, k, post, hrun, hk, hc, _, _, _, hacc1, _, hm⟩ :=
    Impl.send_accepts s bytes timeout h2 h248 hacc
  have hm1 : s1.powerMode = Mode.PowerDown := by rw [hm, hop]; simp
  refine ⟨r, s1, hrun, ⟨k, hk, by rw [hc]; simp⟩, hm1, ?_⟩
  obtain ⟨r2, s2, pre2, k2, post2, hrun2, hk2, hc2, hcase, hreads, hwrt, _, _, _⟩ :=
    Impl.send_accepts s1 bytes2 timeout2 h2' h248' hacc1
  rcases hcase with ⟨hn, _, _⟩ | ⟨_, ⟨k1, hk1, hpre⟩, hhead⟩
  · rw [hm1] at hn; exact absurd hn (by decide)
  · refine ⟨r2, s2, k1, k2, post2, hrun2, hk1, hk2, ?_, hhead, hreads, hwrt⟩
    rw [hc2, hpre]; simp

theorem hsu_powerdown_wakeup_witness :
    (⟨true, Mode.Normal, ⟨[], [], [], []⟩⟩ : Impl).port.Accepts ∧
      2 ≤ [0xD4, 0x16, 0x00].length ∧ [0xD4, 0x16, 0x00].length ≤ 248 ∧
      [0xD4, 0x16, 0x00].getD 1 0 = 0x16 ∧
      2 ≤ [0xD4, 0x02].length ∧ [0xD4, 0x02].length ≤ 248 ∧
      ∃ r s1, Impl.send ⟨true, Mode.Normal, ⟨[], [], [], []⟩⟩
          (ByteBuffer.ofList [0xD4, 0x16, 0x00]) 50 = .ok (r, s1) ∧
        (∃ k, 0 < k ∧ SysCall.WriteFile (atbFrame [0xD4, 0x16, 0x00]) true k ∈ s1.port.calls) ∧
        s1.powerMode = Mode.PowerDown ∧
        ∃ r2 s2 k1 k2 post, Impl.send s1 (ByteBuffer.ofList [0xD4, 0x02]) 70 = .ok (r2, s2) ∧
          0 < k1 ∧ 0 < k2 ∧
          s2.port.calls = s1.port.calls ++
            [.SetCommTimeouts 100 100 true,
             .WriteFile [0x55, 0x55, 0x00, 0x00, 0x00, 0x00, 0x00, 0x00, 0x00, 0x00, 0x00, 0x00,
               0x00, 0x00, 0x00, 0x00] true k1,
             .SetCommTimeouts 100 100 true, .WriteFile (atbFrame [0xD4, 0x02]) true k2] ++ post ∧
          post.head? = some (.SetCommTimeouts (70 + 1000) (70 + 1000) true) ∧
          (∀ c ∈ post, c.reads = true) ∧ written post = [] :=
  ⟨by simp [Serial.Accepts], by decide, by decide, by decide, by decide, by decide,
    hsu_powerdown_wakeup ⟨true, Mode.Normal, ⟨[], [], [], []⟩⟩ [0xD4, 0x16, 0x00] [0xD4, 0x02] 50 70
      (by simp [Serial.Accepts]) (by decide) (by decide) (by decide) (by decide) (by decide)⟩

/-- C10 as stated fails: a TgInitAsTarget command (opcode 0x8C) is sent in normal mode, the ACK
arrives and the response read times out, so `transmit` returns -2 and no response was
received; yet the tracked power mode is Normal, and the next `send` writes its command frame
without the wake-up preamble and reads the ACK with the timeout it was given. -/
theorem hsu_tginit_ack_then_timeout :
    Impl.transmit ⟨true, Mode.Normal, ⟨[], [(true, [0x00, 0x00, 0xff, 0x00, 0xff, 0x00])], [], []⟩⟩
        (ByteBuffer.ofList [0xD4, 0x8C, 0x00]) (ByteBuffer.alloc 16) 5000 =
      .ok (-2, ByteBuffer.alloc 16, ⟨true, Mode.Normal, ⟨[], [], [],
        [.PurgeComm, .SetCommTimeouts 100 100 true,
         .WriteFile [0, 0, 255, 3, 253, 212, 140, 0, 160, 0] true 10,
         .SetCommTimeouts 5000 5000 true, .ReadFile 6 true [0, 0, 255, 0, 255, 0],
         .SetCommTimeouts 5000 5000 true, .ReadFile 5 true []]⟩⟩) ∧
    Impl.send ⟨true, Mode.Normal, ⟨[], [], [],
        [.PurgeComm, .SetCommTimeouts 100 100 true,
         .WriteFile [0, 0, 255, 3, 253, 212, 140, 0, 160, 0] true 10,
         .SetCommTimeouts 5000 5000 true, .ReadFile 6 true [0, 0, 255, 0, 255, 0],
         .SetCommTimeouts 5000 5000 true, .ReadFile 5 true []]⟩⟩
        (ByteBuffer.ofList [0xD4, 0x02]) 50 =
      .ok (-2, ⟨true, Mode.Normal, ⟨[], [], [],
        [.PurgeComm, .SetCommTimeouts 100 100 true,
         .WriteFile [0, 0, 255, 3, 253, 212, 140, 0, 160, 0] true 10,
         .SetCommTimeouts 5000 5000 true, .ReadFile 6 true [0, 0, 255, 0, 255, 0],
         .SetCommTimeouts 5000 5000 true, .ReadFile 5 true [],
         .SetCommTimeouts 100 100 true, .WriteFile [0, 0, 255, 2, 254, 212, 2, 42, 0] true 9,
         .SetCommTimeouts 50 50 true, .ReadFile 6 true []]⟩⟩) :=
  ⟨rfl, rfl⟩

/-- C10, amended: on a port that accepts the writes, after `send` has written a command with
opcode 0x8C the tracked power mode is Normal as soon as the ACK read has delivered bytes
without a failed call, whatever those bytes are and before any response is read, and the next
`send` then writes its frame without a wake-up preamble; the mode is PowerDown, and the next
`send` writes the wake-up preamble first and reads the ACK with 1000 ms more, exactly when the
ACK read failed or timed out. -/
theorem hsu_tginit_mode (s : Impl) (bytes bytes2 : List Nat) (timeout timeout2 : Int)
    (hacc : s.port.Accepts) (h2 : 2 ≤ bytes.length) (h248 : bytes.length ≤ 248)
    (hop : bytes.getD 1 0 = 0x8c) (h2' : 2 ≤ bytes2.length) (h248' : bytes2.length ≤ 248) :
    ∃ r s1 pre k post, Impl.send s (ByteBuffer.ofList bytes) timeout = .ok (r, s1) ∧ 0 < k ∧
      s1.port.calls = s.port.calls ++ pre ++
        [.SetCommTimeouts 100 100 true, .WriteFile (atbFrame bytes) true k] ++ post ∧
      (∀ c ∈ post, c.reads = true) ∧
      s1.powerMode = (if post.any SysCall.failed = false ∧ received post ≠ [] then Mode.Normal
        else Mode.PowerDown) ∧
      ∃ r2 s2 pre2 k2 post2, Impl.send s1 (ByteBuffer.ofList bytes2) timeout2 = .ok (r2, s2) ∧
        0 < k2 ∧
        s2.port.calls = s1.port.calls ++ pre2 ++
          [.SetCommTimeouts 100 100 true, .WriteFile (atbFrame bytes2) true k2] ++ post2 ∧
        (∀ c ∈ post2, c.reads = true) ∧
        ((post.any SysCall.failed = false ∧ received post ≠ []) → pre2 = [] ∧
          post2.head? = some (.SetCommTimeouts timeout2 timeout2 true)) ∧
        (¬ (post.any SysCall.failed = false ∧ received post ≠ []) →
          (∃ k1, 0 < k1 ∧ pre2 = [.SetCommTimeouts 100 100 true,
            .WriteFile [0x55, 0x55, 0x00, 0x00, 0x00, 0x00, 0x00, 0x00, 0x00, 0x00, 0x00, 0x00,
              0x00, 0x00, 0x00, 0x00] true k1]) ∧
          post2.head? = some (.SetCommTimeouts (timeout2 + 1000) (timeout2 + 1000) true)) := by
  obtain ⟨r, s1, pre, k, post, hrun, hk, hc, _, hreads, _, hacc1, _, hm⟩ :=
    Impl.send_accepts s bytes timeout h2 h248 hacc
  rw [if_pos hop] at hm
  refine ⟨r, s1, pre, k, post, hrun, hk, hc, hreads, hm, ?_⟩
  obtain ⟨r2, s2, pre2, k2, post2, hrun2, hk2, hc2, hcase, hreads2, _, _, _, _⟩ :=
    Impl.send_accepts s1 bytes2 timeout2 h2' h248' hacc1
  refine ⟨r2, s2, pre2, k2, post2, hrun2, hk2, hc2, hreads2, ?_, ?_⟩
  · intro hgot
    rw [if_pos hgot] at hm
    rcases hcase with ⟨_, hpre, hhead⟩ | ⟨hn, _, _⟩
    · exact ⟨hpre, hhead⟩
    · exact absurd hm hn
  · intro hgot
    rw [if_neg hgot] at hm
    rcases hcase with ⟨hn, _, _⟩ | ⟨_, hpre, hhead⟩
    · rw [hm] at hn; exact absurd hn (by decide)
    · exact ⟨hpre, hhead⟩

theorem hsu_tginit_mode_witness :
    (⟨true, Mode.Normal, ⟨[], [], [], []⟩⟩ : Impl).port.Accepts ∧
      2 ≤ [0xD4, 0x8C, 0x00].length ∧ [0xD4, 0x8C, 0x00].length ≤ 248 ∧
      [0xD4, 0x8C, 0x00].getD 1 0 = 0x8c ∧
      2 ≤ [0xD4, 0x02].length ∧ [0xD4, 0x02].length ≤ 248 ∧
      ∃ r s1 pre k post, Impl.send ⟨true, Mode.Normal, ⟨[], [], [], []⟩⟩
          (ByteBuffer.ofList [0xD4, 0x8C, 0x00]) 5000 = .ok (r, s1) ∧ 0 < k ∧
        s1.port.calls = ([] : List SysCall) ++ pre ++
          [.SetCommTimeouts 100 100 true, .WriteFile (atbFrame [0xD4, 0x8C, 0x00]) true k] ++ post ∧
        (∀ c ∈ post, c.reads = true) ∧
        s1.powerMode = (if post.any SysCall.failed = false ∧ received post ≠ [] then Mode.Normal
          else Mode.PowerDown) ∧
        ∃ r2 s2 pre2 k2 post2, Impl.send s1 (ByteBuffer.ofList [0xD4, 0x02]) 50 = .ok (r2, s2) ∧
          0 < k2 ∧
          s2.port.calls = s1.port.calls ++ pre2 ++
            [.SetCommTimeouts 100 100 true, .WriteFile (atbFrame [0xD4, 0x02]) true k2] ++ post2 ∧
          (∀ c ∈ post2, c.reads = true) ∧
          ((post.any SysCall.failed = false ∧ received post ≠ []) → pre2 = [] ∧
            post2.head? = some (.SetCommTimeouts 50 50 true)) ∧
          (¬ (post.any SysCall.failed = false ∧ received post ≠ []) →
            (∃ k1, 0 < k1 ∧ pre2 = [.SetCommTimeouts 100 100 true,
              .WriteFile [0x55, 0x55, 0x00, 0x00, 0x00, 0x00, 0x00, 0x00, 0x00, 0x00, 0x00, 0x00,
                0x00, 0x00, 0x00, 0x00] true k1]) ∧
            post2.head? = some (.SetCommTimeouts (50 + 1000) (50 + 1000) true)) :=
  ⟨by simp [Serial.Accepts], by decide, by decide, by decide, by decide, by decide,
    hsu_tginit_mode ⟨true, Mode.Normal, ⟨[], [], [], []⟩⟩ [0xD4, 0x8C, 0x00] [0xD4, 0x02] 5000 50
      (by simp [Serial.Accepts]) (by decide) (by decide) (by decide) (by decide) (by decide)⟩

end hw.HSU

namespace hce

open rt rt.ByteBuffer

theorem length_flatten_blocks (n : Nat) (blocks : List (List Nat))
    (h : ∀ b ∈ blocks, b.length = n) : blocks.flatten.length = n * blocks.length := by
  induction blocks with
  | nil => simp
  | cons b bs ih =>
    rw [List.flatten_cons, List.length_append, ih (fun c hc => h c (by simp [hc])),
      h b (by simp), List.length_cons]
    ring

theorem length_xorBytes (a b : List Nat) (h : a.length = b.length) :
    (xorBytes a b).length = a.length := by
  simp [xorBytes, h]

theorem cbcChain_shape (E : List Nat → List Nat) (n : Nat) (hE : ∀ b, (E b).length = b.length) :
    ∀ (blocks : List (List Nat)) (iv : List Nat), (∀ b ∈ blocks, b.length = n) → iv.length = n →
      (∀ c ∈ (cbcChain E blocks iv).1, c.length = n) ∧
      (cbcChain E blocks iv).1.length = blocks.length ∧ (cbcChain E blocks iv).2.length = n := by
  intro blocks
  induction blocks with
  | nil => intro iv _ hiv; simp [cbcChain, hiv]
  | cons b bs ih =>
    intro iv hb hiv
    have hc : (E (xorBytes b iv)).length = n := by
      rw [hE, length_xorBytes _ _ (by rw [hb b (by simp), hiv]), hb b (by simp)]
    obtain ⟨h1, h2, h3⟩ := ih (E (xorBytes b iv)) (fun c hc => hb c (by simp [hc])) hc
    refine ⟨?_, ?_, ?_⟩
    · intro c hcm
      simp only [cbcChain, List.mem_cons] at hcm
      rcases hcm with h | h
      · rw [h]; exact hc
      · exact h1 c h
    · simp [cbcChain, h2]
    · simpa [cbcChain] using h3

theorem cbcUnchain_shape (D : List Nat → List Nat) (n : Nat) (hD : ∀ b, (D b).length = b.length) :
    ∀ (blocks : List (List Nat)) (iv : List Nat), (∀ b ∈ blocks, b.length = n) → iv.length = n →
      (∀ c ∈ (cbcUnchain D blocks iv).1, c.length = n) ∧
      (cbcUnchain D blocks iv).1.length = blocks.length ∧ (cbcUnchain D blocks iv).2.length = n := by
  intro blocks
  induction blocks with
  | nil => intro iv _ hiv; simp [cbcUnchain, hiv]
  | cons b bs ih =>
    intro iv hb hiv
    have hc : (xorBytes (D b) iv).length = n := by
      rw [length_xorBytes _ _ (by rw [hD, hb b (by simp), hiv]), hD, hb b (by simp)]
    obtain ⟨h1, h2, h3⟩ := ih b (fun c hc => hb c (by simp [hc])) (hb b (by simp))
    refine ⟨?_, ?_, ?_⟩
    · intro c hcm
      simp only [cbcUnchain, List.mem_cons] at hcm
      rcases hcm with h | h
      · rw [h]; exact hc
      · exact h1 c h
    · simp [cbcUnchain, h2]
    · simpa [cbcUnchain] using h3

namespace CipherAES

/-- The `while` of `encrypt` computes the CBC chain of the blocks still to be read. -/
theorem aes_encryptLoop_blocks (P : Primitives) (c : CipherAES) (hP : P.InPlace) (cap : Nat) :
    ∀ (blocks : List (List Nat)) (fuel : Nat) (pre iv w : List Nat),
      (∀ b ∈ blocks, b.length = 16) → iv.length = 16 → blocks.length < fuel →
      w.length + 16 * blocks.length ≤ cap →
      encryptLoop P c fuel (reading pre blocks.flatten) (ofList iv) (writing w cap) =
        .ok ((writing (w ++ (cbcChain (P.aesEncrypt c.mode c.key) blocks iv).1.flatten) cap).flip,
          ofList (cbcChain (P.aesEncrypt c.mode c.key) blocks iv).2) := by
  intro blocks
  induction blocks with
  | nil =>
    intro fuel pre iv w _ _ hfuel _
    obtain ⟨k, rfl⟩ : ∃ k, fuel = k + 1 := ⟨fuel - 1, by simp at hfuel; omega⟩
    unfold encryptLoop
    simp [remaining_reading, cbcChain]
  | cons b bs ih =>
    intro fuel pre iv w hb hiv hfuel hcap
    obtain ⟨k, rfl⟩ : ∃ k, fuel = k + 1 := ⟨fuel - 1, by simp at hfuel; omega⟩
    have hbl : b.length = 16 := hb b (by simp)
    have hlen : 16 ≤ (b :: bs).flatten.length := by
      rw [List.flatten_cons, List.length_append, hbl]; omega
    have htake : (b :: bs).flatten.take 16 = b := by
      rw [List.flatten_cons, List.take_left' hbl]
    have hdrop : (b :: bs).flatten.drop 16 = bs.flatten := by
      rw [List.flatten_cons, List.drop_left' hbl]
    have hc : (P.aesEncrypt c.mode c.key (xorBytes b iv)).length = 16 := by
      rw [hP.1, length_xorBytes _ _ (by rw [hbl, hiv]), hbl]
    unfold encryptLoop
    rw [remaining_reading, if_pos hlen, getBytes_reading _ _ _ hlen, htake, hdrop]
    have hx : List.zipWith (· ^^^ ·) b iv = xorBytes b iv := rfl
    simp only [xor_ofList, content_ofList, copy, hx]
    rw [putBuffer_writing _ _ _ (by simp only [List.length_cons] at hcap; rw [hc]; omega)]
    simp only
    have := ih k (pre ++ b) (P.aesEncrypt c.mode c.key (xorBytes b iv))
      (w ++ P.aesEncrypt c.mode c.key (xorBytes b iv)) (fun x hx => hb x (by simp [hx])) hc
      (by simp only [List.length_cons] at hfuel; omega)
      (by simp only [List.length_cons, List.length_append] at hcap ⊢; rw [hc]; omega)
    rw [this]
    simp [cbcChain, List.append_assoc]

/-- `encrypt` of a message made of 16-byte blocks, from an IV of 16 bytes, is the CBC chain of
the blocks; the IV comes back as the last chaining value. -/
theorem aes_encrypt_blocks (P : Primitives) (c : CipherAES) (hP : P.InPlace)
    (blocks : List (List Nat)) (iv : List Nat)
    (hb : ∀ b ∈ blocks, b.length = 16) (hiv : iv.length = 16) :
    encrypt P c (ofList blocks.flatten) (ofList iv) =
      .ok (ofList (cbcChain (P.aesEncrypt c.mode c.key) blocks iv).1.flatten,
        ofList (cbcChain (P.aesEncrypt c.mode c.key) blocks iv).2) := by
  have hlen := length_flatten_blocks 16 blocks hb
  obtain ⟨h1, h2, _⟩ := cbcChain_shape (P.aesEncrypt c.mode c.key) 16 (hP.1 c.mode c.key)
    blocks iv hb hiv
  have hclen := length_flatten_blocks 16 _ h1
  unfold encrypt
  rw [remaining_ofList, size_ofList, hlen, hiv]
  simp only [Nat.mul_mod_right, ne_eq, not_true_eq_false, if_false]
  rw [ofList_eq_reading, alloc_eq_writing,
    aes_encryptLoop_blocks P c hP _ blocks _ [] iv [] hb hiv (by omega) (by simp)]
  rw [List.nil_append, flip_writing_full _ _ (by rw [hclen, h2])]

/-- The `while` of `decrypt` computes the CBC unchaining of the blocks still to be read. -/
theorem aes_decryptLoop_blocks (P : Primitives) (c : CipherAES) (hP : P.InPlace) (cap : Nat) :
    ∀ (blocks : List (List Nat)) (fuel : Nat) (pre iv w : List Nat),
      (∀ b ∈ blocks, b.length = 16) → iv.length = 16 → blocks.length < fuel →
      w.length + 16 * blocks.length ≤ cap →
      decryptLoop P c fuel (reading pre blocks.flatten) (ofList iv) (writing w cap) =
        .ok ((writing (w ++ (cbcUnchain (P.aesDecrypt c.mode c.key) blocks iv).1.flatten) cap).flip,
          ofList (cbcUnchain (P.aesDecrypt c.mode c.key) blocks iv).2) := by
  intro blocks
  induction blocks with
  | nil =>
    intro fuel pre iv w _ _ hfuel _
    obtain ⟨k, rfl⟩ : ∃ k, fuel = k + 1 := ⟨fuel - 1, by simp at hfuel; omega⟩
    unfold decryptLoop
    simp [remaining_reading, cbcUnchain]
  | cons b bs ih =>
    intro fuel pre iv w hb hiv hfuel hcap
    obtain ⟨k, rfl⟩ : ∃ k, fuel = k + 1 := ⟨fuel - 1, by simp at hfuel; omega⟩
    have hbl : b.length = 16 := hb b (by simp)
    have hlen : 16 ≤ (b :: bs).flatten.length := by
      rw [List.flatten_cons, List.length_append, hbl]; omega
    have htake : (b :: bs).flatten.take 16 = b := by
      rw [List.flatten_cons, List.take_left' hbl]
    have hdrop : (b :: bs).flatten.drop 16 = bs.flatten := by
      rw [List.flatten_cons, List.drop_left' hbl]
    have hc : (xorBytes (P.aesDecrypt c.mode c.key b) iv).length = 16 := by
      rw [length_xorBytes _ _ (by rw [hP.2.1, hbl, hiv]), hP.2.1, hbl]
    unfold decryptLoop
    rw [remaining_reading, if_pos hlen, getBytes_reading _ _ _ hlen, htake, hdrop]
    have hx : List.zipWith (· ^^^ ·) (P.aesDecrypt c.mode c.key b) iv =
      xorBytes (P.aesDecrypt c.mode c.key b) iv := rfl
    simp only [xor_ofList, content_ofList, copy, hx]
    rw [putBuffer_writing _ _ _ (by simp only [List.length_cons] at hcap; rw [hc]; omega)]
    simp only
    have := ih k (pre ++ b) b (w ++ xorBytes (P.aesDecrypt c.mode c.key b) iv)
      (fun x hx => hb x (by simp [hx])) hbl
      (by simp only [List.length_cons] at hfuel; omega)
      (by simp only [List.length_cons, List.length_append] at hcap ⊢; rw [hc]; omega)
    rw [this]
    simp [cbcUnchain, List.append_assoc]

theorem aes_decrypt_blocks (P : Primitives) (c : CipherAES) (hP : P.InPlace)
    (blocks : List (List Nat)) (iv : List Nat)
    (hb : ∀ b ∈ blocks, b.length = 16) (hiv : iv.length = 16) :
    decrypt P c (ofList blocks.flatten) (ofList iv) =
      .ok (ofList (cbcUnchain (P.aesDecrypt c.mode c.key) blocks iv).1.flatten,
        ofList (cbcUnchain (P.aesDecrypt c.mode c.key) blocks iv).2) := by
  have hlen := length_flatten_blocks 16 blocks hb
  obtain ⟨h1, h2, _⟩ := cbcUnchain_shape (P.aesDecrypt c.mode c.key) 16 (hP.2.1 c.mode c.key)
    blocks iv hb hiv
  have hclen := length_flatten_blocks 16 _ h1
  unfold decrypt
  rw [remaining_ofList, size_ofList, hlen, hiv]
  simp only [Nat.mul_mod_right, ne_eq, not_true_eq_false, if_false]
  rw [ofList_eq_reading, alloc_eq_writing,
    aes_decryptLoop_blocks P c hP _ blocks _ [] iv [] hb hiv (by omega) (by simp)]
  rw [List.nil_append, flip_writing_full _ _ (by rw [hclen, h2])]

end CipherAES

end hce

namespace hce

open rt rt.ByteBuffer

theorem cbcChain64_shape (E : Nat → Nat) :
    ∀ (blocks : List (List Nat)) (iv : Nat),
      (∀ c ∈ (cbcChain64 E blocks iv).1, c.length = 8) ∧
      (cbcChain64 E blocks iv).1.length = blocks.length := by
  intro blocks
  induction blocks with
  | nil => intro iv; simp [cbcChain64]
  | cons b bs ih =>
    intro iv
    obtain ⟨h1, h2⟩ := ih (E (beValue b ^^^ iv))
    refine ⟨?_, by simp [cbcChain64, h2]⟩
    intro c hcm
    simp only [cbcChain64, List.mem_cons] at hcm
    rcases hcm with h | h
    · rw [h]; exact length_beBytes 8 _
    · exact h1 c h

theorem cbcUnchain64_shape (D : Nat → Nat) :
    ∀ (blocks : List (List Nat)) (iv : Nat),
      (∀ c ∈ (cbcUnchain64 D blocks iv).1, c.length = 8) ∧
      (cbcUnchain64 D blocks iv).1.length = blocks.length := by
  intro blocks
  induction blocks with
  | nil => intro iv; simp [cbcUnchain64]
  | cons b bs ih =>
    intro iv
    obtain ⟨h1, h2⟩ := ih (beValue b)
    refine ⟨?_, by simp [cbcUnchain64, h2]⟩
    intro c hcm
    simp only [cbcUnchain64, List.mem_cons] at hcm
    rcases hcm with h | h
    · rw [h]; exact length_beBytes 8 _
    · exact h1 c h

namespace CipherDES

/-- Rewinding an 8-byte buffer and storing a word in it leaves exactly the bytes of the word. -/
theorem putLong_clear (st : List Nat) (p l v : Nat) (h : st.length = 8) :
    ((⟨st, p, l⟩ : ByteBuffer).clear.putLong v 8) = .ok ⟨beBytes 8 v, 8, 8⟩ := by
  unfold putLong putBytes clear
  simp [length_beBytes, h]

theorem des_encryptLoop_blocks (P : Primitives) (c : CipherDES) (cap : Nat) :
    ∀ (blocks : List (List Nat)) (fuel : Nat) (pre : List Nat) (iv64 : Nat) (w : List Nat),
      (∀ b ∈ blocks, b.length = 8) → blocks.length < fuel →
      w.length + 8 * blocks.length ≤ cap →
      encryptLoop P c fuel (reading pre blocks.flatten) iv64 (writing w cap) =
        .ok (writing (w ++ (cbcChain64 (blockEncrypt P c) blocks iv64).1.flatten) cap,
          (cbcChain64 (blockEncrypt P c) blocks iv64).2) := by
  intro blocks
  induction blocks with
  | nil =>
    intro fuel pre iv64 w _ hfuel _
    obtain ⟨k, rfl⟩ : ∃ k, fuel = k + 1 := ⟨fuel - 1, by simp at hfuel; omega⟩
    unfold encryptLoop
    simp [remaining_reading, cbcChain64]
  | cons b bs ih =>
    intro fuel pre iv64 w hb hfuel hcap
    obtain ⟨k, rfl⟩ : ∃ k, fuel = k + 1 := ⟨fuel - 1, by simp at hfuel; omega⟩
    have hbl : b.length = 8 := hb b (by simp)
    have hlen : 8 ≤ (b :: bs).flatten.length := by
      rw [List.flatten_cons, List.length_append, hbl]; omega
    have htake : (b :: bs).flatten.take 8 = b := by
      rw [List.flatten_cons, List.take_left' hbl]
    have hdrop : (b :: bs).flatten.drop 8 = bs.flatten := by
      rw [List.flatten_cons, List.drop_left' hbl]
    unfold encryptLoop
    rw [remaining_reading, if_pos hlen, getLong_reading _ _ _ hlen, htake, hdrop]
    simp only
    rw [putLong_writing _ _ _ _ (by simp only [List.length_cons] at hcap; omega)]
    simp only
    rw [ih k (pre ++ b) _ _ (fun x hx => hb x (by simp [hx]))
      (by simp only [List.length_cons] at hfuel; omega)
      (by simp only [List.length_cons, List.length_append, length_beBytes] at hcap ⊢; omega)]
    simp [cbcChain64, List.append_assoc]

/-- `encrypt` of a message made of 8-byte blocks, from an IV of 8 bytes, is the CBC chain of
the blocks as 64-bit words; the IV comes back as the bytes of the last chaining word. -/
theorem des_encrypt_blocks (P : Primitives) (c : CipherDES)
    (blocks : List (List Nat)) (iv : List Nat)
    (hb : ∀ b ∈ blocks, b.length = 8) (hiv : iv.length = 8) :
    encrypt P c (ofList blocks.flatten) (ofList iv) =
      .ok (ofList (cbcChain64 (blockEncrypt P c) blocks (beValue iv)).1.flatten,
        ofList (beBytes 8 (cbcChain64 (blockEncrypt P c) blocks (beValue iv)).2)) := by
  have hlen := length_flatten_blocks 8 blocks hb
  obtain ⟨h1, h2⟩ := cbcChain64_shape (blockEncrypt P c) blocks (beValue iv)
  have hclen := length_flatten_blocks 8 _ h1
  unfold encrypt
  rw [remaining_ofList, size_ofList, hlen, hiv]
  simp only [Nat.mul_mod_right, ne_eq, not_true_eq_false, if_false]
  rw [ofList_eq_reading iv, getLong_reading _ _ _ (by omega)]
  simp only [bind, Except.bind]
  rw [ofList_eq_reading, alloc_eq_writing,
    des_encryptLoop_blocks P c _ blocks _ [] _ [] hb (by omega) (by simp)]
  simp only [List.nil_append]
  rw [List.take_of_length_le (by omega)]
  unfold reading
  rw [putLong_clear _ _ _ _ (by simp [hiv])]
  simp only [pure, Except.pure]
  rw [flip_writing_full _ _ (by rw [hclen, h2])]
  simp [ByteBuffer.flip, ofList, length_beBytes]

theorem des_decryptLoop_blocks (P : Primitives) (c : CipherDES) (hmode : c.mode ≠ Legacy) (cap : Nat) :
    ∀ (blocks : List (List Nat)) (fuel : Nat) (pre : List Nat) (iv64 : Nat) (w : List Nat),
      (∀ b ∈ blocks, b.length = 8) → blocks.length < fuel →
      w.length + 8 * blocks.length ≤ cap →
      decryptLoop P c fuel (reading pre blocks.flatten) iv64 (writing w cap) =
        .ok (writing (w ++ (cbcUnchain64 (blockDecrypt P c) blocks iv64).1.flatten) cap,
          (cbcUnchain64 (blockDecrypt P c) blocks iv64).2) := by
  intro blocks
  induction blocks with
  | nil =>
    intro fuel pre iv64 w _ hfuel _
    obtain ⟨k, rfl⟩ : ∃ k, fuel = k + 1 := ⟨fuel - 1, by simp at hfuel; omega⟩
    unfold decryptLoop
    simp [remaining_reading, cbcUnchain64]
  | cons b bs ih =>
    intro fuel pre iv64 w hb hfuel hcap
    obtain ⟨k, rfl⟩ : ∃ k, fuel = k + 1 := ⟨fuel - 1, by simp at hfuel; omega⟩
    have hbl : b.length = 8 := hb b (by simp)
    have hlen : 8 ≤ (b :: bs).flatten.length := by
      rw [List.flatten_cons, List.length_append, hbl]; omega
    have htake : (b :: bs).flatten.take 8 = b := by
      rw [List.flatten_cons, List.take_left' hbl]
    have hdrop : (b :: bs).flatten.drop 8 = bs.flatten := by
      rw [List.flatten_cons, List.drop_left' hbl]
    unfold decryptLoop
    rw [remaining_reading, if_pos hlen, getLong_reading _ _ _ hlen, htake, hdrop]
    simp only [hmode, if_false]
    rw [putLong_writing _ _ _ _ (by simp only [List.length_cons] at hcap; omega)]
    simp only
    rw [ih k (pre ++ b) _ _ (fun x hx => hb x (by simp [hx]))
      (by simp only [List.length_cons] at hfuel; omega)
      (by simp only [List.length_cons, List.length_append, length_beBytes] at hcap ⊢; omega)]
    simp [cbcUnchain64, List.append_assoc]

theorem des_decrypt_blocks (P : Primitives) (c : CipherDES) (hmode : c.mode ≠ Legacy)
    (blocks : List (List Nat)) (iv : List Nat)
    (hb : ∀ b ∈ blocks, b.length = 8) (hiv : iv.length = 8) :
    decrypt P c (ofList blocks.flatten) (ofList iv) =
      .ok (ofList (cbcUnchain64 (blockDecrypt P c) blocks (beValue iv)).1.flatten,
        ofList (beBytes 8 (cbcUnchain64 (blockDecrypt P c) blocks (beValue iv)).2)) := by
  have hlen := length_flatten_blocks 8 blocks hb
  obtain ⟨h1, h2⟩ := cbcUnchain64_shape (blockDecrypt P c) blocks (beValue iv)
  have hclen := length_flatten_blocks 8 _ h1
  unfold decrypt
  rw [remaining_ofList, size_ofList, hlen, hiv]
  simp only [Nat.mul_mod_right, ne_eq, not_true_eq_false, if_false]
  rw [ofList_eq_reading iv, getLong_reading _ _ _ (by omega)]
  simp only [bind, Except.bind]
  rw [ofList_eq_reading, alloc_eq_writing,
    des_decryptLoop_blocks P c hmode _ blocks _ [] _ [] hb (by omega) (by simp)]
  simp only [List.nil_append]
  rw [List.take_of_length_le (by omega)]
  unfold reading
  rw [putLong_clear _ _ _ _ (by simp [hiv])]
  simp only [pure, Except.pure]
  rw [flip_writing_full _ _ (by rw [hclen, h2])]
  simp [ByteBuffer.flip, ofList, length_beBytes]

/-- `init` accepts a key of 8, 16 or 24 bytes and keeps the mode it is given. -/
theorem init_ok (key : List Nat) (mode : Int)
    (hk : key.length = 8 ∨ key.length = 16 ∨ key.length = 24) :
    ∃ c, init (ofList key) mode = .ok c ∧ c.mode = mode := by
  unfold init
  rw [size_ofList, if_pos hk]
  simp only [remaining_ofList]
  rcases hk with h | h | h
  · rw [if_pos h, ofList_eq_reading, getLong_reading _ _ _ (by omega)]
    exact ⟨_, rfl, rfl⟩
  · rw [if_neg (by omega), if_pos h, ofList_eq_reading, getLong_reading _ _ _ (by omega)]
    simp only [bind, Except.bind]
    rw [getLong_reading _ _ _ (by rw [List.length_drop]; omega)]
    exact ⟨_, rfl, rfl⟩
  · rw [if_neg (by omega), if_neg (by omega), if_pos h, ofList_eq_reading,
      getLong_reading _ _ _ (by omega)]
    simp only [bind, Except.bind]
    rw [getLong_reading _ _ _ (by rw [List.length_drop]; omega)]
    simp only
    rw [getLong_reading _ _ _ (by rw [List.length_drop, List.length_drop]; omega)]
    exact ⟨_, rfl, rfl⟩

end CipherDES

end hce

namespace hce

open rt rt.ByteBuffer

/-- A byte string whose length is a multiple of `n` is a sequence of `n`-byte blocks. -/
theorem exists_blocks (n : Nat) :
    ∀ (k : Nat) (m : List Nat), m.length = n * k →
      ∃ blocks : List (List Nat), (∀ b ∈ blocks, b.length = n) ∧ blocks.flatten = m ∧
        blocks.length = k := by
  intro k
  induction k with
  | zero =>
    intro m hm
    have : m = [] := by simpa using hm
    exact ⟨[], by simp, by simp [this], rfl⟩
  | succ j ih =>
    intro m hm
    have hge : n ≤ m.length := by rw [hm]; exact Nat.le_mul_of_pos_right n (by omega)
    obtain ⟨blocks, h1, h2, h3⟩ := ih (m.drop n) (by
      rw [List.length_drop, hm, Nat.mul_succ]; omega)
    refine ⟨m.take n :: blocks, ?_, ?_, by simp [h3]⟩
    · intro b hb
      rcases List.mem_cons.mp hb with h | h
      · rw [h, List.length_take]; omega
      · exact h1 b h
    · rw [List.flatten_cons, h2, List.take_append_drop]

theorem exists_blocks_of_mod (n : Nat) (m : List Nat) (h : m.length % n = 0) :
    ∃ blocks : List (List Nat), (∀ b ∈ blocks, b.length = n) ∧ blocks.flatten = m := by
  obtain ⟨blocks, h1, h2, _⟩ := exists_blocks n (m.length / n) m
    (by rw [Nat.mul_comm]; exact (Nat.div_mul_cancel (Nat.dvd_of_mod_eq_zero h)).symm)
  exact ⟨blocks, h1, h2⟩

theorem cbcChain_append (E : List Nat → List Nat) :
    ∀ (A B : List (List Nat)) (iv : List Nat),
      cbcChain E (A ++ B) iv =
        ((cbcChain E A iv).1 ++ (cbcChain E B (cbcChain E A iv).2).1,
          (cbcChain E B (cbcChain E A iv).2).2) := by
  intro A
  induction A with
  | nil => intro B iv; simp [cbcChain]
  | cons a as ih => intro B iv; simp [cbcChain, ih]

theorem cbcChain64_append (E : Nat → Nat) :
    ∀ (A B : List (List Nat)) (iv : Nat),
      cbcChain64 E (A ++ B) iv =
        ((cbcChain64 E A iv).1 ++ (cbcChain64 E B (cbcChain64 E A iv).2).1,
          (cbcChain64 E B (cbcChain64 E A iv).2).2) := by
  intro A
  induction A with
  | nil => intro B iv; simp [cbcChain64]
  | cons a as ih => intro B iv; simp [cbcChain64, ih]

/-- The chaining value after a non-empty chain is its last ciphertext block. -/
theorem cbcChain_last (E : List Nat → List Nat) (n : Nat) (hE : ∀ b, (E b).length = b.length) :
    ∀ (A : List (List Nat)) (iv : List Nat), A ≠ [] → (∀ b ∈ A, b.length = n) → iv.length = n →
      (cbcChain E A iv).1.flatten.drop ((cbcChain E A iv).1.flatten.length - n) =
        (cbcChain E A iv).2 := by
  intro A
  induction A with
  | nil => intro iv h; exact absurd rfl h
  | cons a as ih =>
    intro iv _ hb hiv
    have hc : (E (xorBytes a iv)).length = n := by
      rw [hE, length_xorBytes _ _ (by rw [hb a (by simp), hiv]), hb a (by simp)]
    by_cases has : as = []
    · subst has
      simp [cbcChain, hc]
    · have := ih (E (xorBytes a iv)) has (fun c hc => hb c (by simp [hc])) hc
      obtain ⟨h1, _, _⟩ := cbcChain_shape E n hE as (E (xorBytes a iv))
        (fun c hc => hb c (by simp [hc])) hc
      have hl := length_flatten_blocks n _ h1
      have hpos : 0 < (cbcChain E as (E (xorBytes a iv))).1.length := by
        obtain ⟨_, h2, _⟩ := cbcChain_shape E n hE as (E (xorBytes a iv))
          (fun c hc => hb c (by simp [hc])) hc
        rw [h2]; exact List.length_pos.mpr has
      have hn' : n ≤ (cbcChain E as (E (xorBytes a iv))).1.flatten.length := by
        rw [hl]; exact Nat.le_mul_of_pos_right n hpos
      simp only [cbcChain, List.flatten_cons, List.length_append, hc]
      rw [List.drop_append_eq_append_drop]
      have hd : (E (xorBytes a iv)).drop
          (n + (cbcChain E as (E (xorBytes a iv))).1.flatten.length - n) = [] :=
        List.drop_eq_nil_of_le (by rw [hc]; omega)
      rw [hd, List.nil_append, hc]
      have e2 : n + (cbcChain E as (E (xorBytes a iv))).1.flatten.length - n - n
          = (cbcChain E as (E (xorBytes a iv))).1.flatten.length - n := by omega
      rw [e2]
      exact this

/-- The chaining word after a non-empty chain is its last ciphertext block. -/
theorem cbcChain64_last (E : Nat → Nat) :
    ∀ (A : List (List Nat)) (iv : Nat), A ≠ [] →
      (cbcChain64 E A iv).1.flatten.drop ((cbcChain64 E A iv).1.flatten.length - 8) =
        beBytes 8 (cbcChain64 E A iv).2 := by
  intro A
  induction A with
  | nil => intro iv h; exact absurd rfl h
  | cons a as ih =>
    intro iv _
    by_cases has : as = []
    · subst has
      simp [cbcChain64, length_beBytes]
    · have := ih (E (beValue a ^^^ iv)) has
      obtain ⟨h1, h2⟩ := cbcChain64_shape E as (E (beValue a ^^^ iv))
      have hl := length_flatten_blocks 8 _ h1
      have hpos : 0 < (cbcChain64 E as (E (beValue a ^^^ iv))).1.length := by
        rw [h2]; exact List.length_pos.mpr has
      simp only [cbcChain64, List.flatten_cons, List.length_append, length_beBytes]
      rw [List.drop_append_eq_append_drop]
      have hd : (beBytes 8 (E (beValue a ^^^ iv))).drop
          (8 + (cbcChain64 E as (E (beValue a ^^^ iv))).1.flatten.length - 8) = [] :=
        List.drop_eq_nil_of_le (by rw [length_beBytes]; omega)
      rw [hd, List.nil_append, length_beBytes]
      have e2 : 8 + (cbcChain64 E as (E (beValue a ^^^ iv))).1.flatten.length - 8 - 8
          = (cbcChain64 E as (E (beValue a ^^^ iv))).1.flatten.length - 8 := by omega
      rw [e2]
      exact this

theorem xorBytes_cancel : ∀ (a b : List Nat), a.length = b.length → xorBytes (xorBytes a b) b = a := by
  intro a
  induction a with
  | nil => intro b _; simp [xorBytes]
  | cons x xs ih =>
    intro b hb
    cases b with
    | nil => simp at hb
    | cons y ys =>
      simp only [List.length_cons, Nat.add_right_cancel_iff] at hb
      have := ih ys hb
      simp only [xorBytes] at this ⊢
      simp [this, Nat.xor_cancel_right]

/-- Unchaining a chain gives the blocks back when `D` inverts `E` on blocks. -/
theorem cbcUnchain_cbcChain (E D : List Nat → List Nat) (n : Nat)
    (hE : ∀ b, (E b).length = b.length)
    (hinv : ∀ b, b.length = n → D (E b) = b) :
    ∀ (blocks : List (List Nat)) (iv : List Nat), (∀ b ∈ blocks, b.length = n) → iv.length = n →
      (cbcUnchain D (cbcChain E blocks iv).1 iv).1 = blocks := by
  intro blocks
  induction blocks with
  | nil => intro iv _ _; simp [cbcChain, cbcUnchain]
  | cons b bs ih =>
    intro iv hb hiv
    have hbl := hb b (by simp)
    have hx : (xorBytes b iv).length = n := by
      rw [length_xorBytes _ _ (by rw [hbl, hiv]), hbl]
    have hc : (E (xorBytes b iv)).length = n := by rw [hE, hx]
    simp only [cbcChain, cbcUnchain]
    rw [hinv _ hx, xorBytes_cancel _ _ (by rw [hbl, hiv]),
      ih (E (xorBytes b iv)) (fun c hc => hb c (by simp [hc])) hc]

/-- Unchaining a chain of 64-bit words gives the blocks back when `D` inverts `E`. -/
theorem cbcUnchain64_cbcChain64 (E D : Nat → Nat)
    (hE : ∀ x, E x < 18446744073709551616)
    (hinv : ∀ x, x < 18446744073709551616 → D (E x) = x) :
    ∀ (blocks : List (List Nat)) (iv : Nat), (∀ b ∈ blocks, b.length = 8) →
      (∀ b ∈ blocks, ∀ x ∈ b, x < 256) → iv < 18446744073709551616 →
      (cbcUnchain64 D (cbcChain64 E blocks iv).1 iv).1 = blocks := by
  intro blocks
  induction blocks with
  | nil => intro iv _ _ _; simp [cbcChain64, cbcUnchain64]
  | cons b bs ih =>
    intro iv hb hbytes hiv
    have hbl := hb b (by simp)
    have hbv := beValue_lt b hbl (hbytes b (by simp))
    have hx : beValue b ^^^ iv < 18446744073709551616 :=
      Nat.xor_lt_two_pow (n := 64) hbv hiv
    simp only [cbcChain64, cbcUnchain64]
    rw [beValue_beBytes _ (hE _), hinv _ hx, Nat.xor_cancel_right,
      beBytes_beValue b hbl (hbytes b (by simp)),
      ih _ (fun c hc => hb c (by simp [hc])) (fun c hc => hbytes c (by simp [hc])) (hE _)]

theorem length_shiftLeftBytes : ∀ l : List Nat, (shiftLeftBytes l).length = l.length
  | [] => rfl
  | [_] => rfl
  | _ :: c :: rest => by
    simp only [shiftLeftBytes, List.length_cons]
    rw [length_shiftLeftBytes (c :: rest)]
    rfl

theorem samplePrimitives_inPlace : samplePrimitives.InPlace := by
  refine ⟨?_, ?_, ?_⟩
  · intro mode key block; simp [samplePrimitives]
  · intro mode key block; simp [samplePrimitives]
  · intro bytes; exact length_shiftLeftBytes bytes

theorem samplePrimitives_aes_inverse (mode : Nat) (k block : List Nat) :
    samplePrimitives.aesDecrypt mode k (samplePrimitives.aesEncrypt mode k block) = block := by
  simp only [samplePrimitives, List.reverse_reverse, List.map_map]
  have : ((fun x => x ^^^ k.headD 0) ∘ fun x => x ^^^ k.headD 0) = id := by
    funext x
    simp [Nat.xor_cancel_right]
  rw [this, List.map_id]

theorem samplePrimitives_des_inverse (k1 k2 k3 x : Nat) (hx : x < 18446744073709551616) :
    samplePrimitives.des3Decrypt k1 k2 k3
        (samplePrimitives.des3Encrypt k1 k2 k3 x % 18446744073709551616)
      % 18446744073709551616 = x := by
  simp only [samplePrimitives]
  have hk : k1 % 18446744073709551616 < 2 ^ 64 := Nat.mod_lt _ (by norm_num)
  have hx' : x < 2 ^ 64 := hx
  have h1 : x ^^^ k1 % 18446744073709551616 < 18446744073709551616 :=
    Nat.xor_lt_two_pow (n := 64) hx' hk
  rw [Nat.mod_eq_of_lt h1, Nat.xor_cancel_right, Nat.mod_eq_of_lt hx]

end hce

namespace hce

open rt rt.ByteBuffer

/-- C5: for `CipherAES` and `CipherDES`, `encrypt(input, iv)` on block-aligned input starts from
the chaining value in `iv` and leaves in `iv` the last ciphertext block (the `iv` it was given
when the input is empty); so encrypting `a` and then `b` through the same `iv` variable gives
outputs whose concatenation is the encryption of `a ++ b` from the initial IV. -/
theorem cipher_encrypt_chaining (P : Primitives) (hP : P.InPlace)
    (cA : CipherAES) (a b iv0 : List Nat)
    (ha : a.length % 16 = 0) (hb : b.length % 16 = 0) (hiv : iv0.length = 16)
    (cD : CipherDES) (a' b' iv0' : List Nat)
    (ha' : a'.length % 8 = 0) (hb' : b'.length % 8 = 0) (hiv' : iv0'.length = 8)
    (hbytes : ∀ x ∈ iv0', x < 256) :
    (∃ outA iv1 outB iv2,
      cA.encrypt P (ofList a) (ofList iv0) = .ok (ofList outA, ofList iv1) ∧
      cA.encrypt P (ofList b) (ofList iv1) = .ok (ofList outB, ofList iv2) ∧
      cA.encrypt P (ofList (a ++ b)) (ofList iv0) = .ok (ofList (outA ++ outB), ofList iv2) ∧
      outA.length = a.length ∧ (a = [] → iv1 = iv0) ∧
      (a ≠ [] → iv1 = outA.drop (outA.length - 16))) ∧
    (∃ outA iv1 outB iv2,
      cD.encrypt P (ofList a') (ofList iv0') = .ok (ofList outA, ofList iv1) ∧
      cD.encrypt P (ofList b') (ofList iv1) = .ok (ofList outB, ofList iv2) ∧
      cD.encrypt P (ofList (a' ++ b')) (ofList iv0') = .ok (ofList (outA ++ outB), ofList iv2) ∧
      outA.length = a'.length ∧ (a' = [] → iv1 = iv0') ∧
      (a' ≠ [] → iv1 = outA.drop (outA.length - 8))) := by
  constructor
  · obtain ⟨A, hA, rfl⟩ := exists_blocks_of_mod 16 a ha
    obtain ⟨B, hB, rfl⟩ := exists_blocks_of_mod 16 b hb
    have hE := hP.1 cA.mode cA.key
    obtain ⟨s1, s2, s3⟩ := cbcChain_shape (P.aesEncrypt cA.mode cA.key) 16 hE A iv0 hA hiv
    refine ⟨_, _, _, _, CipherAES.aes_encrypt_blocks P cA hP A iv0 hA hiv,
      CipherAES.aes_encrypt_blocks P cA hP B _ hB s3, ?_, ?_, ?_, ?_⟩
    · rw [← List.flatten_append, CipherAES.aes_encrypt_blocks P cA hP (A ++ B) iv0
        (fun x hx => by
          rcases List.mem_append.mp hx with h | h
          · exact hA x h
          · exact hB x h) hiv, cbcChain_append]
      simp
    · rw [length_flatten_blocks 16 _ s1, s2, length_flatten_blocks 16 A hA]
    · intro h
      have : A = [] := by
        cases A with
        | nil => rfl
        | cons x xs =>
          have := hA x (by simp)
          simp only [List.flatten_cons, List.append_eq_nil] at h
          rw [h.1] at this
          simp at this
      subst this
      simp [cbcChain]
    · intro h
      have hne : A ≠ [] := by
        intro hnil; subst hnil; simp at h
      exact (cbcChain_last _ 16 hE A iv0 hne hA hiv).symm
  · obtain ⟨A, hA, rfl⟩ := exists_blocks_of_mod 8 a' ha'
    obtain ⟨B, hB, rfl⟩ := exists_blocks_of_mod 8 b' hb'
    obtain ⟨s1, s2⟩ := cbcChain64_shape (CipherDES.blockEncrypt P cD) A (beValue iv0')
    have hmod : ∀ x, CipherDES.blockEncrypt P cD x < 18446744073709551616 := by
      intro x; unfold CipherDES.blockEncrypt; exact Nat.mod_lt _ (by norm_num)
    have hiv1v : ∀ v, v < 18446744073709551616 → beValue (beBytes 8 v) = v :=
      fun v hv => beValue_beBytes v hv
    -- the chaining word after `A`, below 2 ^ 64
    have hchain_lt : (cbcChain64 (CipherDES.blockEncrypt P cD) A (beValue iv0')).2
        < 18446744073709551616 := by
      cases A with
      | nil => simpa [cbcChain64] using beValue_lt iv0' hiv' hbytes
      | cons x xs =>
        have hlast := cbcChain64_last (CipherDES.blockEncrypt P cD) (x :: xs) (beValue iv0')
          (by simp)
        have key : ∀ (L : List (List Nat)) (v : Nat), v < 18446744073709551616 →
            (cbcChain64 (CipherDES.blockEncrypt P cD) L v).2 < 18446744073709551616 := by
          intro L
          induction L with
          | nil => intro v hv; simpa [cbcChain64] using hv
          | cons y ys ih => intro v _; simp only [cbcChain64]; exact ih _ (hmod _)
        exact key _ _ (beValue_lt iv0' hiv' hbytes)
    refine ⟨_, _, _, _, CipherDES.des_encrypt_blocks P cD A iv0' hA hiv',
      CipherDES.des_encrypt_blocks P cD B _ hB (length_beBytes 8 _), ?_, ?_, ?_, ?_⟩
    · rw [← List.flatten_append, CipherDES.des_encrypt_blocks P cD (A ++ B) iv0'
        (fun x hx => by
          rcases List.mem_append.mp hx with h | h
          · exact hA x h
          · exact hB x h) hiv', cbcChain64_append, hiv1v _ hchain_lt]
      simp
    · rw [length_flatten_blocks 8 _ s1, s2, length_flatten_blocks 8 A hA]
    · intro h
      have : A = [] := by
        cases A with
        | nil => rfl
        | cons x xs =>
          have := hA x (by simp)
          simp only [List.flatten_cons, List.append_eq_nil] at h
          rw [h.1] at this
          simp at this
      subst this
      simp only [cbcChain64]
      exact beBytes_beValue iv0' hiv' hbytes
    · intro h
      have hne : A ≠ [] := by
        intro hnil; subst hnil; simp at h
      exact (cbcChain64_last _ A (beValue iv0') hne).symm

theorem cipher_encrypt_chaining_witness :
    samplePrimitives.InPlace ∧
      (List.replicate 16 1).length % 16 = 0 ∧ (List.replicate 16 2).length % 16 = 0 ∧
      (List.replicate 16 0).length = 16 ∧
      (List.replicate 8 1).length % 8 = 0 ∧ (List.replicate 8 2).length % 8 = 0 ∧
      (List.replicate 8 0).length = 8 ∧ (∀ x ∈ List.replicate 8 0, x < 256) ∧
      ((∃ outA iv1 outB iv2,
        (⟨16, List.replicate 16 3⟩ : CipherAES).encrypt samplePrimitives
            (ofList (List.replicate 16 1)) (ofList (List.replicate 16 0))
          = .ok (ofList outA, ofList iv1) ∧
        (⟨16, List.replicate 16 3⟩ : CipherAES).encrypt samplePrimitives
            (ofList (List.replicate 16 2)) (ofList iv1) = .ok (ofList outB, ofList iv2) ∧
        (⟨16, List.replicate 16 3⟩ : CipherAES).encrypt samplePrimitives
            (ofList (List.replicate 16 1 ++ List.replicate 16 2)) (ofList (List.replicate 16 0))
          = .ok (ofList (outA ++ outB), ofList iv2) ∧
        outA.length = (List.replicate 16 1).length ∧
        (List.replicate 16 1 = [] → iv1 = List.replicate 16 0) ∧
        (List.replicate 16 1 ≠ [] → iv1 = outA.drop (outA.length - 16))) ∧
      (∃ outA iv1 outB iv2,
        (⟨0, 5, 6, 5⟩ : CipherDES).encrypt samplePrimitives
            (ofList (List.replicate 8 1)) (ofList (List.replicate 8 0))
          = .ok (ofList outA, ofList iv1) ∧
        (⟨0, 5, 6, 5⟩ : CipherDES).encrypt samplePrimitives
            (ofList (List.replicate 8 2)) (ofList iv1) = .ok (ofList outB, ofList iv2) ∧
        (⟨0, 5, 6, 5⟩ : CipherDES).encrypt samplePrimitives
            (ofList (List.replicate 8 1 ++ List.replicate 8 2)) (ofList (List.replicate 8 0))
          = .ok (ofList (outA ++ outB), ofList iv2) ∧
        outA.length = (List.replicate 8 1).length ∧
        (List.replicate 8 1 = [] → iv1 = List.replicate 8 0) ∧
        (List.replicate 8 1 ≠ [] → iv1 = outA.drop (outA.length - 8)))) :=
  ⟨samplePrimitives_inPlace, by decide, by decide, by decide, by decide, by decide, by decide,
    by decide,
    cipher_encrypt_chaining samplePrimitives samplePrimitives_inPlace
      ⟨16, List.replicate 16 3⟩ (List.replicate 16 1) (List.replicate 16 2) (List.replicate 16 0)
      (by decide) (by decide) (by decide)
      ⟨0, 5, 6, 5⟩ (List.replicate 8 1) (List.replicate 8 2) (List.replicate 8 0)
      (by decide) (by decide) (by decide) (by decide)⟩

/-- C6: for `CipherAES` with a key of 16, 24 or 32 bytes and for `CipherDES` in Iso mode with a
key of 8, 16 or 24 bytes, when the block decryption inverts the block encryption, decrypting
the encryption of a block-aligned plaintext from a fresh copy of the initial IV gives the
plaintext back. -/
theorem cipher_decrypt_encrypt (P : Primitives) (hP : P.InPlace)
    (key iv p : List Nat)
    (hk : key.length = 16 ∨ key.length = 24 ∨ key.length = 32)
    (hiv : iv.length = 16) (hp : p.length % 16 = 0)
    (hinv : ∀ mode k block, block.length = 16 →
      P.aesDecrypt mode k (P.aesEncrypt mode k block) = block)
    (key' iv' p' : List Nat)
    (hk' : key'.length = 8 ∨ key'.length = 16 ∨ key'.length = 24)
    (hiv' : iv'.length = 8) (hp' : p'.length % 8 = 0)
    (hivb : ∀ x ∈ iv', x < 256) (hpb : ∀ x ∈ p', x < 256)
    (hinv' : ∀ k1 k2 k3 x, x < 18446744073709551616 →
      P.des3Decrypt k1 k2 k3 (P.des3Encrypt k1 k2 k3 x % 18446744073709551616)
        % 18446744073709551616 = x) :
    (∃ c ct ivA ivB, CipherAES.init (ofList key) = .ok c ∧
      c.encrypt P (ofList p) (ofList iv) = .ok (ofList ct, ivA) ∧
      c.decrypt P (ofList ct) (ofList iv) = .ok (ofList p, ivB)) ∧
    (∃ c ct ivA ivB, CipherDES.init (ofList key') CipherDES.Iso = .ok c ∧
      c.encrypt P (ofList p') (ofList iv') = .ok (ofList ct, ivA) ∧
      c.decrypt P (ofList ct) (ofList iv') = .ok (ofList p', ivB)) := by
  constructor
  · obtain ⟨A, hA, rfl⟩ := exists_blocks_of_mod 16 p hp
    have hinit : ∃ c, CipherAES.init (ofList key) = .ok c := by
      unfold CipherAES.init
      rw [size_ofList, if_pos hk]
      exact ⟨_, rfl⟩
    obtain ⟨c, hc⟩ := hinit
    have hE := hP.1 c.mode c.key
    obtain ⟨s1, _, _⟩ := cbcChain_shape (P.aesEncrypt c.mode c.key) 16 hE A iv hA hiv
    have hdec := CipherAES.aes_decrypt_blocks P c hP _ iv s1 hiv
    rw [cbcUnchain_cbcChain _ _ 16 hE (hinv c.mode c.key) A iv hA hiv] at hdec
    exact ⟨c, _, _, _, hc, CipherAES.aes_encrypt_blocks P c hP A iv hA hiv, hdec⟩
  · obtain ⟨A, hA, rfl⟩ := exists_blocks_of_mod 8 p' hp'
    obtain ⟨c, hc, hcm⟩ := CipherDES.init_ok key' CipherDES.Iso hk'
    have hmode : c.mode ≠ CipherDES.Legacy := by rw [hcm]; decide
    obtain ⟨s1, _⟩ := cbcChain64_shape (CipherDES.blockEncrypt P c) A (beValue iv')
    have hdec := CipherDES.des_decrypt_blocks P c hmode _ iv' s1 hiv'
    rw [cbcUnchain64_cbcChain64 _ _
        (fun x => by unfold CipherDES.blockEncrypt; exact Nat.mod_lt _ (by norm_num))
        (fun x hx => by
          unfold CipherDES.blockDecrypt CipherDES.blockEncrypt
          exact hinv' _ _ _ x hx)
        A (beValue iv') hA
        (fun b hb x hx => hpb x (List.mem_flatten.mpr ⟨b, hb, hx⟩))
        (beValue_lt iv' hiv' hivb)] at hdec
    exact ⟨c, _, _, _, hc, CipherDES.des_encrypt_blocks P c A iv' hA hiv', hdec⟩

theorem cipher_decrypt_encrypt_witness :
    samplePrimitives.InPlace ∧
      ((List.replicate 16 3).length = 16 ∨ (List.replicate 16 3).length = 24 ∨
        (List.replicate 16 3).length = 32) ∧
      (List.replicate 16 0).length = 16 ∧ (List.replicate 32 1).length % 16 = 0 ∧
      (∀ mode k block, block.length = 16 →
        samplePrimitives.aesDecrypt mode k (samplePrimitives.aesEncrypt mode k block) = block) ∧
      ((List.replicate 16 5).length = 8 ∨ (List.replicate 16 5).length = 16 ∨
        (List.replicate 16 5).length = 24) ∧
      (List.replicate 8 0).length = 8 ∧ (List.replicate 16 1).length % 8 = 0 ∧
      (∀ x ∈ List.replicate 8 0, x < 256) ∧ (∀ x ∈ List.replicate 16 1, x < 256) ∧
      (∀ k1 k2 k3 x, x < 18446744073709551616 →
        samplePrimitives.des3Decrypt k1 k2 k3
            (samplePrimitives.des3Encrypt k1 k2 k3 x % 18446744073709551616)
          % 18446744073709551616 = x) ∧
      ((∃ c ct ivA ivB, CipherAES.init (ofList (List.replicate 16 3)) = .ok c ∧
        c.encrypt samplePrimitives (ofList (List.replicate 32 1)) (ofList (List.replicate 16 0))
          = .ok (ofList ct, ivA) ∧
        c.decrypt samplePrimitives (ofList ct) (ofList (List.replicate 16 0))
          = .ok (ofList (List.replicate 32 1), ivB)) ∧
      (∃ c ct ivA ivB, CipherDES.init (ofList (List.replicate 16 5)) CipherDES.Iso = .ok c ∧
        c.encrypt samplePrimitives (ofList (List.replicate 16 1)) (ofList (List.replicate 8 0))
          = .ok (ofList ct, ivA) ∧
        c.decrypt samplePrimitives (ofList ct) (ofList (List.replicate 8 0))
          = .ok (ofList (List.replicate 16 1), ivB))) :=
  ⟨samplePrimitives_inPlace, by decide, by decide, by decide,
    fun mode k block _ => samplePrimitives_aes_inverse mode k block,
    by decide, by decide, by decide, by decide, by decide,
    samplePrimitives_des_inverse,
    cipher_decrypt_encrypt samplePrimitives samplePrimitives_inPlace
      (List.replicate 16 3) (List.replicate 16 0) (List.replicate 32 1)
      (by decide) (by decide) (by decide)
      (fun mode k block _ => samplePrimitives_aes_inverse mode k block)
      (List.replicate 16 5) (List.replicate 8 0) (List.replicate 16 1)
      (by decide) (by decide) (by decide) (by decide) (by decide)
      samplePrimitives_des_inverse⟩

end hce

namespace hce

open rt rt.ByteBuffer

theorem take_succ_getD (l : List Nat) (n : Nat) (h : n < l.length) :
    l.take (n + 1) = l.take n ++ [l.getD n 0] := by
  rw [List.take_succ]
  simp [List.getD_eq_getElem?_getD, List.getElem?_eq_getElem h]

theorem drop_eq_getD_cons (l : List Nat) (n : Nat) (h : n < l.length) :
    l.drop n = l.getD n 0 :: l.drop (n + 1) := by
  rw [List.drop_eq_getElem_cons h, List.getD_eq_getElem l 0 h]

theorem setAt_ofList (l : List Nat) (i v : Nat) (h : i < l.length) :
    (ofList l).setAt i v = .ok (ofList (l.set i v)) := by
  simp [setAt, ofList, h]

namespace CMAC

/-- The masking loop XORs the last `size` bytes of the buffer with the key, byte by byte. -/
theorem xorLastBlock_steps (A L key : List Nat) (p size : Nat) (hL : L.length = size)
    (hk : key.length = size) (hcap : A.length + size < 4294967296) :
    ∀ j, j ≤ size →
      (List.range j).foldlM (fun d i => do
        let index := (d.size + 4294967296 - size + i) % 4294967296
        let kv ← (ofList key).getAt i
        let dv ← d.getAt index
        d.setAt index (dv ^^^ kv)) (⟨A ++ L, p, A.length + size⟩ : ByteBuffer) =
      .ok ⟨A ++ (xorBytes (L.take j) (key.take j) ++ L.drop j), p, A.length + size⟩ := by
  intro j
  induction j with
  | zero => intro _; simp [xorBytes, pure, Except.pure]
  | succ j ih =>
    intro hj
    have hjL : j < L.length := by omega
    have hjk : j < key.length := by omega
    rw [List.range_succ, List.foldlM_append, ih (by omega)]
    have hidx : (A.length + size + 4294967296 - size + j) % 4294967296 = A.length + j := by
      omega
    have hxlen : (xorBytes (L.take j) (key.take j)).length = j := by
      rw [length_xorBytes _ _ (by rw [List.length_take, List.length_take]; omega),
        List.length_take]
      omega
    simp only [bind, Except.bind, List.foldlM_cons, List.foldlM_nil, ByteBuffer.size, hidx, pure,
      Except.pure]
    rw [getAt_ofList key j hjk]
    simp only
    have hget : (⟨A ++ (xorBytes (L.take j) (key.take j) ++ L.drop j), p, A.length + size⟩ :
        ByteBuffer).getAt (A.length + j) = .ok (L.getD j 0) := by
      unfold getAt
      rw [if_pos (by simp only; omega)]
      simp only
      rw [List.getD_append_right _ _ _ _ (by omega), Nat.add_sub_cancel_left,
        List.getD_append_right _ _ _ _ (by omega), hxlen, Nat.sub_self,
        drop_eq_getD_cons L j hjL, List.getD_cons_zero]
    rw [hget]
    simp only
    unfold setAt
    rw [if_pos (by simp only; omega)]
    simp only
    congr 2
    rw [List.set_append_right _ _ (by omega), Nat.add_sub_cancel_left,
      List.set_append_right _ _ (by omega), hxlen, Nat.sub_self,
      drop_eq_getD_cons L j hjL, List.set_cons_zero,
      take_succ_getD L j hjL, take_succ_getD key j hjk]
    unfold xorBytes
    rw [List.zipWith_append _ _ _ _ _ (by rw [List.length_take, List.length_take]; omega)]
    simp

theorem xorLastBlock_spec (A L key : List Nat) (p size : Nat) (hL : L.length = size)
    (hk : key.length = size) (hcap : A.length + size < 4294967296) :
    xorLastBlock ⟨A ++ L, p, A.length + size⟩ (ofList key) size =
      .ok ⟨A ++ xorBytes L key, p, A.length + size⟩ := by
  unfold xorLastBlock
  rw [xorLastBlock_steps A L key p size hL hk hcap size (le_refl _)]
  rw [List.take_of_length_le (by omega), List.take_of_length_le (by omega),
    List.drop_eq_nil_of_le (by omega), List.append_nil]

end CMAC

end hce

namespace hce

open rt rt.ByteBuffer

theorem land_top_bit (x : Nat) : x &&& 0x80 ≠ 0 ↔ x.testBit 7 = true := by
  have h : x &&& 2 ^ 7 = (x.testBit 7).toNat * 2 ^ 7 := Nat.and_two_pow x 7
  have e : (0x80 : Nat) = 2 ^ 7 := by norm_num
  rw [e, h]
  cases x.testBit 7 <;> simp

theorem length_deriveSubkey (shift : List Nat → List Nat) (size mask : Nat) (k : List Nat)
    (hs : ∀ l, (shift l).length = l.length) : (deriveSubkey shift size mask k).length = k.length := by
  unfold deriveSubkey
  split
  · rw [List.length_set, hs]
  · rw [hs]

theorem slice_ofList (l : List Nat) (offset length : Nat) (h : offset + length ≤ l.length) :
    (ofList l).slice offset length = .ok (ofList ((l.drop offset).take length)) := by
  unfold ByteBuffer.slice
  rw [remaining_ofList, if_pos h, readable_ofList]

theorem push_writing (w : List Nat) (n cap : Nat) (h : w.length + n ≤ cap) :
    (writing w cap).push n true = .ok (writing (w ++ List.replicate n 0) cap) := by
  have := putBytes_writing w (List.replicate n 0) cap (by simpa using h)
  unfold putBytes at this
  unfold push
  simpa using this

theorem writing_full (w : List Nat) : writing w w.length = ⟨w, w.length, w.length⟩ := by
  simp [writing]

namespace CMAC

/-- One subkey step on a key of `size` bytes. -/
theorem nextSubkey_ofList (P : Primitives) (hP : P.InPlace) (k : List Nat) (size mask : Nat)
    (hk : k.length = size) (hsize : 0 < size) :
    nextSubkey P (ofList k) size mask =
      .ok (ofList (deriveSubkey P.shiftBitsLeft size mask k)) := by
  have hsh : (P.shiftBitsLeft k).length = size := by rw [hP.2.2, hk]
  have hhead : k.getD 0 0 = k.headD 0 := by cases k <;> rfl
  unfold nextSubkey deriveSubkey
  rw [content_ofList, getAt_ofList k 0 (by omega)]
  simp only [bind, Except.bind, hhead]
  by_cases htop : (k.headD 0).testBit 7 = true
  · rw [if_pos ((land_top_bit _).mpr htop), if_pos htop, getAt_ofList _ _ (by omega)]
    simp only
    rw [setAt_ofList _ _ _ (by omega)]
  · rw [if_neg (fun h => htop ((land_top_bit _).mp h)), if_neg htop]
    rfl

/-- The padded and masked message, for a non-empty input and subkeys of `size` bytes. -/
theorem prepare_ofList (input k1 k2 : List Nat) (size : Nat) (hsize : 0 < size)
    (hin : input ≠ []) (hk1 : k1.length = size) (hk2 : k2.length = size)
    (hlen : input.length + size < 4294967296) :
    prepare (ofList input) (ofList k1) (ofList k2) size =
      .ok (ofList (cmacMessage size k1 k2 input)) := by
  have hn : 0 < input.length := List.length_pos.mpr hin
  -- a full buffer holding `M`, masked with `k`, flipped
  have full : ∀ (M k : List Nat), k.length = size → size ≤ M.length →
      M.length < 4294967296 →
      (xorLastBlock (writing M M.length) (ofList k) size).map (·.flip) =
        .ok (ofList (xorLast size M k)) := by
    intro M k hk hM hM32
    have hsplit : M = M.take (M.length - size) ++ M.drop (M.length - size) :=
      (List.take_append_drop _ _).symm
    have hA : (M.take (M.length - size)).length + size = M.length := by
      rw [List.length_take]; omega
    rw [writing_full]
    have e : (⟨M, M.length, M.length⟩ : ByteBuffer) =
        ⟨M.take (M.length - size) ++ M.drop (M.length - size), M.length,
          (M.take (M.length - size)).length + size⟩ := by
      rw [← hsplit, hA]
    rw [e, xorLastBlock_spec _ _ k _ size (by rw [List.length_drop]; omega) hk (by omega)]
    simp only [Except.map, ByteBuffer.flip, ofList, xorLast]
    congr 2
    rw [List.length_append, length_xorBytes _ _ (by rw [List.length_drop, hk]; omega),
      List.length_take, List.length_drop]
    omega
  unfold prepare cmacMessage
  rw [remaining_ofList]
  by_cases hmod : input.length % size = 0
  · have hge : size ≤ input.length := Nat.le_of_dvd hn (Nat.dvd_of_mod_eq_zero hmod)
    simp only [hmod, if_true, Nat.add_zero, lt_self_iff_false, if_false, bind, Except.bind]
    rw [show ByteBuffer.zero input.length = writing [] input.length from by
      simp [ByteBuffer.zero, writing]]
    rw [putBuffer_writing _ _ _ (by simp), List.nil_append]
    have := full input k1 hk1 hge (by omega)
    cases hx : xorLastBlock (writing input input.length) (ofList k1) size with
    | error e => rw [hx] at this; simp [Except.map] at this
    | ok d =>
      rw [hx] at this
      simp only [Except.map, Except.ok.injEq] at this
      simp only [hx, pure, Except.pure, this]
  · have hpad : 0 < size - input.length % size := by
      have := Nat.mod_lt input.length hsize
      omega
    have hlt := Nat.mod_lt input.length hsize
    simp only [hmod, if_false, hpad, if_true, bind, Except.bind]
    rw [show ByteBuffer.zero (input.length + (size - input.length % size)) =
      writing [] (input.length + (size - input.length % size)) from by
        simp [ByteBuffer.zero, writing]]
    rw [putBuffer_writing _ _ _ (by simp), List.nil_append]
    simp only
    rw [put_writing _ _ _ (by omega)]
    simp only
    rw [push_writing _ _ _ (by simp only [List.length_append, List.length_singleton]; omega)]
    simp only
    have hM : (input ++ [128 % 256] ++ List.replicate (size - input.length % size - 1) 0).length
        = input.length + (size - input.length % size) := by
      simp only [List.length_append, List.length_singleton, List.length_replicate]
      omega
    have hMe : input ++ [128 % 256] ++ List.replicate (size - input.length % size - 1) 0 =
        input ++ 128 :: List.replicate (size - input.length % size - 1) 0 := by
      simp
    have := full (input ++ [128 % 256] ++ List.replicate (size - input.length % size - 1) 0)
      k2 hk2 (by rw [hM]; have := Nat.mod_le input.length size; omega) (by rw [hM]; omega)
    rw [hM] at this
    cases hx : xorLastBlock (writing
        (input ++ [128 % 256] ++ List.replicate (size - input.length % size - 1) 0)
        (input.length + (size - input.length % size))) (ofList k2) size with
    | error e => rw [hx] at this; simp [Except.map] at this
    | ok d =>
      rw [hx] at this
      simp only [Except.map, Except.ok.injEq] at this
      rw [hMe] at this
      simp only [hx, pure, Except.pure, this]

end CMAC

end hce

namespace hce

open rt rt.ByteBuffer

namespace Cipher

/-- `encrypt` of either cipher on whole blocks is the CBC chain. -/
theorem cipher_encrypt_blocks (P : Primitives) (hP : P.InPlace) (cipher : Cipher)
    (blocks : List (List Nat)) (iv : List Nat)
    (hb : ∀ b ∈ blocks, b.length = cipher.blockLength) (hiv : iv.length = cipher.blockLength) :
    cipher.encrypt P (ofList blocks.flatten) (ofList iv) =
      .ok (ofList (cbc P cipher blocks iv).1.flatten, ofList (cbc P cipher blocks iv).2) := by
  cases cipher with
  | aes c => exact CipherAES.aes_encrypt_blocks P c hP blocks iv hb hiv
  | des c => exact CipherDES.des_encrypt_blocks P c blocks iv hb hiv

theorem cbc_length (P : Primitives) (hP : P.InPlace) (cipher : Cipher)
    (blocks : List (List Nat)) (iv : List Nat)
    (hb : ∀ b ∈ blocks, b.length = cipher.blockLength) (hiv : iv.length = cipher.blockLength) :
    (cbc P cipher blocks iv).1.flatten.length = blocks.flatten.length := by
  cases cipher with
  | aes c =>
    obtain ⟨h1, h2, _⟩ := cbcChain_shape (P.aesEncrypt c.mode c.key) 16 (hP.1 c.mode c.key)
      blocks iv hb hiv
    show (cbcChain (P.aesEncrypt c.mode c.key) blocks iv).1.flatten.length = _
    rw [length_flatten_blocks 16 _ h1, h2, length_flatten_blocks 16 blocks hb]
  | des c =>
    obtain ⟨h1, h2⟩ := cbcChain64_shape (CipherDES.blockEncrypt P c) blocks (beValue iv)
    show (cbcChain64 (CipherDES.blockEncrypt P c) blocks (beValue iv)).1.flatten.length = _
    rw [length_flatten_blocks 8 _ h1, h2, length_flatten_blocks 8 blocks hb]

theorem cbc_last (P : Primitives) (hP : P.InPlace) (cipher : Cipher)
    (blocks : List (List Nat)) (iv : List Nat) (hne : blocks ≠ [])
    (hb : ∀ b ∈ blocks, b.length = cipher.blockLength) (hiv : iv.length = cipher.blockLength) :
    (cbc P cipher blocks iv).1.flatten.drop
        ((cbc P cipher blocks iv).1.flatten.length - cipher.blockLength) =
      (cbc P cipher blocks iv).2 := by
  cases cipher with
  | aes c => exact cbcChain_last _ 16 (hP.1 c.mode c.key) blocks iv hne hb hiv
  | des c => exact cbcChain64_last _ blocks (beValue iv) hne

theorem cbc_snd_length (P : Primitives) (hP : P.InPlace) (cipher : Cipher)
    (blocks : List (List Nat)) (iv : List Nat)
    (hb : ∀ b ∈ blocks, b.length = cipher.blockLength) (hiv : iv.length = cipher.blockLength) :
    (cbc P cipher blocks iv).2.length = cipher.blockLength := by
  cases cipher with
  | aes c =>
    exact (cbcChain_shape (P.aesEncrypt c.mode c.key) 16 (hP.1 c.mode c.key) blocks iv hb hiv).2.2
  | des c => exact length_beBytes 8 _

theorem cbc_single (P : Primitives) (cipher : Cipher) (b iv : List Nat) :
    (cbc P cipher [b] iv).1.flatten = (cbc P cipher [b] iv).2 := by
  cases cipher with
  | aes c => simp [cbc, cbcChain]
  | des c => simp [cbc, cbcChain64]

end Cipher

namespace CMAC

/-- `cipher->init(key, 0)` succeeds on a key of a length the cipher of the mode accepts. -/
theorem initCipher_ok (key : List Nat) (mode : Mode)
    (hkey : (mode = Mode.CmacTDES → key.length = 8 ∨ key.length = 16 ∨ key.length = 24) ∧
      (mode ≠ Mode.CmacTDES → key.length = 16 ∨ key.length = 24 ∨ key.length = 32)) :
    ∃ cipher, initCipher (ofList key) mode = .ok cipher ∧ cipher.blockLength = blockSize mode ∧
      (mode ≠ Mode.CmacTDES → cipher = Cipher.aes ⟨key.length, key⟩) ∧
      (mode = Mode.CmacTDES → ∃ c, cipher = Cipher.des c ∧ c.mode = 0) := by
  have haes : key.length = 16 ∨ key.length = 24 ∨ key.length = 32 →
      CipherAES.init (ofList key) = .ok ⟨key.length, key⟩ := by
    intro h
    unfold CipherAES.init
    rw [size_ofList, if_pos h, content_ofList]
  cases mode with
  | CmacTDES =>
    obtain ⟨c, hc, hm⟩ := CipherDES.init_ok key 0 (hkey.1 rfl)
    refine ⟨Cipher.des c, ?_, rfl, fun h => absurd rfl h, fun _ => ⟨c, rfl, hm⟩⟩
    simp only [initCipher, hc, bind, Except.bind, pure, Except.pure]
  | CmacAES128 =>
    refine ⟨Cipher.aes ⟨key.length, key⟩, ?_, rfl, fun _ => rfl, fun h => by cases h⟩
    simp only [initCipher, haes (hkey.2 (by decide)), bind, Except.bind, pure, Except.pure]
  | CmacAES128Trunc =>
    refine ⟨Cipher.aes ⟨key.length, key⟩, ?_, rfl, fun _ => rfl, fun h => by cases h⟩
    simp only [initCipher, haes (hkey.2 (by decide)), bind, Except.bind, pure, Except.pure]

/-- The three subkeys: the CBC encryption of one zero block from a zero IV, and two subkey
steps. -/
theorem subkeys_ok (P : Primitives) (hP : P.InPlace) (cipher : Cipher) (size mask : Nat)
    (hsize : cipher.blockLength = size) :
    subkeys P cipher size mask =
      .ok (ofList (Cipher.cbc P cipher [List.replicate size 0] (List.replicate size 0)).2,
        ofList (deriveSubkey P.shiftBitsLeft size mask
          (Cipher.cbc P cipher [List.replicate size 0] (List.replicate size 0)).2),
        ofList (deriveSubkey P.shiftBitsLeft size mask (deriveSubkey P.shiftBitsLeft size mask
          (Cipher.cbc P cipher [List.replicate size 0] (List.replicate size 0)).2))) := by
  have hpos : 0 < size := by
    rw [← hsize]; cases cipher <;> simp [Cipher.blockLength]
  have hb : ∀ b ∈ [List.replicate size 0], b.length = cipher.blockLength := by
    intro b hb
    rw [List.mem_singleton.mp hb, List.length_replicate, hsize]
  have hiv : (List.replicate size 0).length = cipher.blockLength := by
    rw [List.length_replicate, hsize]
  have hk0 := Cipher.cbc_snd_length P hP cipher _ _ hb hiv
  have henc := Cipher.cipher_encrypt_blocks P hP cipher _ _ hb hiv
  rw [Cipher.cbc_single] at henc
  have hz : ByteBuffer.zero size = ofList [List.replicate size 0].flatten := by
    simp [ByteBuffer.zero, ofList]
  have hzero : cipher.encryptZeroIv P (ByteBuffer.zero size) =
      .ok (ofList (Cipher.cbc P cipher [List.replicate size 0] (List.replicate size 0)).2) := by
    rw [hz]
    cases cipher with
    | aes c =>
      have e : size = 16 := hsize.symm
      subst e
      have hz16 : ByteBuffer.zero 16 = ofList (List.replicate 16 0) := rfl
      simp only [Cipher.encryptZeroIv, hz16]
      simp only [Cipher.encrypt] at henc
      rw [henc]
      rfl
    | des c =>
      have e : size = 8 := hsize.symm
      subst e
      have hz8 : ByteBuffer.zero 8 = ofList (List.replicate 8 0) := rfl
      simp only [Cipher.encryptZeroIv, hz8]
      simp only [Cipher.encrypt] at henc
      rw [henc]
      rfl
  unfold subkeys
  rw [hzero]
  simp only [bind, Except.bind]
  rw [nextSubkey_ofList P hP _ size mask (by rw [hk0, hsize]) hpos]
  simp only
  rw [nextSubkey_ofList P hP _ size mask
    (by rw [length_deriveSubkey _ _ _ _ hP.2.2, hk0, hsize]) hpos]
  rfl

end CMAC

end hce

namespace hce

open rt rt.ByteBuffer

theorem length_xorLast (size : Nat) (m k : List Nat) (hk : k.length = size)
    (hm : size ≤ m.length) : (xorLast size m k).length = m.length := by
  unfold xorLast
  rw [List.length_append, length_xorBytes _ _ (by rw [List.length_drop, hk]; omega),
    List.length_take, List.length_drop]
  omega

/-- The message CMAC encrypts is a positive number of whole blocks. -/
theorem length_cmacMessage (size : Nat) (k1 k2 input : List Nat) (hsize : 0 < size)
    (hin : input ≠ []) (hk1 : k1.length = size) (hk2 : k2.length = size) :
    (cmacMessage size k1 k2 input).length % size = 0 ∧
      size ≤ (cmacMessage size k1 k2 input).length ∧
      (cmacMessage size k1 k2 input).length ≤ input.length + size := by
  have hn : 0 < input.length := List.length_pos.mpr hin
  unfold cmacMessage
  by_cases hmod : input.length % size = 0
  · have hge : size ≤ input.length := Nat.le_of_dvd hn (Nat.dvd_of_mod_eq_zero hmod)
    rw [if_pos hmod, length_xorLast size input k1 hk1 hge]
    exact ⟨hmod, hge, by omega⟩
  · have hlt := Nat.mod_lt input.length hsize
    have hle := Nat.mod_le input.length size
    have hM : (input ++ 0x80 :: List.replicate (size - input.length % size - 1) 0).length =
        input.length + (size - input.length % size) := by
      simp only [List.length_append, List.length_cons, List.length_replicate]
      omega
    rw [if_neg hmod, length_xorLast size _ k2 hk2 (by rw [hM]; omega), hM]
    refine ⟨?_, by omega, by omega⟩
    have hdm := Nat.div_add_mod input.length size
    have e : input.length + (size - input.length % size) =
        size + size * (input.length / size) := by omega
    rw [e, Nat.add_mul_mod_self_left, Nat.mod_self]

namespace CMAC

/-- The result of `cmac` from the cipher, the subkeys and the blocks of the prepared message:
the last chaining value of their CBC encryption, cut down in the truncated mode. -/
theorem cmac_of (P : Primitives) (hP : P.InPlace) (key input iv : List Nat) (mode : Mode)
    (cipher : Cipher) (k0 : ByteBuffer) (k1 k2 : List Nat) (blocks : List (List Nat))
    (hinit : initCipher (ofList key) mode = .ok cipher)
    (hbl : cipher.blockLength = blockSize mode)
    (hsub : subkeys P cipher (blockSize mode) (blockMask mode) = .ok (k0, ofList k1, ofList k2))
    (hk1 : k1.length = blockSize mode) (hk2 : k2.length = blockSize mode)
    (hblocks : ∀ b ∈ blocks, b.length = blockSize mode)
    (hflat : blocks.flatten = cmacMessage (blockSize mode) k1 k2 input)
    (hiv : iv.length = blockSize mode) (hin : input ≠ [])
    (hlen : input.length + blockSize mode < 4294967296) :
    cmac P (ofList key) (ofList input) (ofList iv) mode =
      if mode = Mode.CmacAES128Trunc then
        truncate (ofList (Cipher.cbc P cipher blocks iv).2) (blockSize mode)
      else .ok (ofList (Cipher.cbc P cipher blocks iv).2) := by
  have hpos : 0 < blockSize mode := by cases mode <;> simp [blockSize]
  obtain ⟨hmod, hge, hle⟩ := length_cmacMessage (blockSize mode) k1 k2 input hpos hin hk1 hk2
  have hne : blocks ≠ [] := by
    intro h
    rw [h] at hflat
    rw [← hflat] at hge
    simp at hge
    omega
  have hb : ∀ b ∈ blocks, b.length = cipher.blockLength := by
    intro b h; rw [hbl]; exact hblocks b h
  have hiv' : iv.length = cipher.blockLength := by rw [hbl]; exact hiv
  have hclen := Cipher.cbc_length P hP cipher blocks iv hb hiv'
  have hlast := Cipher.cbc_last P hP cipher blocks iv hne hb hiv'
  have hsnd := Cipher.cbc_snd_length P hP cipher blocks iv hb hiv'
  rw [hbl] at hlast hsnd
  unfold cmac
  simp only [hinit, hsub, bind, Except.bind]
  rw [prepare_ofList input k1 k2 (blockSize mode) hpos hin hk1 hk2 hlen]
  simp only
  rw [← hflat, Cipher.cipher_encrypt_blocks P hP cipher blocks iv hb hiv']
  simp only [remaining_ofList]
  have hoff : ((Cipher.cbc P cipher blocks iv).1.flatten.length + 4294967296 - blockSize mode)
      % 4294967296 = (Cipher.cbc P cipher blocks iv).1.flatten.length - blockSize mode := by
    rw [hclen, hflat]
    have : (cmacMessage (blockSize mode) k1 k2 input).length + 4294967296 - blockSize mode =
        (cmacMessage (blockSize mode) k1 k2 input).length - blockSize mode + 4294967296 := by
      omega
    rw [this, Nat.add_mod_right, Nat.mod_eq_of_lt (by omega)]
  rw [hoff, slice_ofList _ _ _ (by rw [hclen, hflat]; omega), hlast,
    List.take_of_length_le (by rw [hsnd])]
  simp only [pure, Except.pure]

/-- On a valid key and a non-empty input `cmac` has its cipher, its subkeys of one block each
and the blocks of its prepared message. -/
theorem cmac_parts (P : Primitives) (hP : P.InPlace) (key input : List Nat) (mode : Mode)
    (hkey : (mode = Mode.CmacTDES → key.length = 8 ∨ key.length = 16 ∨ key.length = 24) ∧
      (mode ≠ Mode.CmacTDES → key.length = 16 ∨ key.length = 24 ∨ key.length = 32))
    (hin : input ≠ []) :
    ∃ cipher k0 k1 k2 blocks,
      initCipher (ofList key) mode = .ok cipher ∧
      cipher.blockLength = blockSize mode ∧
      subkeys P cipher (blockSize mode) (blockMask mode) = .ok (ofList k0, ofList k1, ofList k2) ∧
      k1.length = blockSize mode ∧ k2.length = blockSize mode ∧
      blocks ≠ [] ∧ (∀ b ∈ blocks, b.length = blockSize mode) ∧
      blocks.flatten = cmacMessage (blockSize mode) k1 k2 input := by
  obtain ⟨cipher, hinit, hbl, -, -⟩ := initCipher_ok key mode hkey
  have hsub := subkeys_ok P hP cipher (blockSize mode) (blockMask mode) hbl
  have hpos : 0 < blockSize mode := by cases mode <;> simp [blockSize]
  have hk0 : (Cipher.cbc P cipher [List.replicate (blockSize mode) 0]
      (List.replicate (blockSize mode) 0)).2.length = blockSize mode := by
    rw [Cipher.cbc_snd_length P hP cipher _ _ (by
      intro b hb
      rw [List.mem_singleton.mp hb, List.length_replicate, hbl])
      (by rw [List.length_replicate, hbl]), hbl]
  generalize (Cipher.cbc P cipher [List.replicate (blockSize mode) 0]
      (List.replicate (blockSize mode) 0)).2 = k0 at hsub hk0
  have hk1 : (deriveSubkey P.shiftBitsLeft (blockSize mode) (blockMask mode) k0).length =
      blockSize mode := by rw [length_deriveSubkey _ _ _ _ hP.2.2, hk0]
  generalize deriveSubkey P.shiftBitsLeft (blockSize mode) (blockMask mode) k0 = k1 at hsub hk1
  have hk2 : (deriveSubkey P.shiftBitsLeft (blockSize mode) (blockMask mode) k1).length =
      blockSize mode := by rw [length_deriveSubkey _ _ _ _ hP.2.2, hk1]
  generalize deriveSubkey P.shiftBitsLeft (blockSize mode) (blockMask mode) k1 = k2 at hsub hk2
  obtain ⟨hmod, hge, hle⟩ := length_cmacMessage (blockSize mode) k1 k2 input hpos hin hk1 hk2
  obtain ⟨blocks, hblocks, hflat⟩ := exists_blocks_of_mod (blockSize mode) _ hmod
  have hne : blocks ≠ [] := by
    intro h
    rw [h] at hflat
    rw [← hflat] at hge
    simp at hge
    omega
  exact ⟨cipher, k0, k1, k2, blocks, hinit, hbl, hsub, hk1, hk2, hne, hblocks, hflat⟩

theorem list16 (l : List Nat) (h : l.length = 16) :
    l = (List.range 16).map (fun i => l.getD i 0) := by
  apply List.ext_getElem
  · simp [h]
  · intro n h1 h2
    simp [List.getD_eq_getElem?_getD, List.getElem?_eq_getElem h1]

/-- The truncation loop on a block of 16 bytes: the 8 bytes at its odd indices. -/
theorem truncate_ofList (full : List Nat) (h : full.length = 16) :
    truncate (ofList full) 16 =
      .ok (ofList ((List.range 8).map (fun i => full.getD (2 * i + 1) 0))) := by
  rw [list16 full h]
  rfl

end CMAC

end hce

namespace hce

open rt rt.ByteBuffer

namespace CMAC

/-- C2: for a key of a length the cipher accepts, an IV of one block and a non-empty input,
`cmac` in the modes CmacAES128 and CmacTDES (block size `b` = 16 resp. 8) CBC-encrypts from the
given IV the message `cmacMessage b K1 K2 input` (the input with its last block XORed with K1
when its length is a multiple of `b`, else the input followed by 0x80 and zero bytes up to the
next multiple of `b` with the last block XORed with K2, for the subkeys K1 and K2 it derived)
and returns the last `b` bytes of the ciphertext, its last block. -/
theorem cmac_last_block (P : Primitives) (hP : P.InPlace) (key input iv : List Nat) (mode : Mode)
    (hmode : mode = Mode.CmacAES128 ∨ mode = Mode.CmacTDES)
    (hkey : (mode = Mode.CmacTDES → key.length = 8 ∨ key.length = 16 ∨ key.length = 24) ∧
      (mode ≠ Mode.CmacTDES → key.length = 16 ∨ key.length = 24 ∨ key.length = 32))
    (hiv : iv.length = blockSize mode) (hin : input ≠ [])
    (hlen : input.length + blockSize mode < 4294967296) :
    ∃ cipher k0 k1 k2 blocks crypt ivOut,
      initCipher (ofList key) mode = .ok cipher ∧
      subkeys P cipher (blockSize mode) (blockMask mode) = .ok (ofList k0, ofList k1, ofList k2) ∧
      blocks ≠ [] ∧ (∀ b ∈ blocks, b.length = blockSize mode) ∧
      blocks.flatten = cmacMessage (blockSize mode) k1 k2 input ∧
      cipher.encrypt P (ofList (cmacMessage (blockSize mode) k1 k2 input)) (ofList iv) =
        .ok (ofList crypt, ivOut) ∧
      crypt = (Cipher.cbc P cipher blocks iv).1.flatten ∧
      crypt.length = (cmacMessage (blockSize mode) k1 k2 input).length ∧
      cmac P (ofList key) (ofList input) (ofList iv) mode =
        .ok (ofList (crypt.drop (crypt.length - blockSize mode))) := by
  obtain ⟨cipher, k0, k1, k2, blocks, hinit, hbl, hsub, hk1, hk2, hne, hblocks, hflat⟩ :=
    cmac_parts P hP key input mode hkey hin
  have hb : ∀ b ∈ blocks, b.length = cipher.blockLength := by
    intro b h; rw [hbl]; exact hblocks b h
  have hiv' : iv.length = cipher.blockLength := by rw [hbl]; exact hiv
  have hrun := cmac_of P hP key input iv mode cipher (ofList k0) k1 k2 blocks hinit hbl hsub
    hk1 hk2 hblocks hflat hiv hin hlen
  have hnt : mode ≠ Mode.CmacAES128Trunc := by
    rcases hmode with h | h <;> rw [h] <;> decide
  rw [if_neg hnt] at hrun
  have hlast := Cipher.cbc_last P hP cipher blocks iv hne hb hiv'
  rw [hbl] at hlast
  refine ⟨cipher, k0, k1, k2, blocks, (Cipher.cbc P cipher blocks iv).1.flatten,
    ofList (Cipher.cbc P cipher blocks iv).2, hinit, hsub, hne, hblocks, hflat, ?_, rfl, ?_, ?_⟩
  · rw [← hflat]
    exact Cipher.cipher_encrypt_blocks P hP cipher blocks iv hb hiv'
  · rw [Cipher.cbc_length P hP cipher blocks iv hb hiv', hflat]
  · rw [hlast]
    exact hrun

theorem cmac_last_block_witness :
    samplePrimitives.InPlace ∧
      (Mode.CmacAES128 = Mode.CmacAES128 ∨ Mode.CmacAES128 = Mode.CmacTDES) ∧
      ((Mode.CmacAES128 = Mode.CmacTDES →
          sampleKey.length = 8 ∨ sampleKey.length = 16 ∨ sampleKey.length = 24) ∧
        (Mode.CmacAES128 ≠ Mode.CmacTDES →
          sampleKey.length = 16 ∨ sampleKey.length = 24 ∨ sampleKey.length = 32)) ∧
      (List.replicate 16 0).length = blockSize Mode.CmacAES128 ∧ [17, 34, 51] ≠ [] ∧
      [17, 34, 51].length + blockSize Mode.CmacAES128 < 4294967296 ∧
      ∃ cipher k0 k1 k2 blocks crypt ivOut,
        initCipher (ofList sampleKey) Mode.CmacAES128 = .ok cipher ∧
        subkeys samplePrimitives cipher (blockSize Mode.CmacAES128) (blockMask Mode.CmacAES128) =
          .ok (ofList k0, ofList k1, ofList k2) ∧
        blocks ≠ [] ∧ (∀ b ∈ blocks, b.length = blockSize Mode.CmacAES128) ∧
        blocks.flatten = cmacMessage (blockSize Mode.CmacAES128) k1 k2 [17, 34, 51] ∧
        cipher.encrypt samplePrimitives
            (ofList (cmacMessage (blockSize Mode.CmacAES128) k1 k2 [17, 34, 51]))
            (ofList (List.replicate 16 0)) = .ok (ofList crypt, ivOut) ∧
        crypt = (Cipher.cbc samplePrimitives cipher blocks (List.replicate 16 0)).1.flatten ∧
        crypt.length = (cmacMessage (blockSize Mode.CmacAES128) k1 k2 [17, 34, 51]).length ∧
        cmac samplePrimitives (ofList sampleKey) (ofList [17, 34, 51])
            (ofList (List.replicate 16 0)) Mode.CmacAES128 =
          .ok (ofList (crypt.drop (crypt.length - blockSize Mode.CmacAES128))) :=
  ⟨samplePrimitives_inPlace, by decide, by decide, by decide, by decide, by decide,
    cmac_last_block samplePrimitives samplePrimitives_inPlace sampleKey [17, 34, 51]
      (List.replicate 16 0) Mode.CmacAES128 (by decide) (by decide) (by decide) (by decide)
      (by decide)⟩

/-- C3: on a key of a length the cipher accepts, the subkeys `cmac` derives are K0, the
encryption by the cipher of one all-zero block from a zero IV (one call of the block function
on the zero block), K1 = `deriveSubkey` of K0 (K0 shifted left by one bit, the mask XORed into
its last byte exactly when the top bit of K0[0] is set) and K2 = `deriveSubkey` of K1; the mask
is 0x87 in the AES modes and 0x1B in CmacTDES. -/
theorem cmac_subkeys (P : Primitives) (hP : P.InPlace) (key : List Nat) (mode : Mode)
    (hkey : (mode = Mode.CmacTDES → key.length = 8 ∨ key.length = 16 ∨ key.length = 24) ∧
      (mode ≠ Mode.CmacTDES → key.length = 16 ∨ key.length = 24 ∨ key.length = 32)) :
    ∃ cipher k0 ivOut,
      initCipher (ofList key) mode = .ok cipher ∧
      cipher.encrypt P (ofList (List.replicate (blockSize mode) 0))
        (ofList (List.replicate (blockSize mode) 0)) = .ok (ofList k0, ivOut) ∧
      (mode ≠ Mode.CmacTDES → k0 = P.aesEncrypt key.length key (List.replicate 16 0)) ∧
      (mode = Mode.CmacTDES →
        ∃ c, cipher = Cipher.des c ∧ k0 = beBytes 8 (CipherDES.blockEncrypt P c 0)) ∧
      subkeys P cipher (blockSize mode) (blockMask mode) =
        .ok (ofList k0,
          ofList (deriveSubkey P.shiftBitsLeft (blockSize mode) (blockMask mode) k0),
          ofList (deriveSubkey P.shiftBitsLeft (blockSize mode) (blockMask mode)
            (deriveSubkey P.shiftBitsLeft (blockSize mode) (blockMask mode) k0))) ∧
      blockMask mode = (if mode = Mode.CmacTDES then 0x1b else 0x87) := by
  obtain ⟨cipher, hinit, hbl, haes, hdes⟩ := initCipher_ok key mode hkey
  have hb : ∀ b ∈ [List.replicate (blockSize mode) 0], b.length = cipher.blockLength := by
    intro b hb
    rw [List.mem_singleton.mp hb, List.length_replicate, hbl]
  have hiv : (List.replicate (blockSize mode) 0).length = cipher.blockLength := by
    rw [List.length_replicate, hbl]
  have henc := Cipher.cipher_encrypt_blocks P hP cipher _ _ hb hiv
  rw [Cipher.cbc_single] at henc
  have hflat : [List.replicate (blockSize mode) 0].flatten = List.replicate (blockSize mode) 0 := by
    simp
  rw [hflat] at henc
  refine ⟨cipher, (Cipher.cbc P cipher [List.replicate (blockSize mode) 0]
      (List.replicate (blockSize mode) 0)).2, _, hinit, henc, ?_, ?_,
    subkeys_ok P hP cipher (blockSize mode) (blockMask mode) hbl, ?_⟩
  · intro h
    rw [haes h]
    have hsz : blockSize mode = 16 := by
      cases mode with
      | CmacTDES => exact absurd rfl h
      | CmacAES128 => rfl
      | CmacAES128Trunc => rfl
    rw [hsz]
    have hz : xorBytes (List.replicate 16 0) (List.replicate 16 0) = List.replicate 16 0 := by
      decide
    simp only [Cipher.cbc, cbcChain, hz]
  · intro h
    obtain ⟨c, hc, -⟩ := hdes h
    refine ⟨c, hc, ?_⟩
    rw [hc, h]
    have hz : beValue (List.replicate (blockSize Mode.CmacTDES) 0) ^^^
        beValue (List.replicate (blockSize Mode.CmacTDES) 0) = 0 := by decide
    simp only [Cipher.cbc, cbcChain64, hz]
  · cases mode <;> rfl

theorem cmac_subkeys_witness :
    samplePrimitives.InPlace ∧
      ((Mode.CmacTDES = Mode.CmacTDES →
          [1, 2, 3, 4, 5, 6, 7, 8].length = 8 ∨ [1, 2, 3, 4, 5, 6, 7, 8].length = 16 ∨
            [1, 2, 3, 4, 5, 6, 7, 8].length = 24) ∧
        (Mode.CmacTDES ≠ Mode.CmacTDES →
          [1, 2, 3, 4, 5, 6, 7, 8].length = 16 ∨ [1, 2, 3, 4, 5, 6, 7, 8].length = 24 ∨
            [1, 2, 3, 4, 5, 6, 7, 8].length = 32)) ∧
      ∃ cipher k0 ivOut,
        initCipher (ofList [1, 2, 3, 4, 5, 6, 7, 8]) Mode.CmacTDES = .ok cipher ∧
        cipher.encrypt samplePrimitives (ofList (List.replicate (blockSize Mode.CmacTDES) 0))
          (ofList (List.replicate (blockSize Mode.CmacTDES) 0)) = .ok (ofList k0, ivOut) ∧
        (Mode.CmacTDES ≠ Mode.CmacTDES →
          k0 = samplePrimitives.aesEncrypt [1, 2, 3, 4, 5, 6, 7, 8].length
            [1, 2, 3, 4, 5, 6, 7, 8] (List.replicate 16 0)) ∧
        (Mode.CmacTDES = Mode.CmacTDES →
          ∃ c, cipher = Cipher.des c ∧
            k0 = beBytes 8 (CipherDES.blockEncrypt samplePrimitives c 0)) ∧
        subkeys samplePrimitives cipher (blockSize Mode.CmacTDES) (blockMask Mode.CmacTDES) =
          .ok (ofList k0,
            ofList (deriveSubkey samplePrimitives.shiftBitsLeft (blockSize Mode.CmacTDES)
              (blockMask Mode.CmacTDES) k0),
            ofList (deriveSubkey samplePrimitives.shiftBitsLeft (blockSize Mode.CmacTDES)
              (blockMask Mode.CmacTDES)
              (deriveSubkey samplePrimitives.shiftBitsLeft (blockSize Mode.CmacTDES)
                (blockMask Mode.CmacTDES) k0))) ∧
        blockMask Mode.CmacTDES = (if Mode.CmacTDES = Mode.CmacTDES then 0x1b else 0x87) :=
  ⟨samplePrimitives_inPlace, by decide,
    cmac_subkeys samplePrimitives samplePrimitives_inPlace [1, 2, 3, 4, 5, 6, 7, 8]
      Mode.CmacTDES (by decide)⟩

/-- C4, as the claim has it, fails: on the sample key and block, from a zero IV, the full CMAC
block is 16 bytes and the truncated mode returns 8 bytes, the bytes of the block at the indices
1, 3, 5, 7, 9, 11, 13 and 15, not the 4 bytes at the indices 1, 3, 5 and 7. -/
theorem cmac_trunc_eight_bytes :
    cmac samplePrimitives (ofList sampleKey) (ofList sampleBlock) (ofList (List.replicate 16 0))
        Mode.CmacAES128 =
      .ok (ofList [252, 243, 227, 211, 195, 179, 163, 147, 131, 115, 99, 83, 67, 51, 35, 19]) ∧
    cmac samplePrimitives (ofList sampleKey) (ofList sampleBlock) (ofList (List.replicate 16 0))
        Mode.CmacAES128Trunc =
      .ok (ofList [243, 211, 179, 147, 115, 83, 51, 19]) ∧
    (ofList [243, 211, 179, 147, 115, 83, 51, 19]).remaining = 8 ∧
    ofList [243, 211, 179, 147, 115, 83, 51, 19] ≠ ofList [243, 211, 179, 147] :=
  ⟨rfl, rfl, rfl, by decide⟩

/-- C4, amended: in the mode CmacAES128Trunc `cmac` returns the 8 bytes at the odd indices
1, 3, ..., 15 of the 16-byte CMAC block that the mode CmacAES128 returns on the same key, input
and IV. -/
theorem cmac_trunc_odd_bytes (P : Primitives) (hP : P.InPlace) (key input iv : List Nat)
    (hkey : key.length = 16 ∨ key.length = 24 ∨ key.length = 32)
    (hiv : iv.length = 16) (hin : input ≠ []) (hlen : input.length + 16 < 4294967296) :
    ∃ full,
      cmac P (ofList key) (ofList input) (ofList iv) Mode.CmacAES128 = .ok (ofList full) ∧
      full.length = 16 ∧
      cmac P (ofList key) (ofList input) (ofList iv) Mode.CmacAES128Trunc =
        .ok (ofList ((List.range 8).map (fun i => full.getD (2 * i + 1) 0))) ∧
      ((List.range 8).map (fun i => full.getD (2 * i + 1) 0)).length = 8 := by
  have hkey' : (Mode.CmacAES128Trunc = Mode.CmacTDES →
        key.length = 8 ∨ key.length = 16 ∨ key.length = 24) ∧
      (Mode.CmacAES128Trunc ≠ Mode.CmacTDES →
        key.length = 16 ∨ key.length = 24 ∨ key.length = 32) :=
    ⟨fun h => Mode.noConfusion h, fun _ => hkey⟩
  obtain ⟨cipher, k0, k1, k2, blocks, hinit, hbl, hsub, hk1, hk2, hne, hblocks, hflat⟩ :=
    cmac_parts P hP key input Mode.CmacAES128Trunc hkey' hin
  have hfull := cmac_of P hP key input iv Mode.CmacAES128 cipher (ofList k0) k1 k2 blocks
    hinit hbl hsub hk1 hk2 hblocks hflat hiv hin hlen
  have htrunc := cmac_of P hP key input iv Mode.CmacAES128Trunc cipher (ofList k0) k1 k2 blocks
    hinit hbl hsub hk1 hk2 hblocks hflat hiv hin hlen
  rw [if_neg (by decide)] at hfull
  rw [if_pos rfl] at htrunc
  have hsnd : (Cipher.cbc P cipher blocks iv).2.length = 16 := by
    rw [Cipher.cbc_snd_length P hP cipher blocks iv
      (by intro b h; rw [hbl]; exact hblocks b h) (by rw [hbl]; exact hiv), hbl]
    rfl
  refine ⟨_, hfull, hsnd, ?_, by simp⟩
  rw [htrunc]
  exact truncate_ofList _ hsnd

theorem cmac_trunc_odd_bytes_witness :
    samplePrimitives.InPlace ∧
      (sampleKey.length = 16 ∨ sampleKey.length = 24 ∨ sampleKey.length = 32) ∧
      (List.replicate 16 0).length = 16 ∧ sampleBlock ≠ [] ∧
      sampleBlock.length + 16 < 4294967296 ∧
      ∃ full,
        cmac samplePrimitives (ofList sampleKey) (ofList sampleBlock)
            (ofList (List.replicate 16 0)) Mode.CmacAES128 = .ok (ofList full) ∧
        full.length = 16 ∧
        cmac samplePrimitives (ofList sampleKey) (ofList sampleBlock)
            (ofList (List.replicate 16 0)) Mode.CmacAES128Trunc =
          .ok (ofList ((List.range 8).map (fun i => full.getD (2 * i + 1) 0))) ∧
        ((List.range 8).map (fun i => full.getD (2 * i + 1) 0)).length = 8 :=
  ⟨samplePrimitives_inPlace, by decide, by decide, by decide, by decide,
    cmac_trunc_odd_bytes samplePrimitives samplePrimitives_inPlace sampleKey sampleBlock
      (List.replicate 16 0) (by decide) (by decide) (by decide) (by decide)⟩

end CMAC

end hce

namespace hce

open rt rt.ByteBuffer

namespace Frame

/-- The frame constructor on any data buffer: a valid frame that carries the readable bytes of
the data, with the type and time it was given. -/
theorem ofData_ok (techType frameType : Nat) (data : ByteBuffer) (frameTime : Nat) :
    ∃ f, ofData techType frameType data frameTime = .ok f ∧ f.isValid = true ∧
      f.techType = techType ∧ f.frameType = frameType ∧ f.frameTime = frameTime ∧
      f.payload = data.readable := by
  have hlen : data.readable.length ≤ data.limit := by
    simp only [readable, List.length_drop, List.length_take]
    omega
  have hput : (ByteBuffer.alloc data.size).putBuffer data =
      .ok ⟨data.readable ++ (List.replicate data.limit 0).drop data.readable.length,
        data.readable.length, data.limit⟩ := by
    unfold putBuffer putBytes
    simp only [alloc, ByteBuffer.size, Nat.zero_add, List.take_zero, List.nil_append]
    rw [if_pos hlen]
  refine ⟨⟨some ⟨data.readable ++ (List.replicate data.limit 0).drop data.readable.length,
      0, data.readable.length⟩, techType, frameType, 0, 0, frameTime⟩, ?_, rfl, rfl, rfl, rfl, ?_⟩
  · unfold ofData
    rw [hput]
    rfl
  · simp [payload, readable]

end Frame

namespace tasks

namespace TargetListenerTask

/-- `sendData` hands the buffer on and leaves the frames as they are. -/
theorem sendData_spec (w : World) (data : ByteBuffer) :
    (w.sendData data).2.sent = w.sent ++ [data] ∧ (w.sendData data).2.frames = w.frames ∧
      (w.sendData data).2.pending = w.pending := by
  unfold World.sendData
  cases w.sendResults <;> exact ⟨rfl, rfl, rfl⟩

/-- The world that `process()` hands to its loop, when no event but the given ones is
pending. -/
theorem pending_taken (w : World) (events : List (Int × List Nat)) (h : w.pending = []) :
    ({ ({ w with pending := events } : World) with pending := [] } : World) = w := by
  cases w
  simp only at h
  subst h
  rfl

/-- C1: `process()` does nothing unless the listener status is Listening, and then runs the
event loop on two fresh buffers. At any turn of that loop (the request buffer cleared) whose
event is an EVENT_DATA with a non-empty payload, with a target whose `process` returns 0 on the
payload, the body of the loop hands the target's response to `sendData` and publishes exactly
two frames in this order: an NfcRequestFrame whose payload is the received bytes, stamped with
the first clock reading, then an NfcResponseFrame whose payload is the target's response,
stamped 1 ms after the second clock reading; with a non-decreasing clock the response frame's
time is strictly greater than the request frame's. The world `w'` after the turn is `w` with
the two clock readings taken, the response sent and the two frames published; the loop returns
it when the event was the last one or a timeout follows, it goes on from it with any other
events, and `process()` returns it when the event was the only one pending. -/
theorem listener_data_exchange {σ : Type} (Listening : Int) (tgt : Target σ) (s : Impl σ)
    (w : World) (payload : List Nat) (rest : List (Int × List Nat))
    (request response filled resp : ByteBuffer) (st st' : σ) (t1 t2 : Nat) (later : List Nat)
    (_hpayload : payload ≠ []) (hreq : request.position = 0)
    (hfill : request.putBytes payload = .ok filled)
    (htarget : s.target = some st)
    (hproc : tgt.process st filled.flip response.clear = .ok (0, resp, st'))
    (hclock : w.clock = t1 :: t2 :: later) (hmono : t1 ≤ t2) :
    (∀ (s0 : Impl σ) (w0 : World), s0.listenerStatus = Listening →
      process Listening tgt s0 w0 =
        (processLoop tgt w0.pending s0 { w0 with pending := [] } (ByteBuffer.alloc 256)
          (ByteBuffer.alloc 256)).map (fun r => (r.1, { r.2.1 with pending := r.2.2 }))) ∧
    (∀ (s0 : Impl σ) (w0 : World), s0.listenerStatus ≠ Listening →
      process Listening tgt s0 w0 = .ok (s0, w0)) ∧
    ∃ requestFrame responseFrame w',
      Frame.ofData NfcATech NfcRequestFrame filled.flip t1 = .ok requestFrame ∧
      Frame.ofData NfcATech NfcResponseFrame resp (t2 + 1) = .ok responseFrame ∧
      w' = ((({ w with clock := later } : World).sendData resp).2.next requestFrame).next
        responseFrame ∧
      onEvent tgt s w EVENT_DATA filled.flip response =
        .ok ({ s with target := some st' }, w', resp) ∧
      processLoop tgt [(EVENT_DATA, payload)] s w request response =
        .ok ({ s with target := some st' }, w', []) ∧
      (∀ p more, processLoop tgt ((EVENT_DATA, payload) :: (EVENT_TIMEOUT, p) :: more) s w
          request response = .ok ({ s with target := some st' }, w', more)) ∧
      processLoop tgt ((EVENT_DATA, payload) :: rest) s w request response =
        processLoop tgt rest { s with target := some st' } w' filled.flip.clear resp ∧
      (s.listenerStatus = Listening → w.pending = [] → request = ByteBuffer.alloc 256 →
        response = ByteBuffer.alloc 256 →
        process Listening tgt s { w with pending := [(EVENT_DATA, payload)] } =
          .ok ({ s with target := some st' }, w')) ∧
      w'.sent = w.sent ++ [resp] ∧
      w'.frames = w.frames ++ [requestFrame, responseFrame] ∧
      requestFrame.frameType = NfcRequestFrame ∧ requestFrame.payload = payload ∧
      requestFrame.frameTime = t1 ∧
      responseFrame.frameType = NfcResponseFrame ∧ responseFrame.payload = resp.readable ∧
      responseFrame.frameTime = t2 + 1 ∧
      requestFrame.frameTime < responseFrame.frameTime := by
  refine ⟨?_, ?_, ?_⟩
  · intro s0 w0 h0
    unfold process
    rw [if_neg (by simp [h0])]
    cases processLoop tgt w0.pending s0 { w0 with pending := [] } (ByteBuffer.alloc 256)
      (ByteBuffer.alloc 256) <;> rfl
  · intro s0 w0 h0
    unfold process
    rw [if_pos h0]
  have hfilled : filled.flip.readable = payload := by
    unfold putBytes at hfill
    split at hfill
    · cases hfill
      simp [ByteBuffer.flip, readable, hreq]
    · cases hfill
  obtain ⟨reqF, hreqF, hv1, -, hty1, htm1, hpl1⟩ :=
    Frame.ofData_ok NfcATech NfcRequestFrame filled.flip t1
  obtain ⟨respF, hrespF, hv2, -, hty2, htm2, hpl2⟩ :=
    Frame.ofData_ok NfcATech NfcResponseFrame resp (t2 + 1)
  obtain ⟨hs1, hs2, hs3⟩ := sendData_spec { w with clock := later } resp
  have hev : onEvent tgt s w EVENT_DATA filled.flip response =
      .ok ({ s with target := some st' },
        ((({ w with clock := later } : World).sendData resp).2.next reqF).next respF, resp) := by
    unfold onEvent
    simp only [World.timeMs, hclock, hreqF, bind, Except.bind, if_true, htarget, hproc, hrespF,
      hv1, hv2, pure, Except.pure]
  have hturn : ∀ rest', processLoop tgt ((EVENT_DATA, payload) :: rest') s w request response =
      processLoop tgt rest' { s with target := some st' }
        (((({ w with clock := later } : World).sendData resp).2.next reqF).next respF)
        filled.flip.clear resp := by
    intro rest'
    rw [processLoop, if_neg (by decide), hfill]
    simp only [hev]
  refine ⟨reqF, respF,
    ((({ w with clock := later } : World).sendData resp).2.next reqF).next respF, hreqF, hrespF,
    rfl, hev, ?_, ?_, hturn rest, ?_, ?_, ?_,
    hty1, by rw [hpl1, hfilled], htm1, hty2, hpl2, htm2, by rw [htm1, htm2]; omega⟩
  · rw [hturn, processLoop]
  · intro p more
    rw [hturn, processLoop, if_pos rfl]
  · intro hst hpend hrq hrs
    subst hrq hrs
    unfold process
    rw [if_neg (by simp [hst])]
    simp only [pending_taken w _ hpend]
    rw [hturn, processLoop]
    simp only
    congr 2
    have : (((({ w with clock := later } : World).sendData resp).2.next reqF).next
        respF).pending = [] := by
      simp only [World.next]
      rw [hs3]
      exact hpend
    generalize ((({ w with clock := later } : World).sendData resp).2.next reqF).next respF = x
      at this
    cases x
    simp only at this
    subst this
    rfl
  · simp only [World.next, hs1]
  · simp only [World.next, hs2, List.append_assoc, List.singleton_append]

set_option maxRecDepth 100000 in
theorem listener_data_exchange_witness :
    ([0, 164] : List Nat) ≠ [] ∧ (ByteBuffer.alloc 256).position = 0 ∧
      (ByteBuffer.alloc 256).putBytes [0, 164] = .ok (writing [0, 164] 256) ∧
      (⟨1, some sampleT4T⟩ : Impl targets.T4T).target = some sampleT4T ∧
      targets.T4T.target.process sampleT4T (writing [0, 164] 256).flip
          (ByteBuffer.alloc 256).clear = .ok (0, (writing [110, 0] 256).flip, sampleT4T) ∧
      (⟨[], [], [10, 12], [], []⟩ : World).clock = 10 :: 12 :: [] ∧ 10 ≤ 12 ∧
      ((∀ (s0 : Impl targets.T4T) (w0 : World), s0.listenerStatus = 1 →
        process 1 targets.T4T.target s0 w0 =
          (processLoop targets.T4T.target w0.pending s0 { w0 with pending := [] }
            (ByteBuffer.alloc 256) (ByteBuffer.alloc 256)).map
              (fun r => (r.1, { r.2.1 with pending := r.2.2 }))) ∧
      (∀ (s0 : Impl targets.T4T) (w0 : World), s0.listenerStatus ≠ 1 →
        process 1 targets.T4T.target s0 w0 = .ok (s0, w0)) ∧
      ∃ requestFrame responseFrame w',
        Frame.ofData NfcATech NfcRequestFrame (writing [0, 164] 256).flip 10 =
          .ok requestFrame ∧
        Frame.ofData NfcATech NfcResponseFrame (writing [110, 0] 256).flip (12 + 1) =
          .ok responseFrame ∧
        w' = ((({ (⟨[], [], [10, 12], [], []⟩ : World) with clock := [] } : World).sendData
          (writing [110, 0] 256).flip).2.next requestFrame).next responseFrame ∧
        onEvent targets.T4T.target (⟨1, some sampleT4T⟩ : Impl targets.T4T)
            ⟨[], [], [10, 12], [], []⟩ EVENT_DATA (writing [0, 164] 256).flip
            (ByteBuffer.alloc 256) =
          .ok ({ (⟨1, some sampleT4T⟩ : Impl targets.T4T) with target := some sampleT4T }, w',
            (writing [110, 0] 256).flip) ∧
        processLoop targets.T4T.target [(EVENT_DATA, [0, 164])]
            (⟨1, some sampleT4T⟩ : Impl targets.T4T) ⟨[], [], [10, 12], [], []⟩
            (ByteBuffer.alloc 256) (ByteBuffer.alloc 256) =
          .ok ({ (⟨1, some sampleT4T⟩ : Impl targets.T4T) with target := some sampleT4T }, w',
            []) ∧
        (∀ p more, processLoop targets.T4T.target
            ((EVENT_DATA, [0, 164]) :: (EVENT_TIMEOUT, p) :: more)
            (⟨1, some sampleT4T⟩ : Impl targets.T4T) ⟨[], [], [10, 12], [], []⟩
            (ByteBuffer.alloc 256) (ByteBuffer.alloc 256) =
          .ok ({ (⟨1, some sampleT4T⟩ : Impl targets.T4T) with target := some sampleT4T }, w',
            more)) ∧
        processLoop targets.T4T.target ((EVENT_DATA, [0, 164]) :: [])
            (⟨1, some sampleT4T⟩ : Impl targets.T4T) ⟨[], [], [10, 12], [], []⟩
            (ByteBuffer.alloc 256) (ByteBuffer.alloc 256) =
          processLoop targets.T4T.target []
            { (⟨1, some sampleT4T⟩ : Impl targets.T4T) with target := some sampleT4T } w'
            (writing [0, 164] 256).flip.clear (writing [110, 0] 256).flip ∧
        ((⟨1, some sampleT4T⟩ : Impl targets.T4T).listenerStatus = 1 →
          (⟨[], [], [10, 12], [], []⟩ : World).pending = [] →
          ByteBuffer.alloc 256 = ByteBuffer.alloc 256 →
          ByteBuffer.alloc 256 = ByteBuffer.alloc 256 →
          process 1 targets.T4T.target (⟨1, some sampleT4T⟩ : Impl targets.T4T)
              { (⟨[], [], [10, 12], [], []⟩ : World) with pending := [(EVENT_DATA, [0, 164])] } =
            .ok ({ (⟨1, some sampleT4T⟩ : Impl targets.T4T) with target := some sampleT4T },
              w')) ∧
        w'.sent = (⟨[], [], [10, 12], [], []⟩ : World).sent ++ [(writing [110, 0] 256).flip] ∧
        w'.frames = (⟨[], [], [10, 12], [], []⟩ : World).frames ++
          [requestFrame, responseFrame] ∧
        requestFrame.frameType = NfcRequestFrame ∧ requestFrame.payload = [0, 164] ∧
        requestFrame.frameTime = 10 ∧
        responseFrame.frameType = NfcResponseFrame ∧
        responseFrame.payload = (writing [110, 0] 256).flip.readable ∧
        responseFrame.frameTime = 12 + 1 ∧
        requestFrame.frameTime < responseFrame.frameTime) :=
  ⟨by decide, rfl, rfl, rfl, rfl, rfl, by decide,
    listener_data_exchange 1 targets.T4T.target ⟨1, some sampleT4T⟩ ⟨[], [], [10, 12], [], []⟩
      [0, 164] [] (ByteBuffer.alloc 256) (ByteBuffer.alloc 256) (writing [0, 164] 256)
      (writing [110, 0] 256).flip sampleT4T sampleT4T 10 12 [] (by decide) rfl rfl rfl rfl rfl
      (by decide)⟩

end TargetListenerTask

end tasks

end hce

namespace hw

open rt rt.ByteBuffer

theorem commandsOf_append (target : Nat) (a b : List BusCall) :
    commandsOf target (a ++ b) = commandsOf target a ++ commandsOf target b := by
  unfold commandsOf
  exact List.filterMap_append _ _ _

namespace MPSSE

theorem start_calls (t : Nat) (m : MPSSE) :
    (m.start).2.opened = m.opened ∧ commandsOf t (m.start).2.calls = commandsOf t m.calls ∧
      ((m.start).1 = true → m.opened = true) := by
  unfold start
  by_cases h : m.opened = false
  · rw [if_pos h]
    exact ⟨rfl, rfl, fun e => by cases e⟩
  · rw [if_neg h]
    have ho : m.opened = true := by simpa using h
    cases m.startResults <;> simp [commandsOf_append, commandsOf, ho]

theorem stop_calls (t : Nat) (m : MPSSE) :
    m.stop.opened = m.opened ∧ commandsOf t m.stop.calls = commandsOf t m.calls := by
  unfold stop
  by_cases h : m.opened = false
  · rw [if_pos h]
    exact ⟨rfl, rfl⟩
  · rw [if_neg h]
    simp [commandsOf_append, commandsOf]

theorem getGpio_calls (t : Nat) (m : MPSSE) (pin : Nat) :
    (m.getGpio pin).2.opened = m.opened ∧
      commandsOf t (m.getGpio pin).2.calls = commandsOf t m.calls := by
  unfold getGpio
  cases m.pins <;> simp [commandsOf_append, commandsOf]

theorem read_calls (t : Nat) (m : MPSSE) (data : ByteBuffer) :
    (m.read data).2.2.opened = m.opened ∧
      commandsOf t (m.read data).2.2.calls = commandsOf t m.calls := by
  unfold read
  by_cases h : m.opened = false
  · rw [if_pos h]
    exact ⟨rfl, rfl⟩
  · rw [if_neg h]
    rcases m.readResults with _ | ⟨_ | bytes, rest⟩ <;> simp [commandsOf_append, commandsOf]

/-- A successful read into a fresh buffer of `n` bytes leaves `n` bytes to read. -/
theorem read_alloc (m : MPSSE) (n : Nat) (data : ByteBuffer) (m1 : MPSSE)
    (h : m.read (ByteBuffer.alloc n) = (true, data, m1)) :
    ∃ bytes, bytes.length = n ∧ data = ByteBuffer.ofList bytes ∧ ∀ x ∈ bytes, x < 256 := by
  unfold read at h
  by_cases ho : m.opened = false
  · rw [if_pos ho] at h
    cases h
  · rw [if_neg ho] at h
    rcases hr : m.readResults with _ | ⟨_ | bytes, rest⟩
    · rw [hr] at h; cases h
    · rw [hr] at h; cases h
    · rw [hr] at h
      simp only [Prod.mk.injEq, true_and] at h
      have hlen : ((bytes.map (· % 256) ++ List.replicate n 0).take n).length = n := by
        simp
      refine ⟨(bytes.map (· % 256) ++ List.replicate n 0).take n, hlen, ?_, ?_⟩
      · rw [← h.1]
        simp [ByteBuffer.alloc, ByteBuffer.remaining, ByteBuffer.ofList]
      · intro x hx
        have := List.mem_of_mem_take hx
        rcases List.mem_append.mp this with h1 | h1
        · obtain ⟨y, _, rfl⟩ := List.mem_map.mp h1
          exact Nat.mod_lt _ (by norm_num)
        · rw [List.eq_of_mem_replicate h1]
          norm_num

theorem write_calls (t : Nat) (m : MPSSE) (data : ByteBuffer) (cmd : List Nat)
    (hd : data.readable = t :: cmd) (ho : m.opened = true) :
    (m.write data).2.opened = m.opened ∧
      commandsOf t (m.write data).2.calls = commandsOf t m.calls ++ [cmd] := by
  unfold write
  rw [if_neg (by simp [ho])]
  cases m.writeResults <;> simp [commandsOf_append, commandsOf, hd]

theorem write_other (t : Nat) (m : MPSSE) (data : ByteBuffer) (r : Nat)
    (hd : data.readable = [r]) (hr : r ≠ t) :
    (m.write data).2.opened = m.opened ∧
      commandsOf t (m.write data).2.calls = commandsOf t m.calls := by
  unfold write
  by_cases h : m.opened = false
  · rw [if_pos h]
    exact ⟨rfl, rfl⟩
  · rw [if_neg h]
    cases m.writeResults <;> simp [commandsOf_append, commandsOf, hd, hr]

end MPSSE

namespace PN7160

/-- The request byte of `nciRecv` is never the target byte of `nciSend`. -/
theorem request_ne_target (s : Impl) :
    (if s.protocol = I2C then ((s.i2cAddress <<< 1) ||| 1) % 256 else 0xff) ≠ s.target := by
  unfold Impl.target
  by_cases h : s.protocol = I2C
  · rw [if_pos h, if_pos h]
    intro e
    have e8 : (256 : Nat) = 2 ^ 8 := by norm_num
    have h1 : (((s.i2cAddress <<< 1) ||| 1) % 256).testBit 0 = true := by
      rw [e8, Nat.testBit_mod_two_pow, Nat.testBit_or]
      simp
    have h2 : ((s.i2cAddress <<< 1) % 256).testBit 0 = false := by
      rw [e8, Nat.testBit_mod_two_pow, Nat.testBit_shiftLeft]
      simp
    rw [e, h2] at h1
    exact Bool.noConfusion h1
  · rw [if_neg h, if_neg h]
    decide

theorem target_lt (s : Impl) : s.target % 256 = s.target := by
  unfold Impl.target
  split
  · exact Nat.mod_mod _ _
  · rfl

theorem sends_refl (s : Impl) : Sends s s [] :=
  ⟨rfl, rfl, rfl, rfl, (List.append_nil _).symm⟩

theorem sends_trans {s s1 s2 : Impl} {a b : List (List Nat)} (h1 : Sends s s1 a)
    (h2 : Sends s1 s2 b) : Sends s s2 (a ++ b) := by
  obtain ⟨a1, a2, a3, a4, a5⟩ := h1
  obtain ⟨b1, b2, b3, b4, b5⟩ := h2
  refine ⟨b1.trans a1, b2.trans a2, b3.trans a3, b4.trans a4, ?_⟩
  rw [b5, a5, List.append_assoc]

/-- A change of the transport alone that hands nothing to the chip. -/
theorem sends_quiet (s : Impl) (m : MPSSE) (ho : m.opened = s.mpsse.opened)
    (hc : commandsOf s.target m.calls = commandsOf s.target s.mpsse.calls) :
    Sends s { s with mpsse := m } [] := by
  refine ⟨rfl, rfl, rfl, ho, ?_⟩
  show commandsOf (Impl.target { s with mpsse := m }) m.calls = _
  rw [List.append_nil]
  exact hc

end PN7160

end hw

namespace hw

open rt rt.ByteBuffer

namespace PN7160

namespace Impl

/-- The buffer `nciSend` writes: the target byte, then the message. -/
theorem nciSend_buffer (s : Impl) (cmd : ByteBuffer) :
    ∃ buffer, ((ByteBuffer.alloc (1 + cmd.elements)).put s.target >>= fun b0 =>
        b0.putBuffer cmd) = .ok buffer ∧ buffer.flip.readable = s.target :: cmd.readable := by
  have hlen := length_readable_le cmd
  refine ⟨writing ([s.target] ++ cmd.readable) (1 + cmd.elements), ?_, ?_⟩
  · rw [alloc_eq_writing, put_writing _ _ _ (by simp), target_lt]
    simp only [bind, Except.bind, List.nil_append]
    exact putBuffer_writing_any _ _ _ (by simp [elements]; omega)
  · rw [readable_flip_writing]
    rfl

/-- One `nciSend` hands its message to the chip, unless the start condition fails. -/
theorem nciSend_exchange (s : Impl) (cmd : ByteBuffer) (b : Bool) (s1 : Impl)
    (h : s.nciSend cmd = .ok (b, s1)) : Exchange s s1 cmd.readable b := by
  obtain ⟨buffer, hb, hr⟩ := nciSend_buffer s cmd
  unfold nciSend at h
  have htarget : (if s.protocol = I2C then (s.i2cAddress <<< 1) % 256 else 0x00) = s.target := rfl
  simp only [htarget] at h
  simp only [bind, Except.bind] at hb h
  cases hp : (ByteBuffer.alloc (1 + cmd.elements)).put s.target with
  | error e => rw [hp] at hb; cases hb
  | ok b0 =>
    rw [hp] at hb h
    simp only at hb h
    rw [hb] at h
    simp only at h
    obtain ⟨c1, c2, c3⟩ := MPSSE.start_calls s.target s.mpsse
    by_cases hs : (s.mpsse.start).1 = false
    · rw [if_pos hs] at h
      simp only [pure, Except.pure, Except.ok.injEq, Prod.mk.injEq] at h
      obtain ⟨rfl, rfl⟩ := h
      exact ⟨[], sends_quiet s _ c1 c2, Or.inl rfl, fun e => by cases e⟩
    · rw [if_neg hs] at h
      have ho : (s.mpsse.start).2.opened = true := by
        rw [c1]; exact c3 (by simpa using hs)
      obtain ⟨w1, w2⟩ := MPSSE.write_calls s.target (s.mpsse.start).2 buffer.flip cmd.readable hr ho
      obtain ⟨p1, p2⟩ := MPSSE.stop_calls s.target ((s.mpsse.start).2.write buffer.flip).2
      have hsends : Sends s { s with mpsse := ((s.mpsse.start).2.write buffer.flip).2.stop }
          [cmd.readable] := by
        refine ⟨rfl, rfl, rfl, ?_, ?_⟩
        · show ((s.mpsse.start).2.write buffer.flip).2.stop.opened = _
          rw [p1, w1, c1]
        · show commandsOf s.target ((s.mpsse.start).2.write buffer.flip).2.stop.calls = _
          rw [p2, w2, c2]
          rfl
      by_cases hw : ((s.mpsse.start).2.write buffer.flip).1 = false
      · rw [if_pos hw] at h
        simp only [pure, Except.pure, Except.ok.injEq, Prod.mk.injEq] at h
        obtain ⟨rfl, rfl⟩ := h
        exact ⟨_, hsends, Or.inr rfl, fun _ => rfl⟩
      · rw [if_neg hw] at h
        simp only [pure, Except.pure, Except.ok.injEq, Prod.mk.injEq] at h
        obtain ⟨rfl, rfl⟩ := h
        exact ⟨_, hsends, Or.inr rfl, fun _ => rfl⟩

end Impl

end PN7160

end hw

namespace hw

open rt rt.ByteBuffer

namespace PN7160

namespace Impl

theorem hasMessage_sends (s : Impl) : Sends s (s.hasMessage).2 [] := by
  obtain ⟨h1, h2⟩ := MPSSE.getGpio_calls s.target s.mpsse PN7160_FT232H_IRQ_PIN
  exact sends_quiet s _ h1 h2

theorem now_sends (s : Impl) : Sends s (s.now).2 [] := by
  unfold now
  cases s.clock <;> exact ⟨rfl, rfl, rfl, rfl, (List.append_nil _).symm⟩

/-- The message block of `nciRecv` hands nothing to the chip; when it succeeds on a buffer with
its cursor at 0, the buffer holds the three header bytes, the third the length of the payload,
and the payload, ready to be read. -/
theorem readMessage_spec (s : Impl) (res : ByteBuffer) (b : Bool) (res1 : ByteBuffer) (s1 : Impl)
    (hres : res.position = 0) (h : s.readMessage res = .ok (b, res1, s1)) :
    Sends s s1 [] ∧ (b = false → res1 = res) ∧
      (b = true → res1.position = 0 ∧ ∃ b0 b1 payload,
        res1.readable = b0 :: b1 :: payload.length :: payload ∧
          res1.limit = payload.length + 3) := by
  unfold readMessage at h
  obtain ⟨c1, c2, _⟩ := MPSSE.start_calls s.target s.mpsse
  by_cases hs : (s.mpsse.start).1 = false
  · simp only [hs, if_true, pure, Except.pure, Except.ok.injEq, Prod.mk.injEq] at h
    obtain ⟨rfl, rfl, rfl⟩ := h
    exact ⟨sends_quiet s _ c1 c2, fun _ => rfl, fun e => Bool.noConfusion e⟩
  · simp only [hs, if_false] at h
    generalize hm1 : (s.mpsse.start).2 = m1 at h c1 c2
    obtain ⟨w1, w2⟩ := MPSSE.write_other s.target m1
      (ByteBuffer.ofList [if s.protocol = I2C then ((s.i2cAddress <<< 1) ||| 1) % 256 else 0xff])
      _ (readable_ofList _) (request_ne_target s)
    generalize hwr : m1.write (ByteBuffer.ofList
      [if s.protocol = I2C then ((s.i2cAddress <<< 1) ||| 1) % 256 else 0xff]) = wr at h w1 w2
    obtain ⟨asked, m2⟩ := wr
    simp only at h w1 w2
    obtain ⟨p1, p2⟩ := MPSSE.stop_calls s.target m2
    by_cases ha : asked = false
    · simp only [ha, if_true, pure, Except.pure, Except.ok.injEq, Prod.mk.injEq] at h
      obtain ⟨rfl, rfl, rfl⟩ := h
      exact ⟨sends_quiet s _ (by rw [p1, w1, c1]) (by rw [p2, w2, c2]), fun _ => rfl,
        fun e => Bool.noConfusion e⟩
    · simp only [ha, if_false] at h
      obtain ⟨r1, r2⟩ := MPSSE.read_calls s.target m2 (ByteBuffer.alloc 3)
      generalize hrd : m2.read (ByteBuffer.alloc 3) = rd at h r1 r2
      obtain ⟨gotHeader, hdr1, m3⟩ := rd
      simp only at h r1 r2
      obtain ⟨q1, q2⟩ := MPSSE.stop_calls s.target m3
      by_cases hg : gotHeader = false
      · simp only [hg, if_true, pure, Except.pure, Except.ok.injEq, Prod.mk.injEq] at h
        obtain ⟨rfl, rfl, rfl⟩ := h
        exact ⟨sends_quiet s _ (by rw [q1, r1, w1, c1]) (by rw [q2, r2, w2, c2]), fun _ => rfl,
          fun e => Bool.noConfusion e⟩
      · simp only [hg, if_false] at h
        have hgt : gotHeader = true := by simpa using hg
        subst hgt
        obtain ⟨hb, hlen, rfl, _⟩ := MPSSE.read_alloc m2 3 hdr1 m3 hrd
        match hb, hlen with
        | [b0, b1, b2], _ =>
          have hget : (ByteBuffer.ofList [b0, b1, b2]).getAt 2 = .ok b2 := rfl
          rw [hget] at h
          simp only at h
          by_cases hcap : res.capacity < b2
          · simp only [hcap, if_true, pure, Except.pure, Except.ok.injEq, Prod.mk.injEq] at h
            obtain ⟨rfl, rfl, rfl⟩ := h
            exact ⟨sends_quiet s _ (by rw [q1, r1, w1, c1]) (by rw [q2, r2, w2, c2]),
              fun _ => rfl, fun e => Bool.noConfusion e⟩
          · simp only [hcap, if_false] at h
            obtain ⟨d1, d2⟩ := MPSSE.read_calls s.target m3 (ByteBuffer.alloc b2)
            generalize hrd2 : m3.read (ByteBuffer.alloc b2) = rd2 at h d1 d2
            obtain ⟨gotData, data1, m4⟩ := rd2
            simp only at h d1 d2
            obtain ⟨e1, e2⟩ := MPSSE.stop_calls s.target m4
            have hq : Sends s { s with mpsse := m4.stop } [] :=
              sends_quiet s _ (by rw [e1, d1, r1, w1, c1]) (by rw [e2, d2, r2, w2, c2])
            by_cases hgd : gotData = false
            · simp only [hgd, if_true, pure, Except.pure, Except.ok.injEq, Prod.mk.injEq] at h
              obtain ⟨rfl, rfl, rfl⟩ := h
              exact ⟨hq, fun _ => rfl, fun e => Bool.noConfusion e⟩
            · simp only [hgd, if_false] at h
              have hgdt : gotData = true := by simpa using hgd
              subst hgdt
              obtain ⟨payload, hpl, rfl, _⟩ := MPSSE.read_alloc m3 b2 data1 m4 hrd2
              simp only [bind, Except.bind, putBuffer, readable_ofList] at h
              cases hp1 : res.putBytes [b0, b1, b2] with
              | error e => rw [hp1] at h; cases h
              | ok res2 =>
                rw [hp1] at h
                simp only at h
                cases hp2 : res2.putBytes payload with
                | error e => rw [hp2] at h; cases h
                | ok res3 =>
                  rw [hp2] at h
                  simp only [pure, Except.pure, Except.ok.injEq, Prod.mk.injEq] at h
                  obtain ⟨rfl, rfl, rfl⟩ := h
                  obtain ⟨x1, x2, _⟩ := written_putBytes res res2 [] [b0, b1, b2]
                    (by rw [hres]; rfl) (by rw [hres]; rfl) hp1
                  obtain ⟨y1, y2, _⟩ := written_putBytes res2 res3 _ payload x1 x2 hp2
                  obtain ⟨z1, z2⟩ := readable_flip_written res3 _ y1
                  refine ⟨hq, fun e => Bool.noConfusion e,
                    fun _ => ⟨z2, b0, b1, payload, ?_, ?_⟩⟩
                  · rw [z1, hpl]
                    rfl
                  · show res3.position = _
                    rw [← y2]
                    simp

/-- The polling loop of `nciRecv`, whatever the fuel: as `readMessage_spec`. -/
theorem recvLoop_spec (fuel : Nat) : ∀ (s : Impl) (res : ByteBuffer) (timeout : Int)
    (startTime : Nat) (b : Bool) (res1 : ByteBuffer) (s1 : Impl), res.position = 0 →
    recvLoop fuel s res timeout startTime = .ok (b, res1, s1) →
    Sends s s1 [] ∧ (b = false → res1 = res) ∧
      (b = true → res1.position = 0 ∧ ∃ b0 b1 payload,
        res1.readable = b0 :: b1 :: payload.length :: payload ∧
          res1.limit = payload.length + 3) := by
  induction fuel with
  | zero =>
    intro s res timeout startTime b res1 s1 _ h
    cases h
  | succ n ih =>
    intro s res timeout startTime b res1 s1 hres h
    unfold recvLoop at h
    have hm := hasMessage_sends s
    generalize s.hasMessage = hmsg at h hm
    obtain ⟨message, sa⟩ := hmsg
    simp only at h hm
    by_cases hmes : message = true
    · simp only [hmes, if_true] at h
      obtain ⟨k1, k2, k3⟩ := readMessage_spec sa res b res1 s1 hres h
      exact ⟨by simpa using sends_trans hm k1, k2, k3⟩
    · simp only [hmes, if_false] at h
      by_cases ht : timeout < 0
      · simp only [ht, if_true] at h
        obtain ⟨k1, k2, k3⟩ := ih sa res timeout startTime b res1 s1 hres h
        exact ⟨by simpa using sends_trans hm k1, k2, k3⟩
      · simp only [ht, if_false] at h
        have hn := now_sends sa
        generalize sa.now = nw at h hn
        obtain ⟨t, sb⟩ := nw
        simp only at h hn
        by_cases hlt : (t : Int) - (startTime : Int) < timeout
        · simp only [hlt, if_true] at h
          obtain ⟨k1, k2, k3⟩ := ih sb res timeout startTime b res1 s1 hres h
          exact ⟨by simpa using sends_trans (sends_trans hm hn) k1, k2, k3⟩
        · simp only [hlt, if_false, Except.ok.injEq, Prod.mk.injEq] at h
          obtain ⟨rfl, rfl, rfl⟩ := h
          exact ⟨by simpa using sends_trans hm hn, fun _ => rfl, fun e => Bool.noConfusion e⟩

/-- `nciRecv` hands nothing to the chip; a failed call leaves the buffer as it was, a successful
one leaves in it the header and the payload of one message, ready to be read. -/
theorem nciRecv_spec (s : Impl) (res : ByteBuffer) (timeout : Int) (b : Bool)
    (res1 : ByteBuffer) (s1 : Impl) (hres : res.position = 0)
    (h : s.nciRecv res timeout = .ok (b, res1, s1)) :
    Sends s s1 [] ∧ (b = false → res1 = res) ∧
      (b = true → res1.position = 0 ∧ ∃ b0 b1 payload,
        res1.readable = b0 :: b1 :: payload.length :: payload ∧
          res1.limit = payload.length + 3) := by
  unfold nciRecv at h
  by_cases hc : res.capacity < 3
  · simp only [hc, if_true, Except.ok.injEq, Prod.mk.injEq] at h
    obtain ⟨rfl, rfl, rfl⟩ := h
    exact ⟨sends_refl s, fun _ => rfl, fun e => Bool.noConfusion e⟩
  · simp only [hc, if_false] at h
    have hn := now_sends s
    generalize s.now = nw at h hn
    obtain ⟨t, sa⟩ := nw
    simp only at h hn
    obtain ⟨k1, k2, k3⟩ := recvLoop_spec _ sa res timeout t b res1 s1 hres h
    exact ⟨by simpa using sends_trans hn k1, k2, k3⟩

/-- One `nciControl` is one exchange of its command; when it succeeds the response buffer holds
a message whose payload starts with the status byte 0. -/
theorem nciControl_spec (s : Impl) (cmd rsp : ByteBuffer) (b : Bool) (rsp1 : ByteBuffer)
    (s1 : Impl) (hrsp : rsp.position = 0) (h : s.nciControl cmd rsp = .ok (b, rsp1, s1)) :
    Exchange s s1 cmd.readable b ∧
      (b = true → rsp1.position = 0 ∧ ∃ b0 b1 payload,
        rsp1.readable = b0 :: b1 :: (payload.length + 1) :: 0 :: payload) := by
  unfold nciControl at h
  simp only [bind, Except.bind] at h
  cases hsend : s.nciSend cmd with
  | error e => rw [hsend] at h; cases h
  | ok r =>
    obtain ⟨sent, sa⟩ := r
    rw [hsend] at h
    simp only at h
    obtain ⟨tail, ht1, ht2, ht3⟩ := nciSend_exchange s cmd sent sa hsend
    by_cases hs : sent = false
    · simp only [hs, if_true, pure, Except.pure, Except.ok.injEq, Prod.mk.injEq] at h
      obtain ⟨rfl, rfl, rfl⟩ := h
      exact ⟨⟨tail, ht1, ht2, fun e => Bool.noConfusion e⟩, fun e => Bool.noConfusion e⟩
    · simp only [hs, if_false] at h
      have hst : sent = true := by simpa using hs
      cases hrecv : sa.nciRecv rsp PN7160_DEFAULT_TIMEOUT with
      | error e => rw [hrecv] at h; cases h
      | ok r =>
        obtain ⟨received, rspa, sb⟩ := r
        rw [hrecv] at h
        simp only at h
        obtain ⟨k1, k2, k3⟩ := nciRecv_spec sa rsp _ received rspa sb hrsp hrecv
        have hex : Sends s sb tail := by simpa using sends_trans ht1 k1
        by_cases hr : received = false
        · simp only [hr, if_true, pure, Except.pure, Except.ok.injEq, Prod.mk.injEq] at h
          obtain ⟨rfl, rfl, rfl⟩ := h
          exact ⟨⟨tail, hex, ht2, fun e => Bool.noConfusion e⟩, fun e => Bool.noConfusion e⟩
        · simp only [hr, if_false] at h
          have hrt : received = true := by simpa using hr
          obtain ⟨hpos, b0, b1, payload, hread, hlimit⟩ := k3 hrt
          cases hat : rspa.getAt 3 with
          | error e => rw [hat] at h; cases h
          | ok status =>
            rw [hat] at h
            simp only at h
            by_cases hok : status ≠ NCI_STATUS_OK
            · rw [if_pos hok] at h
              simp only [pure, Except.pure, Except.ok.injEq, Prod.mk.injEq] at h
              obtain ⟨rfl, rfl, rfl⟩ := h
              exact ⟨⟨tail, hex, ht2, fun e => Bool.noConfusion e⟩, fun e => Bool.noConfusion e⟩
            · rw [if_neg hok] at h
              simp only [pure, Except.pure, Except.ok.injEq, Prod.mk.injEq] at h
              obtain ⟨rfl, rfl, rfl⟩ := h
              refine ⟨⟨tail, hex, ht2, fun _ => ht3 hst⟩, fun _ => ⟨hpos, b0, b1, ?_⟩⟩
              have hz : status = 0 := by simpa [NCI_STATUS_OK] using hok
              subst hz
              unfold getAt at hat
              split at hat
              · rename_i hlim
                have hstore : rsp1.store.take rsp1.limit = b0 :: b1 :: payload.length :: payload := by
                  simpa [readable, hpos] using hread
                have h3 : (rsp1.store.take rsp1.limit).getD 3 0 = 0 := by
                  rw [List.getD_eq_getElem?_getD, List.getElem?_take_of_lt hlim,
                    ← List.getD_eq_getElem?_getD]
                  simpa using hat
                rw [hstore] at h3
                cases payload with
                | nil =>
                  simp only [List.length_nil] at hlimit
                  omega
                | cons p ps =>
                  simp only [List.getD_cons_succ, List.getD_cons_zero] at h3
                  subst h3
                  exact ⟨ps, by rw [hread]; rfl⟩
              · cases hat

end Impl

end PN7160

end hw

namespace hw

open rt rt.ByteBuffer

namespace PN7160

namespace Impl

theorem exchange_then {s sa sb : Impl} {cmd : List Nat} {b1 b : Bool}
    (he : Exchange s sa cmd b1) (hs : Sends sa sb []) (hb : b = true → b1 = true) :
    Exchange s sb cmd b := by
  obtain ⟨tail, h1, h2, h3⟩ := he
  exact ⟨tail, by simpa using sends_trans h1 hs, h2, fun e => h3 (hb e)⟩

/-- `nciCoreReset` is one exchange of 20 00 01 and the flag. -/
theorem nciCoreReset_exchange (s : Impl) (resetConfig b : Bool) (s1 : Impl)
    (h : s.nciCoreReset resetConfig = .ok (b, s1)) :
    Exchange s s1 [0x20, 0x00, 0x01, if resetConfig then 1 else 0] b := by
  unfold nciCoreReset at h
  simp only [bind, Except.bind] at h
  cases hc0 : (ByteBuffer.alloc 256).putBuffer NCI_CORE_RESET_CMD with
  | error e => rw [hc0] at h; cases h
  | ok cmd0 =>
    rw [hc0] at h
    simp only at h
    cases hc1 : cmd0.put 0x01 with
    | error e => rw [hc1] at h; cases h
    | ok cmd1 =>
      rw [hc1] at h
      simp only at h
      cases hc2 : cmd1.put (if resetConfig then 1 else 0) with
      | error e => rw [hc2] at h; cases h
      | ok cmd2 =>
        rw [hc2] at h
        simp only at h
        obtain ⟨hr, _, _⟩ := written_flip
          (written_put _ (written_put _ (written_putBuffer _ (written_alloc 256) hc0) hc1) hc2)
        have hcmd : cmd2.flip.readable = [0x20, 0x00, 0x01, if resetConfig then 1 else 0] := by
          rw [hr]
          cases resetConfig <;> rfl
        cases hctl : s.nciControl cmd2.flip (ByteBuffer.alloc 256) with
        | error e => rw [hctl] at h; cases h
        | ok r =>
          obtain ⟨ok, rsp, sa⟩ := r
          rw [hctl] at h
          simp only at h
          obtain ⟨hex, _⟩ := nciControl_spec s _ _ ok rsp sa rfl hctl
          rw [hcmd] at hex
          by_cases hok : ok = false
          · simp only [hok, if_true, pure, Except.pure, Except.ok.injEq, Prod.mk.injEq] at h
            obtain ⟨rfl, rfl⟩ := h
            exact exchange_then hex (sends_refl _) (fun e => Bool.noConfusion e)
          · simp only [hok, if_false] at h
            cases hrecv : sa.nciRecv rsp.clear 1000 with
            | error e => rw [hrecv] at h; cases h
            | ok r =>
              obtain ⟨notified, rsp1, sb⟩ := r
              rw [hrecv] at h
              simp only at h
              obtain ⟨hq, _, _⟩ := nciRecv_spec sa rsp.clear 1000 notified rsp1 sb rfl hrecv
              by_cases hn : notified = false
              · simp only [hn, if_true, pure, Except.pure, Except.ok.injEq, Prod.mk.injEq] at h
                obtain ⟨rfl, rfl⟩ := h
                exact exchange_then hex hq (fun e => Bool.noConfusion e)
              · simp only [hn, if_false] at h
                cases hlog : logResetNotification rsp1 with
                | error e => rw [hlog] at h; cases h
                | ok u =>
                  rw [hlog] at h
                  simp only [pure, Except.pure, Except.ok.injEq, Prod.mk.injEq] at h
                  obtain ⟨rfl, rfl⟩ := h
                  exact exchange_then hex hq (fun _ => by simpa using hok)

/-- `nciCoreInit` is one exchange of 20 01 02 00 00. -/
theorem nciCoreInit_exchange (s : Impl) (b : Bool) (s1 : Impl)
    (h : s.nciCoreInit = .ok (b, s1)) : Exchange s s1 [0x20, 0x01, 0x02, 0x00, 0x00] b := by
  unfold nciCoreInit at h
  simp only [bind, Except.bind] at h
  cases hc0 : (ByteBuffer.alloc 256).putBuffer NCI_CORE_INIT_CMD with
  | error e => rw [hc0] at h; cases h
  | ok cmd0 =>
    rw [hc0] at h
    simp only at h
    cases hc1 : cmd0.put 0x02 with
    | error e => rw [hc1] at h; cases h
    | ok cmd1 =>
      rw [hc1] at h
      simp only at h
      cases hc2 : cmd1.putBytes [0x00, 0x00] with
      | error e => rw [hc2] at h; cases h
      | ok cmd2 =>
        rw [hc2] at h
        simp only at h
        obtain ⟨hr, _, _⟩ := written_flip (written_put_bytes _
          (written_put _ (written_putBuffer _ (written_alloc 256) hc0) hc1) hc2)
        have hcmd : cmd2.flip.readable = [0x20, 0x01, 0x02, 0x00, 0x00] := by
          rw [hr]
          rfl
        cases hctl : s.nciControl cmd2.flip (ByteBuffer.alloc 256) with
        | error e => rw [hctl] at h; cases h
        | ok r =>
          obtain ⟨ok, rsp, sa⟩ := r
          rw [hctl] at h
          simp only at h
          obtain ⟨hex, _⟩ := nciControl_spec s _ _ ok rsp sa rfl hctl
          rw [hcmd] at hex
          by_cases hok : ok = false
          · simp only [hok, if_true, pure, Except.pure, Except.ok.injEq, Prod.mk.injEq] at h
            obtain ⟨rfl, rfl⟩ := h
            exact exchange_then hex (sends_refl _) (fun e => Bool.noConfusion e)
          · simp only [hok, if_false] at h
            cases hlog : logInitResponse rsp with
            | error e => rw [hlog] at h; cases h
            | ok u =>
              rw [hlog] at h
              simp only [pure, Except.pure, Except.ok.injEq, Prod.mk.injEq] at h
              obtain ⟨rfl, rfl⟩ := h
              exact exchange_then hex (sends_refl _) (fun _ => by simpa using hok)

theorem written_putAll : ∀ (ps : List ByteBuffer) (d r : ByteBuffer) (w : List Nat),
    Written d w → putAll ps d = .ok r → Written r (w ++ (ps.map (·.readable)).flatten) := by
  intro ps
  induction ps with
  | nil =>
    intro d r w hw h
    simp only [putAll, Except.ok.injEq] at h
    subst h
    simpa using hw
  | cons p rest ih =>
    intro d r w hw h
    unfold putAll at h
    cases hp : d.putBuffer p with
    | error e => rw [hp] at h; cases h
    | ok d1 =>
      rw [hp] at h
      simp only at h
      have := ih d1 r _ (written_putBuffer p hw hp) h
      simpa [List.append_assoc] using this

/-- `nciSetConfig` on a non-empty list is one exchange of the `CORE_SET_CONFIG` message for
the entries. -/
theorem nciSetConfig_exchange (s : Impl) (ps : List ByteBuffer) (b : Bool) (s1 : Impl)
    (hne : ps ≠ []) (h : s.nciSetConfig ps = .ok (b, s1)) :
    Exchange s s1 (setConfigCommand (ps.map (·.readable))) b := by
  unfold nciSetConfig at h
  have hemp : ps.isEmpty = false := by
    cases ps with
    | nil => exact absurd rfl hne
    | cons _ _ => rfl
  simp only [hemp, bind, Except.bind] at h
  cases hd0 : (ByteBuffer.alloc 256).put ps.length with
  | error e => rw [hd0] at h; simp at h
  | ok data0 =>
    rw [hd0] at h
    simp only at h
    cases hd1 : putAll ps data0 with
    | error e => rw [hd1] at h; simp at h
    | ok data1 =>
      rw [hd1] at h
      simp only at h
      obtain ⟨dr, _, de⟩ := written_flip
        (written_putAll ps data0 data1 _ (written_put _ (written_alloc 256) hd0) hd1)
      cases hc0 : (ByteBuffer.alloc 256).putBuffer NCI_CORE_SET_CONF_CMD with
      | error e => rw [hc0] at h; simp at h
      | ok cmd0 =>
        rw [hc0] at h
        simp only at h
        cases hc1 : cmd0.put data1.flip.elements with
        | error e => rw [hc1] at h; simp at h
        | ok cmd1 =>
          rw [hc1] at h
          simp only at h
          cases hc2 : cmd1.putBuffer data1.flip with
          | error e => rw [hc2] at h; simp at h
          | ok cmd2 =>
            rw [hc2] at h
            simp only at h
            obtain ⟨hr, _, _⟩ := written_flip (written_putBuffer _
              (written_put _ (written_putBuffer _ (written_alloc 256) hc0) hc1) hc2)
            have hcmd : cmd2.flip.readable = setConfigCommand (ps.map (·.readable)) := by
              rw [hr, dr, de]
              simp [setConfigCommand, NCI_CORE_SET_CONF_CMD, readable_ofList, Nat.add_comm]
            cases hctl : s.nciControl cmd2.flip (ByteBuffer.alloc 256) with
            | error e => rw [hctl] at h; simp at h
            | ok r =>
              obtain ⟨ok, rsp, sa⟩ := r
              rw [hctl] at h
              simp only at h
              obtain ⟨hex, _⟩ := nciControl_spec s _ _ ok rsp sa rfl hctl
              rw [hcmd] at hex
              by_cases hok : ok = false
              · simp only [hok, if_true, pure, Except.pure, Except.ok.injEq, Prod.mk.injEq] at h
                obtain ⟨rfl, rfl⟩ := h
                exact exchange_then hex (sends_refl _) (fun e => Bool.noConfusion e)
              · simp only [hok, if_false, pure, Except.pure, Except.ok.injEq,
                  Prod.mk.injEq] at h
                obtain ⟨rfl, rfl⟩ := h
                exact exchange_then hex (sends_refl _) (fun _ => by simpa using hok)

/-- `nciSetPowerMode` is one exchange of 2F 00 01 and the mode. -/
theorem nciSetPowerMode_exchange (s : Impl) (mode : Nat) (b : Bool) (s1 : Impl)
    (h : s.nciSetPowerMode mode = .ok (b, s1)) :
    Exchange s s1 [0x2F, 0x00, 0x01, mode % 256] b := by
  unfold nciSetPowerMode at h
  simp only [bind, Except.bind] at h
  cases hc0 : (ByteBuffer.alloc 256).putBuffer NCI_CORE_SET_POWER_MODE_CMD with
  | error e => rw [hc0] at h; cases h
  | ok cmd0 =>
    rw [hc0] at h
    simp only at h
    cases hc1 : cmd0.put (ByteBuffer.ofList [mode % 256]).elements with
    | error e => rw [hc1] at h; cases h
    | ok cmd1 =>
      rw [hc1] at h
      simp only at h
      cases hc2 : cmd1.putBuffer (ByteBuffer.ofList [mode % 256]) with
      | error e => rw [hc2] at h; cases h
      | ok cmd2 =>
        rw [hc2] at h
        simp only at h
        obtain ⟨hr, _, _⟩ := written_flip (written_putBuffer _
          (written_put _ (written_putBuffer _ (written_alloc 256) hc0) hc1) hc2)
        have hcmd : cmd2.flip.readable = [0x2F, 0x00, 0x01, mode % 256] := by
          rw [hr]
          rfl
        cases hctl : s.nciControl cmd2.flip (ByteBuffer.alloc 256) with
        | error e => rw [hctl] at h; cases h
        | ok r =>
          obtain ⟨ok, rsp, sa⟩ := r
          rw [hctl] at h
          simp only at h
          obtain ⟨hex, _⟩ := nciControl_spec s _ _ ok rsp sa rfl hctl
          rw [hcmd] at hex
          by_cases hok : ok = false
          · simp only [hok, if_true, pure, Except.pure, Except.ok.injEq, Prod.mk.injEq] at h
            obtain ⟨rfl, rfl⟩ := h
            exact exchange_then hex (sends_refl _) (fun e => Bool.noConfusion e)
          · simp only [hok, if_false, pure, Except.pure, Except.ok.injEq, Prod.mk.injEq] at h
            obtain ⟨rfl, rfl⟩ := h
            exact exchange_then hex (sends_refl _) (fun _ => by simpa using hok)

/-- `nciRfDiscoveryStop` is one exchange of 21 06 01 00. -/
theorem nciRfDiscoveryStop_exchange (s : Impl) (b : Bool) (s1 : Impl)
    (h : s.nciRfDiscoveryStop = .ok (b, s1)) : Exchange s s1 [0x21, 0x06, 0x01, 0x00] b := by
  unfold nciRfDiscoveryStop at h
  simp only [bind, Except.bind] at h
  cases hc0 : (ByteBuffer.alloc 256).putBuffer NCI_RF_DEACTIVATE_CMD with
  | error e => rw [hc0] at h; cases h
  | ok cmd0 =>
    rw [hc0] at h
    simp only at h
    cases hc1 : cmd0.put 0x01 with
    | error e => rw [hc1] at h; cases h
    | ok cmd1 =>
      rw [hc1] at h
      simp only at h
      cases hc2 : cmd1.put 0x00 with
      | error e => rw [hc2] at h; cases h
      | ok cmd2 =>
        rw [hc2] at h
        simp only at h
        obtain ⟨hr, _, _⟩ := written_flip
          (written_put _ (written_put _ (written_putBuffer _ (written_alloc 256) hc0) hc1) hc2)
        have hcmd : cmd2.flip.readable = [0x21, 0x06, 0x01, 0x00] := by
          rw [hr]
          rfl
        cases hctl : s.nciControl cmd2.flip (ByteBuffer.alloc 256) with
        | error e => rw [hctl] at h; cases h
        | ok r =>
          obtain ⟨ok, rsp, sa⟩ := r
          rw [hctl] at h
          simp only at h
          obtain ⟨hex, _⟩ := nciControl_spec s _ _ ok rsp sa rfl hctl
          rw [hcmd] at hex
          by_cases hok : ok = false
          · simp only [hok, if_true, pure, Except.pure, Except.ok.injEq, Prod.mk.injEq] at h
            obtain ⟨rfl, rfl⟩ := h
            exact exchange_then hex (sends_refl _) (fun e => Bool.noConfusion e)
          · simp only [hok, if_false, pure, Except.pure, Except.ok.injEq, Prod.mk.injEq] at h
            obtain ⟨rfl, rfl⟩ := h
            exact exchange_then hex (sends_refl _) (fun _ => by simpa using hok)

end Impl

end PN7160

end hw

namespace hw

open rt rt.ByteBuffer

namespace PN7160

theorem runSteps_cons (step : Impl → Except Fault (Bool × Impl))
    (rest : List (Impl → Except Fault (Bool × Impl))) (i : Nat) (s : Impl) :
    runSteps (step :: rest) i s =
      match step s with
      | .error e => .error e
      | .ok (false, s1) => .ok (some i, s1)
      | .ok (true, s1) => runSteps rest (i + 1) s1 := rfl

set_option maxRecDepth 8000 in
/-- The initialization sequence of `open` runs its nine steps in order, stops at the first
that fails, and ends as `finishOpen` says. -/
theorem initSequence_steps (s0 : Impl) :
    s0.initSequence = (runSteps openSteps 0 s0).map finishOpen := by
  unfold Impl.initSequence openSteps Impl.coreReset
  simp only [bind, Except.bind, pure, Except.pure]
  rw [runSteps_cons]
  cases h1 : s0.nciCoreReset true with
  | error e => rfl
  | ok r1 =>
    obtain ⟨b1, s1⟩ := r1
    cases b1 with
    | false => rfl
    | true =>
      simp only [Bool.true_eq_false, if_false]
      rw [runSteps_cons]
      cases h2 : s1.nciCoreInit with
      | error e => rfl
      | ok r2 =>
        obtain ⟨b2, s2⟩ := r2
        cases b2 with
        | false => rfl
        | true =>
          simp only [Bool.true_eq_false, if_false]
          rw [runSteps_cons]
          cases h3 : s2.nciSetConfig NXP_CONF_CORE with
          | error e => rfl
          | ok r3 =>
            obtain ⟨b3, s3⟩ := r3
            cases b3 with
            | false => rfl
            | true =>
              simp only [Bool.true_eq_false, if_false]
              rw [runSteps_cons]
              cases h4 : s3.nciSetConfig NXP_CONF_CORE_EXT with
              | error e => rfl
              | ok r4 =>
                obtain ⟨b4, s4⟩ := r4
                cases b4 with
                | false => rfl
                | true =>
                  simp only [Bool.true_eq_false, if_false]
                  rw [runSteps_cons]
                  cases h5 : s4.nciSetConfig NXP_CONF_TVDD with
                  | error e => rfl
                  | ok r5 =>
                    obtain ⟨b5, s5⟩ := r5
                    cases b5 with
                    | false => rfl
                    | true =>
                      simp only [Bool.true_eq_false, if_false]
                      rw [runSteps_cons]
                      cases h6 : s5.nciSetConfig NXP_CONF_RF with
                      | error e => rfl
                      | ok r6 =>
                        obtain ⟨b6, s6⟩ := r6
                        cases b6 with
                        | false => rfl
                        | true =>
                          simp only [Bool.true_eq_false, if_false]
                          rw [runSteps_cons]
                          cases h7 : s6.nciCoreReset false with
                          | error e => rfl
                          | ok r7 =>
                            obtain ⟨b7, s7⟩ := r7
                            cases b7 with
                            | false => rfl
                            | true =>
                              simp only [Bool.true_eq_false, if_false]
                              rw [runSteps_cons]
                              cases h8 : s7.nciCoreInit with
                              | error e => rfl
                              | ok r8 =>
                                obtain ⟨b8, s8⟩ := r8
                                cases b8 with
                                | false => rfl
                                | true =>
                                  simp only [Bool.true_eq_false, if_false]
                                  rw [runSteps_cons]
                                  cases h9 : s8.nciSetPowerMode POWER_MODE_FULL with
                                  | error e => rfl
                                  | ok r9 =>
                                    obtain ⟨b9, s9⟩ := r9
                                    cases b9 with
                                    | false => rfl
                                    | true =>
                                      simp only [Bool.true_eq_false, if_false]
                                      rfl

/-- Once the transport is open, `open` is the initialization sequence on the prepared
device. -/
theorem openDevice_prepared (s : Impl)
    (hfound : (s.close.mpsse.openPort (if s.protocol = SPI then MPSSE.SPI0 else MPSSE.I2C)
      (if s.protocol = SPI then MPSSE.CLK_1MHZ else MPSSE.CLK_100KHZ)).1 = true) :
    s.openDevice = s.prepared.initSequence := by
  unfold Impl.openDevice
  have hp : (s.close).protocol = s.protocol := rfl
  simp only [hp, hfound, Bool.true_eq_false, if_false]
  rfl

end PN7160

end hw

namespace hw

open rt rt.ByteBuffer

namespace PN7160

/-- Steps that are each one exchange of their command: a run hands the commands to the chip in
order, up to and at most including the command of the step that failed. -/
theorem runSteps_commands (steps : List (Impl → Except Fault (Bool × Impl)))
    (cmds : List (List Nat))
    (hsteps : List.Forall₂ (fun step cmd =>
      ∀ s b s1, step s = .ok (b, s1) → Exchange s s1 cmd b) steps cmds) :
    ∀ (i : Nat) (s : Impl) (r : Option Nat) (sf : Impl), runSteps steps i s = .ok (r, sf) →
      (r = none → Sends s sf cmds) ∧
      (∀ k, r = some k → i ≤ k ∧ k - i < cmds.length ∧
        ∃ tail, Sends s sf (cmds.take (k - i) ++ tail) ∧
          (tail = [] ∨ tail = [cmds.getD (k - i) []])) := by
  induction hsteps with
  | nil =>
    intro i s r sf h
    simp only [runSteps, Except.ok.injEq, Prod.mk.injEq] at h
    obtain ⟨rfl, rfl⟩ := h
    exact ⟨fun _ => sends_refl _, fun k hk => Option.noConfusion hk⟩
  | @cons step cmd rest cmds1 hstep _ ih =>
    intro i s r sf h
    rw [runSteps_cons] at h
    cases hs : step s with
    | error e => rw [hs] at h; cases h
    | ok v =>
      obtain ⟨b, s1⟩ := v
      rw [hs] at h
      obtain ⟨tail, ht1, ht2, ht3⟩ := hstep s b s1 hs
      cases b with
      | false =>
        simp only [Except.ok.injEq, Prod.mk.injEq] at h
        obtain ⟨rfl, rfl⟩ := h
        refine ⟨fun e => Option.noConfusion e, fun k hk => ?_⟩
        cases hk
        refine ⟨le_refl _, by simp, tail, by simpa using ht1, ?_⟩
        simpa using ht2
      | true =>
        simp only at h
        obtain ⟨k1, k2⟩ := ih (i + 1) s1 r sf h
        have hcmd := ht3 rfl
        subst hcmd
        refine ⟨fun e => by simpa using sends_trans ht1 (k1 e), fun k hk => ?_⟩
        obtain ⟨a1, a2, tail2, a3, a4⟩ := k2 k hk
        have e : k - i = (k - (i + 1)) + 1 := by omega
        refine ⟨by omega, by simp only [List.length_cons]; omega, tail2, ?_, ?_⟩
        · rw [e, List.take_succ_cons]
          simpa using sends_trans ht1 a3
        · rw [e, List.getD_cons_succ]
          exact a4

/-- Every step of the initialization sequence is one exchange of its command. -/
theorem openSteps_exchange : List.Forall₂ (fun step cmd =>
    ∀ s b s1, step s = .ok (b, s1) → Exchange s s1 cmd b) openSteps openCommands := by
  unfold openSteps openCommands
  refine List.Forall₂.cons (fun s b s1 h => Impl.nciCoreReset_exchange s true b s1 h)
    (List.Forall₂.cons (fun s b s1 h => Impl.nciCoreInit_exchange s b s1 h)
    (List.Forall₂.cons (fun s b s1 h =>
      Impl.nciSetConfig_exchange s NXP_CONF_CORE b s1 (by decide) h)
    (List.Forall₂.cons (fun s b s1 h =>
      Impl.nciSetConfig_exchange s NXP_CONF_CORE_EXT b s1 (by decide) h)
    (List.Forall₂.cons (fun s b s1 h =>
      Impl.nciSetConfig_exchange s NXP_CONF_TVDD b s1 (by decide) h)
    (List.Forall₂.cons (fun s b s1 h =>
      Impl.nciSetConfig_exchange s NXP_CONF_RF b s1 (by decide) h)
    (List.Forall₂.cons (fun s b s1 h => Impl.nciCoreReset_exchange s false b s1 h)
    (List.Forall₂.cons (fun s b s1 h => Impl.nciCoreInit_exchange s b s1 h)
    (List.Forall₂.cons (fun s b s1 h =>
      Impl.nciSetPowerMode_exchange s POWER_MODE_FULL b s1 h) List.Forall₂.nil))))))))

/-- The way to the initialization sequence hands nothing to the chip and leaves the status
closed. -/
theorem prepared_spec (s : Impl) :
    s.prepared.commands = s.commands ∧ s.prepared.status = STATUS_CLOSED ∧
      s.prepared.mpsse.opened = (s.close.mpsse.openPort
        (if s.protocol = SPI then MPSSE.SPI0 else MPSSE.I2C)
        (if s.protocol = SPI then MPSSE.CLK_1MHZ else MPSSE.CLK_100KHZ)).1 := by
  refine ⟨?_, rfl, ?_⟩
  · show commandsOf s.target _ = commandsOf s.target _
    simp only [Impl.prepared, Impl.close, MPSSE.close, MPSSE.openPort, MPSSE.setGpio,
      MPSSE.usleep]
    cases s.mpsse.openResults <;> simp [commandsOf_append, commandsOf]
  · simp only [Impl.prepared, Impl.close, MPSSE.close, MPSSE.openPort, MPSSE.setGpio,
      MPSSE.usleep]
    cases s.mpsse.openResults <;> rfl

theorem abort_spec (s : Impl) : s.abort.commands = s.commands ∧ s.abort.status = s.status ∧
    s.abort.mpsse.opened = false := by
  refine ⟨?_, rfl, rfl⟩
  show commandsOf s.target _ = commandsOf s.target _
  simp [Impl.abort, MPSSE.close, commandsOf_append, commandsOf]

end PN7160

end hw

namespace hw

open rt rt.ByteBuffer

namespace PN7160

/-- C12: once the transport is open, when the run of the steps of `open` (the two of each
`coreReset`, the four configuration groups, the power mode; each one `nciControl` exchange,
which fails on a send failure, on no response within the timeout and on a response whose byte
at offset 3 is not 0) stops at step `i` because that step fails, `open` returns false, the
status is STATUS_CLOSED, and the chip has been handed the commands of the steps before `i` and
at most the command of step `i`: no command of a later step. -/
theorem open_step_failure (s : Impl) (i : Nat) (sf : Impl)
    (hfound : (s.close.mpsse.openPort (if s.protocol = SPI then MPSSE.SPI0 else MPSSE.I2C)
      (if s.protocol = SPI then MPSSE.CLK_1MHZ else MPSSE.CLK_100KHZ)).1 = true)
    (hfail : runSteps openSteps 0 s.prepared = .ok (some i, sf)) :
    ∃ s1, s.openDevice = .ok (false, s1) ∧ status s1 = STATUS_CLOSED ∧ i < 9 ∧
      ∃ tail, s1.commands = s.commands ++ openCommands.take i ++ tail ∧
        (tail = [] ∨ tail = [openCommands.getD i []]) := by
  obtain ⟨_, hk⟩ := runSteps_commands openSteps openCommands openSteps_exchange 0 s.prepared
    (some i) sf hfail
  obtain ⟨_, hlt, tail, hsends, htail⟩ := hk i rfl
  obtain ⟨p1, p2, _⟩ := prepared_spec s
  obtain ⟨q1, q2, q3, q4, q5⟩ := hsends
  have hres : Except.map finishOpen (Except.ok (some i, sf) : Except Fault (Option Nat × Impl)) =
      .ok (false, if 2 ≤ i ∧ i ≤ 5 then sf else sf.abort) := rfl
  have hc : sf.commands = s.commands ++ List.take i openCommands ++ tail := by
    rw [q5, p1]
    simp
  rw [openDevice_prepared s hfound, initSequence_steps, hfail, hres]
  refine ⟨_, rfl, ?_, by simpa [openCommands] using hlt, tail, ?_, by simpa using htail⟩
  · split
    · exact q1.trans p2
    · exact q1.trans p2
  · split
    · exact hc
    · rw [(abort_spec sf).1]
      exact hc

set_option maxRecDepth 100000 in
theorem open_step_failure_witness :
    (sampleConfigRejected.close.mpsse.openPort
        (if sampleConfigRejected.protocol = SPI then MPSSE.SPI0 else MPSSE.I2C)
        (if sampleConfigRejected.protocol = SPI then MPSSE.CLK_1MHZ else MPSSE.CLK_100KHZ)).1
        = true ∧
      (∃ sf, runSteps openSteps 0 sampleConfigRejected.prepared = .ok (some 2, sf)) ∧
      ∃ s1, sampleConfigRejected.openDevice = .ok (false, s1) ∧ status s1 = STATUS_CLOSED ∧
        2 < 9 ∧
        ∃ tail, s1.commands = sampleConfigRejected.commands ++ openCommands.take 2 ++ tail ∧
          (tail = [] ∨ tail = [openCommands.getD 2 []]) :=
  ⟨rfl, ⟨_, rfl⟩, open_step_failure sampleConfigRejected 2 _ rfl rfl⟩

set_option maxRecDepth 100000 in
/-- C13 fails on the code: the chip rejects the first configuration group (status 6 in the
response to `CORE_SET_CONFIG`), after the transport was opened and `coreReset` went well.
`open` returns false with the status STATUS_CLOSED, yet the transport is still open: the
`return false` of the configuration steps does not pass by `mpsse.close()`. -/
theorem open_config_failure_transport_open :
    ∃ s1, sampleConfigRejected.openDevice = .ok (false, s1) ∧ status s1 = STATUS_CLOSED ∧
      s1.mpsse.opened = true ∧ s1.mpsse.calls.getLast? ≠ some BusCall.Close ∧
      s1.commands = openCommands.take 3 :=
  ⟨_, rfl, rfl, rfl, by decide, rfl⟩

set_option maxRecDepth 100000 in
/-- C14, as the claim has it, fails: on a device where every step succeeds `open` returns
true with the status STATUS_OPENED after nine commands, not eight: the second is the
`CORE_INIT` that follows the first `CORE_RESET`, which the claimed sequence leaves out. -/
theorem open_sends_init_after_first_reset :
    ∃ s1, sampleOpening.openDevice = .ok (true, s1) ∧ status s1 = STATUS_OPENED ∧
      s1.commands = openCommands ∧ openCommands.length = 9 ∧
      openCommands.take 2 = [[0x20, 0x00, 0x01, 0x01], [0x20, 0x01, 0x02, 0x00, 0x00]] ∧
      s1.commands ≠ openCommands.eraseIdx 1 :=
  ⟨_, rfl, rfl, rfl, rfl, rfl, by decide⟩

/-- C14, amended: a successful `open` hands the chip, after the hardware reset, exactly the
nine commands of `openCommands` in order and no others: CORE_RESET (clear config), CORE_INIT,
CORE_SET_CONFIG for each of the four fixed groups in the order core, core-ext, TVDD/PMU, RF,
then CORE_RESET (keep config), CORE_INIT, SET_POWER_MODE(FULL); the status is then
STATUS_OPENED and the transport open. -/
theorem open_success_commands (s s1 : Impl) (h : s.openDevice = .ok (true, s1)) :
    status s1 = STATUS_OPENED ∧ s1.commands = s.commands ++ openCommands ∧
      s1.mpsse.opened = true ∧
      openCommands =
        [[0x20, 0x00, 0x01, 0x01], [0x20, 0x01, 0x02, 0x00, 0x00],
          setConfigCommand (NXP_CONF_CORE.map (·.readable)),
          setConfigCommand (NXP_CONF_CORE_EXT.map (·.readable)),
          setConfigCommand (NXP_CONF_TVDD.map (·.readable)),
          setConfigCommand (NXP_CONF_RF.map (·.readable)),
          [0x20, 0x00, 0x01, 0x00], [0x20, 0x01, 0x02, 0x00, 0x00], [0x2F, 0x00, 0x01, 0x00]] := by
  by_cases hfound : (s.close.mpsse.openPort (if s.protocol = SPI then MPSSE.SPI0 else MPSSE.I2C)
      (if s.protocol = SPI then MPSSE.CLK_1MHZ else MPSSE.CLK_100KHZ)).1 = true
  · rw [openDevice_prepared s hfound, initSequence_steps] at h
    obtain ⟨p1, p2, p3⟩ := prepared_spec s
    cases hrun : runSteps openSteps 0 s.prepared with
    | error e => rw [hrun] at h; cases h
    | ok v =>
      obtain ⟨r, sf⟩ := v
      rw [hrun] at h
      obtain ⟨hnone, _⟩ := runSteps_commands openSteps openCommands openSteps_exchange 0
        s.prepared r sf hrun
      cases r with
      | some i =>
        simp only [Except.map, finishOpen, Except.ok.injEq, Prod.mk.injEq] at h
        exact absurd h.1 (by decide)
      | none =>
        simp only [Except.map, finishOpen, Except.ok.injEq, Prod.mk.injEq, true_and] at h
        subst h
        obtain ⟨q1, q2, q3, q4, q5⟩ := hnone rfl
        refine ⟨rfl, ?_, ?_, rfl⟩
        · show commandsOf (Impl.target sf) sf.mpsse.calls = _
          have := q5
          unfold Impl.commands at this
          rw [this]
          congr 1
        · show sf.mpsse.opened = true
          rw [q4, p3, hfound]
  · exfalso
    unfold Impl.openDevice at h
    have hp : (s.close).protocol = s.protocol := rfl
    have hf : (s.close.mpsse.openPort (if s.protocol = SPI then MPSSE.SPI0 else MPSSE.I2C)
        (if s.protocol = SPI then MPSSE.CLK_1MHZ else MPSSE.CLK_100KHZ)).1 = false := by
      simpa using hfound
    simp only [hp, hf, if_true, Except.ok.injEq, Prod.mk.injEq] at h
    exact absurd h.1 (by decide)

set_option maxRecDepth 100000 in
theorem open_success_commands_witness :
    ∃ s1, sampleOpening.openDevice = .ok (true, s1) ∧
      (status s1 = STATUS_OPENED ∧ s1.commands = sampleOpening.commands ++ openCommands ∧
        s1.mpsse.opened = true ∧
        openCommands =
          [[0x20, 0x00, 0x01, 0x01], [0x20, 0x01, 0x02, 0x00, 0x00],
            setConfigCommand (NXP_CONF_CORE.map (·.readable)),
            setConfigCommand (NXP_CONF_CORE_EXT.map (·.readable)),
            setConfigCommand (NXP_CONF_TVDD.map (·.readable)),
            setConfigCommand (NXP_CONF_RF.map (·.readable)),
            [0x20, 0x00, 0x01, 0x00], [0x20, 0x01, 0x02, 0x00, 0x00],
            [0x2F, 0x00, 0x01, 0x00]]) :=
  ⟨_, rfl, open_success_commands sampleOpening _ rfl⟩

/-- The public `stopDiscovery` leaves the status as it was, whatever the chip answers. -/
theorem stopDiscovery_status (s : Impl) (b : Bool) (s1 : Impl)
    (h : stopDiscovery s = .ok (b, s1)) : status s1 = status s := by
  obtain ⟨_, hs, _, _⟩ := Impl.nciRfDiscoveryStop_exchange s b s1 h
  exact hs.1

set_option maxRecDepth 100000 in
/-- C15 fails on the code: on a listening device whose chip acknowledges `RF_DEACTIVATE` with
status OK, the public `stopDiscovery()` returns true and the status is still
STATUS_LISTENING, not STATUS_OPENED; `stopDiscoveryMode()`, which the public method does not
call, sets STATUS_OPENED on the same device. -/
theorem stopDiscovery_keeps_listening :
    (∃ s1, stopDiscovery sampleListening = .ok (true, s1) ∧ status s1 = STATUS_LISTENING ∧
      status s1 ≠ STATUS_OPENED ∧ s1.commands = [[0x21, 0x06, 0x01, 0x00]]) ∧
    ∃ s2, sampleListening.stopDiscoveryMode = .ok (true, s2) ∧ status s2 = STATUS_OPENED :=
  ⟨⟨_, rfl, rfl, by decide, rfl⟩, ⟨_, rfl, rfl⟩⟩

end PN7160

end hw

namespace hw

open rt rt.ByteBuffer

namespace PN7160

namespace Impl

end Impl

end PN7160

end hw


namespace rt.ByteBuffer

theorem get_drop (b : ByteBuffer) (r : List Nat) (k : Nat) (h : b.readable = r.drop k)
    (hk : k < r.length) : ∃ b1, b.get = .ok (r.getD k 0, b1) ∧ b1.readable = r.drop (k + 1) := by
  have e : r.drop k = r.getD k 0 :: r.drop (k + 1) := by
    rw [List.getD_eq_getElem _ _ hk]
    exact List.drop_eq_getElem_cons hk
  exact get_readable b _ _ (h.trans e)

theorem getBuffer_drop (b : ByteBuffer) (r : List Nat) (k n : Nat) (h : b.readable = r.drop k)
    (hk : k + n ≤ r.length) :
    ∃ x b1, b.getBuffer n = .ok (x, b1) ∧ b1.readable = r.drop (k + n) := by
  obtain ⟨b1, h1, h2⟩ := getBuffer_readable b n (by rw [h, List.length_drop]; omega)
  refine ⟨_, b1, h1, ?_⟩
  rw [h2, h, List.drop_drop, Nat.add_comm]

end rt.ByteBuffer

namespace hw

open rt rt.ByteBuffer

namespace PN7160

namespace Impl

theorem logBlock_drop (b : ByteBuffer) (r : List Nat) (k l : Nat) (h : b.readable = r.drop k)
    (hk : k + l ≤ r.length) : ∃ b1, logBlock l b = .ok b1 ∧ b1.readable = r.drop (k + l) := by
  unfold logBlock
  by_cases hl : l > 0
  · obtain ⟨x, b1, h1, h2⟩ := getBuffer_drop b r k l h hk
    rw [if_pos hl, h1]
    exact ⟨b1, rfl, h2⟩
  · rw [if_neg hl]
    have : l = 0 := by omega
    subst this
    exact ⟨b, rfl, h⟩

theorem logCredits_ok : ∀ (n : Nat) (b : ByteBuffer) (r : List Nat) (k : Nat),
    b.readable = r.drop k → k + 2 * n ≤ r.length → ∃ b1, logCredits n b = .ok b1 := by
  intro n
  induction n with
  | zero => intro b r k _ _; exact ⟨b, rfl⟩
  | succ m ih =>
    intro b r k h hk
    obtain ⟨b1, g1, r1⟩ := get_drop b r k h (by omega)
    obtain ⟨b2, g2, r2⟩ := get_drop b1 r (k + 1) r1 (by omega)
    obtain ⟨b3, g3⟩ := ih b2 r (k + 1 + 1) r2 (by omega)
    refine ⟨b3, ?_⟩
    simp only [logCredits, bind, Except.bind, g1, g2, g3]

theorem logActivated_ok (b : ByteBuffer) (r : List Nat) (h : b.readable = r)
    (hk : 11 + r.getD 6 0 + r.getD (10 + r.getD 6 0) 0 ≤ r.length) :
    ∃ b1, logActivated b = .ok b1 := by
  have h0 : b.readable = r.drop 0 := by simpa using h
  obtain ⟨p1, g1, r1⟩ := get_drop b r 0 h0 (by omega)
  obtain ⟨p2, g2, r2⟩ := get_drop p1 r 1 r1 (by omega)
  obtain ⟨p3, g3, r3⟩ := get_drop p2 r 2 r2 (by omega)
  obtain ⟨p4, g4, r4⟩ := get_drop p3 r 3 r3 (by omega)
  obtain ⟨p5, g5, r5⟩ := get_drop p4 r 4 r4 (by omega)
  obtain ⟨p6, g6, r6⟩ := get_drop p5 r 5 r5 (by omega)
  obtain ⟨p7, g7, r7⟩ := get_drop p6 r 6 r6 (by omega)
  obtain ⟨p8, g8, r8⟩ := logBlock_drop p7 r 7 (r.getD 6 0) r7 (by omega)
  obtain ⟨p9, g9, r9⟩ := get_drop p8 r (7 + r.getD 6 0) r8 (by omega)
  obtain ⟨p10, g10, r10⟩ := get_drop p9 r (7 + r.getD 6 0 + 1) r9 (by omega)
  obtain ⟨p11, g11, r11⟩ := get_drop p10 r (7 + r.getD 6 0 + 1 + 1) r10 (by omega)
  have e : 7 + r.getD 6 0 + 1 + 1 + 1 = 10 + r.getD 6 0 := by omega
  rw [e] at r11
  obtain ⟨p12, g12, r12⟩ := get_drop p11 r (10 + r.getD 6 0) r11 (by omega)
  obtain ⟨p13, g13, _⟩ := logBlock_drop p12 r (10 + r.getD 6 0 + 1)
    (r.getD (10 + r.getD 6 0) 0) r12 (by omega)
  refine ⟨p13, ?_⟩
  simp only [logActivated, bind, Except.bind, g1, g2, g3, g4, g5, g6, g7, g8, g9, g10, g11, g12,
    g13]

/-- The reads on the payload of a notification succeed when the payload holds the fields of
the notification. -/
theorem logNotification_ok (b0 b1 : Nat) (payload : List Nat)
    (h : demand b0 b1 payload ≤ payload.length) :
    logNotification (b0 &&& 0xEF) (b1 &&& 0x3F) (ByteBuffer.ofList payload) = .ok () := by
  have hr : (ByteBuffer.ofList payload).readable = payload.drop 0 := by
    simp [readable_ofList]
  unfold demand at h
  unfold logNotification
  simp only [NCI_MT_EVENT_CORE, NCI_MT_EVENT_RF, NCI_OP_CORE_CONN_CREDITS_NTF,
    NCI_OP_RF_INTF_ACTIVATED_NTF, NCI_OP_RF_DEACTIVATE_NTF, NCI_OP_RF_FIELD_INFO_NTF]
  by_cases hc : b0 &&& 0xEF = 0x60
  · rw [if_pos hc]
    by_cases ho : b1 &&& 0x3F = 0x06
    · rw [if_pos ho]
      rw [if_pos ⟨hc, ho⟩] at h
      obtain ⟨p1, g1, r1⟩ := get_drop _ payload 0 hr (by omega)
      obtain ⟨p2, g2⟩ := logCredits_ok (payload.getD 0 0) p1 payload 1 r1 (by omega)
      simp only [bind, Except.bind, g1, g2, pure, Except.pure]
    · rw [if_neg ho]
      rfl
  · rw [if_neg hc]
    by_cases hf : b0 &&& 0xEF = 0x61
    · rw [if_pos hf]
      rw [if_neg (fun x => hc x.1)] at h
      by_cases h5 : b1 &&& 0x3F = 0x05
      · rw [if_pos h5]
        rw [if_pos ⟨hf, h5⟩] at h
        obtain ⟨p1, g1⟩ := logActivated_ok _ payload (readable_ofList _) h
        simp only [bind, Except.bind, g1, pure, Except.pure]
      · rw [if_neg h5]
        rw [if_neg (fun x => h5 x.2)] at h
        by_cases h6 : b1 &&& 0x3F = 0x06
        · rw [if_pos h6]
          rw [if_pos ⟨hf, h6⟩] at h
          obtain ⟨p1, g1, r1⟩ := get_drop _ payload 0 hr (by omega)
          obtain ⟨p2, g2, _⟩ := get_drop p1 payload 1 r1 (by omega)
          simp only [bind, Except.bind, g1, g2, pure, Except.pure]
        · rw [if_neg h6]
          rw [if_neg (fun x => h6 x.2)] at h
          by_cases h7 : b1 &&& 0x3F = 0x07
          · rw [if_pos h7]
            rw [if_pos ⟨hf, h7⟩] at h
            obtain ⟨p1, g1, _⟩ := get_drop _ payload 0 hr (by omega)
            simp only [bind, Except.bind, g1, pure, Except.pure]
          · rw [if_neg h7]
            rfl
    · rw [if_neg hf]
      rfl

/-- The `switch` of `waitEvent` computes the classification. -/
theorem eventCode_classify (b0 b1 : Nat) :
    eventCode (b0 &&& 0xEF) (b1 &&& 0x3F) = classify b0 b1 := by
  unfold eventCode classify
  simp only [NCI_MT_DATA, NCI_MT_EVENT_CORE, NCI_MT_EVENT_RF, NCI_OP_CORE_CONN_CREDITS_NTF,
    NCI_OP_RF_INTF_ACTIVATED_NTF, NCI_OP_RF_DEACTIVATE_NTF, NCI_OP_RF_FIELD_INFO_NTF]
  split_ifs <;> simp_all



theorem classify_cases (b0 b1 : Nat) :
    classify b0 b1 ≠ EVENT_TIMEOUT ∧
    (classify b0 b1 = EVENT_DATA ↔ b0 &&& 0xEF = 0x00) ∧
    (classify b0 b1 = EVENT_CREDITS ↔ b0 &&& 0xEF = 0x60 ∧ b1 &&& 0x3F = 0x06) ∧
    (classify b0 b1 = EVENT_ACTIVATED ↔ b0 &&& 0xEF = 0x61 ∧ b1 &&& 0x3F = 0x05) ∧
    (classify b0 b1 = EVENT_DEACTIVATED ↔ b0 &&& 0xEF = 0x61 ∧ b1 &&& 0x3F = 0x06) ∧
    (classify b0 b1 = EVENT_FIELD_INFO ↔ b0 &&& 0xEF = 0x61 ∧ b1 &&& 0x3F = 0x07) ∧
    (classify b0 b1 = EVENT_UNKNOW ↔ ¬ (b0 &&& 0xEF = 0x00) ∧
      ¬ (b0 &&& 0xEF = 0x60 ∧ b1 &&& 0x3F = 0x06) ∧
      ¬ (b0 &&& 0xEF = 0x61 ∧ (b1 &&& 0x3F = 0x05 ∨ b1 &&& 0x3F = 0x06 ∨ b1 &&& 0x3F = 0x07))) := by
  unfold classify
  simp only [EVENT_TIMEOUT, EVENT_DATA, EVENT_CREDITS, EVENT_ACTIVATED, EVENT_DEACTIVATED,
    EVENT_FIELD_INFO, EVENT_UNKNOW]
  split_ifs <;> simp_all

theorem waitEvent_spec (s : Impl) (data : ByteBuffer) (timeout : Int) (received : Bool)
    (event : ByteBuffer) (s1 : Impl) (hdata : data.position = 0)
    (hrecv : s.nciRecv (ByteBuffer.alloc 256) timeout = .ok (received, event, s1)) :
    (received = false → s.waitEvent data timeout = .ok (EVENT_TIMEOUT, data, s1)) ∧
    (received = true → ∀ b0 b1 payload,
      event.readable = b0 :: b1 :: payload.length :: payload →
      payload.length ≤ data.limit → demand b0 b1 payload ≤ payload.length →
        ∃ data1, s.waitEvent data timeout = .ok (classify b0 b1, data1, s1) ∧
          data1.position = 0 ∧ data1.readable = payload) := by
  refine ⟨?_, ?_⟩
  · intro hf
    subst hf
    simp only [waitEvent, bind, Except.bind, hrecv, if_true, pure, Except.pure]
  · intro ht b0 b1 payload hr hroom hdemand
    subst ht
    obtain ⟨e1, g1, r1⟩ := get_readable event _ _ hr
    obtain ⟨e2, g2, r2⟩ := get_readable e1 _ _ r1
    obtain ⟨e3, g3, r3⟩ := get_readable e2 _ _ r2
    obtain ⟨e4, g4, _⟩ := getBuffer_readable e3 payload.length (by rw [r3])
    rw [r3, List.take_length] at g4
    have hput : data.putBuffer (ByteBuffer.ofList payload) = .ok
        ⟨data.store.take data.position ++ payload ++
          data.store.drop (data.position + payload.length),
          data.position + payload.length, data.limit⟩ := by
      unfold putBuffer putBytes
      rw [readable_ofList, if_pos (by omega)]
    have hw := written_putBuffer (ByteBuffer.ofList payload) (w := [])
      ⟨by rw [hdata]; rfl, by rw [hdata]; rfl⟩ hput
    rw [readable_ofList, List.nil_append] at hw
    obtain ⟨f1, f2, _⟩ := written_flip hw
    refine ⟨_, ?_, f2, f1⟩
    simp only [waitEvent, bind, Except.bind, hrecv, g1, g2, g3, g4, hput,
      logNotification_ok b0 b1 payload hdemand, eventCode_classify, pure, Except.pure]
    rfl

end Impl

/-- C11: `waitEvent` classifies a received message by its first two bytes. When `nciRecv` on the
256-byte event buffer reports no message, `waitEvent` returns `EVENT_TIMEOUT` and leaves the
caller's buffer as it was. When it reports a message, the event buffer holds the bytes
`b0, b1, length, payload`; if the caller's buffer is empty (position 0) with room for the
payload, and the payload holds the fields that the logging of its notification reads, then
`waitEvent` returns a code that is not `EVENT_TIMEOUT`, that is `EVENT_DATA` iff
`b0 & 0xEF = 0x00`, `EVENT_CREDITS` iff `b0 & 0xEF = 0x60` and `b1 & 0x3F = 0x06`,
`EVENT_ACTIVATED`, `EVENT_DEACTIVATED`, `EVENT_FIELD_INFO` iff `b0 & 0xEF = 0x61` and
`b1 & 0x3F` is 0x05, 0x06, 0x07, and `EVENT_UNKNOW` otherwise; and the caller's buffer then
holds exactly the payload, ready to be read from position 0. -/
theorem waitEvent_classifies (s : Impl) (data : ByteBuffer) (timeout : Int) (received : Bool)
    (event : ByteBuffer) (s1 : Impl) (hdata : data.position = 0)
    (hrecv : s.nciRecv (ByteBuffer.alloc 256) timeout = .ok (received, event, s1)) :
    (received = false → s.waitEvent data timeout = .ok (EVENT_TIMEOUT, data, s1)) ∧
    (received = true →
      (∃ b0 b1 payload, event.readable = b0 :: b1 :: payload.length :: payload) ∧
      ∀ b0 b1 payload, event.readable = b0 :: b1 :: payload.length :: payload →
        payload.length ≤ data.limit → demand b0 b1 payload ≤ payload.length →
        ∃ code data1, s.waitEvent data timeout = .ok (code, data1, s1) ∧
          data1.position = 0 ∧ data1.readable = payload ∧
          code ≠ EVENT_TIMEOUT ∧
          (code = EVENT_DATA ↔ b0 &&& 0xEF = 0x00) ∧
          (code = EVENT_CREDITS ↔ b0 &&& 0xEF = 0x60 ∧ b1 &&& 0x3F = 0x06) ∧
          (code = EVENT_ACTIVATED ↔ b0 &&& 0xEF = 0x61 ∧ b1 &&& 0x3F = 0x05) ∧
          (code = EVENT_DEACTIVATED ↔ b0 &&& 0xEF = 0x61 ∧ b1 &&& 0x3F = 0x06) ∧
          (code = EVENT_FIELD_INFO ↔ b0 &&& 0xEF = 0x61 ∧ b1 &&& 0x3F = 0x07) ∧
          (code = EVENT_UNKNOW ↔ ¬ (b0 &&& 0xEF = 0x00) ∧
            ¬ (b0 &&& 0xEF = 0x60 ∧ b1 &&& 0x3F = 0x06) ∧
            ¬ (b0 &&& 0xEF = 0x61 ∧
              (b1 &&& 0x3F = 0x05 ∨ b1 &&& 0x3F = 0x06 ∨ b1 &&& 0x3F = 0x07)))) := by
  obtain ⟨h1, h2⟩ := Impl.waitEvent_spec s data timeout received event s1 hdata hrecv
  refine ⟨h1, fun ht => ⟨?_, ?_⟩⟩
  · obtain ⟨_, b0, b1, payload, hr, _⟩ :=
      (Impl.nciRecv_spec s _ timeout received event s1 rfl hrecv).2.2 ht
    exact ⟨b0, b1, payload, hr⟩
  · intro b0 b1 payload hr hroom hdemand
    obtain ⟨data1, hw, hp, hd⟩ := h2 ht b0 b1 payload hr hroom hdemand
    exact ⟨_, data1, hw, hp, hd, Impl.classify_cases b0 b1⟩

set_option maxRecDepth 100000 in
theorem waitEvent_classifies_witness :
    (ByteBuffer.alloc 16).position = 0 ∧
    sampleActivated.nciRecv (ByteBuffer.alloc 256) 50 =
      .ok (true, sampleActivatedEvent, sampleActivatedAfter) ∧
    ∃ code data1, sampleActivated.waitEvent (ByteBuffer.alloc 16) 50 =
        .ok (code, data1, sampleActivatedAfter) ∧
      data1.position = 0 ∧
      data1.readable = [1, 2, 4, 0x80, 255, 1, 4, 0x44, 0x03, 0x07, 0x20, 0x80, 0, 0, 0] ∧
      code ≠ EVENT_TIMEOUT ∧
      (code = EVENT_DATA ↔ 0x61 &&& 0xEF = 0x00) ∧
      (code = EVENT_CREDITS ↔ 0x61 &&& 0xEF = 0x60 ∧ 0x05 &&& 0x3F = 0x06) ∧
      (code = EVENT_ACTIVATED ↔ 0x61 &&& 0xEF = 0x61 ∧ 0x05 &&& 0x3F = 0x05) ∧
      (code = EVENT_DEACTIVATED ↔ 0x61 &&& 0xEF = 0x61 ∧ 0x05 &&& 0x3F = 0x06) ∧
      (code = EVENT_FIELD_INFO ↔ 0x61 &&& 0xEF = 0x61 ∧ 0x05 &&& 0x3F = 0x07) ∧
      (code = EVENT_UNKNOW ↔ ¬ (0x61 &&& 0xEF = 0x00) ∧
        ¬ (0x61 &&& 0xEF = 0x60 ∧ 0x05 &&& 0x3F = 0x06) ∧
        ¬ (0x61 &&& 0xEF = 0x61 ∧
          (0x05 &&& 0x3F = 0x05 ∨ 0x05 &&& 0x3F = 0x06 ∨ 0x05 &&& 0x3F = 0x07))) :=
  ⟨rfl, rfl, ((waitEvent_classifies sampleActivated (ByteBuffer.alloc 16) 50 true
    sampleActivatedEvent sampleActivatedAfter rfl rfl).2 rfl).2 0x61 0x05
    [1, 2, 4, 0x80, 255, 1, 4, 0x44, 0x03, 0x07, 0x20, 0x80, 0, 0, 0] rfl (by decide) (by decide)⟩

end PN7160
end hw

namespace hce

open rt rt.ByteBuffer

namespace tasks

namespace TargetListenerTask

/-- C19: while the task is listening, at a turn of the event loop of `process()` whose event is
an EVENT_DATA, with a target whose `process` returns a nonzero code on the request, the body of
the loop hands nothing to `sendData` and publishes the NfcRequestFrame alone (no
NfcResponseFrame): the world `w'` after the turn is `w` with one clock reading taken and that
frame published, and the task is `s` with the target's new state, its status still Listening.
The loop returns them when the event was the last one or a timeout follows, it goes on from
them with any other events, and `process()` returns them when the event was the only one
pending. -/
theorem listener_target_failure {σ : Type} (Listening : Int) (tgt : Target σ) (s : Impl σ)
    (w : World) (payload : List Nat) (rest : List (Int × List Nat))
    (request response filled resp : ByteBuffer) (st st' : σ) (code : Int)
    (hstatus : s.listenerStatus = Listening)
    (hfill : request.putBytes payload = .ok filled)
    (htarget : s.target = some st)
    (hproc : tgt.process st filled.flip response.clear = .ok (code, resp, st'))
    (hcode : code ≠ 0) :
    ∃ requestFrame s' w',
      Frame.ofData NfcATech NfcRequestFrame filled.flip w.timeMs.1 = .ok requestFrame ∧
      s' = { s with target := some st' } ∧ w' = w.timeMs.2.next requestFrame ∧
      onEvent tgt s w EVENT_DATA filled.flip response = .ok (s', w', resp) ∧
      processLoop tgt [(EVENT_DATA, payload)] s w request response = .ok (s', w', []) ∧
      (∀ p more, processLoop tgt ((EVENT_DATA, payload) :: (EVENT_TIMEOUT, p) :: more) s w
          request response = .ok (s', w', more)) ∧
      processLoop tgt ((EVENT_DATA, payload) :: rest) s w request response =
        processLoop tgt rest s' w' filled.flip.clear resp ∧
      (w.pending = [] → request = ByteBuffer.alloc 256 → response = ByteBuffer.alloc 256 →
        process Listening tgt s { w with pending := [(EVENT_DATA, payload)] } = .ok (s', w')) ∧
      s'.listenerStatus = Listening ∧ s'.target = some st' ∧
      w'.sent = w.sent ∧ w'.sendResults = w.sendResults ∧
      w'.frames = w.frames ++ [requestFrame] ∧
      requestFrame.frameType = NfcRequestFrame ∧
      requestFrame.frameType ≠ NfcResponseFrame := by
  obtain ⟨reqF, hreqF, hv1, -, hty1, -, -⟩ :=
    Frame.ofData_ok NfcATech NfcRequestFrame filled.flip w.timeMs.1
  have hev : onEvent tgt s w EVENT_DATA filled.flip response =
      .ok ({ s with target := some st' }, w.timeMs.2.next reqF, resp) := by
    unfold onEvent
    simp only [hreqF, bind, Except.bind, if_true, htarget, hproc, hv1, hcode, if_false, pure,
      Except.pure]
  have hturn : ∀ rest', processLoop tgt ((EVENT_DATA, payload) :: rest') s w request response =
      processLoop tgt rest' { s with target := some st' } (w.timeMs.2.next reqF)
        filled.flip.clear resp := by
    intro rest'
    rw [processLoop, if_neg (by decide), hfill]
    simp only [hev]
  have hpending : (w.timeMs.2.next reqF).pending = w.pending := by
    unfold World.timeMs World.next
    cases w.clock <;> rfl
  refine ⟨reqF, { s with target := some st' }, w.timeMs.2.next reqF, hreqF, rfl, rfl, hev, ?_,
    ?_, hturn rest, ?_, hstatus, rfl, ?_, ?_, ?_, hty1, by rw [hty1]; decide⟩
  · rw [hturn, processLoop]
  · intro p more
    rw [hturn, processLoop, if_pos rfl]
  · intro hpend hrq hrs
    subst hrq hrs
    unfold process
    rw [if_neg (by simp [hstatus])]
    simp only [pending_taken w _ hpend]
    rw [hturn, processLoop]
    simp only
    congr 2
    have : (w.timeMs.2.next reqF).pending = [] := by rw [hpending, hpend]
    generalize w.timeMs.2.next reqF = x at this
    cases x
    simp only at this
    subst this
    rfl
  · unfold World.timeMs World.next
    cases w.clock <;> rfl
  · unfold World.timeMs World.next
    cases w.clock <;> rfl
  · unfold World.timeMs World.next
    cases w.clock <;> rfl

set_option maxRecDepth 100000 in
theorem listener_target_failure_witness :
    (⟨1, some ()⟩ : Impl Unit).listenerStatus = 1 ∧
      (ByteBuffer.alloc 256).putBytes [0, 164] = .ok (writing [0, 164] 256) ∧
      (⟨1, some ()⟩ : Impl Unit).target = some () ∧
      sampleFailingTarget.process () (writing [0, 164] 256).flip (ByteBuffer.alloc 256).clear =
        .ok (1, (ByteBuffer.alloc 256).clear.flip, ()) ∧
      (1 : Int) ≠ 0 ∧
      ∃ requestFrame s' w',
        Frame.ofData NfcATech NfcRequestFrame (writing [0, 164] 256).flip
          (⟨[], [], [10, 12], [], []⟩ : World).timeMs.1 = .ok requestFrame ∧
        s' = { (⟨1, some ()⟩ : Impl Unit) with target := some () } ∧
        w' = (⟨[], [], [10, 12], [], []⟩ : World).timeMs.2.next requestFrame ∧
        onEvent sampleFailingTarget (⟨1, some ()⟩ : Impl Unit) ⟨[], [], [10, 12], [], []⟩
            EVENT_DATA (writing [0, 164] 256).flip (ByteBuffer.alloc 256) =
          .ok (s', w', (ByteBuffer.alloc 256).clear.flip) ∧
        processLoop sampleFailingTarget [(EVENT_DATA, [0, 164])]
            (⟨1, some ()⟩ : Impl Unit) ⟨[], [], [10, 12], [], []⟩
            (ByteBuffer.alloc 256) (ByteBuffer.alloc 256) = .ok (s', w', []) ∧
        (∀ p more, processLoop sampleFailingTarget
            ((EVENT_DATA, [0, 164]) :: (EVENT_TIMEOUT, p) :: more)
            (⟨1, some ()⟩ : Impl Unit) ⟨[], [], [10, 12], [], []⟩
            (ByteBuffer.alloc 256) (ByteBuffer.alloc 256) = .ok (s', w', more)) ∧
        processLoop sampleFailingTarget ((EVENT_DATA, [0, 164]) :: [])
            (⟨1, some ()⟩ : Impl Unit) ⟨[], [], [10, 12], [], []⟩
            (ByteBuffer.alloc 256) (ByteBuffer.alloc 256) =
          processLoop sampleFailingTarget [] s' w' (writing [0, 164] 256).flip.clear
            (ByteBuffer.alloc 256).clear.flip ∧
        ((⟨[], [], [10, 12], [], []⟩ : World).pending = [] →
          ByteBuffer.alloc 256 = ByteBuffer.alloc 256 →
          ByteBuffer.alloc 256 = ByteBuffer.alloc 256 →
          process 1 sampleFailingTarget (⟨1, some ()⟩ : Impl Unit)
              { (⟨[], [], [10, 12], [], []⟩ : World) with pending := [(EVENT_DATA, [0, 164])] } =
            .ok (s', w')) ∧
        s'.listenerStatus = 1 ∧ s'.target = some () ∧
        w'.sent = (⟨[], [], [10, 12], [], []⟩ : World).sent ∧
        w'.sendResults = (⟨[], [], [10, 12], [], []⟩ : World).sendResults ∧
        w'.frames = (⟨[], [], [10, 12], [], []⟩ : World).frames ++ [requestFrame] ∧
        requestFrame.frameType = NfcRequestFrame ∧
        requestFrame.frameType ≠ NfcResponseFrame :=
  ⟨rfl, rfl, rfl, rfl, by decide,
    listener_target_failure 1 sampleFailingTarget ⟨1, some ()⟩ ⟨[], [], [10, 12], [], []⟩
      [0, 164] [] (ByteBuffer.alloc 256) (ByteBuffer.alloc 256) (writing [0, 164] 256)
      (ByteBuffer.alloc 256).clear.flip () () 1 rfl rfl rfl rfl (by decide)⟩

end TargetListenerTask

end tasks

end hce

namespace hce

open rt

namespace targets.T4T

open Target

/-- `setParam` accepts a value exactly when it holds the alternative expected for the id. -/
theorem setParam_fst (t : T4T) (id : Int) (value : Variant) :
    (t.setParam id value).1 = expects id value := by
  unfold setParam expects
  simp only [PARAM_UID, PARAM_ATQA, PARAM_SAK, PARAM_RATS_TB1, PARAM_RATS_TC1, PARAM_RATS_HB]
  cases value <;> split_ifs <;> simp_all

/-- A value that `setParam` does not accept leaves the target as it was. -/
theorem setParam_snd (t : T4T) (id : Int) (value : Variant)
    (h : (t.setParam id value).1 = false) : (t.setParam id value).2 = t := by
  unfold setParam at h ⊢
  cases value <;> split_ifs at h ⊢ <;> rfl

/-- C20: a value whose alternative is not the one expected for the parameter id is rejected by
`T4T::set`: it returns false, the target is unchanged, and `get` returns for every id what it
returned before the call. For an id outside the enumeration every value is rejected so. -/
theorem set_rejects_mismatch (t : T4T) (id : Int) (value : Variant)
    (h : expects id value = false) :
    (t.set id value).1 = false ∧ (t.set id value).2 = t ∧
      (t.set id value).2.get id = t.get id ∧
      (∀ anyId, (t.set id value).2.get anyId = t.get anyId) ∧
      (id ≠ PARAM_UID → id ≠ PARAM_ATQA → id ≠ PARAM_SAK → id ≠ PARAM_RATS_TB1 →
        id ≠ PARAM_RATS_TC1 → id ≠ PARAM_RATS_HB →
        ∀ v, (t.set id v).1 = false ∧ (t.set id v).2 = t) := by
  have h1 : (t.setParam id value).1 = false := by rw [setParam_fst, h]
  have h2 := setParam_snd t id value h1
  refine ⟨h1, h2, ?_, ?_, ?_⟩
  · unfold set
    rw [h2]
  · intro anyId
    unfold set
    rw [h2]
  · intro n0 n1 n2 n3 n4 n5 v
    have e : (t.setParam id v).1 = false := by
      rw [setParam_fst]
      unfold expects
      cases v <;> simp [n0, n1, n2, n3, n4, n5]
    exact ⟨e, setParam_snd t id v e⟩

theorem set_rejects_mismatch_witness :
    expects PARAM_ATQA (.uchar 3) = false ∧
      (sampleT4T.set PARAM_ATQA (.uchar 3)).1 = false ∧
      (sampleT4T.set PARAM_ATQA (.uchar 3)).2 = sampleT4T ∧
      (sampleT4T.set PARAM_ATQA (.uchar 3)).2.get PARAM_ATQA = sampleT4T.get PARAM_ATQA ∧
      (∀ anyId, (sampleT4T.set PARAM_ATQA (.uchar 3)).2.get anyId = sampleT4T.get anyId) ∧
      (PARAM_ATQA ≠ PARAM_UID → PARAM_ATQA ≠ PARAM_ATQA → PARAM_ATQA ≠ PARAM_SAK →
        PARAM_ATQA ≠ PARAM_RATS_TB1 → PARAM_ATQA ≠ PARAM_RATS_TC1 →
        PARAM_ATQA ≠ PARAM_RATS_HB →
        ∀ v, (sampleT4T.set PARAM_ATQA v).1 = false ∧ (sampleT4T.set PARAM_ATQA v).2 = sampleT4T) :=
  ⟨rfl, set_rejects_mismatch sampleT4T PARAM_ATQA (.uchar 3) rfl⟩

end targets.T4T

end hce

namespace hce

open rt

namespace tasks.TargetListenerTask

theorem random_completions (h : Host) : h.random.2.completions = h.completions := by
  unfold Host.random
  cases h.randoms <;> rfl

theorem startDiscovery_completions (h : Host) (parameters : List hw.PN7160.Parameter) :
    (h.startDiscovery parameters).2.completions = h.completions := by
  unfold Host.startDiscovery
  rcases h.discoveryResults with _ | ⟨ok, rest⟩ <;> rfl

theorem getShort_atqa (t : targets.T4T) : getShort t Target.PARAM_ATQA = .ok t.targetATQA := rfl

theorem getChar_sak (t : targets.T4T) : getChar t Target.PARAM_SAK = .ok t.targetSAK := rfl

theorem getChar_tb1 (t : targets.T4T) : getChar t Target.PARAM_RATS_TB1 = .ok t.targetTB1 := rfl

theorem getChar_tc1 (t : targets.T4T) : getChar t Target.PARAM_RATS_TC1 = .ok t.targetTC1 := rfl

theorem getBuffer_uid (t : targets.T4T) : getBuffer t Target.PARAM_UID = .ok t.targetUID := rfl

theorem getBuffer_hb (t : targets.T4T) : getBuffer t Target.PARAM_RATS_HB = .ok t.targetHB := rfl

/-- `startListening` returns, and makes no call of `resolve` or `reject`. -/
theorem startListening_completions (codes : Codes) (s : Impl targets.T4T) (h : Host)
    (command : Command) :
    ∃ s1 h1, startListening codes s h command = .ok (s1, h1) ∧
      h1.completions = h.completions := by
  unfold startListening
  simp only [getShort_atqa, getChar_sak, getChar_tb1, getChar_tc1, getBuffer_uid, getBuffer_hb,
    bind, Except.bind, pure, Except.pure]
  split_ifs
  · exact ⟨_, _, rfl, by rw [startDiscovery_completions, random_completions]⟩
  · refine ⟨_, _, rfl, ?_⟩
    simp only [updateListenerStatus]
    rw [startDiscovery_completions, random_completions]

/-- `stopListening` makes no call of `resolve` or `reject`. -/
theorem stopListening_completions (codes : Codes) (s : Impl targets.T4T) (h : Host)
    (command : Command) :
    (stopListening codes s h command).2.completions = h.completions := by
  unfold stopListening updateListenerStatus Host.stopDiscovery
  split_ifs <;> rfl

/-- The end of `loop()` makes no call of `resolve` or `reject`, and what it returns is true. -/
theorem poll_completions (codes : Codes) (s : Impl targets.T4T) (w : World) (h : Host) :
    (poll codes s w h).map (fun r => (r.1, r.2.2.2.completions)) =
      (poll codes s w h).map (fun _ => (true, h.completions)) := by
  unfold poll
  by_cases ho : h.opened = true
  · rw [if_pos ho]
    cases process codes.Listening targets.T4T.target s w <;> rfl
  · rw [if_neg ho]
    unfold refresh Host.openDevice updateListenerStatus Host.wait
    rcases h.openResults with _ | ⟨ok, rest⟩
    · rfl
    · cases ok <;> rfl

/-- C17 fails on the code: a Start command and a Stop command that `loop()` takes from the
queue are neither resolved nor rejected when the call returns. Whenever `loop()` returns after
taking a Start command, the calls of `resolve` and `reject` are those made before, and
`stopListening` makes none either; and on an idle task with an open device `loop()` does
return, with true, for a Start and for a Stop command, the queue empty and no call of `resolve`
or `reject` made. -/
theorem loop_start_stop_not_completed :
    (∀ (wellFormed : String → Bool) (codes : Codes) (s : Impl targets.T4T) (w : World)
        (h : Host) (data : Option String) (rest : List Command),
      (loop wellFormed codes s w { h with queue := ⟨codes.Start, data⟩ :: rest }).map
          (fun r => (r.1, r.2.2.2.completions)) =
        (loop wellFormed codes s w { h with queue := ⟨codes.Start, data⟩ :: rest }).map
          (fun _ => (true, h.completions))) ∧
    (∀ (codes : Codes) (s : Impl targets.T4T) (h : Host) (command : Command),
      (stopListening codes s h command).2.completions = h.completions) ∧
    (loop sampleWellFormed sampleCodes sampleIdle sampleWorld
        (sampleHost ⟨sampleCodes.Start, none⟩)).map
      (fun r => (r.1, r.2.1.listenerStatus, r.2.2.2.queue, r.2.2.2.completions)) =
        .ok (true, sampleCodes.Listening, [], []) ∧
    (loop sampleWellFormed sampleCodes sampleIdle sampleWorld
        (sampleHost ⟨sampleCodes.Stop, none⟩)).map
      (fun r => (r.1, r.2.1.listenerStatus, r.2.2.2.queue, r.2.2.2.completions)) =
        .ok (true, sampleCodes.Idle, [], []) := by
  refine ⟨?_, stopListening_completions, rfl, rfl⟩
  intro wellFormed codes s w h data rest
  obtain ⟨s1, h1, e1, e2⟩ := startListening_completions codes s { h with queue := rest }
    ⟨codes.Start, data⟩
  simp only [loop, if_true, e1]
  rw [poll_completions, e2]

/-- What `configureTarget` does with a command that has a data text: on a well-formed text it
resolves the command, on any other the parse error leaves the function; it rejects with
InvalidConfig only a command without data. -/
theorem configureTarget_completions (wellFormed : String → Bool) (codes : Codes)
    (s : Impl targets.T4T) (h : Host) (code : Int) (text : String) :
    (configureTarget wellFormed codes s h ⟨code, some text⟩).map (fun r => r.2.completions) =
      if wellFormed text then .ok (h.completions ++ [(⟨code, some text⟩, .resolved)])
      else .error .parse_error := by
  unfold configureTarget
  simp only
  split_ifs <;> rfl

/-- C18 fails on the code: a Configure command whose data is not well-formed JSON is not
rejected. The parse error leaves `configureTarget` and `loop()`, which therefore does not
return true, and no call of `reject` is made; a command with a data text is never rejected,
whatever the text. -/
theorem loop_configure_malformed_escapes :
    loop sampleWellFormed sampleCodes sampleIdle sampleWorld
        (sampleHost ⟨sampleCodes.Configure, some "nul"⟩) = .error .parse_error ∧
    sampleWellFormed "nul" = false ∧
    (∀ (wellFormed : String → Bool) (codes : Codes) (s : Impl targets.T4T) (h : Host)
        (code : Int) (text : String),
      (configureTarget wellFormed codes s h ⟨code, some text⟩).map (fun r => r.2.completions) =
        if wellFormed text then .ok (h.completions ++ [(⟨code, some text⟩, .resolved)])
        else .error .parse_error) :=
  ⟨rfl, rfl, configureTarget_completions⟩

end tasks.TargetListenerTask

end hce

namespace hce

open rt rt.ByteBuffer

namespace CMAC

/-- On an input with nothing to read the padded buffer is empty, and the first index that the
loop over the last block uses on it is out of its bounds. -/
theorem prepare_empty (input k1 k2 : ByteBuffer) (size : Nat) (hin : input.remaining = 0)
    (hsize : 0 < size) : ∃ e, prepare input k1 k2 size = .error e := by
  have hr : input.readable = [] := by
    apply List.eq_nil_of_length_eq_zero
    have := length_readable_le input
    simp only [remaining] at hin
    simp only [readable, List.length_drop, List.length_take]
    omega
  obtain ⟨n, rfl⟩ : ∃ n, size = n + 1 := ⟨size - 1, by omega⟩
  unfold prepare
  simp only [hin, Nat.zero_mod, if_true, Nat.add_zero, gt_iff_lt, Nat.lt_irrefl, if_false]
  have hput : (ByteBuffer.zero 0).putBuffer input = .ok ⟨[], 0, 0⟩ := by
    unfold putBuffer putBytes
    rw [hr]
    rfl
  simp only [hput, bind, Except.bind]
  have hx : ∃ e, xorLastBlock ⟨[], 0, 0⟩ k1 (n + 1) = .error e := by
    unfold xorLastBlock
    rw [List.range_succ_eq_map, List.foldlM_cons]
    simp only [bind, Except.bind, getAt, ByteBuffer.size, Nat.not_lt_zero, if_false]
    cases hk : (if 0 < k1.limit then (Except.ok (k1.store.getD 0 0) : Except Fault Nat)
        else Except.error Fault.bounds) with
    | error e => exact ⟨e, rfl⟩
    | ok v => exact ⟨_, rfl⟩
  obtain ⟨e, he⟩ := hx
  exact ⟨e, by rw [he]⟩

/-- C26 fails on the code: on the empty input the padding is 0 and the padded buffer is empty,
so that the first index of the loop over the last block, `data.size() - size + 0`, wraps
around in unsigned arithmetic and lies outside the buffer. `cmac` returns on no key, IV and
mode for the empty input, and with the sample key it stops with the fault of an index out of
bounds in each of the three modes. -/
theorem cmac_empty_input_out_of_bounds :
    (∀ (P : Primitives) (key iv : ByteBuffer) (mode : Mode) (r : ByteBuffer),
      cmac P key (ByteBuffer.ofList []) iv mode ≠ .ok r) ∧
    cmac samplePrimitives (ByteBuffer.ofList sampleKey) (ByteBuffer.ofList [])
      (ByteBuffer.ofList (List.replicate 16 0)) .CmacAES128 = .error .bounds ∧
    cmac samplePrimitives (ByteBuffer.ofList sampleKey) (ByteBuffer.ofList [])
      (ByteBuffer.ofList (List.replicate 16 0)) .CmacAES128Trunc = .error .bounds ∧
    cmac samplePrimitives (ByteBuffer.ofList sampleKey) (ByteBuffer.ofList [])
      (ByteBuffer.ofList (List.replicate 8 0)) .CmacTDES = .error .bounds := by
  refine ⟨?_, rfl, rfl, rfl⟩
  intro P key iv mode r h
  unfold cmac at h
  cases hc : initCipher key mode with
  | error e => simp [hc, bind, Except.bind] at h
  | ok cipher =>
    cases hs : subkeys P cipher (blockSize mode) (blockMask mode) with
    | error e => simp [hc, hs, bind, Except.bind] at h
    | ok ks =>
      obtain ⟨k0, k1, k2⟩ := ks
      obtain ⟨e, he⟩ := prepare_empty (ByteBuffer.ofList []) k1 k2 (blockSize mode) rfl
        (by cases mode <;> decide)
      simp [hc, hs, he, bind, Except.bind] at h

end CMAC

namespace targets.T4T

open Target

/-- C21 fails on the code: `set(PARAM_UID, v)` accepts a buffer of any length. On a target
whose UID has 4 bytes, a value of 5 bytes is accepted (the result is true) and `get(PARAM_UID)`
then returns those 5 bytes; a value of no bytes is accepted as well. The check in `setParam`
is on the alternative of the variant only. -/
theorem set_uid_any_length :
    sampleT4T.get PARAM_UID = .buffer (ByteBuffer.ofList [1, 2, 3, 4]) ∧
    (sampleT4T.set PARAM_UID (.buffer (ByteBuffer.ofList [1, 2, 3, 4, 5]))).1 = true ∧
    (sampleT4T.set PARAM_UID (.buffer (ByteBuffer.ofList [1, 2, 3, 4, 5]))).2.get PARAM_UID =
      .buffer (ByteBuffer.ofList [1, 2, 3, 4, 5]) ∧
    (sampleT4T.set PARAM_UID (.buffer (ByteBuffer.ofList []))).1 = true ∧
    (∀ (t : T4T) (v : ByteBuffer), (t.set PARAM_UID (.buffer v)).1 = true ∧
      (t.set PARAM_UID (.buffer v)).2.get PARAM_UID = .buffer (ByteBuffer.ofList v.copied)) :=
  ⟨rfl, rfl, rfl, rfl, fun _ _ => ⟨rfl, rfl⟩⟩

end targets.T4T

end hce

namespace rt.ByteBuffer

/-- A step of a sequence that ends well has ended well. -/
theorem bind_ok {α β : Type} {x : Except Fault α} {f : α → Except Fault β} {r : β}
    (h : x >>= f = .ok r) : ∃ a, x = .ok a ∧ f a = .ok r := by
  cases x with
  | error e => cases h
  | ok a => exact ⟨a, rfl, h⟩

/-- A put that ends well has moved the cursor by the number of bytes, within the limit. -/
theorem putBytes_ok {b r : ByteBuffer} {xs : List Nat} (h : b.putBytes xs = .ok r) :
    r.position = b.position + xs.length ∧ r.limit = b.limit ∧ r.position ≤ r.limit := by
  unfold putBytes at h
  split at h
  · cases h
    exact ⟨rfl, rfl, by assumption⟩
  · cases h

end rt.ByteBuffer

namespace hw.HSU.Impl

open rt rt.ByteBuffer

set_option maxRecDepth 100000 in
/-- C30 fails on the code: the frame of a command of `n` bytes has `n + 7` bytes and the buffer
`tx` has 255, so that the frame of a command of 249 bytes, and of 255 bytes, does not fit: the
put of the postamble, or before it of the checksum or of the command, goes beyond the capacity.
A command of 248 bytes is the longest whose frame fits. -/
theorem hsu_frame_buffer_overflow :
    buildFrame (ByteBuffer.ofList (List.replicate 249 1)) = .error .overflow ∧
    buildFrame (ByteBuffer.ofList (List.replicate 255 1)) = .error .overflow ∧
    (∀ bytes : List Nat, 248 < bytes.length →
      ∀ tx, buildFrame (ByteBuffer.ofList bytes) ≠ .ok tx) ∧
    ∃ tx, buildFrame (ByteBuffer.ofList (List.replicate 248 1)) = .ok tx ∧ tx.limit = 255 := by
  refine ⟨rfl, rfl, ?_, ⟨_, rfl, rfl⟩⟩
  intro bytes hlen tx h
  unfold buildFrame at h
  obtain ⟨t1, h1, h⟩ := bind_ok h
  obtain ⟨t2, h2, h⟩ := bind_ok h
  obtain ⟨t3, h3, h⟩ := bind_ok h
  obtain ⟨t4, h4, h⟩ := bind_ok h
  obtain ⟨t5, h5, h⟩ := bind_ok h
  obtain ⟨t6, h6, _⟩ := bind_ok h
  obtain ⟨p1, l1, _⟩ := putBytes_ok h1
  obtain ⟨p2, l2, _⟩ := putBytes_ok h2
  obtain ⟨p3, l3, _⟩ := putBytes_ok h3
  obtain ⟨p4, l4, _⟩ := putBytes_ok h4
  obtain ⟨p5, l5, _⟩ := putBytes_ok h5
  obtain ⟨p6, l6, q6⟩ := putBytes_ok h6
  rw [readable_ofList] at p4
  simp only [alloc, List.length_cons, List.length_nil] at p1 l1 p2 p3 p5 p6
  omega

end hw.HSU.Impl

namespace std

open hce StreamModel

/-- In an ordered list the times do not decrease with the index. -/
theorem ordered_getElem {xs : List Frame} (h : Ordered xs) {i j : Nat} {x y : Frame}
    (hij : i ≤ j) (hx : xs[i]? = some x) (hy : xs[j]? = some y) : x.frameTime ≤ y.frameTime := by
  obtain ⟨hi, rfl⟩ := List.getElem?_eq_some_iff.mp hx
  obtain ⟨hj, rfl⟩ := List.getElem?_eq_some_iff.mp hy
  rcases Nat.lt_or_eq_of_le hij with hlt | rfl
  · exact (List.pairwise_iff_getElem.mp h) i j hi hj hlt
  · exact Nat.le_refl _

/-- The binary search keeps its invariant: the elements before `first` are less than the value,
those from `first + len` on are not, and the result lies between. -/
theorem lowerBoundLoop_spec (v : Frame) (xs : List Frame) (hs : Ordered xs) :
    ∀ (fuel first len : Nat), len < fuel → first + len ≤ xs.length →
      (∀ i x, i < first → xs[i]? = some x → x.frameTime < v.frameTime) →
      (∀ i x, first + len ≤ i → xs[i]? = some x → v.frameTime ≤ x.frameTime) →
      lowerBoundLoop fuel xs first len v ≤ xs.length ∧
        (∀ i x, i < lowerBoundLoop fuel xs first len v → xs[i]? = some x →
          x.frameTime < v.frameTime) ∧
        (∀ i x, lowerBoundLoop fuel xs first len v ≤ i → xs[i]? = some x →
          v.frameTime ≤ x.frameTime) := by
  intro fuel
  induction fuel with
  | zero => intro first len h; omega
  | succ n ih =>
    intro first len hfuel hlen hlow hhigh
    unfold lowerBoundLoop
    by_cases hl : len > 0
    · rw [if_pos hl]
      have hm : first + len / 2 < xs.length := by omega
      simp only [List.getElem?_eq_getElem hm]
      by_cases hc : (xs[first + len / 2]).lt v = true
      · rw [if_pos hc]
        have hc1 : (xs[first + len / 2]).frameTime < v.frameTime := by
          simpa [Frame.lt] using hc
        apply ih (first + len / 2 + 1) (len - len / 2 - 1) (by omega) (by omega)
        · intro i x hi hx
          have := ordered_getElem hs (Nat.le_of_lt_succ hi) hx (List.getElem?_eq_getElem hm)
          omega
        · intro i x hi hx
          exact hhigh i x (by omega) hx
      · rw [if_neg hc]
        have hc1 : v.frameTime ≤ (xs[first + len / 2]).frameTime := by
          simpa [Frame.lt] using hc
        apply ih first (len / 2) (by omega) (by omega) hlow
        intro i x hi hx
        have := ordered_getElem hs hi (List.getElem?_eq_getElem hm) hx
        omega
    · rw [if_neg hl]
      have : len = 0 := by omega
      subst this
      exact ⟨by omega, hlow, fun i x hi hx => hhigh i x (by omega) hx⟩

/-- On an ordered list `lower_bound` is the index that splits the list into the frames that are
less than the value and the frames that are not. -/
theorem lower_bound_spec (xs : List Frame) (v : Frame) (hs : Ordered xs) :
    lower_bound xs v ≤ xs.length ∧
      (∀ x ∈ xs.take (lower_bound xs v), x.frameTime < v.frameTime) ∧
      (∀ x ∈ xs.drop (lower_bound xs v), v.frameTime ≤ x.frameTime) := by
  have key : lower_bound xs v ≤ xs.length ∧
      (∀ i x, i < lower_bound xs v → xs[i]? = some x → x.frameTime < v.frameTime) ∧
      (∀ i x, lower_bound xs v ≤ i → xs[i]? = some x → v.frameTime ≤ x.frameTime) :=
    lowerBoundLoop_spec v xs hs (xs.length + 1) 0 xs.length (by omega)
      (by omega) (fun i x hi _ => absurd hi (Nat.not_lt_zero i))
      (fun i x hi hx => by
        obtain ⟨hlt, _⟩ := List.getElem?_eq_some_iff.mp hx
        omega)
  obtain ⟨h1, h2, h3⟩ := key
  refine ⟨h1, ?_, ?_⟩
  · intro x hx
    obtain ⟨i, hi, rfl⟩ := List.getElem_of_mem hx
    rw [List.getElem_take]
    rw [List.length_take] at hi
    exact h2 i _ (by omega) (List.getElem?_eq_getElem (by omega))
  · intro x hx
    obtain ⟨i, hi, rfl⟩ := List.getElem_of_mem hx
    rw [List.getElem_drop]
    rw [List.length_drop] at hi
    exact h3 _ _ (by omega) (List.getElem?_eq_getElem (by omega))

end std

namespace StreamModel

open hce

theorem takeWhile_split {p : Frame → Bool} : ∀ (A B : List Frame), (∀ x ∈ A, p x = true) →
    (∀ x ∈ B, p x = false) → (A ++ B).takeWhile p = A ∧ (A ++ B).dropWhile p = B := by
  intro A
  induction A with
  | nil =>
    intro B _ hB
    cases B with
    | nil => exact ⟨rfl, rfl⟩
    | cons b bs =>
      have hb := hB b (List.mem_cons_self _ _)
      simp [List.takeWhile, List.dropWhile, hb]
  | cons a as ih =>
    intro B hA hB
    have ha := hA a (List.mem_cons_self _ _)
    obtain ⟨h1, h2⟩ := ih B (fun x hx => hA x (List.mem_cons_of_mem _ hx)) hB
    simp [List.takeWhile, List.dropWhile, ha, h1, h2]

/-- On an ordered list the insertion of `fetchMore` puts the frame before the first frame whose
time is not smaller. -/
theorem insertAt_lower_bound (xs : List Frame) (v : Frame) (hs : Ordered xs) :
    insertAt xs (std.lower_bound xs v) v = merged xs v := by
  obtain ⟨_, h2, h3⟩ := std.lower_bound_spec xs v hs
  obtain ⟨e1, e2⟩ := takeWhile_split (p := fun x => decide (x.frameTime < v.frameTime))
    (xs.take (std.lower_bound xs v)) (xs.drop (std.lower_bound xs v))
    (fun x hx => by simpa using h2 x hx) (fun x hx => by simpa using h3 x hx)
  rw [List.take_append_drop] at e1 e2
  unfold insertAt merged
  rw [e1, e2]

theorem merged_perm (xs : List Frame) (v : Frame) : (merged xs v).Perm (v :: xs) := by
  unfold merged
  refine List.perm_middle.trans (List.Perm.cons _ ?_)
  rw [List.takeWhile_append_dropWhile]

theorem merged_ordered (xs : List Frame) (v : Frame) (hs : Ordered xs) :
    Ordered (merged xs v) := by
  unfold merged Ordered
  have hsplit := List.takeWhile_append_dropWhile (fun x => decide (x.frameTime < v.frameTime)) xs
  have hs2 : (xs.takeWhile (fun x => decide (x.frameTime < v.frameTime)) ++
      xs.dropWhile (fun x => decide (x.frameTime < v.frameTime))).Pairwise
        (fun a b => a.frameTime ≤ b.frameTime) := by
    rw [hsplit]
    exact hs
  rw [List.pairwise_append] at hs2 ⊢
  obtain ⟨p1, p2, p3⟩ := hs2
  have hlow : ∀ x ∈ xs.takeWhile (fun x => decide (x.frameTime < v.frameTime)),
      x.frameTime < v.frameTime := by
    intro x hx
    simpa using List.mem_takeWhile_imp hx
  have hhigh : ∀ x ∈ xs.dropWhile (fun x => decide (x.frameTime < v.frameTime)),
      v.frameTime ≤ x.frameTime := by
    intro x hx
    cases hd : xs.dropWhile (fun x => decide (x.frameTime < v.frameTime)) with
    | nil => rw [hd] at hx; cases hx
    | cons y ys =>
      have hy : ¬ (y.frameTime < v.frameTime) := by
        have := List.head_dropWhile_not (fun x => decide (x.frameTime < v.frameTime)) xs
          (by rw [hd]; exact List.cons_ne_nil _ _)
        simp only [hd, List.head_cons] at this
        simpa using this
      rw [hd] at hx p2
      rcases List.mem_cons.mp hx with rfl | hmem
      · omega
      · have := (List.pairwise_cons.mp p2).1 x hmem
        omega
  refine ⟨p1, List.pairwise_cons.mpr ⟨hhigh, p2⟩, ?_⟩
  intro a ha b hb
  rcases List.mem_cons.mp hb with rfl | hmem
  · exact Nat.le_of_lt (hlow a ha)
  · exact p3 a ha b hmem

/-- The loop of `fetchMore` on an ordered list: frame after frame is merged in, the list stays
ordered and holds the frames it had and those of the queue. -/
theorem fetchLoop_spec : ∀ (stream frames : List Frame), Ordered frames →
    fetchLoop frames stream = stream.foldl merged frames ∧
      Ordered (fetchLoop frames stream) ∧ (fetchLoop frames stream).Perm (frames ++ stream) := by
  intro stream
  induction stream with
  | nil =>
    intro frames hs
    exact ⟨rfl, hs, by simp [fetchLoop]⟩
  | cons f rest ih =>
    intro frames hs
    obtain ⟨h1, h2, h3⟩ := ih (merged frames f) (merged_ordered frames f hs)
    unfold fetchLoop
    rw [insertAt_lower_bound frames f hs]
    refine ⟨h1, h2, h3.trans ?_⟩
    have := (merged_perm frames f).append_right rest
    refine this.trans ?_
    simp only [List.cons_append]
    exact List.perm_middle.symm

/-- Two frames with different times can be merged in either order. -/
theorem merged_comm (a b : Frame) (hab : a.frameTime < b.frameTime) :
    ∀ xs : List Frame, merged (merged xs a) b = merged (merged xs b) a := by
  intro xs
  induction xs with
  | nil => simp [merged, List.takeWhile, List.dropWhile, hab, Nat.lt_asymm hab]
  | cons x xs ih =>
    unfold merged at ih ⊢
    by_cases h1 : x.frameTime < a.frameTime
    · have h2 : x.frameTime < b.frameTime := by omega
      simp only [List.takeWhile, List.dropWhile, h1, h2, decide_True, List.cons_append]
      rw [ih]
    · by_cases h2 : x.frameTime < b.frameTime
      · simp [List.takeWhile, List.dropWhile, h1, h2, hab, Nat.lt_asymm hab]
      · simp [List.takeWhile, List.dropWhile, h1, h2, hab, Nat.lt_asymm hab]

/-- The earlier of two merged frames stands before the later one. -/
theorem merged_before (a b : Frame) (hab : a.frameTime < b.frameTime) (xs : List Frame) :
    ∃ l1 l2 l3, merged (merged xs a) b = l1 ++ a :: (l2 ++ b :: l3) := by
  refine ⟨xs.takeWhile (fun x => decide (x.frameTime < a.frameTime)),
    (xs.dropWhile (fun x => decide (x.frameTime < a.frameTime))).takeWhile
      (fun x => decide (x.frameTime < b.frameTime)),
    (xs.dropWhile (fun x => decide (x.frameTime < a.frameTime))).dropWhile
      (fun x => decide (x.frameTime < b.frameTime)), ?_⟩
  have hT : ∀ x ∈ xs.takeWhile (fun x => decide (x.frameTime < a.frameTime)),
      (fun x : Frame => decide (x.frameTime < b.frameTime)) x = true := by
    intro x hx
    have : x.frameTime < a.frameTime := by simpa using List.mem_takeWhile_imp hx
    simp only [decide_eq_true_eq]
    omega
  unfold merged
  rw [List.takeWhile_append_of_pos hT, List.dropWhile_append_of_pos hT]
  simp [List.takeWhile, List.dropWhile, hab]

/-- Frames that carry the same time, merged one after the other, end up in the reverse of the
order in which they were merged, before the frames of the list that are not earlier. -/
theorem foldl_merged_same_time (t : Nat) : ∀ (stream xs : List Frame),
    (∀ f ∈ stream, f.frameTime = t) →
    stream.foldl merged xs = xs.takeWhile (fun x => decide (x.frameTime < t)) ++
      stream.reverse ++ xs.dropWhile (fun x => decide (x.frameTime < t)) := by
  intro stream
  induction stream with
  | nil =>
    intro xs _
    simp
  | cons f rest ih =>
    intro xs h
    have hf : f.frameTime = t := h f (List.mem_cons_self _ _)
    rw [List.foldl_cons, ih (merged xs f) (fun g hg => h g (List.mem_cons_of_mem _ hg))]
    have hT : ∀ x ∈ xs.takeWhile (fun x => decide (x.frameTime < t)),
        (fun x : Frame => decide (x.frameTime < t)) x = true := by
      intro x hx
      have : x.frameTime < t := by simpa using List.mem_takeWhile_imp hx
      simpa using this
    unfold merged
    rw [hf, List.takeWhile_append_of_pos hT, List.dropWhile_append_of_pos hT]
    simp [List.takeWhile, List.dropWhile, hf]

/-- Among the frames of one time, a merged frame of that time comes first; a merged frame of
another time does not show. -/
theorem filter_merged (t : Nat) (xs : List Frame) (f : Frame) :
    (merged xs f).filter (fun x => decide (x.frameTime = t)) =
      (if f.frameTime = t then [f] else []) ++ xs.filter (fun x => decide (x.frameTime = t)) := by
  have hsplit := List.takeWhile_append_dropWhile (fun x => decide (x.frameTime < f.frameTime)) xs
  have hxs : xs.filter (fun x => decide (x.frameTime = t)) =
      (xs.takeWhile (fun x => decide (x.frameTime < f.frameTime))).filter
          (fun x => decide (x.frameTime = t)) ++
        (xs.dropWhile (fun x => decide (x.frameTime < f.frameTime))).filter
          (fun x => decide (x.frameTime = t)) := by
    rw [← List.filter_append, hsplit]
  unfold merged
  rw [List.filter_append, List.filter_cons, hxs]
  by_cases hf : f.frameTime = t
  · subst hf
    have hT : (xs.takeWhile (fun x => decide (x.frameTime < f.frameTime))).filter
        (fun x => decide (x.frameTime = f.frameTime)) = [] := by
      rw [List.filter_eq_nil_iff]
      intro x hx
      have : x.frameTime < f.frameTime := by simpa using List.mem_takeWhile_imp hx
      simp only [decide_eq_true_eq]
      omega
    simp [hT]
  · simp [hf]

/-- The frames of one time in the list after the loop of `fetchMore`: those of the queue in the
reverse of their order of arrival, then those that were listed. -/
theorem filter_foldl_merged (t : Nat) : ∀ (stream xs : List Frame),
    (stream.foldl merged xs).filter (fun x => decide (x.frameTime = t)) =
      (stream.filter (fun x => decide (x.frameTime = t))).reverse ++
        xs.filter (fun x => decide (x.frameTime = t)) := by
  intro stream
  induction stream with
  | nil => intro xs; simp
  | cons f rest ih =>
    intro xs
    rw [List.foldl_cons, ih, filter_merged, List.filter_cons]
    by_cases hf : f.frameTime = t
    · simp [hf]
    · simp [hf]

/-- C22: `fetchMore` keeps the frame list ordered by time. When the list is ordered before the
call, then after it the queue is empty, the list is ordered, and it is a permutation of the old
list followed by the queued frames. For two frames `a`, `b` with `a.frameTime < b.frameTime`,
`a < b` holds, and queueing them in either order of arrival gives the same list, with `a`
before `b`. -/
theorem fetchMore_keeps_order (m : Impl) (h : Ordered m.frames) :
    (fetchMore m).stream = [] ∧ Ordered (fetchMore m).frames ∧
      (fetchMore m).frames.Perm (m.frames ++ m.stream) ∧
      ∀ a b : Frame, a.frameTime < b.frameTime →
        a.lt b = true ∧
        (fetchMore (append (append ⟨m.frames, []⟩ a) b)).frames =
          (fetchMore (append (append ⟨m.frames, []⟩ b) a)).frames ∧
        ∃ l1 l2 l3, (fetchMore (append (append ⟨m.frames, []⟩ a) b)).frames =
          l1 ++ a :: (l2 ++ b :: l3) := by
  obtain ⟨_, h2, h3⟩ := fetchLoop_spec m.stream m.frames h
  refine ⟨rfl, h2, h3, ?_⟩
  intro a b hab
  have e1 : (fetchMore (append (append ⟨m.frames, []⟩ a) b)).frames =
      merged (merged m.frames a) b := (fetchLoop_spec [a, b] m.frames h).1
  have e2 : (fetchMore (append (append ⟨m.frames, []⟩ b) a)).frames =
      merged (merged m.frames b) a := (fetchLoop_spec [b, a] m.frames h).1
  refine ⟨by simpa [Frame.lt] using hab, ?_, ?_⟩
  · rw [e1, e2]
    exact merged_comm a b hab m.frames
  · rw [e1]
    exact merged_before a b hab m.frames

theorem fetchMore_keeps_order_witness :
    Ordered sampleModel.frames ∧
      ((fetchMore sampleModel).stream = [] ∧ Ordered (fetchMore sampleModel).frames ∧
      (fetchMore sampleModel).frames.Perm (sampleModel.frames ++ sampleModel.stream) ∧
      ∀ a b : Frame, a.frameTime < b.frameTime →
        a.lt b = true ∧
        (fetchMore (append (append ⟨sampleModel.frames, []⟩ a) b)).frames =
          (fetchMore (append (append ⟨sampleModel.frames, []⟩ b) a)).frames ∧
        ∃ l1 l2 l3, (fetchMore (append (append ⟨sampleModel.frames, []⟩ a) b)).frames =
          l1 ++ a :: (l2 ++ b :: l3)) :=
  ⟨by unfold Ordered; decide, fetchMore_keeps_order sampleModel (by unfold Ordered; decide)⟩

/-- C27: on an ordered list, `fetchMore` puts each frame it takes from the queue before every
listed frame whose time is greater than or equal to its own, and after every listed frame
whose time is smaller; so frames that carry the same time end up in the list in the reverse of
the order in which they arrived: for every time, the frames of that time in the list after
the call are those of the queue in reverse order, followed by those that were listed; and when
all queued frames carry one time, they stand in reverse order between the listed frames that
are earlier and those that are not. -/
theorem fetchMore_equal_times_reversed (m : Impl) (h : Ordered m.frames) :
    (∀ frame rest, m.stream = frame :: rest →
      ∃ before after, m.frames = before ++ after ∧
        (∀ x ∈ before, x.frameTime < frame.frameTime) ∧
        (∀ x ∈ after, frame.frameTime ≤ x.frameTime) ∧
        fetchMore m = fetchMore ⟨before ++ frame :: after, rest⟩) ∧
    (∀ t, (fetchMore m).frames.filter (fun x => decide (x.frameTime = t)) =
      (m.stream.filter (fun x => decide (x.frameTime = t))).reverse ++
        m.frames.filter (fun x => decide (x.frameTime = t))) ∧
    (∀ t, (∀ f ∈ m.stream, f.frameTime = t) →
      (fetchMore m).frames = m.frames.takeWhile (fun x => decide (x.frameTime < t)) ++
        m.stream.reverse ++ m.frames.dropWhile (fun x => decide (x.frameTime < t))) := by
  refine ⟨?_, ?_, ?_⟩
  · intro frame rest hst
    obtain ⟨_, h2, h3⟩ := std.lower_bound_spec m.frames frame h
    refine ⟨m.frames.take (std.lower_bound m.frames frame),
      m.frames.drop (std.lower_bound m.frames frame), (List.take_append_drop _ _).symm, h2, h3, ?_⟩
    unfold fetchMore
    rw [hst]
    rfl
  · intro t
    show (fetchLoop m.frames m.stream).filter _ = _
    rw [(fetchLoop_spec m.stream m.frames h).1]
    exact filter_foldl_merged t m.stream m.frames
  · intro t ht
    show fetchLoop m.frames m.stream = _
    rw [(fetchLoop_spec m.stream m.frames h).1]
    exact foldl_merged_same_time t m.stream m.frames ht

theorem fetchMore_equal_times_reversed_witness :
    Ordered sampleModel.frames ∧
      (fetchMore sampleModel).frames = [sampleFrame 1 10, sampleFrame 5 15, sampleFrame 4 15,
        sampleFrame 3 15, sampleFrame 2 20] ∧
      ((∀ frame rest, sampleModel.stream = frame :: rest →
        ∃ before after, sampleModel.frames = before ++ after ∧
          (∀ x ∈ before, x.frameTime < frame.frameTime) ∧
          (∀ x ∈ after, frame.frameTime ≤ x.frameTime) ∧
          fetchMore sampleModel = fetchMore ⟨before ++ frame :: after, rest⟩) ∧
      (∀ t, (fetchMore sampleModel).frames.filter (fun x => decide (x.frameTime = t)) =
        (sampleModel.stream.filter (fun x => decide (x.frameTime = t))).reverse ++
          sampleModel.frames.filter (fun x => decide (x.frameTime = t))) ∧
      (∀ t, (∀ f ∈ sampleModel.stream, f.frameTime = t) →
        (fetchMore sampleModel).frames =
          sampleModel.frames.takeWhile (fun x => decide (x.frameTime < t)) ++
            sampleModel.stream.reverse ++
            sampleModel.frames.dropWhile (fun x => decide (x.frameTime < t)))) :=
  ⟨by unfold Ordered; decide, by decide,
    fetchMore_equal_times_reversed sampleModel (by unfold Ordered; decide)⟩

end StreamModel

namespace hw.MPSSE.Impl

open rt

/-- Above 6 MHz the base clock is smaller than the frequency, the quotient is 0 and the divisor
wraps around; the denominator of the effective clock is then 0. -/
theorem divisor_above_six (freq : Nat) (h : CLK_6MHZ < freq) (hf : freq < 4294967296) :
    divisor freq = 4294967295 ∧ denominator freq = 0 := by
  have hd : divisor freq = 4294967295 := by
    unfold divisor baseClock
    unfold CLK_6MHZ at h ⊢
    rw [if_pos (by omega), if_pos h, Nat.div_eq_of_lt h]
  exact ⟨hd, by unfold denominator; rw [hd]⟩

/-- Up to 6 MHz the divisor does not wrap and the denominator is not 0. -/
theorem divisor_up_to_six (freq : Nat) (h0 : 0 < freq) (h : freq ≤ CLK_6MHZ) :
    divisor freq + 1 = CLK_12MHZ / freq / 2 ∧ 0 < denominator freq := by
  unfold CLK_6MHZ at h
  have hq : 2 ≤ 12000000 / freq := by
    rw [Nat.le_div_iff_mul_le h0]
    omega
  have hq2 : 12000000 / freq ≤ 12000000 := Nat.div_le_self _ _
  have hd : divisor freq + 1 = 12000000 / freq / 2 := by
    unfold divisor baseClock
    unfold CLK_6MHZ CLK_12MHZ
    rw [if_pos h0, if_neg (by omega)]
    omega
  refine ⟨hd, ?_⟩
  unfold denominator
  omega

/-- C29 fails on the code: for a frequency above 6 MHz `setClock` selects the base clock
`CLK_6MHZ`, so that `sck / freq` is 0, the divisor `(sck / freq) / 2 - 1` wraps around to
4294967295 and the denominator `(1 + div) * 2` of the effective clock is 0. This is so for
every frequency above 6 MHz, among them the values 10, 12, 15, 30 and 60 MHz of the `Clock`
enumeration; with 10 MHz on a chip that takes both commands, `setClock` ends in the division by
zero. Up to 6 MHz the divisor does not wrap and the denominator is not 0. -/
theorem setClock_divisor_wraps :
    baseClock CLK_10MHZ = CLK_6MHZ ∧ divisor CLK_10MHZ = 4294967295 ∧
    denominator CLK_10MHZ = 0 ∧
    setClock ⟨[], [], 0⟩ CLK_10MHZ = .error .arithmetic ∧
    ([CLK_10MHZ, CLK_12MHZ, CLK_15MHZ, CLK_30MHZ, CLK_60MHZ].map
      (fun freq => (divisor freq, denominator freq)) =
        List.replicate 5 (4294967295, 0)) ∧
    (∀ freq, CLK_6MHZ < freq → freq < 4294967296 →
      divisor freq = 4294967295 ∧ denominator freq = 0) ∧
    (∀ freq, 0 < freq → freq ≤ CLK_6MHZ →
      divisor freq + 1 = CLK_12MHZ / freq / 2 ∧ 0 < denominator freq) ∧
    ∃ s1, setClock ⟨[], [], 0⟩ CLK_1MHZ = .ok (true, s1) ∧ s1.clock = CLK_1MHZ :=
  ⟨rfl, rfl, rfl, rfl, rfl, divisor_above_six, divisor_up_to_six, ⟨_, rfl, rfl⟩⟩

end hw.MPSSE.Impl

namespace hw.PN532

open rt

/-- C28 fails on the code: `tgInitAsTarget` lets a response of two bytes pass its length check
(`res.limit() < 2`) and then reads the mode byte at index 2, which is the limit of that
response, and asks for `res.limit() - 3` bytes from index 3, a count that wraps around to
4294967295. In the model the read at the limit is the fault `bounds`, for every response of
two bytes. `tgGetData`, which checks `res.limit() < 3`, returns -1 on a response of two bytes;
a response of three bytes or more is read by `tgInitAsTarget` within its limit. -/
theorem tgInitAsTarget_short_response :
    Impl.tgInitAsTarget ⟨some (sampleReply [0xD5, 0x8D])⟩ 0 (ByteBuffer.alloc 256)
      = .error .bounds ∧
    Impl.copyCount (ByteBuffer.writing [0xD5, 0x8D] 256).flip = 4294967295 ∧
    (∀ (b0 b1 mode : Nat) (init : ByteBuffer),
      Impl.tgInitAsTarget ⟨some (sampleReply [b0, b1])⟩ mode init = .error .bounds) ∧
    (∀ (b0 b1 status : Nat) (data : ByteBuffer),
      Impl.tgGetData ⟨some (sampleReply [b0, b1])⟩ data status = .ok (-1, data, status)) ∧
    Impl.tgInitAsTarget ⟨some (sampleReply [0xD5, 0x8D, 0x08, 0xE0, 0x80])⟩ 0
      (ByteBuffer.alloc 16) = .ok (0, 0x08, (ByteBuffer.writing [0xE0, 0x80] 16).flip) ∧
    Impl.tgInitAsTarget ⟨some (sampleReply [0xD5])⟩ 0 (ByteBuffer.alloc 16)
      = .ok (-1, 0, ByteBuffer.alloc 16) :=
  ⟨rfl, rfl, fun _ _ _ _ => rfl, fun _ _ _ _ => rfl, rfl, rfl⟩

/-- C25 fails on the code: when the transmit function reports a timeout (-2), ten of the eleven
commands return -1, not -2: they test `transmit(...) != 0` and return -1 whatever the negative
code. Only `tgInitAsTarget` hands the code on. When the transmit function reports a transmit
error (-1), every command returns -1. -/
theorem pn532_timeout_not_handed_on :
    ((Impl.getFirmwareVersion ⟨some sampleTimeout⟩ ⟨0, 0, 0, 0⟩).map (·.1) = .ok (-1) ∧
      (Impl.getGeneralStatus ⟨some sampleTimeout⟩ ⟨0, 0, 0, 0, 0, 0, 0, 0, 0, 0, 0, 0⟩).map (·.1)
        = .ok (-1) ∧
      Impl.setParameters ⟨some sampleTimeout⟩ 0x14 = .ok (-1) ∧
      Impl.setSAMConfiguration ⟨some sampleTimeout⟩ 1 0 0 = .ok (-1) ∧
      Impl.powerDown ⟨some sampleTimeout⟩ 0x20 1 = .ok (-1) ∧
      (Impl.readRegister ⟨some sampleTimeout⟩ 0x6301 0).map (·.1) = .ok (-1) ∧
      Impl.writeRegister ⟨some sampleTimeout⟩ 0x6301 0 = .ok (-1) ∧
      (Impl.tgGetData ⟨some sampleTimeout⟩ (ByteBuffer.alloc 16) 0).map (·.1) = .ok (-1) ∧
      (Impl.tgSetData ⟨some sampleTimeout⟩ (ByteBuffer.ofList [0x90, 0x00]) 0).map (·.1)
        = .ok (-1) ∧
      (Impl.tgResponseToInitiator ⟨some sampleTimeout⟩ (ByteBuffer.ofList [0x90, 0x00]) 0).map
        (·.1) = .ok (-1) ∧
      (Impl.tgInitAsTarget ⟨some sampleTimeout⟩ 0 (ByteBuffer.alloc 16)).map (·.1) = .ok (-2)) ∧
    ((Impl.getFirmwareVersion ⟨some sampleError⟩ ⟨0, 0, 0, 0⟩).map (·.1) = .ok (-1) ∧
      (Impl.getGeneralStatus ⟨some sampleError⟩ ⟨0, 0, 0, 0, 0, 0, 0, 0, 0, 0, 0, 0⟩).map (·.1)
        = .ok (-1) ∧
      Impl.setParameters ⟨some sampleError⟩ 0x14 = .ok (-1) ∧
      Impl.setSAMConfiguration ⟨some sampleError⟩ 1 0 0 = .ok (-1) ∧
      Impl.powerDown ⟨some sampleError⟩ 0x20 1 = .ok (-1) ∧
      (Impl.readRegister ⟨some sampleError⟩ 0x6301 0).map (·.1) = .ok (-1) ∧
      Impl.writeRegister ⟨some sampleError⟩ 0x6301 0 = .ok (-1) ∧
      (Impl.tgGetData ⟨some sampleError⟩ (ByteBuffer.alloc 16) 0).map (·.1) = .ok (-1) ∧
      (Impl.tgSetData ⟨some sampleError⟩ (ByteBuffer.ofList [0x90, 0x00]) 0).map (·.1)
        = .ok (-1) ∧
      (Impl.tgResponseToInitiator ⟨some sampleError⟩ (ByteBuffer.ofList [0x90, 0x00]) 0).map
        (·.1) = .ok (-1) ∧
      (Impl.tgInitAsTarget ⟨some sampleError⟩ 0 (ByteBuffer.alloc 16)).map (·.1) = .ok (-1)) ∧
    (∀ (g : ByteBuffer → ByteBuffer → Int → ByteBuffer) (version : FwVersion),
      Impl.getFirmwareVersion ⟨some (fun c r t => (-2, g c r t))⟩ version = .ok (-1, version)) ∧
    (∀ (g : ByteBuffer → ByteBuffer → Int → ByteBuffer) (status : Nat) (data : ByteBuffer),
      Impl.tgGetData ⟨some (fun c r t => (-2, g c r t))⟩ data status = .ok (-1, data, status)) :=
  ⟨⟨rfl, rfl, rfl, rfl, rfl, rfl, rfl, rfl, rfl, rfl, rfl⟩,
    ⟨rfl, rfl, rfl, rfl, rfl, rfl, rfl, rfl, rfl, rfl, rfl⟩, fun _ _ => rfl, fun _ _ _ => rfl⟩

end hw.PN532

namespace hw

open rt rt.ByteBuffer

namespace PCSC

/-- `control` with a response buffer that is empty and open up to its capacity: without a card
handle nothing is sent; else the command goes out, and the call succeeds when a reply comes
that fits the buffer, which then holds the reply, ready to be read. -/
theorem control_spec (p : PCSC) (code : Nat) (cmd resp : ByteBuffer) (hpos : resp.position = 0)
    (hlim : resp.limit = resp.capacity) :
    control p code cmd resp =
      if p.connected = false then .ok (-1, resp, p)
      else match p.controlResults.head? with
        | some (some reply) =>
          if resp.capacity < reply.length then
            .ok (-1, resp, { p with calls := p.calls ++ [(code, cmd.store.take cmd.remaining)],
                                    controlResults := p.controlResults.tail })
          else .ok (0, ⟨reply ++ resp.store.drop reply.length, 0, reply.length⟩,
            { p with calls := p.calls ++ [(code, cmd.store.take cmd.remaining)],
                     controlResults := p.controlResults.tail })
        | _ => .ok (-1, resp, { p with calls := p.calls ++ [(code, cmd.store.take cmd.remaining)],
                                       controlResults := p.controlResults.tail }) := by
  unfold control
  by_cases hc : p.connected = false
  · rw [if_pos hc, if_pos hc]
  · rw [if_neg hc, if_neg hc]
    rcases hh : p.controlResults.head? with _ | _ | reply
    · rfl
    · rfl
    · simp only
      by_cases hfit : resp.capacity < reply.length
      · rw [if_pos hfit, if_pos hfit]
      · rw [if_neg hfit, if_neg hfit, if_neg (by rw [hpos]; omega)]
        unfold push
        simp only [hpos, Nat.zero_add, List.take_zero, List.nil_append]
        rw [if_pos (by rw [hlim]; omega)]
        rfl

end PCSC

namespace ACR122U

/-- The escape command that `directTx` builds, put by put, for a command at position 0 of at
most 255 bytes. -/
theorem directCmd_spec (cmd : ByteBuffer) (hpos : cmd.position = 0) (hlen : cmd.limit ≤ 255)
    (hcap : cmd.limit ≤ cmd.capacity) :
    (ByteBuffer.alloc (5 + cmd.remaining)).putBytes [0xFF, 0x00, 0x00, 0x00] =
      .ok (writing [0xFF, 0x00, 0x00, 0x00] (5 + cmd.limit)) ∧
    (writing [0xFF, 0x00, 0x00, 0x00] (5 + cmd.limit)).put cmd.limit =
      .ok (writing [0xFF, 0x00, 0x00, 0x00, cmd.limit] (5 + cmd.limit)) ∧
    (writing [0xFF, 0x00, 0x00, 0x00, cmd.limit] (5 + cmd.limit)).putBytes cmd.content =
      .ok (writing ([0xFF, 0x00, 0x00, 0x00, cmd.limit] ++ cmd.content) (5 + cmd.limit)) ∧
    (writing ([0xFF, 0x00, 0x00, 0x00, cmd.limit] ++ cmd.content) (5 + cmd.limit)).flip =
      ByteBuffer.ofList ([0xFF, 0x00, 0x00, 0x00, cmd.limit] ++ cmd.content) ∧
    cmd.content.length = cmd.limit := by
  have hc : cmd.content.length = cmd.limit := by
    unfold content capacity at *
    rw [List.length_take]
    omega
  have hr : cmd.remaining = cmd.limit := by
    unfold remaining
    omega
  have g1 : ([] : List Nat).length + [0xFF, 0x00, 0x00, 0x00].length ≤ 5 + cmd.limit := by
    simp only [List.length_nil, List.length_cons]
    omega
  have g2 : ([0xFF, 0x00, 0x00, 0x00] : List Nat).length + 1 ≤ 5 + cmd.limit := by
    simp only [List.length_nil, List.length_cons]
    omega
  have g3 : ([0xFF, 0x00, 0x00, 0x00, cmd.limit] : List Nat).length +
      cmd.content.length ≤ 5 + cmd.limit := by
    simp only [List.length_nil, List.length_cons, hc]
    omega
  refine ⟨?_, ?_, putBytes_writing _ _ _ g3, ?_, hc⟩
  · rw [hr, alloc_eq_writing, putBytes_writing [] _ _ g1]
    rfl
  · rw [put_writing _ _ _ g2, Nat.mod_eq_of_lt (by omega)]
    rfl
  · apply flip_writing_full
    simp only [List.length_append, List.length_cons, List.length_nil, hc]

/-- The two last bytes of a list are 0x90 and 0x00 exactly when the list ends with them. -/
theorem ends_with_status (reply : List Nat) (h2 : 2 ≤ reply.length) :
    (reply.getD (reply.length - 2) 0 = 0x90 ∧ reply.getD (reply.length - 1) 0 = 0x00) ↔
      reply = reply.take (reply.length - 2) ++ [0x90, 0x00] := by
  have hsplit := (List.take_append_drop (reply.length - 2) reply).symm
  have hd : reply.drop (reply.length - 2) =
      [reply.getD (reply.length - 2) 0, reply.getD (reply.length - 1) 0] := by
    rw [List.drop_eq_getElem_cons (by omega), List.drop_eq_getElem_cons (by omega),
      List.drop_eq_nil_of_le (by omega), List.getD_eq_getElem _ _ (by omega),
      List.getD_eq_getElem _ _ (by omega)]
    have : reply.length - 2 + 1 = reply.length - 1 := by omega
    simp only [this]
  constructor
  · intro ⟨a, b⟩
    rw [a, b] at hd
    rw [← hd]
    exact hsplit
  · intro e
    have e2 : reply.take (reply.length - 2) ++ reply.drop (reply.length - 2) =
        reply.take (reply.length - 2) ++ [0x90, 0x00] := by
      rw [List.take_append_drop]
      exact e
    have e3 := List.append_cancel_left e2
    rw [hd] at e3
    simp only [List.cons.injEq, and_true] at e3
    exact e3

/-- C24: `transmit` of a command at position 0 of at most 255 bytes, with a response buffer
that is empty and open up to its capacity. It returns; on a connected reader the one control
call it makes carries the escape command FF 00 00 00 Lc followed by the command bytes, with Lc
the command length. The result is 0 or -1, and it is 0 exactly when the control call succeeds
(the reader is connected and a reply comes that fits the response buffer) and the reply has at
least 2 bytes and ends with 90 00; the response buffer then holds the reply without these two
bytes, ready to be read. -/
theorem acr122u_transmit (s : Impl) (cmd res : ByteBuffer) (timeout : Int)
    (hpos : cmd.position = 0) (hlen : cmd.limit ≤ 255) (hcap : cmd.limit ≤ cmd.capacity)
    (hrpos : res.position = 0) (hrlim : res.limit = res.capacity) :
    ∃ r res1 s1, transmit s cmd res timeout = .ok (r, res1, s1) ∧
      (s.pcsc.connected = true → s1.pcsc.calls = s.pcsc.calls ++
        [(PCSC.IOCTL_CCID_ESCAPE, [0xFF, 0x00, 0x00, 0x00, cmd.limit] ++ cmd.content)]) ∧
      (s.pcsc.connected = false → s1.pcsc.calls = s.pcsc.calls) ∧
      (r = 0 ∨ r = -1) ∧
      (r = 0 ↔ s.pcsc.connected = true ∧ ∃ body,
        s.pcsc.controlResults.head? = some (some (body ++ [0x90, 0x00])) ∧
          (body ++ [0x90, 0x00]).length ≤ res.capacity) ∧
      (∀ body, r = 0 → s.pcsc.controlResults.head? = some (some (body ++ [0x90, 0x00])) →
        res1.position = 0 ∧ res1.readable = body) := by
  obtain ⟨e1, e2, e3, e4, hc⟩ := directCmd_spec cmd hpos hlen hcap
  have hsent : (ByteBuffer.ofList ([0xFF, 0x00, 0x00, 0x00, cmd.limit] ++ cmd.content)).store.take
      (ByteBuffer.ofList ([0xFF, 0x00, 0x00, 0x00, cmd.limit] ++ cmd.content)).remaining =
      [0xFF, 0x00, 0x00, 0x00, cmd.limit] ++ cmd.content := by
    simp [ByteBuffer.ofList, remaining]
  have hctl := PCSC.control_spec s.pcsc PCSC.IOCTL_CCID_ESCAPE
    (ByteBuffer.ofList ([0xFF, 0x00, 0x00, 0x00, cmd.limit] ++ cmd.content)) res hrpos hrlim
  rw [hsent] at hctl
  unfold transmit Impl.directTx
  simp only [e1, e2, e3, e4, bind, Except.bind]
  by_cases hconn : s.pcsc.connected = false
  · rw [if_pos hconn] at hctl
    rw [hctl]
    refine ⟨-1, res, ⟨s.pcsc⟩, rfl, fun h => ?_, fun _ => rfl, Or.inr rfl, ?_, ?_⟩
    · rw [hconn] at h
      exact Bool.noConfusion h
    · refine ⟨fun h => absurd h (by decide), fun h => ?_⟩
      rw [hconn] at h
      exact Bool.noConfusion h.1
    · intro body h
      exact absurd h (by decide)
  · have hct : s.pcsc.connected = true := by simpa using hconn
    rw [if_neg hconn] at hctl
    rcases hh : s.pcsc.controlResults.head? with _ | _ | reply
    · rw [hh] at hctl
      rw [hctl]
      refine ⟨-1, res, _, rfl, fun _ => rfl, fun h => absurd h hconn, Or.inr rfl, ?_, ?_⟩
      · exact ⟨fun h => absurd h (by decide), fun ⟨_, _, h, _⟩ => Option.noConfusion h⟩
      · intro body h
        exact absurd h (by decide)
    · rw [hh] at hctl
      rw [hctl]
      refine ⟨-1, res, _, rfl, fun _ => rfl, fun h => absurd h hconn, Or.inr rfl, ?_, ?_⟩
      · refine ⟨fun h => absurd h (by decide), fun ⟨_, _, h, _⟩ => ?_⟩
        cases h
      · intro body h
        exact absurd h (by decide)
    · rw [hh] at hctl
      simp only at hctl
      by_cases hfit : res.capacity < reply.length
      · rw [if_pos hfit] at hctl
        rw [hctl]
        refine ⟨-1, res, _, rfl, fun _ => rfl, fun h => absurd h hconn, Or.inr rfl, ?_, ?_⟩
        · refine ⟨fun h => absurd h (by decide), fun ⟨_, body, h, hl⟩ => ?_⟩
          simp only [Option.some.injEq] at h
          subst h
          omega
        · intro body h
          exact absurd h (by decide)
      · rw [if_neg hfit] at hctl
        rw [hctl]
        simp only [ne_eq, not_true_eq_false, if_false]
        have hfit2 : reply.length ≤ res.capacity := Nat.le_of_not_lt hfit
        have hget : ∀ i, i < reply.length →
            (⟨reply ++ res.store.drop reply.length, 0, reply.length⟩ : ByteBuffer).getAt i =
              .ok (reply.getD i 0) := by
          intro i hi
          unfold getAt
          simp only [hi, if_true]
          rw [List.getD_eq_getElem _ _ (by simp; omega), List.getD_eq_getElem _ _ hi,
            List.getElem_append_left hi]
        by_cases h2 : reply.length < 2
        · simp only [h2, if_true, pure, Except.pure]
          refine ⟨-1, _, _, rfl, fun _ => rfl, fun h => absurd h hconn, Or.inr rfl, ?_, ?_⟩
          · refine ⟨fun h => absurd h (by decide), fun ⟨_, body, h, _⟩ => ?_⟩
            simp only [Option.some.injEq] at h
            subst h
            simp at h2
          · intro body h
            exact absurd h (by decide)
        · have h2' : 2 ≤ reply.length := Nat.le_of_not_lt h2
          have hends := ends_with_status reply h2'
          simp only [h2, if_false, hget _ (show reply.length - 2 < reply.length by omega),
            hget _ (show reply.length - 1 < reply.length by omega)]
          by_cases hs1 : reply.getD (reply.length - 2) 0 = 0x90
          · by_cases hs2 : reply.getD (reply.length - 1) 0 = 0x00
            · have hreply := hends.mp ⟨hs1, hs2⟩
              have hpush : (⟨reply ++ res.store.drop reply.length, 0, reply.length⟩ :
                  ByteBuffer).push (reply.length - 2) false =
                  .ok ⟨reply ++ res.store.drop reply.length, reply.length - 2, reply.length⟩ := by
                unfold push
                simp
              simp only [hs1, hs2, ne_eq, not_true_eq_false, if_false, hpush, pure, Except.pure]
              refine ⟨0, _, _, rfl, fun _ => rfl, fun h => absurd h hconn, Or.inl rfl, ?_, ?_⟩
              · refine ⟨fun _ => ⟨hct, reply.take (reply.length - 2), ?_, ?_⟩, fun _ => rfl⟩
                · rw [← hreply]
                · rw [← hreply]
                  exact hfit2
              · intro body _ hb
                simp only [Option.some.injEq] at hb
                subst hb
                refine ⟨rfl, ?_⟩
                simp [readable, ByteBuffer.flip]
            · simp only [hs1, hs2, ne_eq, not_true_eq_false, not_false_eq_true, if_false,
                if_true, pure, Except.pure]
              refine ⟨-1, _, _, rfl, fun _ => rfl, fun h => absurd h hconn, Or.inr rfl, ?_, ?_⟩
              · refine ⟨fun h => absurd h (by decide), fun ⟨_, body, h, _⟩ => ?_⟩
                simp only [Option.some.injEq] at h
                subst h
                exact absurd (hends.mpr (by simp)).2 hs2
              · intro body h
                exact absurd h (by decide)
          · simp only [hs1, ne_eq, not_false_eq_true, if_true, pure, Except.pure]
            refine ⟨-1, _, _, rfl, fun _ => rfl, fun h => absurd h hconn, Or.inr rfl, ?_, ?_⟩
            · refine ⟨fun h => absurd h (by decide), fun ⟨_, body, h, _⟩ => ?_⟩
              simp only [Option.some.injEq] at h
              subst h
              exact absurd (ends_with_status _ (by simp) |>.mpr (by simp)).1 hs1
            · intro body h
              exact absurd h (by decide)

theorem acr122u_transmit_witness :
    (ByteBuffer.ofList [0xD4, 0x02]).position = 0 ∧ (ByteBuffer.ofList [0xD4, 0x02]).limit ≤ 255 ∧
      (ByteBuffer.ofList [0xD4, 0x02]).limit ≤ (ByteBuffer.ofList [0xD4, 0x02]).capacity ∧
      (ByteBuffer.alloc 16).position = 0 ∧
      (ByteBuffer.alloc 16).limit = (ByteBuffer.alloc 16).capacity ∧
      (transmit (sampleReader [0xD5, 0x03, 0x90, 0x00]) (ByteBuffer.ofList [0xD4, 0x02])
          (ByteBuffer.alloc 16) 0).map (fun r => (r.1, r.2.1.readable, r.2.2.pcsc.calls)) =
        .ok (0, [0xD5, 0x03], [(1, [0xFF, 0x00, 0x00, 0x00, 2, 0xD4, 0x02])]) ∧
      ∃ r res1 s1, transmit (sampleReader [0xD5, 0x03, 0x90, 0x00])
          (ByteBuffer.ofList [0xD4, 0x02]) (ByteBuffer.alloc 16) 0 = .ok (r, res1, s1) ∧
        ((sampleReader [0xD5, 0x03, 0x90, 0x00]).pcsc.connected = true →
          s1.pcsc.calls = (sampleReader [0xD5, 0x03, 0x90, 0x00]).pcsc.calls ++
            [(PCSC.IOCTL_CCID_ESCAPE, [0xFF, 0x00, 0x00, 0x00,
              (ByteBuffer.ofList [0xD4, 0x02]).limit] ++
                (ByteBuffer.ofList [0xD4, 0x02]).content)]) ∧
        ((sampleReader [0xD5, 0x03, 0x90, 0x00]).pcsc.connected = false →
          s1.pcsc.calls = (sampleReader [0xD5, 0x03, 0x90, 0x00]).pcsc.calls) ∧
        (r = 0 ∨ r = -1) ∧
        (r = 0 ↔ (sampleReader [0xD5, 0x03, 0x90, 0x00]).pcsc.connected = true ∧ ∃ body,
          (sampleReader [0xD5, 0x03, 0x90, 0x00]).pcsc.controlResults.head? =
              some (some (body ++ [0x90, 0x00])) ∧
            (body ++ [0x90, 0x00]).length ≤ (ByteBuffer.alloc 16).capacity) ∧
        (∀ body, r = 0 →
          (sampleReader [0xD5, 0x03, 0x90, 0x00]).pcsc.controlResults.head? =
            some (some (body ++ [0x90, 0x00])) →
          res1.position = 0 ∧ res1.readable = body) :=
  ⟨rfl, by decide, by decide, rfl, rfl, rfl,
    acr122u_transmit (sampleReader [0xD5, 0x03, 0x90, 0x00]) (ByteBuffer.ofList [0xD4, 0x02])
      (ByteBuffer.alloc 16) 0 rfl (by decide) (by decide) rfl rfl⟩

end ACR122U

end hw

namespace hw.HSU

open rt rt.ByteBuffer

namespace Impl

/-- A `read` that the port answers with one `ReadFile` that fills the buffer. -/
theorem read_whole (s : Impl) (buf : ByteBuffer) (timeout : Int) (bytes : List Nat)
    (rest : List (Bool × List Nat)) (ht : s.port.timeoutResults = [])
    (hr : s.port.readResults = (true, bytes) :: rest) (hlen : bytes.length = buf.remaining)
    (hpos : 0 < bytes.length) :
    ∃ s1, read s buf timeout = .ok ((bytes.length : Int),
        ⟨buf.store.take buf.position ++ bytes ++ buf.store.drop (buf.position + bytes.length), 0,
          buf.position + bytes.length⟩, s1) ∧
      s1.port.timeoutResults = [] ∧ s1.port.readResults = rest := by
  have hrem : buf.position + bytes.length = buf.limit := by
    unfold remaining at hlen
    omega
  unfold read Serial.setCommTimeouts
  simp only [ht, Bool.not_true, Bool.false_eq_true, if_false]
  unfold readLoop Serial.readFile
  simp only [hr, if_true, ← hlen, List.take_length, Bool.not_true, Bool.false_eq_true, if_false,
    Nat.zero_add]
  rw [if_neg (by omega)]
  unfold putBytes
  rw [if_pos (by omega)]
  simp only [remaining, hrem, Nat.sub_self, Nat.lt_irrefl, and_false, if_false]
  exact ⟨_, rfl, rfl, rfl⟩

/-- A `read` into a fresh buffer that the port fills with one `ReadFile`. -/
theorem read_alloc_whole (s : Impl) (n : Nat) (timeout : Int) (bytes : List Nat)
    (rest : List (Bool × List Nat)) (ht : s.port.timeoutResults = [])
    (hr : s.port.readResults = (true, bytes) :: rest) (hlen : bytes.length = n)
    (hpos : 0 < n) :
    ∃ s1, read s (ByteBuffer.alloc n) timeout = .ok ((n : Int), ByteBuffer.ofList bytes, s1) ∧
      s1.port.timeoutResults = [] ∧ s1.port.readResults = rest := by
  obtain ⟨s1, h1, h2, h3⟩ := read_whole s (ByteBuffer.alloc n) timeout bytes rest ht hr
    (by simp [alloc, remaining, hlen]) (by omega)
  refine ⟨s1, ?_, h2, h3⟩
  rw [h1, hlen]
  simp [alloc, ofList, hlen]

/-- The tail of `recv` on a port that delivers the body with its checksum and then the
postamble: the body is the response. -/
theorem recvBody_spec (s : Impl) (res : ByteBuffer) (length dcs : Nat) (body : List Nat)
    (rest : List (Bool × List Nat)) (ht : s.port.timeoutResults = [])
    (hr : s.port.readResults = (true, body ++ [dcs]) :: (true, [0x00]) :: rest)
    (hlen : body.length = length) (hdcs : (body.sum + dcs) % 256 = 0)
    (hpos : res.position = 0) (hroom : body.length ≤ res.limit) :
    ∃ res1 s1, recvBody s res length = .ok (0, res1, s1) ∧ res1.position = 0 ∧
      res1.readable = body ∧ s1.port.readResults = rest := by
  obtain ⟨s1, h1, t1, r1⟩ := read_alloc_whole s (length + 1) 100 (body ++ [dcs]) _ ht hr
    (by simp [hlen]) (by omega)
  obtain ⟨s2, h2, _, r2⟩ := read_alloc_whole s1 1 100 [0x00] rest t1 r1 rfl (by omega)
  have hsum : (ByteBuffer.ofList (body ++ [dcs])).reduceSum = 0 := by
    rw [reduceSum_ofList]
    simp only [List.sum_append, List.sum_cons, List.sum_nil, Nat.add_zero]
    exact hdcs
  have htake : (ByteBuffer.ofList (body ++ [dcs])).readable.take
      ((ByteBuffer.ofList (body ++ [dcs])).remaining - 1) = body := by
    rw [readable_ofList, remaining_ofList]
    simp
  have hput : res.putBytes body = .ok ⟨res.store.take res.position ++ body ++
      res.store.drop (res.position + body.length), res.position + body.length, res.limit⟩ := by
    unfold putBytes
    rw [if_pos (by omega)]
  unfold recvBody
  simp only [bind, Except.bind, h1, pure, Except.pure, hsum, htake, hput, h2]
  have hget : (ByteBuffer.ofList [0x00]).getAt 0 = .ok 0 := rfl
  have hc1 : ¬ (((length + 1 : Nat) : Int) ≤ 0) := by omega
  have hc2 : ¬ (((1 : Nat) : Int) ≤ 0) := by omega
  rw [if_neg hc1, if_neg (by simp), if_neg hc2]
  simp only [hget, ne_eq, not_true_eq_false, if_false]
  refine ⟨_, s2, rfl, rfl, ?_, r2⟩
  simp [readable, ByteBuffer.flip, hpos]

set_option maxRecDepth 100000 in
/-- C23, as the claim has it, fails: an extended frame with LENM = 02, LENL = FF, LCS = FF, whose
length bytes add up to 0 modulo 256, and with a valid checksum and postamble, is not accepted:
`recv` returns -1 after the length bytes and purges the port, because it asks for the sum 256.
The same holds for the length bytes 00 00 00. -/
theorem hsu_recv_extended_sum_512 :
    (2 + 0xff + 0xff) % 256 = 0 ∧
    (Impl.recv (sampleLink [[0x00, 0x00, 0xff, 0xff, 0xff], [0x02, 0xff, 0xff],
        List.replicate 768 0, [0x00]]) (ByteBuffer.alloc 1024) 50).map
      (fun r => (r.1, r.2.1, r.2.2.port.calls.getLast?)) =
        .ok (-1, ByteBuffer.alloc 1024, some SysCall.PurgeComm) ∧
    (Impl.recv (sampleLink [[0x00, 0x00, 0xff, 0xff, 0xff], [0x00, 0x00, 0x00],
        [0x00], [0x00]]) (ByteBuffer.alloc 16) 50).map
      (fun r => (r.1, r.2.1, r.2.2.port.calls.getLast?)) =
        .ok (-1, ByteBuffer.alloc 16, some SysCall.PurgeComm) :=
  ⟨rfl, rfl, rfl⟩

/-- C23, amended: `recv` on a port that delivers an extended frame read by read: the header
00 00 FF FF FF, the length bytes LENM, LENL, LCS with LENM + LENL + LCS = 256, the body of
LENM * 256 + LENL bytes with its checksum DCS such that body and DCS add up to 0 modulo 256,
and the postamble 00. With a response buffer at position 0 that has room for the body, `recv`
returns 0 and the response buffer holds the body, ready to be read. -/
theorem hsu_recv_extended (s : Impl) (res : ByteBuffer) (timeout : Int)
    (lenm lenl lcs dcs : Nat) (body : List Nat) (rest : List (Bool × List Nat))
    (ht : s.port.timeoutResults = [])
    (hr : s.port.readResults = (true, [0x00, 0x00, 0xff, 0xff, 0xff]) ::
      (true, [lenm, lenl, lcs]) :: (true, body ++ [dcs]) :: (true, [0x00]) :: rest)
    (hsum : lenm + lenl + lcs = 256) (hlen : body.length = lenm * 256 + lenl)
    (hdcs : (body.sum + dcs) % 256 = 0)
    (hpos : res.position = 0) (hroom : body.length ≤ res.limit) :
    ∃ res1 s1, Impl.recv s res timeout = .ok (0, res1, s1) ∧ res1.position = 0 ∧
      res1.readable = body ∧ s1.port.readResults = rest := by
  obtain ⟨s1, h1, t1, r1⟩ := Impl.read_alloc_whole s 5 timeout [0x00, 0x00, 0xff, 0xff, 0xff] _
    ht hr rfl (by omega)
  obtain ⟨s2, h2, t2, r2⟩ := Impl.read_whole s1 ⟨[0x00, 0x00, 0xff, 0xff, 0xff], 0, 3⟩ 100
    [lenm, lenl, lcs] _ t1 r1 rfl (by simp)
  obtain ⟨res1, s3, h3, p3, q3, r3⟩ := Impl.recvBody_spec s2 res (lenm * 256 + lenl) dcs body rest
    t2 r2 hlen hdcs hpos hroom
  refine ⟨res1, s3, ?_, p3, q3, r3⟩
  have hroomed : (ByteBuffer.ofList [0x00, 0x00, 0xff, 0xff, 0xff]).flip.room 3 =
      .ok ⟨[0x00, 0x00, 0xff, 0xff, 0xff], 0, 3⟩ := rfl
  have g0 : (ByteBuffer.ofList [0x00, 0x00, 0xff, 0xff, 0xff]).getAt 0 = .ok 0x00 := rfl
  have g1 : (ByteBuffer.ofList [0x00, 0x00, 0xff, 0xff, 0xff]).getAt 1 = .ok 0x00 := rfl
  have g2 : (ByteBuffer.ofList [0x00, 0x00, 0xff, 0xff, 0xff]).getAt 2 = .ok 0xff := rfl
  have g3 : (ByteBuffer.ofList [0x00, 0x00, 0xff, 0xff, 0xff]).getAt 3 = .ok 0xff := rfl
  have g4 : (ByteBuffer.ofList [0x00, 0x00, 0xff, 0xff, 0xff]).getAt 4 = .ok 0xff := rfl
  have hc1 : ¬ (((5 : Nat) : Int) ≤ 0) := by omega
  have hc2 : ¬ ((([lenm, lenl, lcs].length : Nat) : Int) ≤ 0) := by
    simp only [List.length_cons, List.length_nil]
    omega
  unfold Impl.recv
  simp only [bind, Except.bind, h1, pure, Except.pure, g0, g1, g2, g3, g4, hroomed, h2]
  rw [if_neg hc1, if_neg (by simp), if_neg (by simp), if_neg (by simp), if_pos (by simp),
    if_neg hc2]
  have e0 : (⟨List.take 0 [0x00, 0x00, 0xff, 0xff, 0xff] ++ [lenm, lenl, lcs] ++
      List.drop (0 + [lenm, lenl, lcs].length) [0x00, 0x00, 0xff, 0xff, 0xff], 0,
      0 + [lenm, lenl, lcs].length⟩ : ByteBuffer).getAt 0 = .ok lenm := rfl
  have e1 : (⟨List.take 0 [0x00, 0x00, 0xff, 0xff, 0xff] ++ [lenm, lenl, lcs] ++
      List.drop (0 + [lenm, lenl, lcs].length) [0x00, 0x00, 0xff, 0xff, 0xff], 0,
      0 + [lenm, lenl, lcs].length⟩ : ByteBuffer).getAt 1 = .ok lenl := rfl
  have e2 : (⟨List.take 0 [0x00, 0x00, 0xff, 0xff, 0xff] ++ [lenm, lenl, lcs] ++
      List.drop (0 + [lenm, lenl, lcs].length) [0x00, 0x00, 0xff, 0xff, 0xff], 0,
      0 + [lenm, lenl, lcs].length⟩ : ByteBuffer).getAt 2 = .ok lcs := rfl
  simp only [e0, e1, e2]
  rw [if_neg (by omega)]
  exact h3

set_option maxRecDepth 100000 in
theorem hsu_recv_extended_witness :
    (sampleLink [[0x00, 0x00, 0xff, 0xff, 0xff], [1, 1, 254],
        List.replicate 257 7 ++ [249], [0x00]]).port.timeoutResults = [] ∧
      (sampleLink [[0x00, 0x00, 0xff, 0xff, 0xff], [1, 1, 254],
        List.replicate 257 7 ++ [249], [0x00]]).port.readResults =
          (true, [0x00, 0x00, 0xff, 0xff, 0xff]) :: (true, [1, 1, 254]) ::
            (true, List.replicate 257 7 ++ [249]) :: (true, [0x00]) :: [] ∧
      1 + 1 + 254 = 256 ∧ (List.replicate 257 7).length = 1 * 256 + 1 ∧
      ((List.replicate 257 7).sum + 249) % 256 = 0 ∧
      (ByteBuffer.alloc 1024).position = 0 ∧
      (List.replicate 257 7).length ≤ (ByteBuffer.alloc 1024).limit ∧
      ∃ res1 s1, Impl.recv (sampleLink [[0x00, 0x00, 0xff, 0xff, 0xff], [1, 1, 254],
          List.replicate 257 7 ++ [249], [0x00]]) (ByteBuffer.alloc 1024) 50 =
            .ok (0, res1, s1) ∧
        res1.position = 0 ∧ res1.readable = List.replicate 257 7 ∧
        s1.port.readResults = [] :=
  ⟨rfl, rfl, rfl, rfl, by simp, rfl, by simp [ByteBuffer.alloc],
    hsu_recv_extended _ (ByteBuffer.alloc 1024) 50 1 1 254 249 (List.replicate 257 7) [] rfl rfl
      rfl rfl (by simp) rfl (by simp [ByteBuffer.alloc])⟩

end Impl

end hw.HSU
